import Mathlib

/-!
# ArgentTower: grid, placement, path search, attacks and the game tick

A shallow embedding of `pkg/game` (types.go, tower.go, enemy.go,
enemy_factory.go, map.go, projectile.go, death_animation.go, tower_button.go,
game.go) and the properties proved about it.

Conventions of the embedding

* Go `int` is `Int`; coordinates never leave the range of a machine word
  before a bounds test, so no wrap-around is involved.
* Go `float64` is modelled by exact rationals `ℚ` (rounding is abstracted);
  `int(f)` is truncation toward zero.
* A Go pointer is modelled by the pointee together with an address `addr`;
  `nil` is `none`.  Comparing pointers compares addresses.
* A run-time panic (index out of range, nil dereference) is a `Fault`; loops
  whose termination is not structural carry a fuel argument and report
  `Fault.fuelExhausted` when it runs out.
* Fields that only feed drawing or sound (sprites, colours, flash and
  animation timers) are left out.
* What a call reads from outside the program state (the mouse, the clock, the
  random draws, `math.Sqrt`, `math.Atan2`, the addresses of new objects) is an
  argument of the call (`Env`, `Tick`).
* The package variable `currentGame` is taken to be set (as after `NewGame`)
  wherever the code dereferences it unguarded; where the code tests it for
  `nil`, the test is modelled.
-/

namespace ArgentTower

/-! ## Run-time faults and checked indexing -/

/-- The ways in which a Go call can fail to return. -/
inductive Fault where
  | indexOutOfRange
  | nilDereference
  | makeSliceLen
  | fuelExhausted
  | invalidArgument
  deriving DecidableEq, Repr

deriving instance DecidableEq for Except

/-- Slice read `l[i]` with Go's bounds check. -/
def idx {α : Type} (l : List α) (i : Int) : Except Fault α :=
  if i < 0 then .error .indexOutOfRange
  else
    match l.get? i.toNat with
    | some a => .ok a
    | none => .error .indexOutOfRange

/-- Slice write `l[i] = v` with Go's bounds check. -/
def setIdx {α : Type} (l : List α) (i : Int) (v : α) : Except Fault (List α) :=
  if i < 0 then .error .indexOutOfRange
  else if i.toNat < l.length then .ok (l.set i.toNat v)
  else .error .indexOutOfRange

/-- Read of `t[y][x]` in a slice of rows. -/
def getCell {α : Type} (t : List (List α)) (x y : Int) : Except Fault α :=
  match idx t y with
  | .error e => .error e
  | .ok row => idx row x

/-- Write `t[y][x] = v` in a slice of rows. -/
def setCell {α : Type} (t : List (List α)) (x y : Int) (v : α) :
    Except Fault (List (List α)) :=
  match idx t y with
  | .error e => .error e
  | .ok row =>
    match setIdx row x v with
    | .error e => .error e
    | .ok row1 => setIdx t y row1

/-- The nested `make` of a `rows` by `cols` matrix filled with the zero value. -/
def makeGrid {α : Type} (rows cols : Int) (zero : α) : Except Fault (List (List α)) :=
  if rows < 0 then .error .makeSliceLen
  else if 0 < rows ∧ cols < 0 then .error .makeSliceLen
  else .ok (List.replicate rows.toNat (List.replicate cols.toNat zero))

/-! ## types.go -/

/-- A position on the grid. -/
structure Point where
  X : Int
  Y : Int
  deriving DecidableEq, Repr

/-- The terrain of a cell. -/
inductive TerrainType where
  | Empty
  | TowerPlacement
  deriving DecidableEq, Repr

/-! ## tower.go -/

/-- The kinds of tower. -/
inductive TowerType where
  | DartTower
  | BulletTower
  | LightningTower
  | FlameTower
  | FreezeTower
  | ForkTower
  deriving DecidableEq, Repr

/-- A defensive tower; `addr` stands for the identity of the Go object. -/
structure Tower where
  addr : Nat
  position : Point
  towerType : TowerType
  damage : ℚ
  attackRange : ℚ
  fireRate : ℚ
  cost : Int
  lastShot : ℚ
  level : Int
  canFireDiagonal : Bool
  health : ℚ
  maxHealth : ℚ
  damageState : Int
  underAttack : Int
  deriving DecidableEq

/-! ## enemy.go: data -/

/-- The kinds of enemy. -/
inductive EnemyType where
  | SpiderEnemy
  | SnakeEnemy
  | HawkEnemy
  | GhoulEnemy
  | BlobEnemy
  deriving DecidableEq, Repr

/-- An enemy unit; `targetTower` holds the address of the targeted tower. -/
structure Enemy where
  addr : Nat
  x : ℚ
  y : ℚ
  targetX : ℚ
  targetY : ℚ
  speed : ℚ
  health : ℚ
  maxHealth : ℚ
  level : Int
  size : ℚ
  enemyType : EnemyType
  path : List Point
  pathIndex : Int
  pathInvalid : Bool
  canFly : Bool
  frozenTimer : ℚ
  canAttack : Bool
  attackDamage : ℚ
  attackRange : ℚ
  attackRate : Int
  lastAttack : Int
  attackChance : ℚ
  targetTower : Option Nat
  attackDuration : Int
  currentAttackTime : Int
  deriving DecidableEq

/-! ## map.go -/

/-- The game map: grid dimensions, terrain matrix, tower registry and the
entrance and exit bands. -/
structure GameMap where
  width : Int
  height : Int
  cellSize : Int
  terrain : List (List TerrainType)
  towers : List (Option Tower)
  enemies : List (Option Enemy)
  entrance : Point
  entranceStart : Int
  entranceEnd : Int
  exit : Point
  exitStart : Int
  exitEnd : Int
  uiHeight : Int
  deriving DecidableEq

/-- The map built by `NewGameMap`: 18 by 12 cells, all empty, with a band of one
row in the middle of the first and of the last column. -/
def NewGameMap : GameMap :=
  let width : Int := 18
  let height : Int := 12
  { width := width
    height := height
    cellSize := 56
    terrain := List.replicate height.toNat (List.replicate width.toNat TerrainType.Empty)
    towers := []
    enemies := []
    entrance := ⟨0, height / 2⟩
    entranceStart := height / 2
    entranceEnd := height / 2
    exit := ⟨width - 1, height / 2⟩
    exitStart := height / 2
    exitEnd := height / 2
    uiHeight := 60 }

/-- A cell is blocked when it is outside the grid or holds a tower. -/
def GameMap.IsBlocked (m : GameMap) (x y : Int) : Except Fault Bool :=
  if x < 0 ∨ x ≥ m.width ∨ y < 0 ∨ y ≥ m.height then .ok true
  else
    match getCell m.terrain x y with
    | .error e => .error e
    | .ok t => if t = TerrainType.TowerPlacement then .ok true else .ok false

/-- Whether a tower may be put on the cell, before the path test. -/
def GameMap.CanPlaceTower (m : GameMap) (x y : Int) : Except Fault Bool :=
  if x = 0 ∧ (y ≥ m.entranceStart ∧ y ≤ m.entranceEnd) then .ok false
  else if x = m.width - 1 ∧ (y ≥ m.exitStart ∧ y ≤ m.exitEnd) then .ok false
  else if x < 0 ∨ x ≥ m.width ∨ y < 0 ∨ y ≥ m.height then .ok false
  else
    match getCell m.terrain x y with
    | .error e => .error e
    | .ok t => .ok (decide (t = TerrainType.Empty))

/-- The loop that seeds the search: every entrance row `y`, from `y` on and for
`n` rounds, is appended to the queue and marked visited at column 0. -/
def seedEntrance : Nat → Int → List (Int × Int) → List (List Bool) →
    Except Fault (List (Int × Int) × List (List Bool))
  | 0, _, queue, visited => .ok (queue, visited)
  | n + 1, y, queue, visited =>
    match setCell visited 0 y true with
    | .error e => .error e
    | .ok visited1 => seedEntrance n (y + 1) (queue ++ [((0 : Int), y)]) visited1

/-- The inner loop of `checkPathExists` over the remaining directions. -/
def checkExpand (m : GameMap) (terrain : List (List TerrainType)) (cur : Int × Int) :
    List (Int × Int) → List (Int × Int) → List (List Bool) →
    Except Fault (List (Int × Int) × List (List Bool))
  | [], queue, visited => .ok (queue, visited)
  | dir :: rest, queue, visited =>
    let newX := cur.1 + dir.1
    let newY := cur.2 + dir.2
    if newX ≥ 0 ∧ newX < m.width ∧ newY ≥ 0 ∧ newY < m.height then
      match getCell visited newX newY with
      | .error e => .error e
      | .ok seen =>
        if seen then checkExpand m terrain cur rest queue visited
        else
          match getCell terrain newX newY with
          | .error e => .error e
          | .ok t =>
            if t ≠ TerrainType.TowerPlacement then
              match setCell visited newX newY true with
              | .error e => .error e
              | .ok visited1 =>
                checkExpand m terrain cur rest (queue ++ [(newX, newY)]) visited1
            else checkExpand m terrain cur rest queue visited
    else checkExpand m terrain cur rest queue visited

/-- The directions tried by `checkPathExists`, in source order. -/
def checkDirections : List (Int × Int) := [(1, 0), (-1, 0), (0, 1), (0, -1)]

/-- The search loop of `checkPathExists`. -/
def checkLoop (m : GameMap) (terrain : List (List TerrainType)) :
    Nat → List (Int × Int) → List (List Bool) → Except Fault Bool
  | 0, _, _ => .error .fuelExhausted
  | _ + 1, [], _ => .ok false
  | fuel + 1, current :: queue, visited =>
    if current.1 = m.width - 1 ∧ current.2 ≥ m.exitStart ∧ current.2 ≤ m.exitEnd then .ok true
    else
      match checkExpand m terrain current checkDirections queue visited with
      | .error e => .error e
      | .ok (queue1, visited1) => checkLoop m terrain fuel queue1 visited1

/-- Iterations granted to a search over the grid: one per cell, and one more to
see the queue empty. -/
def GameMap.searchFuel (m : GameMap) : Nat := m.width.toNat * m.height.toNat + 1

/-- Breadth-first test whether an exit cell stays reachable from the entrance
when `(testX, testY)` holds a tower.  The terrain is marked, searched and
restored; the map after the call is returned with the answer. -/
def GameMap.checkPathExists (m : GameMap) (testX testY : Int) :
    Except Fault (GameMap × Bool) :=
  match getCell m.terrain testX testY with
  | .error e => .error e
  | .ok originalTerrain =>
    match setCell m.terrain testX testY TerrainType.TowerPlacement with
    | .error e => .error e
    | .ok marked =>
      match makeGrid m.height m.width false with
      | .error e => .error e
      | .ok visited0 =>
        match seedEntrance (m.entranceEnd - m.entranceStart + 1).toNat m.entranceStart
            [] visited0 with
        | .error e => .error e
        | .ok (queue, visited) =>
          match checkLoop m marked m.searchFuel queue visited with
          | .error e => .error e
          | .ok pathExists =>
            match setCell marked testX testY originalTerrain with
            | .error e => .error e
            | .ok restored => .ok ({ m with terrain := restored }, pathExists)

/-- The constructor of towers.  `gameMap` is the result of `GetGameMap()`,
`forkTowerCount` the package counter, `addr` the address of the new object.
Returns the tower, or `none` for Go's `nil`, and the counter afterwards. -/
def NewTower (gameMap : Option GameMap) (forkTowerCount : Int) (addr : Nat)
    (towerType : TowerType) (x y : Int) : Option Tower × Int :=
  if towerType = TowerType.ForkTower ∧ forkTowerCount ≥ 10 then (none, forkTowerCount)
  else
    match gameMap with
    | none => (none, forkTowerCount)
    | some gm =>
      let cellSize : ℚ := gm.cellSize
      let tower : Tower :=
        { addr := addr, position := ⟨x, y⟩, towerType := towerType, damage := 0,
          attackRange := 0, fireRate := 0, cost := 0, lastShot := 0, level := 1,
          canFireDiagonal := false, health := 100, maxHealth := 100,
          damageState := 0, underAttack := 0 }
      let tower1 : Tower :=
        match towerType with
        | .DartTower =>
          { tower with level := 1, damage := 1, attackRange := 2 * cellSize,
                       fireRate := 1, canFireDiagonal := true }
        | .BulletTower =>
          { tower with level := 2, damage := 11 / 10, attackRange := 3 * cellSize,
                       fireRate := 12 / 10, canFireDiagonal := true }
        | .LightningTower =>
          { tower with level := 3, damage := 12 / 10, attackRange := 3 * cellSize,
                       fireRate := 8 / 10, canFireDiagonal := true }
        | .FlameTower =>
          { tower with level := 4, damage := 13 / 10, attackRange := 2 * cellSize,
                       fireRate := 3, canFireDiagonal := false }
        | .FreezeTower =>
          { tower with level := 5, damage := 0, attackRange := 2 * cellSize,
                       fireRate := 1, canFireDiagonal := true, cost := 100 }
        | .ForkTower =>
          { tower with level := 6, damage := 2, attackRange := 4 * cellSize,
                       fireRate := 15 / 10, canFireDiagonal := true, cost := 150 }
      (some tower1, if towerType = TowerType.ForkTower then forkTowerCount + 1 else forkTowerCount)

/-- What a call of `PlaceTower` leaves behind: the map, the package counter
`forkTowerCount`, and the returned flag. -/
structure PlaceOutcome where
  gameMap : GameMap
  forkTowerCount : Int
  placed : Bool
  deriving DecidableEq

/-- The method `GameMap.PlaceTower`.  `selectedTower` is
`currentGame.selectedTower`; the receiver is `currentGame.gameMap`, as at the
only call site, so `GetGameMap()` inside `NewTower` is the receiver. -/
def GameMap.PlaceTower (m : GameMap) (selectedTower : TowerType) (forkTowerCount : Int)
    (addr : Nat) (x y : Int) : Except Fault PlaceOutcome :=
  match m.CanPlaceTower x y with
  | .error e => .error e
  | .ok false => .ok ⟨m, forkTowerCount, false⟩
  | .ok true =>
    match m.checkPathExists x y with
    | .error e => .error e
    | .ok (m1, false) => .ok ⟨m1, forkTowerCount, false⟩
    | .ok (m1, true) =>
      match setCell m1.terrain x y TerrainType.TowerPlacement with
      | .error e => .error e
      | .ok terrain1 =>
        let m2 : GameMap := { m1 with terrain := terrain1 }
        let made := NewTower (some m2) forkTowerCount addr selectedTower x y
        .ok ⟨{ m2 with towers := m2.towers ++ [made.1] }, made.2, true⟩

/-- The loop of `GetTowerAt`: the first registered tower at the position. -/
def getTowerAtLoop (x y : Int) : List (Option Tower) → Except Fault (Option Tower)
  | [] => .ok none
  | none :: _ => .error .nilDereference
  | some tower :: rest =>
    if tower.position.X = x ∧ tower.position.Y = y then .ok (some tower)
    else getTowerAtLoop x y rest

/-- The method `GameMap.GetTowerAt`. -/
def GameMap.GetTowerAt (m : GameMap) (x y : Int) : Except Fault (Option Tower) :=
  getTowerAtLoop x y m.towers

/-- The loop of `RemoveTower`: the registry without the first tower at the
position. -/
def removeTowerLoop (x y : Int) : List (Option Tower) → Except Fault (List (Option Tower))
  | [] => .ok []
  | none :: _ => .error .nilDereference
  | some tower :: rest =>
    if tower.position.X = x ∧ tower.position.Y = y then .ok rest
    else
      match removeTowerLoop x y rest with
      | .error e => .error e
      | .ok rest1 => .ok (some tower :: rest1)

/-- The method `GameMap.RemoveTower`. -/
def GameMap.RemoveTower (m : GameMap) (x y : Int) : Except Fault GameMap :=
  if x ≥ 0 ∧ x < m.width ∧ y ≥ 0 ∧ y < m.height then
    match setCell m.terrain x y TerrainType.Empty with
    | .error e => .error e
    | .ok terrain1 =>
      match removeTowerLoop x y m.towers with
      | .error e => .error e
      | .ok towers1 => .ok { m with terrain := terrain1, towers := towers1 }
  else .ok m

/-- The method `GameMap.GetExitArea`: first row, last row and column of the exit
band. -/
def GameMap.GetExitArea (m : GameMap) : Int × Int × Int :=
  (m.exitStart, m.exitEnd, m.width - 1)

/-- The method `GameMap.GetEntranceArea`. -/
def GameMap.GetEntranceArea (m : GameMap) : Int × Int × Int :=
  (m.entranceStart, m.entranceEnd, 0)

/-- Go's conversion `int(f)` of a float: truncation toward zero. -/
def goInt (q : ℚ) : Int := if 0 ≤ q then Rat.floor q else -Rat.floor (-q)

/-- The method `GameMap.GetGridPosition`: the cell under a screen point, clamped
to the grid.  `gridOffsetX` is the constant 8 of `NewGameMap`; the integer
division is by `cellSize`, which `NewGameMap` sets to 56. -/
def GameMap.GetGridPosition (m : GameMap) (screenX screenY : ℚ) : Int × Int :=
  let screenY1 := screenY - (m.uiHeight : ℚ)
  let screenX1 := screenX - 8
  let gridX := Int.tdiv (goInt screenX1) m.cellSize
  let gridY := Int.tdiv (goInt screenY1) m.cellSize
  let gridX1 := if gridX < 0 then 0 else gridX
  let gridX2 := if gridX1 ≥ m.width then m.width - 1 else gridX1
  let gridY1 := if gridY < 0 then 0 else gridY
  let gridY2 := if gridY1 ≥ m.height then m.height - 1 else gridY1
  (gridX2, gridY2)

/-- What `Enemy.Update` and `GetTowersInRange` take from outside the state:
the square root of `math.Sqrt`, the draw of `randFloat()`, the raw draw behind
`mathrand.Intn`, and the enemy list of `currentGame` (`none` when the global
is `nil`). -/
structure Env where
  sqrt : ℚ → ℚ
  randFloat : ℚ
  randInt : Nat
  currentGame : Option (List (Option Enemy))

/-- The method `GameMap.GetTowersInRange`: the registered towers whose centre
is at most `range` away from the point, in registry order. -/
def GameMap.GetTowersInRange (m : GameMap) (sqrt : ℚ → ℚ) (x y range : ℚ) : List Tower :=
  m.towers.filterMap fun entry =>
    match entry with
    | none => none
    | some tower =>
      let towerX : ℚ := ((tower.position.X * m.cellSize + Int.tdiv m.cellSize 2 : Int) : ℚ)
      let towerY : ℚ :=
        ((tower.position.Y * m.cellSize + Int.tdiv m.cellSize 2 + m.uiHeight : Int) : ℚ)
      let dx := towerX - x
      let dy := towerY - y
      let dist := sqrt (dx * dx + dy * dy)
      if dist ≤ range then some tower else none

/-- The method `Tower.TakeDamage`: the tower afterwards and whether it is
destroyed. -/
def Tower.TakeDamage (t : Tower) (damage : ℚ) : Tower × Bool :=
  let t1 : Tower := { t with health := max 0 (t.health - damage), underAttack := 30 }
  (t1, decide (t1.health ≤ 0))

/-! ## enemy.go and enemy_factory.go -/

/-- The constructor `NewEnemy`; `addr` is the address of the new object. -/
def NewEnemy (addr : Nat) (startY cellSize uiHeight : Int) (enemyType : EnemyType)
    (level : Int) : Enemy :=
  let startX : ℚ := 0
  let startYPos : ℚ := ((startY * cellSize : Int) : ℚ) + (cellSize : ℚ) / 2 + (uiHeight : ℚ)
  let enemySize : ℚ := (cellSize : ℚ) * (8 / 10)
  let startingHealth : ℚ := ((10 * level : Int) : ℚ)
  let enemy : Enemy :=
    { addr := addr, x := startX, y := startYPos, targetX := startX, targetY := startYPos,
      speed := 0, health := startingHealth, maxHealth := startingHealth, level := level,
      size := enemySize, enemyType := enemyType, path := [], pathIndex := 0,
      pathInvalid := true, canFly := false, frozenTimer := 0, canAttack := false,
      attackDamage := 0, attackRange := 0, attackRate := 0, lastAttack := 0,
      attackChance := 0, targetTower := none, attackDuration := 0, currentAttackTime := 0 }
  match enemyType with
  | .SpiderEnemy => { enemy with speed := 9 / 10, canFly := false, canAttack := false }
  | .SnakeEnemy =>
    { enemy with speed := 11 / 10, canFly := false, canAttack := true, attackDamage := 1 / 2,
                 attackRange := (cellSize : ℚ) * 1, attackRate := 60, attackDuration := 120,
                 attackChance := 3 / 10 }
  | .HawkEnemy => { enemy with speed := 14 / 10, canFly := false, canAttack := false }
  | .GhoulEnemy =>
    { enemy with speed := 8 / 10, canFly := false, canAttack := true, attackDamage := 8 / 10,
                 attackRange := (cellSize : ℚ) * (15 / 10), attackRate := 60,
                 attackDuration := 180, attackChance := 25 / 100 }
  | .BlobEnemy =>
    { enemy with health := startingHealth * 5, maxHealth := startingHealth * 5,
                 speed := 6 / 10, canFly := false, canAttack := true, attackDamage := 2,
                 attackRange := (cellSize : ℚ) * 2, attackRate := 180, attackChance := 1 / 2,
                 size := enemySize * (15 / 10) }

/-- White space as `strings.TrimSpace` sees it (`unicode.IsSpace`). -/
def isSpace (c : Char) : Bool :=
  decide (c.toNat ∈ [9, 10, 11, 12, 13, 32, 133, 160, 5760, 8232, 8233, 8239, 8287, 12288] ∨
    (8192 ≤ c.toNat ∧ c.toNat ≤ 8202))

/-- The function `strings.TrimSpace`, on the characters of the string. -/
def TrimSpace (s : List Char) : List Char :=
  ((s.dropWhile isSpace).reverse.dropWhile isSpace).reverse

/-- The function `strings.Split` with the separator `"\n"`, on the characters
of the string: the pieces between the newlines, at least one. -/
def SplitNewline : List Char → List (List Char)
  | [] => [[]]
  | c :: rest =>
    if c.toNat = 10 then [] :: SplitNewline rest
    else
      match SplitNewline rest with
      | [] => [[c]]
      | line :: lines => (c :: line) :: lines

/-- The library function `ebiten.NewImage`, of which the panic on a width or a
height below 1 is modelled (the upper bound on the size, which depends on the
device, is not); the image is represented by its size. -/
def NewImage (width height : Int) : Except Fault (Int × Int) :=
  if width < 1 ∨ height < 1 then .error .invalidArgument else .ok (width, height)

/-- The function `createSpriteFromArt`: the size of the image it creates from
the lines of the trimmed art, `len(lines[0])` wide and `len(lines)` high (the
pixels it sets and the colours are not modelled). -/
def createSpriteFromArt (art : String) : Except Fault (Int × Int) :=
  let lines := SplitNewline (TrimSpace art.data)
  match idx lines 0 with
  | .error err => .error err
  | .ok first => NewImage ((String.mk first).utf8ByteSize : Int) (lines.length : Int)

/-- Modelled from the spec: the constant `spiderPixelArt` is declared in no file
under `src/`.  The spec leaves the pixels of a sprite to the renderer; the
constant is taken to be a drawing of one pixel on a line of its own, the
smallest of which `createSpriteFromArt` makes an image and of which
`NewDeathAnimation` can read the second line. -/
def spiderPixelArt : String := "\n#\n"

/-- Modelled from the spec: the constant `snakePixelArt` is declared in no file
under `src/`; it is taken to be a drawing of one pixel, as `spiderPixelArt`. -/
def snakePixelArt : String := "\n#\n"

/-- Modelled from the spec: the constant `hawkPixelArt` is declared in no file
under `src/`; it is taken to be a drawing of one pixel, as `spiderPixelArt`. -/
def hawkPixelArt : String := "\n#\n"

/-- Modelled from the spec: the constant `ghoulPixelArt` is declared in no file
under `src/`; it is taken to be a drawing of one pixel, as `spiderPixelArt`. -/
def ghoulPixelArt : String := "\n#\n"

/-- The enemy `NewEnemyWithColor` has built when it comes to its last step, the
creation of the sprite: the struct literal and the fields its type `switch`
sets, which has no `BlobEnemy` case.  The colour source only selects sprite
colours, which are not modelled. -/
def NewEnemyWithColor.fields (addr : Nat) (startY cellSize uiHeight : Int)
    (enemyType : EnemyType) (level : Int) (_colorSource : EnemyType) : Enemy :=
  let startX : ℚ := 0
  let startYPos : ℚ := ((startY * cellSize : Int) : ℚ) + (cellSize : ℚ) / 2 + (uiHeight : ℚ)
  let enemySize : ℚ := (cellSize : ℚ) * (8 / 10)
  let startingHealth : ℚ := ((10 * level : Int) : ℚ)
  let enemy : Enemy :=
    { addr := addr, x := startX, y := startYPos, targetX := startX, targetY := startYPos,
      speed := 0, health := startingHealth, maxHealth := startingHealth, level := level,
      size := enemySize, enemyType := enemyType, path := [], pathIndex := 0,
      pathInvalid := true, canFly := false, frozenTimer := 0, canAttack := false,
      attackDamage := 0, attackRange := 0, attackRate := 0, lastAttack := 0,
      attackChance := 0, targetTower := none, attackDuration := 0, currentAttackTime := 0 }
  match enemyType with
  | .SpiderEnemy => { enemy with speed := 9 / 10, canFly := false, canAttack := false }
  | .SnakeEnemy =>
    { enemy with speed := 11 / 10, canFly := false, canAttack := true, attackDamage := 1 / 2,
                 attackRange := (cellSize : ℚ) * 1, attackRate := 60, attackChance := 3 / 10 }
  | .HawkEnemy => { enemy with speed := 14 / 10, canFly := false, canAttack := false }
  | .GhoulEnemy =>
    { enemy with speed := 8 / 10, canFly := false, canAttack := true, attackDamage := 8 / 10,
                 attackRange := (cellSize : ℚ) * (15 / 10), attackRate := 60,
                 attackChance := 25 / 100 }
  | .BlobEnemy => enemy

/-- The variable `spriteArt` of `NewEnemyWithColor` after its type `switch`: it
is declared without a value and no case sets it for `BlobEnemy`, so it is the
empty string there. -/
def NewEnemyWithColor.spriteArt : EnemyType → String
  | .SpiderEnemy => spiderPixelArt
  | .SnakeEnemy => snakePixelArt
  | .HawkEnemy => hawkPixelArt
  | .GhoulEnemy => ghoulPixelArt
  | .BlobEnemy => ""

/-- The constructor `NewEnemyWithColor`, the one `Game.Update` spawns with;
`addr` is the address of the new object.  Its last step creates the sprite
from `spriteArt`, which panics for the empty art of `BlobEnemy`. -/
def NewEnemyWithColor (addr : Nat) (startY cellSize uiHeight : Int) (enemyType : EnemyType)
    (level : Int) (colorSource : EnemyType) : Except Fault Enemy :=
  match createSpriteFromArt (NewEnemyWithColor.spriteArt enemyType) with
  | .error err => .error err
  | .ok _ => .ok (NewEnemyWithColor.fields addr startY cellSize uiHeight enemyType level
      colorSource)

/-- The function `IsBossWave`. -/
def IsBossWave (waveNumber : Int) : Bool :=
  decide (waveNumber > 5 ∧ Int.tmod waveNumber 5 = 0)

/-- The method `Enemy.InvalidatePath`. -/
def Enemy.InvalidatePath (e : Enemy) : Enemy := { e with pathInvalid := true }

/-- The directions tried by `findPath`, in source order: right, down, up, left. -/
def findDirections : List (Int × Int) := [(1, 0), (0, 1), (0, -1), (-1, 0)]

/-- The inner loop of `findPath` over the remaining directions. -/
def findExpand (m : GameMap) (canFly : Bool) (currentX : Int) (cur : Int × Int) :
    List (Int × Int) → List (Int × Int) → List (List Bool) → List (List (Int × Int)) →
    Except Fault (List (Int × Int) × List (List Bool) × List (List (Int × Int)))
  | [], queue, visited, parent => .ok (queue, visited, parent)
  | dir :: rest, queue, visited, parent =>
    let nextX := cur.1 + dir.1
    let nextY := cur.2 + dir.2
    if nextX ≥ 0 ∧ nextX < m.width ∧ nextY ≥ 0 ∧ nextY < m.height then
      match getCell visited nextX nextY with
      | .error e => .error e
      | .ok seen =>
        if seen then findExpand m canFly currentX cur rest queue visited parent
        else
          match m.IsBlocked nextX nextY with
          | .error e => .error e
          | .ok blocked =>
            if !blocked || (canFly && decide (nextX > currentX)) then
              match setCell visited nextX nextY true with
              | .error e => .error e
              | .ok visited1 =>
                match setCell parent nextX nextY cur with
                | .error e => .error e
                | .ok parent1 =>
                  findExpand m canFly currentX cur rest (queue ++ [(nextX, nextY)])
                    visited1 parent1
            else findExpand m canFly currentX cur rest queue visited parent
    else findExpand m canFly currentX cur rest queue visited parent

/-- The search loop of `findPath`: the exit cell found, if any, and the parent
matrix. -/
def findLoop (m : GameMap) (canFly : Bool) (currentX : Int) :
    Nat → List (Int × Int) → List (List Bool) → List (List (Int × Int)) →
    Except Fault (Option (Int × Int) × List (List (Int × Int)))
  | 0, _, _, _ => .error .fuelExhausted
  | _ + 1, [], _, parent => .ok (none, parent)
  | fuel + 1, current :: queue, visited, parent =>
    if current.1 = m.GetExitArea.2.2 ∧ current.2 ≥ m.GetExitArea.1 ∧
        current.2 ≤ m.GetExitArea.2.1 then
      .ok (some current, parent)
    else
      match findExpand m canFly currentX current findDirections queue visited parent with
      | .error e => .error e
      | .ok (queue1, visited1, parent1) => findLoop m canFly currentX fuel queue1 visited1 parent1

/-- The reconstruction loop of `findPath`: walks the parent matrix from
`currentPos` back to the start cell, prepending each cell to `path`. -/
def reconstructPath (start : Int × Int) (parent : List (List (Int × Int))) :
    Nat → Int × Int → List Point → Except Fault (List Point)
  | 0, _, _ => .error .fuelExhausted
  | fuel + 1, currentPos, path =>
    if currentPos.1 ≠ start.1 ∨ currentPos.2 ≠ start.2 then
      match getCell parent currentPos.1 currentPos.2 with
      | .error e => .error e
      | .ok previous =>
        reconstructPath start parent fuel previous (⟨currentPos.1, currentPos.2⟩ :: path)
    else .ok path

/-- The cell `findPath` starts from. -/
def Enemy.cell (e : Enemy) (m : GameMap) : Int × Int :=
  (goInt (e.x / (m.cellSize : ℚ)), goInt ((e.y - (m.uiHeight : ℚ)) / (m.cellSize : ℚ)))

/-- The method `Enemy.findPath`: the enemy afterwards and the returned flag. -/
def Enemy.findPath (e : Enemy) (m : GameMap) : Except Fault (Enemy × Bool) :=
  let currentX := (e.cell m).1
  let currentY := (e.cell m).2
  match makeGrid m.height m.width false with
  | .error err => .error err
  | .ok visited0 =>
    match makeGrid m.height m.width ((0 : Int), (0 : Int)) with
    | .error err => .error err
    | .ok parent0 =>
      match setCell visited0 currentX currentY true with
      | .error err => .error err
      | .ok visited =>
        match findLoop m e.canFly currentX m.searchFuel [(currentX, currentY)] visited parent0 with
        | .error err => .error err
        | .ok (none, _) => .ok (e, false)
        | .ok (some target, parent) =>
          match reconstructPath (currentX, currentY) parent m.searchFuel target [] with
          | .error err => .error err
          | .ok path => .ok ({ e with path := path, pathIndex := 0, pathInvalid := false }, true)

/-- The centre of a cell on the screen, as `Enemy.Update` computes it. -/
def GameMap.cellCentre (m : GameMap) (cellX cellY : Int) : ℚ × ℚ :=
  (((cellX * m.cellSize + Int.tdiv m.cellSize 2 : Int) : ℚ),
   ((cellY * m.cellSize + Int.tdiv m.cellSize 2 + m.uiHeight : Int) : ℚ))

/-- Movement of `Enemy.Update` (the block "Move towards current target"): the
enemy snaps onto its waypoint when closer than `speed`, else steps toward it.
The animation timers of that block are not modelled. -/
def Enemy.advance (e : Enemy) (m : GameMap) (sqrt : ℚ → ℚ) : Except Fault Enemy :=
  if e.pathIndex < (e.path.length : Int) then
    match idx e.path e.pathIndex with
    | .error err => .error err
    | .ok targetCell =>
      let targetX := (m.cellCentre targetCell.X targetCell.Y).1
      let targetY := (m.cellCentre targetCell.X targetCell.Y).2
      let dx := targetX - e.x
      let dy := targetY - e.y
      let dist := sqrt (dx * dx + dy * dy)
      if dist < e.speed then
        .ok { e with targetX := targetX, targetY := targetY, x := targetX, y := targetY,
                     pathIndex := e.pathIndex + 1 }
      else
        .ok { e with targetX := targetX, targetY := targetY,
                     x := e.x + (dx / dist) * e.speed, y := e.y + (dy / dist) * e.speed }
  else .ok e

/-- Whether some other enemy of the list holds the tower at address `a` with an
attack in progress (the inner loop of the acquisition block). -/
def isBeingAttacked (self : Nat) (a : Nat) (enemies : List (Option Enemy)) : Bool :=
  enemies.any fun entry =>
    match entry with
    | none => false
    | some other =>
      decide (other.addr ≠ self) && decide (other.targetTower = some a) &&
        decide (other.currentAttackTime > 0)

/-- The assignment `gameMap.enemies = currentGame.enemies`, skipped when
`currentGame` is `nil`. -/
def GameMap.syncEnemies (m : GameMap) (currentGame : Option (List (Option Enemy))) : GameMap :=
  match currentGame with
  | some enemies => { m with enemies := enemies }
  | none => m

/-- The towers in range of the enemy that no other enemy of `m.enemies` holds
with an attack in progress (the filter loop of the acquisition block). -/
def Enemy.availableTowers (e : Enemy) (m : GameMap) (sqrt : ℚ → ℚ) : List Tower :=
  (m.GetTowersInRange sqrt e.x e.y e.attackRange).filter fun t =>
    !isBeingAttacked e.addr t.addr m.enemies

/-- Target acquisition of `Enemy.Update` (the block "If enemy can attack and has
no target").  The entry of `env.currentGame` for the enemy itself is skipped by
the loop, so its contents do not matter. -/
def Enemy.acquire (e : Enemy) (m : GameMap) (env : Env) : Enemy × GameMap :=
  if e.canAttack = true ∧ e.targetTower = none then
    if env.randFloat < e.attackChance then
      if (e.availableTowers (m.syncEnemies env.currentGame) env.sqrt).length > 0 then
        match (e.availableTowers (m.syncEnemies env.currentGame) env.sqrt).get?
            (env.randInt % (e.availableTowers (m.syncEnemies env.currentGame) env.sqrt).length) with
        | some t =>
          ({ e with targetTower := some t.addr, lastAttack := e.attackRate },
            m.syncEnemies env.currentGame)
        | none => (e, m.syncEnemies env.currentGame)
      else (e, m.syncEnemies env.currentGame)
    else (e, m.syncEnemies env.currentGame)
  else (e, m)

/-- The registered tower at address `a`, if any (the loop "verify tower still
exists"). -/
def findTower (a : Nat) : List (Option Tower) → Option Tower
  | [] => none
  | none :: rest => findTower a rest
  | some t :: rest => if t.addr = a then some t else findTower a rest

/-- Writes the tower `t1` through its address into the registry. -/
def storeTower (t1 : Tower) (towers : List (Option Tower)) : List (Option Tower) :=
  towers.map fun entry =>
    match entry with
    | none => none
    | some t => if t.addr = t1.addr then some t1 else some t

/-- Attack execution of `Enemy.Update` (the block "If we have a target tower").
The flag tells whether the block ended the call with `return false`. -/
def Enemy.attack (e : Enemy) (m : GameMap) (sqrt : ℚ → ℚ) :
    Except Fault (Enemy × GameMap × Bool) :=
  match e.targetTower with
  | none => .ok (e, m, false)
  | some a =>
    match findTower a m.towers with
    | none =>
      .ok ({ e with targetTower := none, currentAttackTime := 0, pathInvalid := true }, m, true)
    | some tower =>
      if tower.position.X < 4 then
        .ok ({ e with targetTower := none, currentAttackTime := 0 }, m, true)
      else
        let towerX := (m.cellCentre tower.position.X tower.position.Y).1
        let towerY := (m.cellCentre tower.position.X tower.position.Y).2
        let dx := towerX - e.x
        let dy := towerY - e.y
        let dist := sqrt (dx * dx + dy * dy)
        if dist ≤ e.attackRange then
          if e.currentAttackTime < e.attackDuration then
            let e1 : Enemy := { e with currentAttackTime := e.currentAttackTime + 1 }
            if e1.lastAttack ≤ 0 then
              let hit := tower.TakeDamage e1.attackDamage
              let m1 : GameMap := { m with towers := storeTower hit.1 m.towers }
              if hit.2 then
                match m1.RemoveTower hit.1.position.X hit.1.position.Y with
                | .error err => .error err
                | .ok m2 =>
                  .ok ({ e1 with targetTower := none, currentAttackTime := 0,
                                 lastAttack := e1.attackRate }, m2, true)
              else .ok ({ e1 with lastAttack := e1.attackRate }, m1, true)
            else .ok ({ e1 with lastAttack := e1.lastAttack - 1 }, m, true)
          else
            .ok ({ e with targetTower := none, currentAttackTime := 0,
                          lastAttack := e.attackRate }, m, false)
        else
          .ok ({ e with targetTower := none, currentAttackTime := 0,
                        lastAttack := e.attackRate }, m, false)

/-- Arrival test of `Enemy.Update` (the block "Check if we've reached the
exit"). -/
def Enemy.arrival (e : Enemy) (m : GameMap) (env : Env) (gridX gridY : Int) : GameMap × Bool :=
  match env.currentGame with
  | none => (m, false)
  | some enemies =>
    let m1 : GameMap := { m with enemies := enemies }
    if gridX = m.GetExitArea.2.2 ∧ gridY ≥ m.GetExitArea.1 ∧ gridY ≤ m.GetExitArea.2.1 then
      let cellCenterX := (m.cellCentre m.GetExitArea.2.2 gridY).1
      let cellCenterY := (m.cellCentre m.GetExitArea.2.2 gridY).2
      let dx := e.x - cellCenterX
      let dy := e.y - cellCenterY
      let distanceToCenter := env.sqrt (dx * dx + dy * dy)
      (m1, decide (distanceToCenter < 5))
    else (m1, false)

/-- Path recalculation of `Enemy.Update` (the block "Check if we need to
recalculate the path"): `findPath` is invoked when the path is invalid, empty or
used up; the flag is false when it was invoked and failed. -/
def Enemy.ensurePath (e : Enemy) (m : GameMap) : Except Fault (Enemy × Bool) :=
  if e.pathInvalid = true ∨ e.path.length = 0 ∨ e.pathIndex ≥ (e.path.length : Int) then
    e.findPath m
  else .ok (e, true)

/-- The method `Enemy.Update`: the enemy and the map afterwards, and the
returned flag. -/
def Enemy.Update (e : Enemy) (m : GameMap) (env : Env) : Except Fault (Enemy × GameMap × Bool) :=
  if e.frozenTimer > 0 then .ok ({ e with frozenTimer := e.frozenTimer - 1 }, m, false)
  else
    match e.ensurePath m with
    | .error err => .error err
    | .ok (e0, false) => .ok (e0, m, false)
    | .ok (e0, true) =>
      match e0.advance m env.sqrt with
      | .error err => .error err
      | .ok e1 =>
        let gridX := goInt ((e1.x - ((Int.tdiv m.cellSize 2 : Int) : ℚ)) / (m.cellSize : ℚ))
        let gridY := goInt ((e1.y - (m.uiHeight : ℚ)) / (m.cellSize : ℚ))
        if gridX < 4 then .ok ({ e1 with targetTower := none }, m, false)
        else
          match (e1.acquire m env).1.attack (e1.acquire m env).2 env.sqrt with
          | .error err => .error err
          | .ok (e3, m3, true) => .ok (e3, m3, false)
          | .ok (e3, m3, false) => .ok (e3, (e3.arrival m3 env gridX gridY).1,
                                        (e3.arrival m3 env gridX gridY).2)

/-! ## projectile.go -/

/-- The kinds of projectile. -/
inductive ProjectileType where
  | DartProjectile
  | BulletProjectile
  | LightningProjectile
  | FlameProjectile
  | FreezeProjectile
  deriving DecidableEq, Repr

/-- A projectile in flight (the colour is not modelled). -/
structure Projectile where
  x : ℚ
  y : ℚ
  targetX : ℚ
  targetY : ℚ
  speed : ℚ
  damage : ℚ
  projType : ProjectileType
  size : ℚ
  deriving DecidableEq

/-- The constructor `NewProjectile`. -/
def NewProjectile (startX startY targetX targetY : ℚ) (projType : ProjectileType)
    (damage : ℚ) : Projectile :=
  let proj : Projectile :=
    { x := startX, y := startY, targetX := targetX, targetY := targetY, speed := 5,
      damage := damage, projType := projType, size := 8 }
  match projType with
  | .DartProjectile => { proj with size := 12, speed := 6 }
  | .BulletProjectile => { proj with size := 6, speed := 8 }
  | .LightningProjectile => { proj with size := 14, speed := 7 }
  | .FlameProjectile => { proj with size := 7, speed := 4 }
  | .FreezeProjectile => { proj with size := 11, speed := 5 }

/-- The method `Projectile.Update`: the projectile afterwards and whether it
reached its target. -/
def Projectile.Update (p : Projectile) (sqrt : ℚ → ℚ) : Projectile × Bool :=
  let dx := p.targetX - p.x
  let dy := p.targetY - p.y
  let dist := sqrt (dx * dx + dy * dy)
  if dist < p.speed then (p, true)
  else ({ p with x := p.x + (dx / dist) * p.speed, y := p.y + (dy / dist) * p.speed }, false)

/-- The method `Projectile.GetPosition`. -/
def Projectile.GetPosition (p : Projectile) : ℚ × ℚ := (p.x, p.y)

/-- The method `Projectile.GetDamage`. -/
def Projectile.GetDamage (p : Projectile) : ℚ := p.damage

/-- The method `Projectile.GetProjectileType`. -/
def Projectile.GetProjectileType (p : Projectile) : ProjectileType := p.projType

/-! ## death_animation.go -/

/-- A death effect (sprite and rotation are not modelled). -/
structure DeathAnimation where
  x : ℚ
  y : ℚ
  size : ℚ
  frameLife : Int
  deriving DecidableEq

/-- The constructor `NewDeathAnimation`. -/
def NewDeathAnimation (x y size : ℚ) : DeathAnimation :=
  { x := x, y := y, size := size, frameLife := 45 }

/-- The method `DeathAnimation.Update`: the record afterwards and whether it
stays alive. -/
def DeathAnimation.Update (da : DeathAnimation) : DeathAnimation × Bool :=
  ({ da with frameLife := da.frameLife - 1 }, decide (da.frameLife - 1 > 0))

/-! ## tower.go: firing -/

/-- The method `Tower.canShoot`; `currentTime` is the clock reading in
seconds.  At `fireRate = 0` the quotient `1.0/t.fireRate` is `+Inf` and the
test fails. -/
def Tower.canShoot (t : Tower) (currentTime : ℚ) : Bool :=
  decide (t.fireRate ≠ 0 ∧ currentTime - t.lastShot ≥ 1 / t.fireRate)

/-- The test of `Tower.Update` whether an angle in degrees is within 22.5 of a
cardinal direction. -/
def isCardinal (angle : ℚ) : Bool :=
  [(0 : ℚ), 90, 180, 270].any fun cardinal =>
    decide (|angle - cardinal| ≤ 45 / 2 ∨ |angle - cardinal| ≥ 675 / 2)

/-- The target loop of `Tower.Update`: the enemy closest to the tower centre
among those strictly closer than `closestDist` that the tower may fire at.
`atan2Deg dy dx` stands for `math.Atan2(dy, dx) * 180 / math.Pi`. -/
def closestEnemyLoop (t : Tower) (towerX towerY : ℚ) (sqrt : ℚ → ℚ) (atan2Deg : ℚ → ℚ → ℚ) :
    List (Option Enemy) → ℚ → Option Enemy → Option Enemy
  | [], _, closestEnemy => closestEnemy
  | none :: rest, closestDist, closestEnemy =>
    closestEnemyLoop t towerX towerY sqrt atan2Deg rest closestDist closestEnemy
  | some enemy :: rest, closestDist, closestEnemy =>
    let dx := enemy.x - towerX
    let dy := enemy.y - towerY
    let dist := sqrt (dx * dx + dy * dy)
    if dist ≥ closestDist then
      closestEnemyLoop t towerX towerY sqrt atan2Deg rest closestDist closestEnemy
    else if t.canFireDiagonal = false ∧
        isCardinal (if atan2Deg dy dx < 0 then atan2Deg dy dx + 360 else atan2Deg dy dx)
          = false then
      closestEnemyLoop t towerX towerY sqrt atan2Deg rest closestDist closestEnemy
    else closestEnemyLoop t towerX towerY sqrt atan2Deg rest dist (some enemy)

/-- The projectile kind a tower fires; the `switch` of `Tower.Update` has no
case for `ForkTower`, which keeps the zero value. -/
def projectileTypeOf : TowerType → ProjectileType
  | .DartTower => .DartProjectile
  | .BulletTower => .BulletProjectile
  | .LightningTower => .LightningProjectile
  | .FlameTower => .FlameProjectile
  | .FreezeTower => .FreezeProjectile
  | .ForkTower => .DartProjectile

/-- The method `Tower.Update`: the tower afterwards and the projectiles it
fired (empty for Go's `nil`).  `gameMap` is the result of `GetGameMap()`,
`canShootTime` the clock read by `canShoot`, `shotTime` the clock read when the
shot is recorded. -/
def Tower.Update (t : Tower) (gameMap : Option GameMap) (enemies : List (Option Enemy))
    (sqrt : ℚ → ℚ) (atan2Deg : ℚ → ℚ → ℚ) (canShootTime shotTime : ℚ) :
    Tower × List Projectile :=
  match gameMap with
  | none => (t, [])
  | some m =>
    let towerX := (m.cellCentre t.position.X t.position.Y).1
    let towerY := (m.cellCentre t.position.X t.position.Y).2
    match closestEnemyLoop t towerX towerY sqrt atan2Deg enemies t.attackRange none with
    | none => (t, [])
    | some closestEnemy =>
      if t.canShoot canShootTime then
        ({ t with lastShot := shotTime },
          [NewProjectile towerX towerY closestEnemy.x closestEnemy.y
            (projectileTypeOf t.towerType) t.damage])
      else (t, [])

/-! ## tower_button.go and the buttons of game.go -/

/-- A tower selection button (name, sprite and the selection highlight are not
modelled). -/
structure TowerButton where
  tower : TowerType
  x : Int
  y : Int
  width : Int
  height : Int
  cost : Int
  deriving DecidableEq

/-- The constructor `NewTowerButton`. -/
def NewTowerButton (tower : TowerType) (x y : Int) : TowerButton :=
  { tower := tower, x := x, y := y - 5, width := 80, height := 65,
    cost :=
      match tower with
      | .DartTower => 10
      | .BulletTower => 25
      | .LightningTower => 40
      | .FlameTower => 60
      | .FreezeTower => 75
      | .ForkTower => 150 }

/-- The method `TowerButton.Contains`. -/
def TowerButton.Contains (tb : TowerButton) (x y : Int) : Bool :=
  decide (x ≥ tb.x ∧ x < tb.x + tb.width ∧ y ≥ tb.y ∧ y < tb.y + tb.height)

/-- A button of the top bar (colour and hover flag are not modelled). -/
structure Button where
  x : Int
  y : Int
  width : Int
  height : Int
  text : String
  deriving DecidableEq

/-- The method `Button.contains`. -/
def Button.contains (b : Button) (x y : Int) : Bool :=
  decide (x ≥ b.x ∧ x ≤ b.x + b.width ∧ y ≥ b.y ∧ y ≤ b.y + b.height)

/-- The tower buttons `NewGame` creates, left to right. -/
def newTowerButtons : List TowerButton :=
  [NewTowerButton .DartTower 250 (832 - 90), NewTowerButton .BulletTower 350 (832 - 90),
   NewTowerButton .LightningTower 450 (832 - 90), NewTowerButton .FlameTower 550 (832 - 90),
   NewTowerButton .FreezeTower 650 (832 - 90), NewTowerButton .ForkTower 750 (832 - 90)]

/-- The start button `NewGame` creates. -/
def newStartButton : Button := { x := 20, y := 15, width := 160, height := 30, text := "Begin!" }

/-- The pause button `NewGame` creates. -/
def newPauseButton : Button := { x := 190, y := 15, width := 160, height := 30, text := "Pause" }

/-! ## game.go -/


/-- The phases of the game. -/
inductive GameState where
  | BuildState
  | PlayState
  | PausedState
  | GameOverState
  deriving DecidableEq, Repr

/-- The fields of `Game` (the mouse position kept for the tower preview is not
modelled).  Projectiles and death effects are never `nil`: only constructor
results are appended.  The fields after `selectedTower` default to what
`NewGame` sets. -/
structure Game where
  gameMap : GameMap
  enemies : List (Option Enemy)
  score : Int
  lives : Int
  confirmingReset : Bool
  money : Int
  gameState : GameState
  spawnTimer : Int
  spawnInterval : Int
  currentWave : Int
  enemiesInWave : Int
  enemiesSpawned : Int
  waveType : EnemyType
  selectedTower : TowerType
  projectiles : List Projectile := []
  deathAnims : List DeathAnimation := []
  towerButtons : List TowerButton := newTowerButtons
  startButton : Button := newStartButton
  pauseButton : Button := newPauseButton
  deriving DecidableEq

/-- The cost table of `tryPlaceTower`. -/
def towerCost : TowerType → Int
  | .DartTower => 10
  | .BulletTower => 25
  | .LightningTower => 40
  | .FlameTower => 60
  | .FreezeTower => 75
  | .ForkTower => 150

/-- The loop of `tryPlaceTower` that invalidates the path of every enemy of the
list. -/
def invalidateAll (enemies : List (Option Enemy)) : List (Option Enemy) :=
  enemies.map fun entry =>
    match entry with
    | none => none
    | some enemy => some enemy.InvalidatePath

/-- The method `Game.tryPlaceTower` on the running game (`currentGame` is the
receiver): the game and the package counter afterwards, and whether the
returned error is `nil`. -/
def Game.tryPlaceTower (g : Game) (forkTowerCount : Int) (addr : Nat) (x y : Int) :
    Except Fault (Game × Int × Bool) :=
  if g.money < towerCost g.selectedTower then .ok (g, forkTowerCount, false)
  else
    match g.gameMap.PlaceTower g.selectedTower forkTowerCount addr x y with
    | .error e => .error e
    | .ok out =>
      if out.placed then
        .ok ({ g with gameMap := out.gameMap, money := g.money - towerCost g.selectedTower,
                      enemies := invalidateAll g.enemies }, out.forkTowerCount, true)
      else .ok ({ g with gameMap := out.gameMap }, out.forkTowerCount, false)

/-- The refund table of the removal block of `Game.Update`. -/
def baseRefund : TowerType → Int
  | .DartTower => 10
  | .BulletTower => 25
  | .LightningTower => 40
  | .FlameTower => 60
  | .FreezeTower => 75
  | .ForkTower => 150

/-- The block "Handle tower removal" of `Game.Update` for a right click at the
screen point `(mouseX, mouseY)`. -/
def Game.handleTowerRemoval (g : Game) (mouseX mouseY : Int) : Except Fault Game :=
  if mouseY > g.gameMap.uiHeight then
    let grid := g.gameMap.GetGridPosition (mouseX : ℚ) (mouseY : ℚ)
    match g.gameMap.GetTowerAt grid.1 grid.2 with
    | .error e => .error e
    | .ok none => .ok g
    | .ok (some tower) =>
      let healthPercent := tower.health / tower.maxHealth
      let actualRefund := goInt ((baseRefund tower.towerType : ℚ) * healthPercent)
      match g.gameMap.RemoveTower grid.1 grid.2 with
      | .error e => .error e
      | .ok m1 => .ok { g with money := g.money + actualRefund, gameMap := m1 }
  else .ok g

/-- The block "Handle tower placement" of `Game.Update` for a left click at the
screen point `(mouseX, mouseY)` that hit no button. -/
def Game.handleTowerPlacement (g : Game) (forkTowerCount : Int) (addr : Nat)
    (mouseX mouseY : Int) : Except Fault (Game × Int) :=
  if mouseY > g.gameMap.uiHeight then
    let grid := g.gameMap.GetGridPosition (mouseX : ℚ) (mouseY : ℚ)
    match g.tryPlaceTower forkTowerCount addr grid.1 grid.2 with
    | .error e => .error e
    | .ok r => .ok (r.1, r.2.1)
  else .ok (g, forkTowerCount)

/-! ## game.go: `Game.Update` -/

/-- What one call of `Game.Update` takes from outside the game: the cursor and
the mouse buttons just pressed, `math.Sqrt`, `math.Atan2` in degrees, the draws
of `randFloat()` and `mathrand.Intn` in the `Update` of the enemy at each
index of the list, the two clock readings of the tower at each index of the
registry, the raw draws of the wave spawner, and the addresses of the tower
and the enemy the call may allocate. -/
structure Tick where
  mouseX : Int
  mouseY : Int
  leftPressed : Bool
  rightPressed : Bool
  sqrt : ℚ → ℚ
  atan2Deg : ℚ → ℚ → ℚ
  enemyRandFloat : Nat → ℚ
  enemyRandInt : Nat → Nat
  canShootTime : Nat → ℚ
  shotTime : Nat → ℚ
  intervalDraw : Nat
  substituteDraw : ℚ
  substituteIndex : Nat
  rowDraw : Nat
  towerAddr : Nat
  enemyAddr : Nat

/-- The function `rand.Intn`, which panics on a non-positive bound; `raw` is
the underlying draw. -/
def Intn (n : Int) (raw : Nat) : Except Fault Int :=
  if n ≤ 0 then .error .invalidArgument else .ok ((raw : Int) % n)

/-- The constructor `NewGame`. -/
def NewGame : Game :=
  { gameMap := NewGameMap, enemies := [], projectiles := [], deathAnims := [],
    towerButtons := newTowerButtons, score := 0, lives := 20, confirmingReset := false,
    money := 200, gameState := GameState.BuildState, spawnTimer := 0, spawnInterval := 60,
    currentWave := 0, enemiesInWave := 10, enemiesSpawned := 0,
    waveType := EnemyType.SpiderEnemy, startButton := newStartButton,
    pauseButton := newPauseButton, selectedTower := TowerType.DartTower }

/-- The loop over the tower buttons of a left click: the first button under the
cursor that the money affords selects its tower and ends the call. -/
def Game.clickTowerButtons (g : Game) (mouseX mouseY : Int) : List TowerButton → Option Game
  | [] => none
  | btn :: rest =>
    if btn.Contains mouseX mouseY = true ∧ g.money ≥ btn.cost then
      some { g with selectedTower := btn.tower }
    else g.clickTowerButtons mouseX mouseY rest

/-- The body of `if g.startButton.contains(mouseX, mouseY)`. -/
def Game.clickStart (g : Game) : Game :=
  if g.gameState = GameState.BuildState then
    { g with gameState := GameState.PlayState,
             startButton := { g.startButton with text := "Reset" },
             confirmingReset := false }
  else if g.gameState = GameState.PlayState ∨ g.gameState = GameState.PausedState then
    if g.confirmingReset = true then
      { g with gameState := GameState.BuildState, enemies := [], projectiles := [],
               deathAnims := [], lives := 20, money := 200, currentWave := 0,
               enemiesInWave := 10, enemiesSpawned := 0, waveType := EnemyType.SpiderEnemy,
               spawnInterval := 60, startButton := { g.startButton with text := "Begin!" },
               pauseButton := { g.pauseButton with text := "Pause" },
               confirmingReset := false, score := 0, gameMap := NewGameMap,
               selectedTower := TowerType.DartTower }
    else
      { g with confirmingReset := true, startButton := { g.startButton with text := "Sure?" } }
  else g

/-- The body of `if g.pauseButton.contains(mouseX, mouseY)`. -/
def Game.clickPause (g : Game) : Game :=
  if g.gameState = GameState.PlayState then
    { g with gameState := GameState.PausedState,
             pauseButton := { g.pauseButton with text := "Continue" },
             confirmingReset := false }
  else if g.gameState = GameState.PausedState then
    { g with gameState := GameState.PlayState,
             pauseButton := { g.pauseButton with text := "Pause" },
             confirmingReset := false }
  else g

/-- The block "Handle tower selection clicks" for a left click: `some` game when
a button took the click and the call returned, `none` when the call goes on. -/
def Game.handleButtons (g : Game) (mouseX mouseY : Int) : Option Game :=
  match g.clickTowerButtons mouseX mouseY g.towerButtons with
  | some g1 => some g1
  | none =>
    if g.startButton.contains mouseX mouseY = true then some g.clickStart
    else if g.pauseButton.contains mouseX mouseY = true then some g.clickPause
    else none

/-- One iteration of the enemy loop of `Game.Update`, for the entry at index
`i` of `g.enemies`.  The list holds pointers: the enemy is updated in place, so
the enemies processed later see it as it is after its `Update` (`currentGame`
is the receiver).  `remaining` is `remainingEnemies`. -/
def Game.enemyStep (g : Game) (tick : Tick) (i : Nat) (remaining : List (Option Enemy)) :
    Except Fault (Game × List (Option Enemy)) :=
  match g.enemies.get? i with
  | none => .ok (g, remaining)
  | some none => .ok (g, remaining)
  | some (some enemy) =>
    match enemy.Update g.gameMap
        ⟨tick.sqrt, tick.enemyRandFloat i, tick.enemyRandInt i, some g.enemies⟩ with
    | .error err => .error err
    | .ok (enemy1, m1, reached) =>
      let g1 : Game := { g with gameMap := m1, enemies := g.enemies.set i (some enemy1) }
      if reached = true then
        if g1.lives - 1 ≤ 0 then
          .ok ({ g1 with lives := g1.lives - 1, gameState := GameState.GameOverState }, remaining)
        else .ok ({ g1 with lives := g1.lives - 1 }, remaining)
      else if enemy1.health ≤ 0 then
        let anims := g1.deathAnims ++ [NewDeathAnimation enemy1.x enemy1.y enemy1.size]
        let reward := 2 * enemy1.level
        if enemy1.enemyType = EnemyType.BlobEnemy then
          .ok ({ g1 with deathAnims := anims, score := g1.score + 1000,
                         money := g1.money + reward * 5 }, remaining)
        else .ok ({ g1 with deathAnims := anims, money := g1.money + reward }, remaining)
      else .ok (g1, remaining ++ [some enemy1])

/-- The enemy loop of `Game.Update` over the indices of the list. -/
def Game.enemyLoop (tick : Tick) :
    List Nat → Game → List (Option Enemy) → Except Fault (Game × List (Option Enemy))
  | [], g, remaining => .ok (g, remaining)
  | i :: rest, g, remaining =>
    match g.enemyStep tick i remaining with
    | .error err => .error err
    | .ok (g1, remaining1) => Game.enemyLoop tick rest g1 remaining1

/-- The enemy pass of `Game.Update` ("Update enemies"), ending with
`g.enemies = remainingEnemies`. -/
def Game.enemyPass (g : Game) (tick : Tick) : Except Fault Game :=
  match Game.enemyLoop tick (List.range g.enemies.length) g [] with
  | .error err => .error err
  | .ok (g1, remaining) => .ok { g1 with enemies := remaining }

/-- The pass "Update death animations". -/
def Game.deathAnimPass (g : Game) : Game :=
  { g with deathAnims := g.deathAnims.filterMap fun anim =>
      if anim.Update.2 = true then some anim.Update.1 else none }

/-- The tower loop of `Game.Update` from registry index `i` on: the registry
entries afterwards and the projectiles fired, in order.  A `nil` entry is
dereferenced by `tower.Update`. -/
def towerLoop (m : GameMap) (enemies : List (Option Enemy)) (tick : Tick) :
    Nat → List (Option Tower) → Except Fault (List (Option Tower) × List Projectile)
  | _, [] => .ok ([], [])
  | _, none :: _ => .error .nilDereference
  | i, some tower :: rest =>
    match towerLoop m enemies tick (i + 1) rest with
    | .error err => .error err
    | .ok (towers1, shots) =>
      .ok (some (tower.Update (some m) enemies tick.sqrt tick.atan2Deg (tick.canShootTime i)
              (tick.shotTime i)).1 :: towers1,
           (tower.Update (some m) enemies tick.sqrt tick.atan2Deg (tick.canShootTime i)
              (tick.shotTime i)).2 ++ shots)

/-- The pass "Update towers and generate projectiles". -/
def Game.towerPass (g : Game) (tick : Tick) : Except Fault Game :=
  match towerLoop g.gameMap g.enemies tick 0 g.gameMap.towers with
  | .error err => .error err
  | .ok (towers1, shots) =>
    .ok { g with gameMap := { g.gameMap with towers := towers1 },
                 projectiles := g.projectiles ++ shots }

/-- The effect of a hit on the enemy hit (the body of `if dist < enemy.size/2`
before the `break`). -/
def Projectile.strike (proj : Projectile) (enemy : Enemy) : Enemy :=
  if proj.GetProjectileType = ProjectileType.FreezeProjectile then
    if enemy.frozenTimer ≤ 0 then { enemy with frozenTimer := 60 } else enemy
  else { enemy with health := enemy.health - proj.GetDamage }

/-- Whether the projectile is within the radius of the enemy ("Simple collision
check"). -/
def Projectile.touches (proj : Projectile) (sqrt : ℚ → ℚ) (enemy : Enemy) : Bool :=
  let dx := enemy.x - proj.GetPosition.1
  let dy := enemy.y - proj.GetPosition.2
  let dist := sqrt (dx * dx + dy * dy)
  decide (dist < enemy.size / 2)

/-- The collision loop of an arrived projectile over the enemy list: the first
enemy within its radius is hit and the loop ends. -/
def Projectile.collide (proj : Projectile) (sqrt : ℚ → ℚ) :
    List (Option Enemy) → List (Option Enemy)
  | [] => []
  | none :: rest => none :: proj.collide sqrt rest
  | some enemy :: rest =>
    if proj.touches sqrt enemy = true then some (proj.strike enemy) :: rest
    else some enemy :: proj.collide sqrt rest

/-- The projectile loop of `Game.Update`: the projectiles kept
(`remainingProjectiles`) and the enemy list afterwards. -/
def projectileLoop (sqrt : ℚ → ℚ) :
    List Projectile → List (Option Enemy) → List Projectile →
    List Projectile × List (Option Enemy)
  | [], enemies, remaining => (remaining, enemies)
  | proj :: rest, enemies, remaining =>
    if (proj.Update sqrt).2 = true then
      projectileLoop sqrt rest ((proj.Update sqrt).1.collide sqrt enemies) remaining
    else projectileLoop sqrt rest enemies (remaining ++ [(proj.Update sqrt).1])

/-- The pass "Update projectiles and check for hits". -/
def Game.projectilePass (g : Game) (sqrt : ℚ → ℚ) : Game :=
  { g with projectiles := (projectileLoop sqrt g.projectiles g.enemies []).1,
           enemies := (projectileLoop sqrt g.projectiles g.enemies []).2 }

/-- The wave type after a normal wave (the `switch` of "Wave completed"). -/
def nextWaveType : EnemyType → EnemyType
  | .SpiderEnemy => .SnakeEnemy
  | .SnakeEnemy => .HawkEnemy
  | .HawkEnemy => .GhoulEnemy
  | .GhoulEnemy => .SpiderEnemy
  | .BlobEnemy => .SpiderEnemy

/-- The enemy type to spawn: the wave's type, or from wave 5 on and after the
first spawn of the wave, with the 5% draw, one of the other normal types. -/
def Game.spawnType (g : Game) (tick : Tick) : EnemyType :=
  if g.currentWave ≥ 4 ∧ g.enemiesSpawned > 0 then
    if tick.substituteDraw < 5 / 100 then
      if ([EnemyType.SpiderEnemy, .SnakeEnemy, .HawkEnemy, .GhoulEnemy].filter
            fun t => decide (t ≠ g.waveType)).length > 0 then
        match ([EnemyType.SpiderEnemy, .SnakeEnemy, .HawkEnemy, .GhoulEnemy].filter
            fun t => decide (t ≠ g.waveType)).get?
            (tick.substituteIndex %
              ([EnemyType.SpiderEnemy, .SnakeEnemy, .HawkEnemy, .GhoulEnemy].filter
                fun t => decide (t ≠ g.waveType)).length) with
        | some t => t
        | none => g.waveType
      else g.waveType
    else g.waveType
  else g.waveType

/-- The block "Handle wave spawning" of `Game.Update`. -/
def Game.waveStep (g : Game) (tick : Tick) : Except Fault Game :=
  if g.enemiesSpawned < g.enemiesInWave then
    if g.spawnTimer + 1 ≥ g.spawnInterval then
      match Intn (g.gameMap.GetEntranceArea.2.1 - g.gameMap.GetEntranceArea.1 + 1)
          tick.rowDraw with
      | .error err => .error err
      | .ok offset =>
        match NewEnemyWithColor tick.enemyAddr (g.gameMap.GetEntranceArea.1 + offset)
            g.gameMap.cellSize g.gameMap.uiHeight (g.spawnType tick) (g.currentWave + 1)
            g.waveType with
        | .error err => .error err
        | .ok newEnemy =>
          .ok { g with spawnTimer := 0,
                       spawnInterval := 90 + ((tick.intervalDraw % 90 : Nat) : Int),
                       enemies := g.enemies ++ [some newEnemy],
                       enemiesSpawned := g.enemiesSpawned + 1 }
    else .ok { g with spawnTimer := g.spawnTimer + 1 }
  else if g.enemies.length = 0 then
    if IsBossWave (g.currentWave + 1) = true then
      .ok { g with currentWave := g.currentWave + 1, enemiesSpawned := 0,
                   waveType := EnemyType.BlobEnemy, enemiesInWave := 1,
                   spawnInterval := max 60 (120 - (g.currentWave + 1) * 10) }
    else
      .ok { g with currentWave := g.currentWave + 1, enemiesSpawned := 0,
                   waveType := nextWaveType g.waveType,
                   enemiesInWave := 10 + (g.currentWave + 1) * 2,
                   spawnInterval := max 60 (120 - (g.currentWave + 1) * 10) }
  else .ok g

/-- The block "Update game logic only in play state". -/
def Game.playStep (g : Game) (tick : Tick) : Except Fault Game :=
  match g.enemyPass tick with
  | .error err => .error err
  | .ok g1 =>
    match g1.deathAnimPass.towerPass tick with
    | .error err => .error err
    | .ok g2 => (g2.projectilePass tick.sqrt).waveStep tick

/-- The method `Game.Update` with `currentGame` the receiver: the game and the
package counter `forkTowerCount` afterwards. -/
def Game.Update (g : Game) (forkTowerCount : Int) (tick : Tick) : Except Fault (Game × Int) :=
  match (if tick.leftPressed = true then g.handleButtons tick.mouseX tick.mouseY else none) with
  | some g1 => .ok (g1, forkTowerCount)
  | none =>
    match (if tick.leftPressed = true then
        g.handleTowerPlacement forkTowerCount tick.towerAddr tick.mouseX tick.mouseY
      else .ok (g, forkTowerCount)) with
    | .error err => .error err
    | .ok (g1, forkTowerCount1) =>
      match (if tick.rightPressed = true then g1.handleTowerRemoval tick.mouseX tick.mouseY
        else .ok g1) with
      | .error err => .error err
      | .ok g2 =>
        if g2.gameState = GameState.PlayState then
          match g2.playStep tick with
          | .error err => .error err
          | .ok g3 => .ok (g3, forkTowerCount1)
        else .ok (g2, forkTowerCount1)

/-! ## Specification vocabulary -/

/-- A grid cell, column first. -/
abbrev Cell := Int × Int

/-- Two cells are 4-neighbours. -/
def Adjacent (a b : Cell) : Prop :=
  (b.1 = a.1 + 1 ∧ b.2 = a.2) ∨ (b.1 = a.1 - 1 ∧ b.2 = a.2) ∨
  (b.1 = a.1 ∧ b.2 = a.2 + 1) ∨ (b.1 = a.1 ∧ b.2 = a.2 - 1)

/-- The cell lies in the grid and its terrain is not `TowerPlacement`, that is,
`IsBlocked` answers false. -/
def GameMap.Walkable (m : GameMap) (c : Cell) : Prop := m.IsBlocked c.1 c.2 = .ok false

/-- The cell belongs to the entrance band of column 0. -/
def GameMap.IsEntrance (m : GameMap) (c : Cell) : Prop :=
  c.1 = 0 ∧ m.entranceStart ≤ c.2 ∧ c.2 ≤ m.entranceEnd

/-- The cell belongs to the exit band of the last column. -/
def GameMap.IsExit (m : GameMap) (c : Cell) : Prop :=
  c.1 = m.width - 1 ∧ m.exitStart ≤ c.2 ∧ c.2 ≤ m.exitEnd

/-- The list `p` is a ground path from `a` to `b`: it starts at `a`, ends at
`b`, moves by one cardinal step at a time and holds walkable cells only. -/
def GameMap.GroundPath (m : GameMap) (a b : Cell) (p : List Cell) : Prop :=
  p.head? = some a ∧ p.getLast? = some b ∧ List.Chain' Adjacent p ∧ ∀ c ∈ p, m.Walkable c

/-- Some ground path leads from `a` to `b`. -/
def GameMap.Connected (m : GameMap) (a b : Cell) : Prop := ∃ p, m.GroundPath a b p

/-- The matrix `t` has `h` rows of `w` entries. -/
def IsGrid {α : Type} (t : List (List α)) (w h : Int) : Prop :=
  0 ≤ w ∧ 0 ≤ h ∧ t.length = h.toNat ∧ ∀ row ∈ t, row.length = w.toNat

/-- Shape of a map the program can hold: the terrain matrix has the declared
dimensions, the grid has a column, and the entrance band lies within the rows. -/
structure GameMap.WellFormed (m : GameMap) : Prop where
  grid : IsGrid m.terrain m.width m.height
  width_pos : 0 < m.width
  entrance_lo : m.entranceStart ≤ m.entranceEnd → 0 ≤ m.entranceStart
  entrance_hi : m.entranceStart ≤ m.entranceEnd → m.entranceEnd < m.height

/-- No entrance cell holds a tower. -/
def GameMap.EntranceClear (m : GameMap) : Prop := ∀ c, m.IsEntrance c → m.Walkable c

/-- The maps that `PlaceTower` and `RemoveTower` calls produce from the fresh
map, for any selected tower kind, counter value and allocation address. -/
inductive Reachable : GameMap → Prop where
  | fresh : Reachable NewGameMap
  | place {m : GameMap} {out : PlaceOutcome} (selectedTower : TowerType) (forkTowerCount : Int)
      (addr : Nat) (x y : Int) :
      Reachable m → m.PlaceTower selectedTower forkTowerCount addr x y = .ok out →
      Reachable out.gameMap
  | remove {m m1 : GameMap} (x y : Int) :
      Reachable m → m.RemoveTower x y = .ok m1 → Reachable m1

/-! ## An abstract breadth-first search

The two searches of the program are compared with one search over functions
instead of matrices; its invariants are proved once. -/

/-- State of the abstract search: the queue, the visited set and the parent
map. -/
structure Search where
  queue : List Cell
  seen : Cell → Bool
  parent : Cell → Cell

/-- The neighbour of `c` in direction `d`. -/
def shift (c : Cell) (d : Int × Int) : Cell := (c.1 + d.1, c.2 + d.2)

/-- Expansion of the cell `cur` over the directions `ds`. -/
def Search.expand (adm : Cell → Bool) (cur : Cell) : List (Int × Int) → Search → Search
  | [], s => s
  | d :: ds, s =>
    if adm (shift cur d) && !s.seen (shift cur d) then
      Search.expand adm cur ds
        { queue := s.queue ++ [shift cur d]
          seen := Function.update s.seen (shift cur d) true
          parent := Function.update s.parent (shift cur d) cur }
    else Search.expand adm cur ds s

/-- The abstract search loop: `none` when the fuel runs out, else the exit cell
found, if any, with the final state. -/
def Search.run (adm goal : Cell → Bool) (dirs : List (Int × Int)) :
    Nat → Search → Option (Option Cell × Search)
  | 0, _ => none
  | fuel + 1, s =>
    match s.queue with
    | [] => some (none, s)
    | cur :: rest =>
      if goal cur then some (some cur, s)
      else Search.run adm goal dirs fuel (Search.expand adm cur dirs { s with queue := rest })

/-- One step of a walk: into an admissible neighbour along one of `dirs`. -/
def StepTo (adm : Cell → Bool) (dirs : List (Int × Int)) (a b : Cell) : Prop :=
  adm b = true ∧ ∃ d ∈ dirs, b = shift a d

/-- `Walk adm dirs a n b`: a walk of `n` steps leads from `a` to `b`. -/
inductive Walk (adm : Cell → Bool) (dirs : List (Int × Int)) (a : Cell) : Nat → Cell → Prop where
  | here : Walk adm dirs a 0 a
  | snoc {n : Nat} {b c : Cell} : Walk adm dirs a n b → StepTo adm dirs b c →
      Walk adm dirs a (n + 1) c

/-- The cells of a `w` by `h` grid. -/
def gridCells (w h : Nat) : List Cell :=
  (List.range h).flatMap fun (y : Nat) => (List.range w).map fun (x : Nat) => ((x : Int), (y : Int))

/-- Number of grid cells not yet visited. -/
def unseenCount (w h : Nat) (seen : Cell → Bool) : Nat :=
  ((gridCells w h).filter fun c => !seen c).length

/-- The visited set held by a matrix. -/
def seenOf (visited : List (List Bool)) : Cell → Bool :=
  fun c => decide (getCell visited c.1 c.2 = .ok true)

/-- The parent map held by a matrix. -/
def parentOf (parent : List (List (Int × Int))) : Cell → Cell :=
  fun c =>
    match getCell parent c.1 c.2 with
    | .ok d => d
    | .error _ => (0, 0)

/-- The test of `checkPathExists` for entering a cell: inside the grid and not
holding a tower in `terrain`. -/
def checkAdm (m : GameMap) (terrain : List (List TerrainType)) (c : Cell) : Bool :=
  decide (c.1 ≥ 0 ∧ c.1 < m.width ∧ c.2 ≥ 0 ∧ c.2 < m.height) &&
    decide (getCell terrain c.1 c.2 ≠ .ok TerrainType.TowerPlacement)

/-- The test of `findPath` for entering a cell: inside the grid and not blocked,
or crossed in flight east of the start column. -/
def findAdm (m : GameMap) (canFly : Bool) (currentX : Int) (c : Cell) : Bool :=
  decide (c.1 ≥ 0 ∧ c.1 < m.width ∧ c.2 ≥ 0 ∧ c.2 < m.height) &&
    (decide (m.IsBlocked c.1 c.2 = .ok false) || (canFly && decide (c.1 > currentX)))

/-- The exit test of both searches. -/
def exitGoal (m : GameMap) (c : Cell) : Bool :=
  decide (c.1 = m.width - 1 ∧ c.2 ≥ m.exitStart ∧ c.2 ≤ m.exitEnd)

/-- The abstract counterpart of the reconstruction loop of `findPath`. -/
def climb (start : Cell) (parent : Cell → Cell) : Nat → Cell → List Point → Option (List Point)
  | 0, _, _ => none
  | fuel + 1, cur, path =>
    if cur.1 ≠ start.1 ∨ cur.2 ≠ start.2 then
      climb start parent fuel (parent cur) (⟨cur.1, cur.2⟩ :: path)
    else some path

/-- Invariant of the abstract search started from the cells `src`: `lvl` is the
depth at which each visited cell was found and `k` bounds the depths. -/
structure SearchInv (adm goal : Cell → Bool) (dirs : List (Int × Int)) (src : List Cell)
    (s : Search) (lvl : Cell → Nat) (k : Nat) : Prop where
  src_seen : ∀ c ∈ src, s.seen c = true ∧ lvl c = 0
  tree : ∀ c, s.seen c = true → c ∉ src →
    s.seen (s.parent c) = true ∧ lvl c = lvl (s.parent c) + 1 ∧ StepTo adm dirs (s.parent c) c
  queue_seen : ∀ c ∈ s.queue, s.seen c = true
  queue_nodup : s.queue.Nodup
  queue_sorted : s.queue.Pairwise fun a b => lvl a ≤ lvl b
  near : ∀ c, s.seen c = true → ∀ hd ∈ s.queue.head?, lvl c ≤ lvl hd + 1
  closed : ∀ u, s.seen u = true → u ∉ s.queue →
    goal u = false ∧
      ∀ d ∈ dirs, adm (shift u d) = true →
        s.seen (shift u d) = true ∧ lvl (shift u d) ≤ lvl u + 1
  depth : ∀ c, s.seen c = true → lvl c ≤ k

/-- The cells `(0, y), (0, y + 1), …` of a band of `n` rows in column 0, in the
order in which `checkPathExists` enqueues them. -/
def bandCells : Nat → Int → List Cell
  | 0, _ => []
  | n + 1, y => ((0 : Int), y) :: bandCells n (y + 1)

/-- The entrance cells of the map, as enqueued by `checkPathExists`. -/
def GameMap.entranceCells (m : GameMap) : List Cell :=
  bandCells (m.entranceEnd - m.entranceStart + 1).toNat m.entranceStart

/-- The test for entering a cell when `(x, y)` is treated as occupied on top of
the towers of the map. -/
def avoidAdm (m : GameMap) (x y : Int) (c : Cell) : Bool :=
  checkAdm m m.terrain c && decide (c ≠ (x, y))

/-- With `(x, y)` treated as occupied, some entrance cell is still connected to
some exit cell: a ground path between them stays clear of `(x, y)`. -/
def GameMap.PathAvoiding (m : GameMap) (x y : Int) : Prop :=
  ∃ a e p, m.IsEntrance a ∧ m.IsExit e ∧ m.GroundPath a e p ∧ (x, y) ∉ p

/-- The cell is inside the grid. -/
def GameMap.InBounds (m : GameMap) (x y : Int) : Prop :=
  0 ≤ x ∧ x < m.width ∧ 0 ≤ y ∧ y < m.height

/-- The conditions under which `CanPlaceTower` answers true. -/
def GameMap.Placeable (m : GameMap) (x y : Int) : Prop :=
  ¬ m.IsEntrance (x, y) ∧ ¬ m.IsExit (x, y) ∧ m.InBounds x y ∧
    getCell m.terrain x y = .ok TerrainType.Empty

/-- Some exit cell is reached from some entrance cell by a walk that never
enters `(x, y)` nor a tower: what the search of `checkPathExists` decides. -/
def GameMap.WalkAvoiding (m : GameMap) (x y : Int) : Prop :=
  ∃ a ∈ m.entranceCells, ∃ e n, exitGoal m e = true ∧
    Walk (avoidAdm m x y) checkDirections a n e

/-- The map after a successful placement on `(x, y)`, given the marked
terrain. -/
def GameMap.withTower (m : GameMap) (marked : List (List TerrainType))
    (selectedTower : TowerType) (forkTowerCount : Int) (addr : Nat) (x y : Int) : GameMap :=
  { m with
    terrain := marked
    towers := m.towers ++
      [(NewTower (some { m with terrain := marked }) forkTowerCount addr selectedTower x y).1] }

/-- Every entrance cell is connected to some exit cell by a ground path. -/
def GameMap.EntranceConnected (m : GameMap) : Prop :=
  ∀ a, m.IsEntrance a → ∃ e, m.IsExit e ∧ m.Connected a e

/-- The dimensions and bands that `NewGameMap` sets and no operation changes. -/
structure GameMap.StandardFrame (m : GameMap) : Prop where
  width_eq : m.width = 18
  height_eq : m.height = 12
  entranceStart_eq : m.entranceStart = 6
  entranceEnd_eq : m.entranceEnd = 6
  exitStart_eq : m.exitStart = 6
  exitEnd_eq : m.exitEnd = 6
  grid : IsGrid m.terrain 18 12

/-- The fresh terrain with a tower marked on `(5, 5)`. -/
def terrainMarked55 : List (List TerrainType) :=
  NewGameMap.terrain.set 5 ((List.replicate 18 TerrainType.Empty).set 5 TerrainType.TowerPlacement)

/-- The map left by `PlaceTower(5, 5)` on the fresh map when `ForkTower` is
selected and the fork-tower counter stands at 10: the cell is marked and the
registry holds `nil`. -/
def mapWithNilTower : GameMap :=
  { NewGameMap with terrain := terrainMarked55, towers := [none] }

/-- A run of `PlaceTower` calls with one selected kind over a list of cells,
threading the map and the fork-tower counter; the allocation addresses are
pairwise distinct. -/
def placeAll (selectedTower : TowerType) : List (Int × Int) → GameMap → Int →
    Except Fault (GameMap × Int)
  | [], m, forkTowerCount => .ok (m, forkTowerCount)
  | cell :: rest, m, forkTowerCount =>
    match m.PlaceTower selectedTower forkTowerCount rest.length cell.1 cell.2 with
    | .error e => .error e
    | .ok out => placeAll selectedTower rest out.gameMap out.forkTowerCount

/-- The dart tower that `PlaceTower(5, 5)` registers on the fresh map, at
address 1. -/
def dartTowerAt55 : Tower :=
  { addr := 1, position := ⟨5, 5⟩, towerType := TowerType.DartTower, damage := 1,
    attackRange := 112, fireRate := 1, cost := 0, lastShot := 0, level := 1,
    canFireDiagonal := true, health := 100, maxHealth := 100, damageState := 0,
    underAttack := 0 }

/-- The fresh map after `PlaceTower(5, 5)` with `DartTower` selected. -/
def mapWithDart : GameMap :=
  { NewGameMap with terrain := terrainMarked55, towers := [some dartTowerAt55] }

/-- A spider of wave 1 as `Game.Update` spawns it, at its entrance position. -/
def spawnedSpider : Enemy :=
  NewEnemyWithColor.fields 7 6 56 60 EnemyType.SpiderEnemy 1 EnemyType.SpiderEnemy

/-- The spider after its first `findPath` on `mapWithDart`: its path runs along
row 6 and is marked valid. -/
def walkingSpider : Enemy :=
  { spawnedSpider with
    path := [⟨1, 6⟩, ⟨2, 6⟩, ⟨3, 6⟩, ⟨4, 6⟩, ⟨5, 6⟩, ⟨6, 6⟩, ⟨7, 6⟩, ⟨8, 6⟩, ⟨9, 6⟩, ⟨10, 6⟩,
      ⟨11, 6⟩, ⟨12, 6⟩, ⟨13, 6⟩, ⟨14, 6⟩, ⟨15, 6⟩, ⟨16, 6⟩, ⟨17, 6⟩]
    pathIndex := 0
    pathInvalid := false }

/-- A game in play on `mapWithDart` with the walking spider alive. -/
def gameWithDart : Game :=
  { gameMap := mapWithDart, enemies := [some walkingSpider], score := 0, lives := 20,
    confirmingReset := false, money := 190, gameState := GameState.PlayState,
    spawnTimer := 0, spawnInterval := 120, currentWave := 0, enemiesInWave := 10,
    enemiesSpawned := 1, waveType := EnemyType.SpiderEnemy,
    selectedTower := TowerType.DartTower }

/-- The cells of a stored path. -/
def pathCells (path : List Point) : List Cell := path.map fun p => (p.X, p.Y)

/-- The points of a list of cells. -/
def cellPoints (cells : List Cell) : List Point := cells.map fun c => (⟨c.1, c.2⟩ : Point)

/-- The test of `findPath` for stepping into a cell, for the enemy `e`: the cell
is inside the grid and either not blocked or, for a flying enemy, east of the
column the search starts from. -/
def Enemy.CanEnter (e : Enemy) (m : GameMap) (c : Cell) : Prop :=
  m.InBounds c.1 c.2 ∧
    (m.IsBlocked c.1 c.2 = .ok false ∨ (e.canFly = true ∧ c.1 > (e.cell m).1))

/-- Some exit-band cell is reachable from the enemy's cell: a list of cells
entered one cardinal step at a time, each passing the test of `findPath`, ends
in the exit band (the empty list when the enemy stands in the band). -/
def Enemy.ExitReachable (e : Enemy) (m : GameMap) : Prop :=
  ∃ q : List Cell, List.Chain' Adjacent (e.cell m :: q) ∧ (∀ c ∈ q, e.CanEnter m c) ∧
    ∃ t, (e.cell m :: q).getLast? = some t ∧ m.IsExit t

/-- The fresh terrain with towers on `(16, 6)`, `(17, 5)` and `(17, 7)`, which
seal the exit cell. -/
def sealedTerrain : List (List TerrainType) :=
  ((NewGameMap.terrain.set 5
      ((List.replicate 18 TerrainType.Empty).set 17 TerrainType.TowerPlacement)).set 6
      ((List.replicate 18 TerrainType.Empty).set 16 TerrainType.TowerPlacement)).set 7
      ((List.replicate 18 TerrainType.Empty).set 17 TerrainType.TowerPlacement)

/-- A map whose exit cell is walled in; `PlaceTower` never produces it. -/
def sealedMap : GameMap := { NewGameMap with terrain := sealedTerrain }

/-- The row of waypoints from `(5, 6)` to the exit cell. -/
def rowFromFive : List Point :=
  [⟨5, 6⟩, ⟨6, 6⟩, ⟨7, 6⟩, ⟨8, 6⟩, ⟨9, 6⟩, ⟨10, 6⟩, ⟨11, 6⟩, ⟨12, 6⟩, ⟨13, 6⟩, ⟨14, 6⟩,
    ⟨15, 6⟩, ⟨16, 6⟩, ⟨17, 6⟩]

/-- A snake of wave 2 as `Game.Update` spawns it, later on its way along row 6:
one pixel short of the centre of cell `(5, 6)`, locked on the dart tower of
`(5, 5)` (address 1), with the attack cooldown at zero. -/
def lockedSnake : Enemy :=
  { NewEnemyWithColor.fields 8 6 56 60 EnemyType.SnakeEnemy 2 EnemyType.SnakeEnemy with
    x := 307, y := 424, path := rowFromFive, pathIndex := 0, pathInvalid := false,
    targetTower := some 1, lastAttack := 0 }

/-- The same state for a snake built by `NewEnemy`, which sets
`attackDuration`. -/
def lockedSnakeOfNewEnemy : Enemy :=
  { NewEnemy 8 6 56 60 EnemyType.SnakeEnemy 2 with
    x := 307, y := 424, path := rowFromFive, pathIndex := 0, pathInvalid := false,
    targetTower := some 1, lastAttack := 0 }

/-- An environment whose square root is exact on the two distances that occur
in the run below (1 and 56). -/
def attackEnv (enemies : List (Option Enemy)) : Env :=
  { sqrt := fun q => if q = 1 then 1 else if q = 3136 then 56 else 0
    randFloat := 0
    randInt := 0
    currentGame := some enemies }

/-- Binary digit-by-digit integer square root: with `bits` digits still to
decide and `r` the digits decided so far. -/
def isqrtBits (n : Nat) : Nat → Nat → Nat
  | 0, r => r
  | b + 1, r => if (r + 2 ^ b) * (r + 2 ^ b) ≤ n then isqrtBits n b (r + 2 ^ b) else isqrtBits n b r

/-- A computable square root for the worked examples: the square root rounded
down to a multiple of 1/100 (exact on squares of such multiples, for arguments
below `2 ^ 34`). -/
def sqrtHundredths (q : ℚ) : ℚ := ((isqrtBits (Rat.floor (q * 10000)).toNat 24 0 : Nat) : ℚ) / 100

/-- A tick without input: nothing pressed, the cursor at the origin, the
rounded square root, every draw 0, the clock at 0, and `99` and `100` the next
free addresses.  `atan2Deg` is not consulted by towers that fire diagonally. -/
def idleTick : Tick :=
  { mouseX := 0, mouseY := 0, leftPressed := false, rightPressed := false,
    sqrt := sqrtHundredths, atan2Deg := fun _ _ => 0, enemyRandFloat := fun _ => 0,
    enemyRandInt := fun _ => 0, canShootTime := fun _ => 0, shotTime := fun _ => 0,
    intervalDraw := 0, substituteDraw := 0, substituteIndex := 0, rowDraw := 0,
    towerAddr := 99, enemyAddr := 100 }

/-- The walking spider of wave 1 down to a tenth of a health point. -/
def woundedSpider : Enemy := { walkingSpider with health := 1 / 10 }

/-- A bullet of damage 1.1 (a bullet tower's) fired along row 6 from the centre
of cell `(3, 6)` at the entrance cell, after 24 steps of 8 pixels. -/
def arrivingBullet : Projectile :=
  { NewProjectile 196 424 0 424 ProjectileType.BulletProjectile (11 / 10) with x := 4 }

/-- A game in play on the fresh map with the wounded spider alive and the
bullet in flight. -/
def gameWithBullet : Game :=
  { NewGame with gameState := GameState.PlayState, enemies := [some woundedSpider],
                 projectiles := [arrivingBullet], spawnInterval := 120, enemiesSpawned := 1,
                 startButton := { newStartButton with text := "Reset" } }

/-- The grid position `Enemy.Update` computes for the enemy ("Calculate grid
position"): the column is taken half a cell to the left of the position. -/
def Enemy.gridCell (e : Enemy) (m : GameMap) : Int × Int :=
  (goInt ((e.x - ((Int.tdiv m.cellSize 2 : Int) : ℚ)) / (m.cellSize : ℚ)),
   goInt ((e.y - (m.uiHeight : ℚ)) / (m.cellSize : ℚ)))

/-- The enemy states reachable from a constructor by calls of `Update` on maps
of one cell size, with any environment; the writes other code makes to an
enemy between two calls (a projectile hit, `InvalidatePath`) are steps too.
The step `spawn` starts from the struct `NewEnemyWithColor` builds, for every
kind: this covers what the constructor returns (for `BlobEnemy` it returns
nothing). -/
inductive Enemy.ReachableBy (cellSize : Int) : Enemy → Prop where
  | spawn (addr : Nat) (startY uiHeight : Int) (enemyType : EnemyType) (level : Int)
      (colorSource : EnemyType) :
      Enemy.ReachableBy cellSize
        (NewEnemyWithColor.fields addr startY cellSize uiHeight enemyType level colorSource)
  | construct (addr : Nat) (startY uiHeight : Int) (enemyType : EnemyType) (level : Int) :
      Enemy.ReachableBy cellSize (NewEnemy addr startY cellSize uiHeight enemyType level)
  | update {e e1 : Enemy} {m m1 : GameMap} {env : Env} {reached : Bool} :
      Enemy.ReachableBy cellSize e → m.cellSize = cellSize →
      e.Update m env = .ok (e1, m1, reached) → Enemy.ReachableBy cellSize e1
  | strike {e : Enemy} (proj : Projectile) :
      Enemy.ReachableBy cellSize e → Enemy.ReachableBy cellSize (proj.strike e)
  | invalidate {e : Enemy} :
      Enemy.ReachableBy cellSize e → Enemy.ReachableBy cellSize e.InvalidatePath

/-- The enemies of a list (its non-`nil` entries) that hold the tower at
address `a` with an attack in progress. -/
def attackersOf (a : Nat) (enemies : List (Option Enemy)) : List Enemy :=
  (enemies.filterMap id).filter fun e =>
    decide (e.targetTower = some a ∧ e.currentAttackTime > 0)

/-- A game in which no enemy has a target: the entries of the enemy list are
distinct objects, none holds a tower, and no attack counter is negative. -/
structure Game.NoTargets (g : Game) : Prop where
  distinct : ((g.enemies.filterMap id).map Enemy.addr).Nodup
  noTarget : ∀ e, some e ∈ g.enemies → e.targetTower = none
  counter : ∀ e, some e ∈ g.enemies → 0 ≤ e.currentAttackTime

/-- The games (with the package counter `forkTowerCount`) reachable from a
start by calls of `Game.Update`; the enemy a call allocates is a new object,
so its address differs from those of the enemies in the list. -/
inductive Game.ReachableFrom (g0 : Game) (count0 : Int) : Game → Int → Prop where
  | start : Game.ReachableFrom g0 count0 g0 count0
  | tick {g g1 : Game} {count count1 : Int} (tick : Tick) :
      Game.ReachableFrom g0 count0 g count →
      (∀ e, some e ∈ g.enemies → e.addr ≠ tick.enemyAddr) →
      g.Update count tick = .ok (g1, count1) → Game.ReachableFrom g0 count0 g1 count1

/-- An environment with the rounded square root, both draws 0, and the given
enemy list as that of `currentGame`. -/
def roundedEnv (enemies : List (Option Enemy)) : Env :=
  { sqrt := sqrtHundredths, randFloat := 0, randInt := 0, currentGame := some enemies }

/-- A ghoul of wave 4 built by `NewEnemy` on its way along row 6: at the centre
of cell `(5, 6)`, heading for `(6, 6)`, five frames into an attack on the dart
tower of `(5, 5)` (address 1), which is 56 pixels away, within its range 84. -/
def attackingGhoul : Enemy :=
  { NewEnemy 9 6 56 60 EnemyType.GhoulEnemy 4 with
    x := 308, y := 424, path := rowFromFive, pathIndex := 1, pathInvalid := false,
    targetTower := some 1, lastAttack := 10, currentAttackTime := 5 }

/-- The walking spider with health -1, as a bullet hit leaves it, half a pixel
short of the centre of the exit cell `(17, 6)`, its last waypoint. -/
def deadSpiderAtExit : Enemy :=
  { walkingSpider with x := 979 + 1 / 2, pathIndex := 16, health := -1 }

/-- A game in play on the fresh map with that spider as the only enemy. -/
def gameWithDeadSpider : Game :=
  { NewGame with gameState := GameState.PlayState, enemies := [some deadSpiderAtExit],
                 spawnInterval := 120, enemiesSpawned := 1,
                 startButton := { newStartButton with text := "Reset" } }

/-- The distance from the enemy to the centre of a tower's cell, as the attack
block of `Enemy.Update` computes it. -/
def Enemy.distanceToTower (e : Enemy) (m : GameMap) (sqrt : ℚ → ℚ) (tower : Tower) : ℚ :=
  sqrt (((m.cellCentre tower.position.X tower.position.Y).1 - e.x) *
      ((m.cellCentre tower.position.X tower.position.Y).1 - e.x) +
    ((m.cellCentre tower.position.X tower.position.Y).2 - e.y) *
      ((m.cellCentre tower.position.X tower.position.Y).2 - e.y))

/-- The addresses of the enemies of a list (its non-`nil` entries), in order. -/
def enemyAddrs (enemies : List (Option Enemy)) : List Nat :=
  (enemies.filterMap id).map Enemy.addr

/-- What the attack coordination reads of an enemy: its address, its target and
its attack counter. -/
def lockKey (e : Enemy) : Nat × Option Nat × Int :=
  (e.addr, e.targetTower, e.currentAttackTime)

/-- The attack locks of an enemy list are consistent: the entries are distinct
objects, no attack counter is negative, an enemy that holds a target has a
positive counter, and two entries that hold the same tower are the same
object. -/
structure AttackLocks (enemies : List (Option Enemy)) : Prop where
  distinct : (enemyAddrs enemies).Nodup
  counter : ∀ e, some e ∈ enemies →
    0 ≤ e.currentAttackTime ∧ (e.targetTower ≠ none → 0 < e.currentAttackTime)
  exclusive : ∀ x y a, some x ∈ enemies → some y ∈ enemies →
    x.targetTower = some a → y.targetTower = some a → x.addr = y.addr

/-- What the enemy pass pays for a dead enemy. -/
def rewardOf (e : Enemy) : Int :=
  if e.enemyType = EnemyType.BlobEnemy then 2 * e.level * 5 else 2 * e.level

/-- The wave counters of a game: wave index, planned and spawned enemies, wave
type, spawn timer and spawn interval. -/
def Game.waveCounters (g : Game) : Int × Int × Int × EnemyType × Int × Int :=
  (g.currentWave, g.enemiesInWave, g.enemiesSpawned, g.waveType, g.spawnTimer, g.spawnInterval)

/-- A game in play at the start of the first boss wave (wave index 10), one
frame before its spawn is due. -/
def bossWaveGame : Game :=
  { NewGame with gameState := GameState.PlayState, currentWave := 10,
                 waveType := EnemyType.BlobEnemy, enemiesInWave := 1, enemiesSpawned := 0,
                 spawnTimer := 59, spawnInterval := 60,
                 startButton := { newStartButton with text := "Reset" } }

/-- The walking spider at distance 0.9, its speed, from its first waypoint, the
centre `(84, 424)` of cell `(1, 6)`. -/
def spiderAtSpeedDistance : Enemy := { walkingSpider with x := 84 - 9 / 10 }

/-- The game on `mapWithDart`, 37 frames into the spawn timer, after a first
press of the start button in Play: the reset awaits confirmation. -/
def gameAwaitingReset : Game :=
  { gameWithDart with confirmingReset := true, spawnTimer := 37,
                      startButton := { newStartButton with text := "Sure?" } }

/-- A tick whose only input is a left click on the start button. -/
def startClick : Tick := { idleTick with leftPressed := true, mouseX := 30, mouseY := 20 }

/-- A spider standing at the centre of cell `(3, 6)` with no path yet. -/
def spiderInPocket : Enemy := { spawnedSpider with x := 196 }

/-- The terrain of the fresh map with towers marked on the given cells. -/
def terrainMarked (cells : List (Nat × Nat)) : List (List TerrainType) :=
  cells.foldl (fun terrain c =>
    terrain.set c.2 ((terrain.getD c.2 []).set c.1 TerrainType.TowerPlacement)) NewGameMap.terrain

/-- The dart tower `PlaceTower` registers at address `addr` on cell `(x, y)`. -/
def dartTowerAt (addr : Nat) (x y : Int) : Tower :=
  { dartTowerAt55 with addr := addr, position := ⟨x, y⟩ }

/-- The fresh map after dart towers were placed on `(3, 5)`, `(3, 7)` and
`(4, 6)`: cell `(3, 6)` is left open to the west only. -/
def mapWithNiche : GameMap :=
  { NewGameMap with
    terrain := terrainMarked [(3, 5), (3, 7), (4, 6)]
    towers := [some (dartTowerAt 2 3 5), some (dartTowerAt 1 3 7), some (dartTowerAt 0 4 6)] }

/-- That map after a fourth dart tower was placed on `(2, 6)`: cell `(3, 6)` is
walled in. -/
def mapWithPocket : GameMap :=
  { NewGameMap with
    terrain := terrainMarked [(3, 5), (3, 7), (4, 6), (2, 6)]
    towers := [some (dartTowerAt 2 3 5), some (dartTowerAt 1 3 7), some (dartTowerAt 0 4 6),
      some (dartTowerAt 3 2 6)] }

/-- The distance from the enemy to the centre of a waypoint's cell, as the
movement block of `Enemy.Update` computes it. -/
def Enemy.waypointDistance (e : Enemy) (m : GameMap) (sqrt : ℚ → ℚ) (waypoint : Point) : ℚ :=
  sqrt (((m.cellCentre waypoint.X waypoint.Y).1 - e.x) *
      ((m.cellCentre waypoint.X waypoint.Y).1 - e.x) +
    ((m.cellCentre waypoint.X waypoint.Y).2 - e.y) *
      ((m.cellCentre waypoint.X waypoint.Y).2 - e.y))

/-- The walking spider half a pixel short of the centre of the exit cell
`(17, 6)`, its last waypoint. -/
def spiderAtExit : Enemy :=
  { walkingSpider with x := 979 + 1 / 2, pathIndex := 16 }

/-- A game in play on the fresh map with one life left and that spider as the
only enemy. -/
def gameAtLastLife : Game :=
  { NewGame with gameState := GameState.PlayState, enemies := [some spiderAtExit], lives := 1,
                 spawnInterval := 120, enemiesSpawned := 1,
                 startButton := { newStartButton with text := "Reset" } }

/-- The wave counters are consistent: wave index and spawn count are not
negative, no more enemies are spawned than planned, and a boss wave plans one
enemy. -/
def Game.WaveInv (g : Game) : Prop :=
  0 ≤ g.currentWave ∧ 0 ≤ g.enemiesSpawned ∧ g.enemiesSpawned ≤ g.enemiesInWave ∧
  (g.waveType = EnemyType.BlobEnemy → g.enemiesInWave = 1)

/-- A game in play on the fresh map at the end of wave 0: all ten enemies are
spawned and none is left. -/
def gameAtWaveEnd : Game :=
  { NewGame with gameState := GameState.PlayState, enemiesSpawned := 10,
                 startButton := { newStartButton with text := "Reset" } }

/-- A game in play on the fresh map at the end of wave 9 (a snake wave of 28
enemies): all are spawned and none is left. -/
def gameBeforeBossWave : Game :=
  { NewGame with gameState := GameState.PlayState, currentWave := 9,
                 waveType := EnemyType.SnakeEnemy, enemiesInWave := 28, enemiesSpawned := 28,
                 spawnInterval := 120,
                 startButton := { newStartButton with text := "Reset" } }

/-- The game `gameAtLastLife` after the tick in which the spider arrives: no
enemy, no life, phase `GameOverState`. -/
def gameOverAfterArrival : Game :=
  { gameAtLastLife with
    gameMap := { NewGameMap with enemies := [some spiderAtExit] }
    enemies := []
    lives := 0
    spawnTimer := 1
    gameState := GameState.GameOverState }

/-! # Lemmas and theorems -/

/-! ## Checked indexing -/

theorem idx_eq_ok_iff {α : Type} (l : List α) (i : Int) (a : α) :
    idx l i = .ok a ↔ 0 ≤ i ∧ l[i.toNat]? = some a := by
  unfold idx
  by_cases h : i < 0
  · simp [h]
  · simp only [h, if_false, List.get?_eq_getElem?]
    cases hg : l[i.toNat]? with
    | none => simp; 
    | some b =>
      simp
      intro _
      omega

theorem idx_ok_of_lt {α : Type} (l : List α) (i : Int) (h0 : 0 ≤ i) (h1 : i.toNat < l.length) :
    idx l i = .ok (l.get ⟨i.toNat, h1⟩) := by
  rw [idx_eq_ok_iff]
  refine ⟨h0, ?_⟩
  simp [List.getElem?_eq_getElem h1]

theorem idx_error_of_ge {α : Type} (l : List α) (i : Int) (h : i < 0 ∨ l.length ≤ i.toNat) :
    idx l i = .error .indexOutOfRange := by
  unfold idx
  by_cases h0 : i < 0
  · simp [h0]
  · have h1 : l.length ≤ i.toNat := by
      rcases h with h | h
      · exact absurd h h0
      · exact h
    simp [h0, List.getElem?_eq_none h1]

theorem setIdx_eq_ok_iff {α : Type} (l l1 : List α) (i : Int) (v : α) :
    setIdx l i v = .ok l1 ↔ 0 ≤ i ∧ i.toNat < l.length ∧ l1 = l.set i.toNat v := by
  unfold setIdx
  by_cases h : i < 0
  · simp [h]
  · by_cases h1 : i.toNat < l.length
    · simp [h, h1]
      constructor
      · intro e
        exact ⟨by omega, e.symm⟩
      · intro e
        exact e.2.symm
    · simp [h, h1]

theorem idx_setIdx_self {α : Type} {l l1 : List α} {i : Int} {v : α}
    (h : setIdx l i v = .ok l1) : idx l1 i = .ok v := by
  rw [setIdx_eq_ok_iff] at h
  obtain ⟨h0, h1, rfl⟩ := h
  rw [idx_eq_ok_iff]
  refine ⟨h0, ?_⟩
  simp [List.getElem?_set, h1]

theorem idx_setIdx_ne {α : Type} {l l1 : List α} {i j : Int} {v : α}
    (h : setIdx l i v = .ok l1) (hij : j ≠ i) : idx l1 j = idx l j := by
  rw [setIdx_eq_ok_iff] at h
  obtain ⟨h0, h1, rfl⟩ := h
  unfold idx
  by_cases hj : j < 0
  · simp [hj]
  · have hne : i.toNat ≠ j.toNat := by omega
    simp [hj, List.getElem?_set, hne]

theorem length_of_setIdx {α : Type} {l l1 : List α} {i : Int} {v : α}
    (h : setIdx l i v = .ok l1) : l1.length = l.length := by
  rw [setIdx_eq_ok_iff] at h
  obtain ⟨_, _, rfl⟩ := h
  simp

theorem setIdx_ok_of_lt {α : Type} (l : List α) (i : Int) (v : α) (h0 : 0 ≤ i)
    (h1 : i.toNat < l.length) : setIdx l i v = .ok (l.set i.toNat v) := by
  rw [setIdx_eq_ok_iff]
  exact ⟨h0, h1, rfl⟩

/-! ## Matrices -/

theorem set_self_of_getElem? {α : Type} {l : List α} {i : Nat} {a : α} (h : l[i]? = some a) :
    l.set i a = l := by
  apply List.ext_getElem?
  intro j
  rw [List.getElem?_set]
  by_cases h1 : i = j
  · subst h1
    obtain ⟨hl, _⟩ := List.getElem?_eq_some_iff.1 h
    simp [hl, h]
  · simp [h1]

theorem getCell_ok_of_grid {α : Type} {t : List (List α)} {w h x y : Int} (hg : IsGrid t w h)
    (hx0 : 0 ≤ x) (hx1 : x < w) (hy0 : 0 ≤ y) (hy1 : y < h) : ∃ a, getCell t x y = .ok a := by
  obtain ⟨_, _, hlen, hrow⟩ := hg
  have hy : y.toNat < t.length := by omega
  have hr := hrow (t.get ⟨y.toNat, hy⟩) (List.get_mem _ _ _)
  have hxl : x.toNat < (t.get ⟨y.toNat, hy⟩).length := by omega
  refine ⟨(t.get ⟨y.toNat, hy⟩).get ⟨x.toNat, hxl⟩, ?_⟩
  unfold getCell
  rw [idx_ok_of_lt t y hy0 hy]
  exact idx_ok_of_lt _ x hx0 hxl

theorem setCell_spec {α : Type} {t : List (List α)} {w h x y : Int} (v : α) (hg : IsGrid t w h)
    (hx0 : 0 ≤ x) (hx1 : x < w) (hy0 : 0 ≤ y) (hy1 : y < h) :
    ∃ t1, setCell t x y v = .ok t1 ∧ IsGrid t1 w h ∧ getCell t1 x y = .ok v ∧
      ∀ x1 y1, (x1, y1) ≠ (x, y) → getCell t1 x1 y1 = getCell t x1 y1 := by
  obtain ⟨hw, hh, hlen, hrow⟩ := hg
  have hy : y.toNat < t.length := by omega
  have hr := hrow (t.get ⟨y.toNat, hy⟩) (List.get_mem _ _ _)
  have hxl : x.toNat < (t.get ⟨y.toNat, hy⟩).length := by omega
  have e1 : idx t y = .ok (t.get ⟨y.toNat, hy⟩) := idx_ok_of_lt t y hy0 hy
  have e2 := setIdx_ok_of_lt (t.get ⟨y.toNat, hy⟩) x v hx0 hxl
  have e3 := setIdx_ok_of_lt t y ((t.get ⟨y.toNat, hy⟩).set x.toNat v) hy0 hy
  refine ⟨t.set y.toNat ((t.get ⟨y.toNat, hy⟩).set x.toNat v), ?_, ?_, ?_, ?_⟩
  · unfold setCell
    rw [e1]
    simp only [e2, e3]
  · refine ⟨hw, hh, by simp [hlen], ?_⟩
    intro row hmem
    rcases List.mem_or_eq_of_mem_set hmem with hm | hm
    · exact hrow row hm
    · rw [hm, List.length_set]
      exact hr
  · unfold getCell
    rw [idx_setIdx_self e3]
    exact idx_setIdx_self e2
  · intro x1 y1 hne
    unfold getCell
    by_cases hy1e : y1 = y
    · subst hy1e
      have hx1e : x1 ≠ x := fun hx => hne (by rw [hx])
      rw [idx_setIdx_self e3, e1]
      exact idx_setIdx_ne e2 hx1e
    · rw [idx_setIdx_ne e3 hy1e]

theorem setCell_restore {α : Type} {t t1 : List (List α)} {x y : Int} {a v : α}
    (hget : getCell t x y = .ok a) (hset : setCell t x y v = .ok t1) :
    setCell t1 x y a = .ok t := by
  unfold getCell at hget
  unfold setCell at hset
  cases hrow : idx t y with
  | error e => rw [hrow] at hget; simp at hget
  | ok row =>
    rw [hrow] at hget hset
    simp only at hget hset
    cases hrow1 : setIdx row x v with
    | error e => rw [hrow1] at hset; simp at hset
    | ok row1 =>
      rw [hrow1] at hset
      simp only at hset
      have h1 := (setIdx_eq_ok_iff _ _ _ _).1 hrow1
      have h2 := (setIdx_eq_ok_iff _ _ _ _).1 hset
      have h3 := (idx_eq_ok_iff _ _ _).1 hrow
      have h4 := (idx_eq_ok_iff _ _ _).1 hget
      obtain ⟨hx0, hxl, rfl⟩ := h1
      obtain ⟨hy0, hyl, rfl⟩ := h2
      unfold setCell
      rw [idx_setIdx_self hset]
      have e5 : setIdx (row.set x.toNat v) x a = .ok row := by
        rw [setIdx_eq_ok_iff]
        refine ⟨hx0, by simpa using hxl, ?_⟩
        rw [List.set_set]
        exact (set_self_of_getElem? h4.2).symm
      simp only [e5]
      rw [setIdx_eq_ok_iff]
      refine ⟨hy0, by simpa using hyl, ?_⟩
      rw [List.set_set]
      exact (set_self_of_getElem? h3.2).symm

theorem makeGrid_spec {α : Type} {w h : Int} (z : α) (hw : 0 ≤ w) (hh : 0 ≤ h) :
    ∃ g, makeGrid h w z = .ok g ∧ IsGrid g w h ∧
      ∀ x y a, getCell g x y = .ok a → a = z := by
  refine ⟨List.replicate h.toNat (List.replicate w.toNat z), ?_, ?_, ?_⟩
  · unfold makeGrid
    have h1 : ¬ h < 0 := by omega
    have h2 : ¬ (0 < h ∧ w < 0) := by omega
    simp [h1, h2]
  · refine ⟨hw, hh, by simp, ?_⟩
    intro row hmem
    rw [List.eq_of_mem_replicate hmem]
    simp
  · intro x y a hget
    unfold getCell at hget
    cases hrow : idx (List.replicate h.toNat (List.replicate w.toNat z)) y with
    | error e => rw [hrow] at hget; simp at hget
    | ok row =>
      rw [hrow] at hget
      simp only at hget
      have h3 := (idx_eq_ok_iff _ _ _).1 hrow
      have h4 := (idx_eq_ok_iff _ _ _).1 hget
      have hr : row = List.replicate w.toNat z := by
        have := List.getElem?_mem h3.2
        exact List.eq_of_mem_replicate this
      rw [hr] at h4
      have := List.getElem?_mem h4.2
      exact List.eq_of_mem_replicate this

theorem getCell_bounds {α : Type} {t : List (List α)} {w h x y : Int} {a : α}
    (hg : IsGrid t w h) (hget : getCell t x y = .ok a) :
    0 ≤ x ∧ x < w ∧ 0 ≤ y ∧ y < h := by
  obtain ⟨hw, hh, hlen, hrow⟩ := hg
  unfold getCell at hget
  cases hr : idx t y with
  | error e => rw [hr] at hget; simp at hget
  | ok row =>
    rw [hr] at hget
    simp only at hget
    have h3 := (idx_eq_ok_iff _ _ _).1 hr
    have h4 := (idx_eq_ok_iff _ _ _).1 hget
    have hm := List.getElem?_mem h3.2
    have hl := hrow row hm
    obtain ⟨i1, hi1⟩ := List.getElem?_eq_some_iff.1 h3.2
    obtain ⟨i2, hi2⟩ := List.getElem?_eq_some_iff.1 h4.2
    omega

/-! ## Abstract search: one expansion -/

theorem Search.expand_spec (adm : Cell → Bool) (cur : Cell) (ds : List (Int × Int)) :
    ∀ s : Search, ∃ news : List Cell,
      (Search.expand adm cur ds s).queue = s.queue ++ news ∧
      news.Nodup ∧
      (∀ c ∈ news, s.seen c = false ∧ adm c = true ∧ ∃ d ∈ ds, c = shift cur d) ∧
      (∀ c, (Search.expand adm cur ds s).seen c = (s.seen c || decide (c ∈ news))) ∧
      (∀ c, (Search.expand adm cur ds s).parent c = if c ∈ news then cur else s.parent c) ∧
      (∀ d ∈ ds, adm (shift cur d) = true →
        (Search.expand adm cur ds s).seen (shift cur d) = true) := by
  induction ds with
  | nil =>
    intro s
    exact ⟨[], by simp [Search.expand], List.nodup_nil, by simp, by simp [Search.expand],
      by simp [Search.expand], by simp⟩
  | cons d ds ih =>
    intro s
    by_cases hc : (adm (shift cur d) && !s.seen (shift cur d)) = true
    · obtain ⟨news, hq, hnd, hnew, hseen, hpar, hall⟩ := ih
        { queue := s.queue ++ [shift cur d]
          seen := Function.update s.seen (shift cur d) true
          parent := Function.update s.parent (shift cur d) cur }
      have hadm : adm (shift cur d) = true := by
        simp only [Bool.and_eq_true] at hc
        exact hc.1
      have hunseen : s.seen (shift cur d) = false := by
        simp only [Bool.and_eq_true, Bool.not_eq_true'] at hc
        exact hc.2
      have hnotin : shift cur d ∉ news := by
        intro hm
        have := (hnew _ hm).1
        simp [Function.update] at this
      refine ⟨shift cur d :: news, ?_, ?_, ?_, ?_, ?_, ?_⟩
      · simp only [Search.expand, hc, if_true]
        rw [hq]
        simp
      · exact List.nodup_cons.2 ⟨hnotin, hnd⟩
      · intro c hcm
        rcases List.mem_cons.1 hcm with rfl | hcm
        · exact ⟨hunseen, hadm, d, List.mem_cons_self _ _, rfl⟩
        · obtain ⟨h1, h2, d1, hd1, h3⟩ := hnew c hcm
          refine ⟨?_, h2, d1, List.mem_cons_of_mem _ hd1, h3⟩
          by_cases hce : c = shift cur d
          · rw [hce]; exact hunseen
          · simpa [Function.update, hce] using h1
      · intro c
        simp only [Search.expand, hc, if_true]
        rw [hseen c]
        by_cases hce : c = shift cur d
        · subst hce
          simp [Function.update]
        · simp [Function.update, hce]
      · intro c
        simp only [Search.expand, hc, if_true]
        rw [hpar c]
        by_cases hce : c = shift cur d
        · subst hce
          simp [Function.update, hnotin]
        · simp [Function.update, hce]
      · intro d1 hd1 hadm1
        simp only [Search.expand, hc, if_true]
        rcases List.mem_cons.1 hd1 with rfl | hd1
        · rw [hseen]
          simp [Function.update]
        · exact hall d1 hd1 hadm1
    · obtain ⟨news, hq, hnd, hnew, hseen, hpar, hall⟩ := ih s
      have hc1 : (adm (shift cur d) && !s.seen (shift cur d)) = false := by
        simpa using hc
      refine ⟨news, ?_, hnd, ?_, ?_, ?_, ?_⟩
      · simp only [Search.expand, hc1, Bool.false_eq_true, if_false]
        exact hq
      · intro c hcm
        obtain ⟨h1, h2, d1, hd1, h3⟩ := hnew c hcm
        exact ⟨h1, h2, d1, List.mem_cons_of_mem _ hd1, h3⟩
      · intro c
        simp only [Search.expand, hc1, Bool.false_eq_true, if_false]
        exact hseen c
      · intro c
        simp only [Search.expand, hc1, Bool.false_eq_true, if_false]
        exact hpar c
      · intro d1 hd1 hadm1
        simp only [Search.expand, hc1, Bool.false_eq_true, if_false]
        rcases List.mem_cons.1 hd1 with rfl | hd1
        · rw [hseen]
          have : s.seen (shift cur d1) = true := by
            rw [hadm1] at hc1
            simpa using hc1
          simp [this]
        · exact hall d1 hd1 hadm1

/-! ## Abstract search: the invariant is kept by an iteration -/

theorem SearchInv.step {adm goal : Cell → Bool} {dirs : List (Int × Int)} {src : List Cell}
    {s : Search} {lvl : Cell → Nat} {k : Nat} {cur : Cell} {rest : List Cell}
    (inv : SearchInv adm goal dirs src s lvl k) (hq : s.queue = cur :: rest)
    (hgoal : goal cur = false) :
    ∃ lvl1, SearchInv adm goal dirs src
      (Search.expand adm cur dirs { s with queue := rest }) lvl1 (k + 1) := by
  obtain ⟨news, eq, hnd, hnew, hseen, hpar, hall⟩ :=
    Search.expand_spec adm cur dirs { s with queue := rest }
  simp only at eq hnew hseen hpar
  have hcurseen : s.seen cur = true := inv.queue_seen cur (by rw [hq]; exact List.mem_cons_self _ _)
  have hrestseen : ∀ c ∈ rest, s.seen c = true := fun c hc =>
    inv.queue_seen c (by rw [hq]; exact List.mem_cons_of_mem _ hc)
  have hnotnew : ∀ c, s.seen c = true → c ∉ news := by
    intro c hc hm
    rw [(hnew c hm).1] at hc
    exact Bool.false_ne_true hc
  have hnodup := inv.queue_nodup
  have hsorted := inv.queue_sorted
  rw [hq] at hnodup hsorted
  have hnear : ∀ c, s.seen c = true → lvl c ≤ lvl cur + 1 := fun c hc =>
    inv.near c hc cur (by rw [hq]; simp)
  obtain ⟨lvl1, hl⟩ : ∃ lvl1 : Cell → Nat,
      ∀ c, lvl1 c = if c ∈ news then lvl cur + 1 else lvl c := ⟨_, fun _ => rfl⟩
  refine ⟨lvl1, ?_⟩
  have hlvl_old : ∀ c, s.seen c = true → lvl1 c = lvl c := by
    intro c hc
    rw [hl]
    simp [hnotnew c hc]
  have hlvl_new : ∀ c, c ∈ news → lvl1 c = lvl cur + 1 := by
    intro c hc
    rw [hl]
    simp [hc]
  have hmono : ∀ c, s.seen c = true →
      (Search.expand adm cur dirs { s with queue := rest }).seen c = true := by
    intro c hc
    rw [hseen, hc]
    rfl
  have hsplit : ∀ c, (Search.expand adm cur dirs { s with queue := rest }).seen c = true →
      s.seen c = true ∨ c ∈ news := by
    intro c hc
    rw [hseen] at hc
    rcases Bool.or_eq_true _ _ ▸ hc with h | h
    · exact Or.inl h
    · exact Or.inr (of_decide_eq_true h)
  constructor
  · -- src_seen
    intro c hc
    obtain ⟨h1, h2⟩ := inv.src_seen c hc
    exact ⟨hmono c h1, by rw [hlvl_old c h1]; exact h2⟩
  · -- tree
    intro c hc hsrc
    rw [hpar]
    rcases hsplit c hc with hold | hnw
    · have hn := hnotnew c hold
      obtain ⟨h1, h2, h3⟩ := inv.tree c hold hsrc
      simp only [hn, if_false]
      refine ⟨hmono _ h1, ?_, h3⟩
      rw [hlvl_old c hold, hlvl_old _ h1]
      exact h2
    · simp only [hnw, if_true]
      refine ⟨hmono _ hcurseen, ?_, (hnew c hnw).2.1, (hnew c hnw).2.2⟩
      rw [hlvl_new c hnw, hlvl_old _ hcurseen]
  · -- queue_seen
    intro c hc
    rw [eq] at hc
    rcases List.mem_append.1 hc with h | h
    · exact hmono c (hrestseen c h)
    · rw [hseen]
      simp [h]
  · -- queue_nodup
    rw [eq]
    refine List.nodup_append.2 ⟨(List.nodup_cons.1 hnodup).2, hnd, ?_⟩
    intro c h1 h2
    exact hnotnew c (hrestseen c h1) h2
  · -- queue_sorted
    rw [eq]
    refine List.pairwise_append.2 ⟨?_, ?_, ?_⟩
    · refine (List.pairwise_cons.1 hsorted).2.imp_of_mem ?_
      intro a b ha hb hab
      rw [hlvl_old a (hrestseen a ha), hlvl_old b (hrestseen b hb)]
      exact hab
    · refine List.Pairwise.imp_of_mem ?_ (List.pairwise_of_forall (R := fun _ _ => True) (fun _ _ => trivial))
      intro a b ha hb _
      rw [hlvl_new a ha, hlvl_new b hb]
    · intro a ha b hb
      rw [hlvl_old a (hrestseen a ha), hlvl_new b hb]
      exact hnear a (hrestseen a ha)
  · -- near
    intro c hc hd hhd
    rw [eq] at hhd
    have h1 : lvl1 c ≤ lvl cur + 1 := by
      rcases hsplit c hc with hold | hnw
      · rw [hlvl_old c hold]; exact hnear c hold
      · rw [hlvl_new c hnw]
    have hmem : hd ∈ rest ++ news := List.mem_of_mem_head? hhd
    have h2 : lvl cur ≤ lvl1 hd := by
      rcases List.mem_append.1 hmem with h | h
      · rw [hlvl_old hd (hrestseen hd h)]
        exact (List.pairwise_cons.1 hsorted).1 hd h
      · rw [hlvl_new hd h]
        exact Nat.le_succ _
    exact le_trans h1 (Nat.succ_le_succ h2)
  · -- closed
    intro u hu hnq
    rw [eq] at hnq
    have hur : u ∉ rest := fun h => hnq (List.mem_append_left _ h)
    have hun : u ∉ news := fun h => hnq (List.mem_append_right _ h)
    have huold : s.seen u = true := by
      rcases hsplit u hu with h | h
      · exact h
      · exact absurd h hun
    by_cases huc : u = cur
    · subst huc
      refine ⟨hgoal, ?_⟩
      intro d hd hadm
      refine ⟨hall d hd hadm, ?_⟩
      rw [hlvl_old u huold]
      rcases hsplit _ (hall d hd hadm) with h | h
      · rw [hlvl_old _ h]; exact hnear _ h
      · rw [hlvl_new _ h]
    · have hnq0 : u ∉ s.queue := by
        rw [hq]
        intro h
        rcases List.mem_cons.1 h with h | h
        · exact huc h
        · exact hur h
      obtain ⟨h1, h2⟩ := inv.closed u huold hnq0
      refine ⟨h1, ?_⟩
      intro d hd hadm
      obtain ⟨h3, h4⟩ := h2 d hd hadm
      refine ⟨hmono _ h3, ?_⟩
      rw [hlvl_old _ h3, hlvl_old u huold]
      exact h4
  · -- depth
    intro c hc
    rcases hsplit c hc with hold | hnw
    · rw [hlvl_old c hold]
      exact Nat.le_succ_of_le (inv.depth c hold)
    · rw [hlvl_new c hnw]
      exact Nat.succ_le_succ (inv.depth cur hcurseen)

/-! ## Abstract search: what the loop returns -/

theorem Search.run_inv {adm goal : Cell → Bool} {dirs : List (Int × Int)} {src : List Cell} :
    ∀ (fuel : Nat) (s : Search) (lvl : Cell → Nat) (k : Nat) (r : Option Cell) (s1 : Search),
      SearchInv adm goal dirs src s lvl k →
      Search.run adm goal dirs fuel s = some (r, s1) →
      ∃ lvl1 k1, SearchInv adm goal dirs src s1 lvl1 k1 ∧ k1 < k + fuel ∧
        ((∃ e, r = some e ∧ s1.queue.head? = some e ∧ goal e = true) ∨
         (r = none ∧ s1.queue = [])) := by
  intro fuel
  induction fuel with
  | zero =>
    intro s lvl k r s1 _ h
    simp [Search.run] at h
  | succ fuel ih =>
    intro s lvl k r s1 inv h
    cases hq : s.queue with
    | nil =>
      simp only [Search.run, hq] at h
      injection h with h
      injection h with h1 h2
      subst h1 h2
      exact ⟨lvl, k, inv, by omega, Or.inr ⟨rfl, hq⟩⟩
    | cons cur rest =>
      simp only [Search.run, hq] at h
      by_cases hg : goal cur = true
      · simp only [hg, if_true] at h
        injection h with h
        injection h with h1 h2
        subst h1 h2
        exact ⟨lvl, k, inv, by omega, Or.inl ⟨cur, rfl, by simp [hq], hg⟩⟩
      · have hg1 : goal cur = false := by simpa using hg
        simp only [hg1, Bool.false_eq_true, if_false] at h
        obtain ⟨lvl1, inv1⟩ := inv.step hq hg1
        obtain ⟨lvl2, k2, inv2, hk, hres⟩ := ih _ lvl1 (k + 1) r s1 inv1 h
        exact ⟨lvl2, k2, inv2, by omega, hres⟩

theorem SearchInv.walk_of_seen {adm goal : Cell → Bool} {dirs : List (Int × Int)}
    {src : List Cell} {s : Search} {lvl : Cell → Nat} {k : Nat}
    (inv : SearchInv adm goal dirs src s lvl k) :
    ∀ (n : Nat) (c : Cell), s.seen c = true → lvl c = n →
      ∃ a ∈ src, Walk adm dirs a n c := by
  intro n
  induction n with
  | zero =>
    intro c hc hl
    by_cases hs : c ∈ src
    · exact ⟨c, hs, Walk.here⟩
    · obtain ⟨_, h2, _⟩ := inv.tree c hc hs
      omega
  | succ n ih =>
    intro c hc hl
    by_cases hs : c ∈ src
    · have := (inv.src_seen c hs).2
      omega
    · obtain ⟨h1, h2, h3⟩ := inv.tree c hc hs
      obtain ⟨a, ha, hw⟩ := ih (s.parent c) h1 (by omega)
      exact ⟨a, ha, Walk.snoc hw h3⟩

theorem SearchInv.walk_bound {adm goal : Cell → Bool} {dirs : List (Int × Int)}
    {src : List Cell} {s : Search} {lvl : Cell → Nat} {k : Nat}
    (inv : SearchInv adm goal dirs src s lvl k) {n : Nat} {a w : Cell}
    (ha : a ∈ src) (hw : Walk adm dirs a n w) :
    (s.seen w = true ∧ lvl w ≤ n) ∨ (∃ hd, s.queue.head? = some hd ∧ lvl hd ≤ n) := by
  induction hw with
  | here =>
    obtain ⟨h1, h2⟩ := inv.src_seen a ha
    exact Or.inl ⟨h1, by omega⟩
  | snoc hw hstep ih =>
    rename_i i b c
    rcases ih with ⟨hb, hlb⟩ | ⟨hd, hhd, hl⟩
    · by_cases hbq : b ∈ s.queue
      · right
        cases hq : s.queue with
        | nil => rw [hq] at hbq; simp at hbq
        | cons hd tl =>
          refine ⟨hd, by simp, ?_⟩
          rw [hq] at hbq
          have hs := inv.queue_sorted
          rw [hq] at hs
          rcases List.mem_cons.1 hbq with h | h
          · subst h; omega
          · have := (List.pairwise_cons.1 hs).1 b h
            omega
      · left
        obtain ⟨hadm, d, hd, hc⟩ := hstep
        obtain ⟨_, h2⟩ := inv.closed b hb hbq
        subst hc
        obtain ⟨h3, h4⟩ := h2 d hd hadm
        exact ⟨h3, by omega⟩
    · exact Or.inr ⟨hd, hhd, by omega⟩

theorem SearchInv.found_minimal {adm goal : Cell → Bool} {dirs : List (Int × Int)}
    {src : List Cell} {s : Search} {lvl : Cell → Nat} {k : Nat}
    (inv : SearchInv adm goal dirs src s lvl k) {e : Cell} (he : s.queue.head? = some e)
    {n : Nat} {a x : Cell} (ha : a ∈ src) (hw : Walk adm dirs a n x) (hx : goal x = true) :
    lvl e ≤ n := by
  rcases inv.walk_bound ha hw with ⟨hs, hl⟩ | ⟨hd, hhd, hl⟩
  · by_cases hxq : x ∈ s.queue
    · cases hq : s.queue with
      | nil => rw [hq] at hxq; simp at hxq
      | cons hd tl =>
        rw [hq] at he hxq
        simp only [List.head?_cons, Option.some.injEq] at he
        subst he
        have hso := inv.queue_sorted
        rw [hq] at hso
        rcases List.mem_cons.1 hxq with h | h
        · subst h; exact hl
        · have := (List.pairwise_cons.1 hso).1 x h
          omega
    · have := (inv.closed x hs hxq).1
      rw [hx] at this
      exact absurd this (by simp)
  · rw [he] at hhd
    injection hhd with hhd
    subst hhd
    exact hl

theorem SearchInv.none_reachable {adm goal : Cell → Bool} {dirs : List (Int × Int)}
    {src : List Cell} {s : Search} {lvl : Cell → Nat} {k : Nat}
    (inv : SearchInv adm goal dirs src s lvl k) (hq : s.queue = [])
    {n : Nat} {a x : Cell} (ha : a ∈ src) (hw : Walk adm dirs a n x) : goal x = false := by
  rcases inv.walk_bound ha hw with ⟨hs, _⟩ | ⟨hd, hhd, _⟩
  · exact (inv.closed x hs (by rw [hq]; simp)).1
  · rw [hq] at hhd
    simp at hhd

/-! ## Abstract search: the fuel suffices -/

theorem mem_gridCells (w h : Nat) (c : Cell) :
    c ∈ gridCells w h ↔ 0 ≤ c.1 ∧ c.1 < (w : Int) ∧ 0 ≤ c.2 ∧ c.2 < (h : Int) := by
  unfold gridCells
  simp only [List.mem_flatMap, List.mem_range, List.mem_map]
  constructor
  · rintro ⟨y, hy, x, hx, rfl⟩
    simp only
    omega
  · rintro ⟨h1, h2, h3, h4⟩
    refine ⟨c.2.toNat, by omega, c.1.toNat, by omega, ?_⟩
    ext
    · simp only; omega
    · simp only; omega

theorem nodup_gridCells (w h : Nat) : (gridCells w h).Nodup := by
  unfold gridCells
  rw [List.nodup_flatMap]
  constructor
  · intro y _
    refine List.Nodup.map ?_ (List.nodup_range w)
    intro a b hab
    simp only [Prod.mk.injEq, Nat.cast_inj, and_true] at hab
    exact hab
  · refine List.Pairwise.imp_of_mem ?_ (List.nodup_range h)
    intro a b _ _ hab
    intro l h3 h4
    simp only [List.mem_map, List.mem_range] at h3 h4
    obtain ⟨x1, _, rfl⟩ := h3
    obtain ⟨x2, _, h5⟩ := h4
    simp only [Prod.mk.injEq, Nat.cast_inj] at h5
    exact hab h5.2.symm

theorem length_gridCells (w h : Nat) : (gridCells w h).length = w * h := by
  unfold gridCells
  induction h with
  | zero => simp
  | succ h ih =>
    rw [List.range_succ, List.flatMap_append, List.length_append, ih]
    simp [Nat.mul_succ]

theorem filter_unseen_update {L : List Cell} (hnd : L.Nodup) {seen : Cell → Bool} {n : Cell}
    (hn : n ∈ L) (hs : seen n = false) :
    (L.filter fun c => !(Function.update seen n true) c).length + 1 =
      (L.filter fun c => !seen c).length := by
  induction L with
  | nil => simp at hn
  | cons a L ih =>
    obtain ⟨ha, hnd1⟩ := List.nodup_cons.1 hnd
    by_cases han : a = n
    · subst han
      have hcongr : (L.filter fun c => !(Function.update seen a true) c) =
          (L.filter fun c => !seen c) := by
        apply List.filter_congr
        intro c hc
        have : c ≠ a := fun h => ha (h ▸ hc)
        simp [Function.update, this]
      simp [List.filter_cons, hs, hcongr]
    · have hnL : n ∈ L := by
        rcases List.mem_cons.1 hn with h | h
        · exact absurd h.symm han
        · exact h
      have := ih hnd1 hnL
      by_cases hsa : seen a = true
      · simp [List.filter_cons, Function.update, han, hsa]
        simpa [Function.update] using this
      · have hsa1 : seen a = false := by simpa using hsa
        simp [List.filter_cons, Function.update, han, hsa1]
        simpa [Function.update] using this

theorem unseenCount_update {w h : Nat} {seen : Cell → Bool} {n : Cell}
    (hn : n ∈ gridCells w h) (hs : seen n = false) :
    unseenCount w h (Function.update seen n true) + 1 = unseenCount w h seen :=
  filter_unseen_update (nodup_gridCells w h) hn hs

theorem unseenCount_none (w h : Nat) : unseenCount w h (fun _ => false) = w * h := by
  unfold unseenCount
  simp [length_gridCells]

theorem Search.expand_potential {adm : Cell → Bool} {w h : Nat}
    (hadm : ∀ c, adm c = true → c ∈ gridCells w h) (cur : Cell) (ds : List (Int × Int)) :
    ∀ s : Search,
      (Search.expand adm cur ds s).queue.length +
          unseenCount w h (Search.expand adm cur ds s).seen =
        s.queue.length + unseenCount w h s.seen := by
  induction ds with
  | nil => intro s; rfl
  | cons d ds ih =>
    intro s
    by_cases hc : (adm (shift cur d) && !s.seen (shift cur d)) = true
    · simp only [Search.expand, hc, if_true]
      rw [ih]
      simp only [Bool.and_eq_true, Bool.not_eq_true'] at hc
      have := unseenCount_update (hadm _ hc.1) hc.2
      simp only [List.length_append, List.length_singleton]
      omega
    · have hc1 : (adm (shift cur d) && !s.seen (shift cur d)) = false := by simpa using hc
      simp only [Search.expand, hc1, Bool.false_eq_true, if_false]
      exact ih s

theorem Search.run_total (adm goal : Cell → Bool) (dirs : List (Int × Int)) {w h : Nat}
    (hadm : ∀ c, adm c = true → c ∈ gridCells w h) :
    ∀ (fuel : Nat) (s : Search), s.queue.length + unseenCount w h s.seen < fuel →
      ∃ r, Search.run adm goal dirs fuel s = some r := by
  intro fuel
  induction fuel with
  | zero => intro s h; omega
  | succ fuel ih =>
    intro s hpot
    cases hq : s.queue with
    | nil => exact ⟨(none, s), by simp [Search.run, hq]⟩
    | cons cur rest =>
      by_cases hg : goal cur = true
      · exact ⟨(some cur, s), by simp [Search.run, hq, hg]⟩
      · have hg1 : goal cur = false := by simpa using hg
        have hp := Search.expand_potential hadm cur dirs { s with queue := rest }
        simp only at hp
        rw [hq] at hpot
        simp only [List.length_cons] at hpot
        obtain ⟨r, hr⟩ := ih (Search.expand adm cur dirs { s with queue := rest }) (by omega)
        exact ⟨r, by simp [Search.run, hq, hg1, hr]⟩

/-! ## Abstract search: climbing the parent map -/

theorem SearchInv.climb_spec {adm goal : Cell → Bool} {dirs : List (Int × Int)} {start : Cell}
    {s : Search} {lvl : Cell → Nat} {k : Nat}
    (inv : SearchInv adm goal dirs [start] s lvl k) :
    ∀ (n : Nat) (c : Cell) (acc : List Point) (fuel : Nat),
      s.seen c = true → lvl c = n → n < fuel →
      ∃ chain : List Cell,
        climb start s.parent fuel c acc =
          some (chain.map (fun c => (⟨c.1, c.2⟩ : Point)) ++ acc) ∧
        chain.length = n ∧ List.Chain' (StepTo adm dirs) (start :: chain) ∧
        (start :: chain).getLast? = some c := by
  intro n
  induction n with
  | zero =>
    intro c acc fuel hc hl hf
    by_cases hs : c = start
    · subst hs
      cases fuel with
      | zero => omega
      | succ fuel =>
        refine ⟨[], ?_, rfl, by simp, by simp⟩
        simp [climb]
    · obtain ⟨_, h2, _⟩ := inv.tree c hc (by simpa using hs)
      omega
  | succ n ih =>
    intro c acc fuel hc hl hf
    have hs : c ≠ start := by
      intro h
      have := (inv.src_seen c (by simp [h])).2
      omega
    obtain ⟨h1, h2, h3⟩ := inv.tree c hc (by simpa using hs)
    cases fuel with
    | zero => omega
    | succ fuel =>
      obtain ⟨chain, e1, e2, e3, e4⟩ :=
        ih (s.parent c) (⟨c.1, c.2⟩ :: acc) fuel h1 (by omega) (by omega)
      have hcond : c.1 ≠ start.1 ∨ c.2 ≠ start.2 := by
        by_contra hcon
        push_neg at hcon
        exact hs (Prod.ext hcon.1 hcon.2)
      refine ⟨chain ++ [c], ?_, by simp [e2], ?_, ?_⟩
      · simp only [climb, hcond, if_true]
        rw [e1]
        simp
      · have : start :: (chain ++ [c]) = (start :: chain) ++ [c] := rfl
        rw [this, List.chain'_append]
        refine ⟨e3, by simp, ?_⟩
        intro x hx y hy
        rw [e4] at hx
        simp only [Option.mem_def, Option.some.injEq] at hx
        simp only [List.head?_cons, Option.mem_def, Option.some.injEq] at hy
        subst hx hy
        exact h3
      · rw [← List.cons_append, List.getLast?_append]
        simp

/-! ## The matrices of a search and the abstract state -/

theorem seenOf_eq {v : List (List Bool)} {x y : Int} {b : Bool} (h : getCell v x y = .ok b) :
    seenOf v (x, y) = b := by
  unfold seenOf
  simp only [h]
  cases b <;> simp

theorem seenOf_setCell {v v1 : List (List Bool)} {x y : Int}
    (h1 : getCell v1 x y = .ok true)
    (h2 : ∀ x1 y1, (x1, y1) ≠ (x, y) → getCell v1 x1 y1 = getCell v x1 y1) :
    seenOf v1 = Function.update (seenOf v) (x, y) true := by
  funext c
  by_cases hc : c = (x, y)
  · subst hc
    simp [Function.update, seenOf, h1]
  · have := h2 c.1 c.2 hc
    simp [Function.update, hc, seenOf, this]

theorem parentOf_setCell {p p1 : List (List (Int × Int))} {x y : Int} {cur : Cell}
    (h1 : getCell p1 x y = .ok cur)
    (h2 : ∀ x1 y1, (x1, y1) ≠ (x, y) → getCell p1 x1 y1 = getCell p x1 y1) :
    parentOf p1 = Function.update (parentOf p) (x, y) cur := by
  funext c
  by_cases hc : c = (x, y)
  · subst hc
    simp [Function.update, parentOf, h1]
  · have := h2 c.1 c.2 hc
    simp [Function.update, hc, parentOf, this]

theorem seenOf_makeGrid {g : List (List Bool)}
    (h : ∀ x y a, getCell g x y = .ok a → a = false) : seenOf g = fun _ => false := by
  funext c
  unfold seenOf
  cases hg : getCell g c.1 c.2 with
  | error e => simp
  | ok a =>
    have := h _ _ _ hg
    subst this
    simp

/-! ## `checkPathExists` against the abstract search -/

theorem checkExpand_sim (m : GameMap) (terrain : List (List TerrainType)) (cur : Cell)
    (ht : IsGrid terrain m.width m.height) :
    ∀ (ds : List (Int × Int)) (q : List Cell) (v : List (List Bool)) (par : Cell → Cell),
      IsGrid v m.width m.height →
      ∃ v1, checkExpand m terrain cur ds q v =
          .ok ((Search.expand (checkAdm m terrain) cur ds ⟨q, seenOf v, par⟩).queue, v1) ∧
        IsGrid v1 m.width m.height ∧
        seenOf v1 = (Search.expand (checkAdm m terrain) cur ds ⟨q, seenOf v, par⟩).seen := by
  intro ds
  induction ds with
  | nil =>
    intro q v par hv
    exact ⟨v, rfl, hv, rfl⟩
  | cons d ds ih =>
    intro q v par hv
    by_cases hb : cur.1 + d.1 ≥ 0 ∧ cur.1 + d.1 < m.width ∧ cur.2 + d.2 ≥ 0 ∧ cur.2 + d.2 < m.height
    · obtain ⟨seen, hseen⟩ := getCell_ok_of_grid hv hb.1 hb.2.1 hb.2.2.1 hb.2.2.2
      obtain ⟨t, hterr⟩ := getCell_ok_of_grid ht hb.1 hb.2.1 hb.2.2.1 hb.2.2.2
      have hs : seenOf v (shift cur d) = seen := seenOf_eq hseen
      cases seen with
      | true =>
        obtain ⟨v1, e1, e2, e3⟩ := ih q v par hv
        refine ⟨v1, ?_, e2, ?_⟩
        · simp only [checkExpand, hb, and_self, if_true, hseen, Search.expand, hs,
            Bool.not_true, Bool.and_false, Bool.false_eq_true, if_false]
          exact e1
        · simp only [Search.expand, hs, Bool.not_true, Bool.and_false, Bool.false_eq_true,
            if_false]
          exact e3
      | false =>
        by_cases htt : t = TerrainType.TowerPlacement
        · have hadm : checkAdm m terrain (shift cur d) = false := by
            simp [checkAdm, shift, hterr, htt]
          obtain ⟨v1, e1, e2, e3⟩ := ih q v par hv
          refine ⟨v1, ?_, e2, ?_⟩
          · simp only [checkExpand, hb, and_self, if_true, hseen, Search.expand, hadm,
              Bool.false_and, Bool.false_eq_true, if_false, hterr, htt, ne_eq,
              not_true_eq_false]
            exact e1
          · simp only [Search.expand, hadm, Bool.false_and, Bool.false_eq_true, if_false]
            exact e3
        · have hadm : checkAdm m terrain (shift cur d) = true := by
            simp [checkAdm, shift, hterr, htt, hb.1, hb.2.1, hb.2.2.1, hb.2.2.2]
          obtain ⟨v0, s1, s2, s3, s4⟩ := setCell_spec true hv hb.1 hb.2.1 hb.2.2.1 hb.2.2.2
          obtain ⟨v1, e1, e2, e3⟩ :=
            ih (q ++ [shift cur d]) v0 (Function.update par (shift cur d) cur) s2
          have hup : seenOf v0 = Function.update (seenOf v) (shift cur d) true :=
            seenOf_setCell s3 s4
          rw [hup] at e1 e3
          refine ⟨v1, ?_, e2, ?_⟩
          · simp only [checkExpand, hb, and_self, if_true, hseen, Search.expand, hadm, hs,
              Bool.not_false, Bool.and_self, Bool.false_eq_true, if_false, hterr, ne_eq, htt,
              not_false_eq_true, s1]
            exact e1
          · simp only [Search.expand, hadm, hs, Bool.not_false, Bool.and_self, if_true]
            exact e3
    · have hadm : checkAdm m terrain (shift cur d) = false := by
        simp only [checkAdm, shift, Bool.and_eq_false_imp, decide_eq_true_eq]
        intro h
        exact absurd h hb
      obtain ⟨v1, e1, e2, e3⟩ := ih q v par hv
      refine ⟨v1, ?_, e2, ?_⟩
      · simp only [checkExpand, hb, if_false, Search.expand, hadm, Bool.false_and,
          Bool.false_eq_true]
        exact e1
      · simp only [Search.expand, hadm, Bool.false_and, Bool.false_eq_true, if_false]
        exact e3

theorem checkLoop_sim (m : GameMap) (terrain : List (List TerrainType))
    (ht : IsGrid terrain m.width m.height) :
    ∀ (fuel : Nat) (q : List Cell) (v : List (List Bool)) (par : Cell → Cell),
      IsGrid v m.width m.height →
      checkLoop m terrain fuel q v =
        match Search.run (checkAdm m terrain) (exitGoal m) checkDirections fuel
            ⟨q, seenOf v, par⟩ with
        | none => .error .fuelExhausted
        | some (r, _) => .ok r.isSome := by
  intro fuel
  induction fuel with
  | zero =>
    intro q v par _
    simp [checkLoop, Search.run]
  | succ fuel ih =>
    intro q v par hv
    cases q with
    | nil => simp [checkLoop, Search.run]
    | cons cur rest =>
      by_cases hg : cur.1 = m.width - 1 ∧ cur.2 ≥ m.exitStart ∧ cur.2 ≤ m.exitEnd
      · have hg1 : exitGoal m cur = true := by simp [exitGoal, hg]
        simp [checkLoop, Search.run, hg, hg1]
      · have hg1 : exitGoal m cur = false := by simp [exitGoal, hg]
        obtain ⟨v1, e1, e2, e3⟩ := checkExpand_sim m terrain cur ht checkDirections rest v par hv
        simp only [checkLoop, hg, if_false, e1, Search.run, hg1, Bool.false_eq_true]
        rw [ih _ v1 (Search.expand (checkAdm m terrain) cur checkDirections
          ⟨rest, seenOf v, par⟩).parent e2, e3]

theorem mem_bandCells (n : Nat) (y : Int) (c : Cell) :
    c ∈ bandCells n y ↔ c.1 = 0 ∧ y ≤ c.2 ∧ c.2 < y + n := by
  induction n generalizing y with
  | zero =>
    simp only [bandCells, List.not_mem_nil, false_iff]
    omega
  | succ n ih =>
    simp only [bandCells, List.mem_cons, ih]
    constructor
    · rintro (h | h)
      · subst h
        exact ⟨rfl, le_refl _, by push_cast; omega⟩
      · exact ⟨h.1, by omega, by push_cast; omega⟩
    · intro h
      by_cases hc : c.2 = y
      · left
        exact Prod.ext h.1 hc
      · right
        obtain ⟨h1, h2, h3⟩ := h
        push_cast at h3
        exact ⟨h1, by omega, by omega⟩

theorem nodup_bandCells (n : Nat) (y : Int) : (bandCells n y).Nodup := by
  induction n generalizing y with
  | zero => simp [bandCells]
  | succ n ih =>
    simp only [bandCells, List.nodup_cons]
    refine ⟨?_, ih _⟩
    rw [mem_bandCells]
    simp

theorem length_bandCells (n : Nat) (y : Int) : (bandCells n y).length = n := by
  induction n generalizing y with
  | zero => rfl
  | succ n ih => simp [bandCells, ih]

theorem seedEntrance_spec {w h : Int} (hw : 0 < w) :
    ∀ (n : Nat) (y : Int) (q : List Cell) (v : List (List Bool)),
      IsGrid v w h → (0 < n → 0 ≤ y) → (0 < n → y + n ≤ h) →
      (∀ c ∈ bandCells n y, seenOf v c = false) →
      ∃ v1, seedEntrance n y q v = .ok (q ++ bandCells n y, v1) ∧ IsGrid v1 w h ∧
        (∀ c, seenOf v1 c = (seenOf v c || decide (c ∈ bandCells n y))) ∧
        unseenCount w.toNat h.toNat (seenOf v1) + n = unseenCount w.toNat h.toNat (seenOf v) := by
  intro n
  induction n with
  | zero =>
    intro y q v hv _ _ _
    exact ⟨v, by simp [seedEntrance, bandCells], hv, by simp [bandCells], rfl⟩
  | succ n ih =>
    intro y q v hv hy0 hy1 hun
    have hy0 := hy0 (Nat.succ_pos n)
    have hy1 := hy1 (Nat.succ_pos n)
    push_cast at hy1
    obtain ⟨v0, s1, s2, s3, s4⟩ :=
      setCell_spec (x := 0) (y := y) true hv (le_refl 0) hw hy0 (by omega)
    have hup : seenOf v0 = Function.update (seenOf v) (0, y) true := seenOf_setCell s3 s4
    have hun0 : ∀ c ∈ bandCells n (y + 1), seenOf v0 c = false := by
      intro c hc
      have hne : c ≠ (0, y) := by
        intro h
        rw [mem_bandCells] at hc
        rw [h] at hc
        simp only at hc
        omega
      rw [hup]
      simp only [Function.update, hne, dite_false]
      exact hun c (by simp [bandCells, hc])
    obtain ⟨v1, e1, e2, e3, e4⟩ := ih (y + 1) (q ++ [((0 : Int), y)]) v0 s2
      (fun _ => by omega) (fun _ => by omega) hun0
    refine ⟨v1, ?_, e2, ?_, ?_⟩
    · simp only [seedEntrance, s1, e1, bandCells]
      simp
    · intro c
      rw [e3, hup]
      by_cases hc : c = (0, y)
      · subst hc
        simp [Function.update, bandCells]
      · simp [Function.update, hc, bandCells]
    · have hmem : ((0 : Int), y) ∈ gridCells w.toNat h.toNat := by
        rw [mem_gridCells]
        simp only
        omega
      have := @unseenCount_update w.toNat h.toNat (seenOf v) _ hmem (hun _ (by simp [bandCells]))
      rw [hup] at e4
      omega

theorem checkAdm_mem_gridCells (m : GameMap) (terrain : List (List TerrainType)) (c : Cell)
    (h : checkAdm m terrain c = true) : c ∈ gridCells m.width.toNat m.height.toNat := by
  simp only [checkAdm, Bool.and_eq_true, decide_eq_true_eq] at h
  rw [mem_gridCells]
  omega

theorem SearchInv.initial (adm goal : Cell → Bool) (dirs : List (Int × Int)) (src : List Cell)
    (seen : Cell → Bool) (par : Cell → Cell) (hnd : src.Nodup)
    (hseen : ∀ c, seen c = true ↔ c ∈ src) :
    SearchInv adm goal dirs src ⟨src, seen, par⟩ (fun _ => 0) 0 where
  src_seen := fun c hc => ⟨(hseen c).2 hc, rfl⟩
  tree := fun c hc hn => absurd ((hseen c).1 hc) hn
  queue_seen := fun c hc => (hseen c).2 hc
  queue_nodup := hnd
  queue_sorted := List.pairwise_of_forall (fun _ _ => le_refl 0)
  near := fun _ _ _ _ => Nat.zero_le _
  closed := fun u hu hn => absurd ((hseen u).1 hu) hn
  depth := fun _ _ => le_refl 0

theorem GameMap.checkPathExists_spec (m : GameMap) (wf : m.WellFormed) {x y : Int}
    (hx0 : 0 ≤ x) (hx1 : x < m.width) (hy0 : 0 ≤ y) (hy1 : y < m.height) :
    ∃ marked b, setCell m.terrain x y TerrainType.TowerPlacement = .ok marked ∧
      IsGrid marked m.width m.height ∧
      m.checkPathExists x y = .ok (m, b) ∧
      (b = true ↔ ∃ a ∈ m.entranceCells, ∃ e n, exitGoal m e = true ∧
        Walk (checkAdm m marked) checkDirections a n e) := by
  obtain ⟨orig, horig⟩ := getCell_ok_of_grid wf.grid hx0 hx1 hy0 hy1
  obtain ⟨marked, hm1, hm2, _, _⟩ :=
    setCell_spec TerrainType.TowerPlacement wf.grid hx0 hx1 hy0 hy1
  obtain ⟨v0, hv1, hv2, hv3⟩ := makeGrid_spec false wf.grid.1 wf.grid.2.1
  have hv0 : seenOf v0 = fun _ => false := seenOf_makeGrid hv3
  obtain ⟨v, hs1, hs2, hs3, hs4⟩ :=
    seedEntrance_spec wf.width_pos (m.entranceEnd - m.entranceStart + 1).toNat m.entranceStart
      [] v0 hv2 (fun h => wf.entrance_lo (by omega))
      (fun h => by have := wf.entrance_hi (by omega); omega)
      (fun c _ => by rw [hv0])
  rw [List.nil_append] at hs1
  have hseen : ∀ c, seenOf v c = true ↔ c ∈ m.entranceCells := by
    intro c
    rw [hs3, hv0]
    simp [GameMap.entranceCells]
  have inv0 := SearchInv.initial (checkAdm m marked) (exitGoal m) checkDirections
    m.entranceCells (seenOf v) (fun c => c) (nodup_bandCells _ _) hseen
  have hpot : (m.entranceCells).length + unseenCount m.width.toNat m.height.toNat (seenOf v) <
      m.searchFuel := by
    rw [hv0, unseenCount_none] at hs4
    simp only [GameMap.entranceCells, length_bandCells, GameMap.searchFuel]
    omega
  obtain ⟨⟨r, s1⟩, hrun⟩ := Search.run_total (checkAdm m marked) (exitGoal m) checkDirections
    (checkAdm_mem_gridCells m marked) m.searchFuel ⟨m.entranceCells, seenOf v, fun c => c⟩ hpot
  have hloop := checkLoop_sim m marked hm2 m.searchFuel m.entranceCells v (fun c => c) hs2
  rw [hrun] at hloop
  simp only at hloop
  have hrestore := setCell_restore horig hm1
  refine ⟨marked, r.isSome, hm1, hm2, ?_, ?_⟩
  · simp only [GameMap.checkPathExists, horig, hm1, hv1]
    have hs1' : seedEntrance (m.entranceEnd - m.entranceStart + 1).toNat m.entranceStart [] v0 =
        .ok (m.entranceCells, v) := hs1
    simp only [hs1', hloop, hrestore]
  · obtain ⟨lvl1, k1, inv1, _, hres⟩ := Search.run_inv m.searchFuel _ _ 0 r s1 inv0 hrun
    constructor
    · intro hb
      rcases hres with ⟨e, hr, hhd, hg⟩ | ⟨hr, _⟩
      · have hse : s1.seen e = true := inv1.queue_seen e (List.mem_of_mem_head? hhd)
        obtain ⟨a, ha, hw⟩ := inv1.walk_of_seen (lvl1 e) e hse rfl
        exact ⟨a, ha, e, lvl1 e, hg, hw⟩
      · rw [hr] at hb
        simp at hb
    · rintro ⟨a, ha, e, n, hg, hw⟩
      rcases hres with ⟨e1, hr, _, _⟩ | ⟨_, hq⟩
      · rw [hr]
        rfl
      · have := inv1.none_reachable hq ha hw
        rw [hg] at this
        exact absurd this (by simp)

/-! ## Walks and ground paths -/

theorem adjacent_iff_checkDirections (a b : Cell) :
    Adjacent a b ↔ ∃ d ∈ checkDirections, b = shift a d := by
  unfold Adjacent checkDirections shift
  constructor
  · rintro (⟨h1, h2⟩ | ⟨h1, h2⟩ | ⟨h1, h2⟩ | ⟨h1, h2⟩)
    · exact ⟨(1, 0), by simp, Prod.ext (by simp [h1]) (by simp [h2])⟩
    · exact ⟨(-1, 0), by simp, Prod.ext (by simp only [h1]; omega) (by simp [h2])⟩
    · exact ⟨(0, 1), by simp, Prod.ext (by simp [h1]) (by simp [h2])⟩
    · exact ⟨(0, -1), by simp, Prod.ext (by simp [h1]) (by simp only [h2]; omega)⟩
  · rintro ⟨d, hd, rfl⟩
    simp only [List.mem_cons, List.mem_singleton, List.not_mem_nil, or_false] at hd
    rcases hd with rfl | rfl | rfl | rfl <;> simp <;> omega

theorem adjacent_iff_findDirections (a b : Cell) :
    Adjacent a b ↔ ∃ d ∈ findDirections, b = shift a d := by
  unfold Adjacent findDirections shift
  constructor
  · rintro (⟨h1, h2⟩ | ⟨h1, h2⟩ | ⟨h1, h2⟩ | ⟨h1, h2⟩)
    · exact ⟨(1, 0), by simp, Prod.ext (by simp [h1]) (by simp [h2])⟩
    · exact ⟨(-1, 0), by simp, Prod.ext (by simp only [h1]; omega) (by simp [h2])⟩
    · exact ⟨(0, 1), by simp, Prod.ext (by simp [h1]) (by simp [h2])⟩
    · exact ⟨(0, -1), by simp, Prod.ext (by simp [h1]) (by simp only [h2]; omega)⟩
  · rintro ⟨d, hd, rfl⟩
    simp only [List.mem_cons, List.mem_singleton, List.not_mem_nil, or_false] at hd
    rcases hd with rfl | rfl | rfl | rfl <;> simp <;> omega

theorem Walk.cons {adm : Cell → Bool} {dirs : List (Int × Int)} {a b c : Cell} {n : Nat}
    (hab : StepTo adm dirs a b) (hw : Walk adm dirs b n c) : Walk adm dirs a (n + 1) c := by
  induction hw with
  | here => exact Walk.snoc Walk.here hab
  | snoc _ hstep ih => exact Walk.snoc ih hstep

/-- A walk, read as a list of cells: the start followed by the cells entered. -/
theorem Walk.to_list {adm : Cell → Bool} {dirs : List (Int × Int)} {W : Cell → Prop}
    (hadm : ∀ c, adm c = true → W c)
    (hdir : ∀ a b, (∃ d ∈ dirs, b = shift a d) → Adjacent a b)
    {a b : Cell} {n : Nat} (hw : Walk adm dirs a n b) :
    ∃ p : List Cell, p.length = n ∧ List.Chain' Adjacent (a :: p) ∧
      (a :: p).getLast? = some b ∧ ∀ c ∈ p, W c := by
  induction hw with
  | here => exact ⟨[], rfl, by simp, by simp, by simp⟩
  | @snoc i b c _ hstep ih =>
    obtain ⟨p, h1, h2, h3, h4⟩ := ih
    refine ⟨p ++ [c], by simp [h1], ?_, ?_, ?_⟩
    · rw [← List.cons_append, List.chain'_append]
      refine ⟨h2, by simp, ?_⟩
      intro x hx y hy
      rw [h3] at hx
      simp only [Option.mem_def, Option.some.injEq] at hx
      simp only [List.head?_cons, Option.mem_def, Option.some.injEq] at hy
      subst hx hy
      exact hdir _ _ hstep.2
    · rw [← List.cons_append, List.getLast?_append]
      simp
    · intro x hx
      rcases List.mem_append.1 hx with h | h
      · exact h4 x h
      · simp only [List.mem_singleton] at h
        subst h
        exact hadm _ hstep.1

/-- A list of cells entered one after the other, read as a walk. -/
theorem Walk.of_list {adm : Cell → Bool} {dirs : List (Int × Int)}
    (hdir : ∀ a b, Adjacent a b → ∃ d ∈ dirs, b = shift a d) :
    ∀ (p : List Cell) (a b : Cell), List.Chain' Adjacent (a :: p) →
      (a :: p).getLast? = some b → (∀ c ∈ p, adm c = true) →
      Walk adm dirs a p.length b := by
  intro p
  induction p with
  | nil =>
    intro a b _ hl _
    simp only [List.getLast?_singleton, Option.some.injEq] at hl
    subst hl
    exact Walk.here
  | cons c p ih =>
    intro a b hc hl hadm
    rw [List.chain'_cons] at hc
    have hl1 : (c :: p).getLast? = some b := by
      rw [List.getLast?_cons_cons] at hl
      exact hl
    have := ih c b hc.2 hl1 (fun x hx => hadm x (List.mem_cons_of_mem _ hx))
    exact Walk.cons ⟨hadm c (List.mem_cons_self _ _), hdir _ _ hc.1⟩ this

/-! ## Placement -/

theorem GameMap.walkable_iff (m : GameMap) (c : Cell) :
    m.Walkable c ↔ m.InBounds c.1 c.2 ∧
      ∃ t, getCell m.terrain c.1 c.2 = .ok t ∧ t ≠ TerrainType.TowerPlacement := by
  unfold GameMap.Walkable GameMap.IsBlocked GameMap.InBounds
  by_cases hb : c.1 < 0 ∨ c.1 ≥ m.width ∨ c.2 < 0 ∨ c.2 ≥ m.height
  · simp only [hb, if_true]
    constructor
    · intro h
      simp at h
    · rintro ⟨h, _⟩
      omega
  · simp only [hb, if_false]
    cases hg : getCell m.terrain c.1 c.2 with
    | error e => simp
    | ok t =>
      by_cases ht : t = TerrainType.TowerPlacement
      · simp [ht]
      · simp only [ht, if_false, Except.ok.injEq, exists_eq_left', ne_eq, not_false_eq_true,
          and_true, true_iff]
        omega

theorem checkAdm_eq_true_iff (m : GameMap) (c : Cell) :
    checkAdm m m.terrain c = true ↔ m.InBounds c.1 c.2 ∧
      getCell m.terrain c.1 c.2 ≠ .ok TerrainType.TowerPlacement := by
  simp [checkAdm, GameMap.InBounds]

theorem checkAdm_marked {m : GameMap} {marked : List (List TerrainType)} {x y : Int}
    (h1 : getCell marked x y = .ok TerrainType.TowerPlacement)
    (h2 : ∀ x1 y1, (x1, y1) ≠ (x, y) → getCell marked x1 y1 = getCell m.terrain x1 y1) :
    checkAdm m marked = avoidAdm m x y := by
  funext c
  by_cases hc : c = (x, y)
  · subst hc
    simp [checkAdm, avoidAdm, h1]
  · have := h2 c.1 c.2 hc
    simp [checkAdm, avoidAdm, this, hc]

theorem avoidAdm_eq_true_iff (m : GameMap) (wf : m.WellFormed) (x y : Int) (c : Cell) :
    avoidAdm m x y c = true ↔ m.Walkable c ∧ c ≠ (x, y) := by
  rw [GameMap.walkable_iff]
  simp only [avoidAdm, Bool.and_eq_true, checkAdm_eq_true_iff, decide_eq_true_eq]
  constructor
  · rintro ⟨⟨hb, hne⟩, hc⟩
    obtain ⟨t, ht⟩ := getCell_ok_of_grid wf.grid hb.1 hb.2.1 hb.2.2.1 hb.2.2.2
    refine ⟨⟨hb, t, ht, ?_⟩, hc⟩
    intro h
    rw [ht, h] at hne
    exact hne rfl
  · rintro ⟨⟨hb, t, ht, hne⟩, hc⟩
    refine ⟨⟨hb, ?_⟩, hc⟩
    rw [ht]
    intro h
    injection h with h
    exact hne h

theorem GameMap.mem_entranceCells (m : GameMap) (c : Cell) :
    c ∈ m.entranceCells ↔ m.IsEntrance c := by
  unfold GameMap.entranceCells GameMap.IsEntrance
  rw [mem_bandCells]
  constructor
  · rintro ⟨h1, h2, h3⟩
    exact ⟨h1, h2, by omega⟩
  · rintro ⟨h1, h2, h3⟩
    exact ⟨h1, h2, by omega⟩

theorem exitGoal_eq_true_iff (m : GameMap) (c : Cell) : exitGoal m c = true ↔ m.IsExit c := by
  simp only [exitGoal, GameMap.IsExit, decide_eq_true_eq]

theorem GameMap.pathAvoiding_of_walk (m : GameMap) (wf : m.WellFormed) (hclear : m.EntranceClear)
    {x y : Int} (hne : ¬ m.IsEntrance (x, y)) {a e : Cell} {n : Nat}
    (ha : m.IsEntrance a) (he : m.IsExit e)
    (hw : Walk (avoidAdm m x y) checkDirections a n e) : m.PathAvoiding x y := by
  obtain ⟨p, _, h2, h3, h4⟩ := Walk.to_list (W := fun c => m.Walkable c ∧ c ≠ (x, y))
    (fun c hc => (avoidAdm_eq_true_iff m wf x y c).1 hc)
    (fun a b h => (adjacent_iff_checkDirections a b).2 h) hw
  refine ⟨a, e, a :: p, ha, he, ⟨rfl, h3, h2, ?_⟩, ?_⟩
  · intro c hc
    rcases List.mem_cons.1 hc with h | h
    · rw [h]; exact hclear a ha
    · exact (h4 c h).1
  · intro hmem
    rcases List.mem_cons.1 hmem with h | h
    · exact hne (h ▸ ha)
    · exact (h4 _ h).2 rfl

theorem GameMap.walk_of_pathAvoiding (m : GameMap) (wf : m.WellFormed) {x y : Int}
    (h : m.PathAvoiding x y) :
    ∃ a ∈ m.entranceCells, ∃ e n, exitGoal m e = true ∧
      Walk (avoidAdm m x y) checkDirections a n e := by
  obtain ⟨a, e, p, ha, he, ⟨h1, h2, h3, h4⟩, h5⟩ := h
  cases p with
  | nil => simp at h1
  | cons a1 p =>
    simp only [List.head?_cons, Option.some.injEq] at h1
    subst h1
    refine ⟨a1, (m.mem_entranceCells a1).2 ha, e, p.length, (exitGoal_eq_true_iff m e).2 he, ?_⟩
    refine Walk.of_list (fun a b h => (adjacent_iff_checkDirections a b).1 h) p a1 e h3 h2 ?_
    intro c hc
    rw [avoidAdm_eq_true_iff m wf]
    refine ⟨h4 c (List.mem_cons_of_mem _ hc), ?_⟩
    intro hce
    exact h5 (hce ▸ List.mem_cons_of_mem _ hc)

theorem GameMap.CanPlaceTower_spec (m : GameMap) (wf : m.WellFormed) (x y : Int) :
    ∃ b, m.CanPlaceTower x y = .ok b ∧
      (b = true ↔ ¬ m.IsEntrance (x, y) ∧ ¬ m.IsExit (x, y) ∧ m.InBounds x y ∧
        getCell m.terrain x y = .ok TerrainType.Empty) := by
  by_cases h1 : x = 0 ∧ (y ≥ m.entranceStart ∧ y ≤ m.entranceEnd)
  · refine ⟨false, by simp [GameMap.CanPlaceTower, h1], ?_⟩
    constructor
    · intro h; exact absurd h (by simp)
    · rintro ⟨h, _⟩
      exact absurd (show m.IsEntrance (x, y) from ⟨h1.1, h1.2.1, h1.2.2⟩) h
  · by_cases h2 : x = m.width - 1 ∧ (y ≥ m.exitStart ∧ y ≤ m.exitEnd)
    · refine ⟨false, by simp [GameMap.CanPlaceTower, h1, h2], ?_⟩
      constructor
      · intro h; exact absurd h (by simp)
      · rintro ⟨_, h, _⟩
        exact absurd (show m.IsExit (x, y) from ⟨h2.1, h2.2.1, h2.2.2⟩) h
    · by_cases h3 : x < 0 ∨ x ≥ m.width ∨ y < 0 ∨ y ≥ m.height
      · refine ⟨false, by simp [GameMap.CanPlaceTower, h1, h2, h3], ?_⟩
        constructor
        · intro h; exact absurd h (by simp)
        · rintro ⟨_, _, h, _⟩
          unfold GameMap.InBounds at h
          omega
      · have hb : 0 ≤ x ∧ x < m.width ∧ 0 ≤ y ∧ y < m.height := by omega
        obtain ⟨t, ht⟩ := getCell_ok_of_grid wf.grid hb.1 hb.2.1 hb.2.2.1 hb.2.2.2
        refine ⟨decide (t = TerrainType.Empty), by simp [GameMap.CanPlaceTower, h1, h2, h3, ht], ?_⟩
        simp only [decide_eq_true_eq, ht, Except.ok.injEq]
        constructor
        · intro h
          refine ⟨?_, ?_, hb, h⟩
          · intro h4; exact h1 ⟨h4.1, h4.2.1, h4.2.2⟩
          · intro h4; exact h2 ⟨h4.1, h4.2.1, h4.2.2⟩
        · intro h
          exact h.2.2.2

theorem GameMap.PlaceTower_spec (m : GameMap) (wf : m.WellFormed) (selectedTower : TowerType)
    (forkTowerCount : Int) (addr : Nat) (x y : Int) :
    (¬ (m.Placeable x y ∧ m.WalkAvoiding x y) ∧
      m.PlaceTower selectedTower forkTowerCount addr x y = .ok ⟨m, forkTowerCount, false⟩) ∨
    (m.Placeable x y ∧ m.WalkAvoiding x y ∧
      ∃ marked, setCell m.terrain x y TerrainType.TowerPlacement = .ok marked ∧
        IsGrid marked m.width m.height ∧
        getCell marked x y = .ok TerrainType.TowerPlacement ∧
        (∀ x1 y1, (x1, y1) ≠ (x, y) → getCell marked x1 y1 = getCell m.terrain x1 y1) ∧
        m.PlaceTower selectedTower forkTowerCount addr x y =
          .ok ⟨m.withTower marked selectedTower forkTowerCount addr x y,
            (NewTower (some { m with terrain := marked }) forkTowerCount addr selectedTower
              x y).2, true⟩) := by
  obtain ⟨b, hcan, hb⟩ := m.CanPlaceTower_spec wf x y
  cases b with
  | false =>
    left
    refine ⟨?_, ?_⟩
    · rintro ⟨h, _⟩
      have := hb.2 h
      exact absurd this (by simp)
    · simp only [GameMap.PlaceTower, hcan]
  | true =>
    have hplace : m.Placeable x y := hb.1 rfl
    obtain ⟨hx0, hx1, hy0, hy1⟩ := hplace.2.2.1
    obtain ⟨marked, pe, hm1, hm2, hcheck, hiff⟩ := m.checkPathExists_spec wf hx0 hx1 hy0 hy1
    obtain ⟨marked1, hs1, _, hs3, hs4⟩ :=
      setCell_spec TerrainType.TowerPlacement wf.grid hx0 hx1 hy0 hy1
    rw [hm1] at hs1
    injection hs1 with hs1
    subst hs1
    have hadm : checkAdm m marked = avoidAdm m x y := checkAdm_marked hs3 hs4
    rw [hadm] at hiff
    cases pe with
    | false =>
      left
      refine ⟨?_, ?_⟩
      · rintro ⟨_, h⟩
        have := hiff.2 h
        exact absurd this (by simp)
      · simp only [GameMap.PlaceTower, hcan, hcheck]
    | true =>
      right
      refine ⟨hplace, hiff.1 rfl, marked, hm1, hm2, hs3, hs4, ?_⟩
      simp only [GameMap.PlaceTower, hcan, hcheck, hm1, GameMap.withTower]

/-! ## Removal -/

theorem GameMap.RemoveTower_cases (m m1 : GameMap) (x y : Int)
    (h : m.RemoveTower x y = .ok m1) :
    (¬ m.InBounds x y ∧ m1 = m) ∨
    (m.InBounds x y ∧ ∃ terrain1 towers1,
      setCell m.terrain x y TerrainType.Empty = .ok terrain1 ∧
      removeTowerLoop x y m.towers = .ok towers1 ∧
      m1 = { m with terrain := terrain1, towers := towers1 }) := by
  unfold GameMap.RemoveTower at h
  by_cases hb : x ≥ 0 ∧ x < m.width ∧ y ≥ 0 ∧ y < m.height
  · right
    refine ⟨⟨hb.1, hb.2.1, hb.2.2.1, hb.2.2.2⟩, ?_⟩
    simp only [hb, and_self, if_true] at h
    cases hs : setCell m.terrain x y TerrainType.Empty with
    | error e => rw [hs] at h; simp at h
    | ok terrain1 =>
      rw [hs] at h
      simp only at h
      cases hr : removeTowerLoop x y m.towers with
      | error e => rw [hr] at h; simp at h
      | ok towers1 =>
        rw [hr] at h
        simp only [Except.ok.injEq] at h
        exact ⟨terrain1, towers1, rfl, rfl, h.symm⟩
  · left
    simp only [hb, if_false, Except.ok.injEq] at h
    refine ⟨?_, h.symm⟩
    intro hi
    exact hb ⟨hi.1, hi.2.1, hi.2.2.1, hi.2.2.2⟩

/-! ## Invariants of the reachable maps -/

theorem GameMap.StandardFrame.wellFormed {m : GameMap} (f : m.StandardFrame) : m.WellFormed where
  grid := by rw [f.width_eq, f.height_eq]; exact f.grid
  width_pos := by rw [f.width_eq]; decide
  entrance_lo := fun _ => by rw [f.entranceStart_eq]; decide
  entrance_hi := fun _ => by rw [f.entranceEnd_eq, f.height_eq]; decide

theorem GameMap.StandardFrame.isEntrance_iff {m : GameMap} (f : m.StandardFrame) (c : Cell) :
    m.IsEntrance c ↔ c = (0, 6) := by
  unfold GameMap.IsEntrance
  rw [f.entranceStart_eq, f.entranceEnd_eq]
  constructor
  · rintro ⟨h1, h2, h3⟩
    exact Prod.ext h1 (by simp only; omega)
  · rintro rfl
    simp

theorem GameMap.StandardFrame.isExit_iff {m : GameMap} (f : m.StandardFrame) (c : Cell) :
    m.IsExit c ↔ c = (17, 6) := by
  unfold GameMap.IsExit
  rw [f.exitStart_eq, f.exitEnd_eq, f.width_eq]
  constructor
  · rintro ⟨h1, h2, h3⟩
    exact Prod.ext (by simp only; omega) (by simp only; omega)
  · rintro rfl
    simp

theorem GameMap.EntranceConnected.entranceClear {m : GameMap} (h : m.EntranceConnected) :
    m.EntranceClear := by
  intro a ha
  obtain ⟨e, _, p, h1, _, _, h4⟩ := h a ha
  exact h4 a (List.mem_of_mem_head? h1)

theorem GameMap.EntranceConnected.exit_walkable {m : GameMap} (f : m.StandardFrame)
    (h : m.EntranceConnected) (e : Cell) (he : m.IsExit e) : m.Walkable e := by
  obtain ⟨e1, he1, p, _, h2, _, h4⟩ := h (0, 6) ((f.isEntrance_iff _).2 rfl)
  have : e1 = e := by rw [(f.isExit_iff e).1 he, (f.isExit_iff e1).1 he1]
  subst this
  exact h4 e1 (List.mem_of_mem_getLast? h2)

theorem newGameMap_frame : NewGameMap.StandardFrame where
  width_eq := rfl
  height_eq := rfl
  entranceStart_eq := by decide
  entranceEnd_eq := by decide
  exitStart_eq := by decide
  exitEnd_eq := by decide
  grid := by
    refine ⟨by decide, by decide, by decide, ?_⟩
    intro row hrow
    have : row = List.replicate 18 TerrainType.Empty := List.eq_of_mem_replicate hrow
    rw [this]
    rfl

theorem GameMap.GroundPath.transfer {m m1 : GameMap} {a e : Cell} {p : List Cell}
    (h : m.GroundPath a e p) (hw : ∀ c ∈ p, m.Walkable c → m1.Walkable c) :
    m1.GroundPath a e p :=
  ⟨h.1, h.2.1, h.2.2.1, fun c hc => hw c hc (h.2.2.2 c hc)⟩

theorem newGameMap_entranceClear : NewGameMap.EntranceClear := by
  intro a ha
  rw [(newGameMap_frame.isEntrance_iff a).1 ha]
  show NewGameMap.IsBlocked 0 6 = .ok false
  decide

theorem newGameMap_connected : NewGameMap.EntranceConnected := by
  have hflag : (match NewGameMap.PlaceTower TowerType.DartTower 0 0 0 0 with
      | .ok out => out.placed
      | .error _ => false) = true := by decide
  rcases NewGameMap.PlaceTower_spec newGameMap_frame.wellFormed TowerType.DartTower 0 0 0 0 with
    ⟨_, h1⟩ | ⟨hplace, ⟨a, ha, e, n, he, hw⟩, _⟩
  · rw [h1] at hflag
    exact absurd hflag (by simp)
  · obtain ⟨a1, e1, p, ha1, he1, hp, _⟩ := NewGameMap.pathAvoiding_of_walk
      newGameMap_frame.wellFormed newGameMap_entranceClear hplace.1
      ((NewGameMap.mem_entranceCells a).1 ha) ((exitGoal_eq_true_iff _ e).1 he) hw
    intro c hc
    rw [(newGameMap_frame.isEntrance_iff c).1 hc, ← (newGameMap_frame.isEntrance_iff a1).1 ha1]
    exact ⟨e1, he1, p, hp⟩

theorem GameMap.place_preserves {m : GameMap} {out : PlaceOutcome} (f : m.StandardFrame)
    (hconn : m.EntranceConnected) (selectedTower : TowerType) (forkTowerCount : Int)
    (addr : Nat) (x y : Int)
    (h : m.PlaceTower selectedTower forkTowerCount addr x y = .ok out) :
    out.gameMap.StandardFrame ∧ out.gameMap.EntranceConnected := by
  rcases m.PlaceTower_spec f.wellFormed selectedTower forkTowerCount addr x y with
    ⟨_, h1⟩ | ⟨hplace, hwalk, marked, _, hm2, hm3, hm4, h1⟩
  · rw [h1] at h
    injection h with h
    subst h
    exact ⟨f, hconn⟩
  · rw [h1] at h
    injection h with h
    subst h
    have f1 : (m.withTower marked selectedTower forkTowerCount addr x y).StandardFrame :=
      { width_eq := f.width_eq
        height_eq := f.height_eq
        entranceStart_eq := f.entranceStart_eq
        entranceEnd_eq := f.entranceEnd_eq
        exitStart_eq := f.exitStart_eq
        exitEnd_eq := f.exitEnd_eq
        grid := by
          have := hm2
          rw [f.width_eq, f.height_eq] at this
          exact this }
    refine ⟨f1, ?_⟩
    obtain ⟨a, ha, e, n, he, hw⟩ := hwalk
    obtain ⟨a1, e1, p, ha1, he1, hp, havoid⟩ := m.pathAvoiding_of_walk f.wellFormed
      hconn.entranceClear hplace.1 ((m.mem_entranceCells a).1 ha)
      ((exitGoal_eq_true_iff _ e).1 he) hw
    intro c hc
    have hc1 : c = a1 := by
      rw [(f1.isEntrance_iff c).1 hc, (f.isEntrance_iff a1).1 ha1]
    subst hc1
    refine ⟨e1, ?_, p, hp.transfer ?_⟩
    · rw [f1.isExit_iff, ← f.isExit_iff]
      exact he1
    · intro c1 hc1 hwalkable
      rw [GameMap.walkable_iff] at hwalkable ⊢
      obtain ⟨hb, t, ht, hne⟩ := hwalkable
      have hcne : c1 ≠ (x, y) := fun hh => havoid (hh ▸ hc1)
      refine ⟨hb, t, ?_, hne⟩
      show getCell marked c1.1 c1.2 = .ok t
      rw [hm4 c1.1 c1.2 hcne]
      exact ht

theorem GameMap.remove_preserves {m m1 : GameMap} (f : m.StandardFrame)
    (hconn : m.EntranceConnected) (x y : Int) (h : m.RemoveTower x y = .ok m1) :
    m1.StandardFrame ∧ m1.EntranceConnected := by
  rcases m.RemoveTower_cases m1 x y h with ⟨_, rfl⟩ | ⟨hb, terrain1, towers1, hs, _, rfl⟩
  · exact ⟨f, hconn⟩
  · obtain ⟨t1, ht1, hg, hget, hsame⟩ := setCell_spec TerrainType.Empty f.wellFormed.grid
      hb.1 hb.2.1 hb.2.2.1 hb.2.2.2
    rw [hs] at ht1
    injection ht1 with ht1
    subst ht1
    have f1 : ({ m with terrain := terrain1, towers := towers1 } : GameMap).StandardFrame :=
      { width_eq := f.width_eq
        height_eq := f.height_eq
        entranceStart_eq := f.entranceStart_eq
        entranceEnd_eq := f.entranceEnd_eq
        exitStart_eq := f.exitStart_eq
        exitEnd_eq := f.exitEnd_eq
        grid := by
          have := hg
          rw [f.width_eq, f.height_eq] at this
          exact this }
    refine ⟨f1, ?_⟩
    intro c hc
    obtain ⟨e, he, p, hp⟩ := hconn c hc
    refine ⟨e, he, p, hp.transfer ?_⟩
    intro c1 _ hwalkable
    rw [GameMap.walkable_iff] at hwalkable ⊢
    obtain ⟨hb1, t, ht, hne⟩ := hwalkable
    by_cases hce : c1 = (x, y)
    · subst hce
      exact ⟨hb1, TerrainType.Empty, hget, by simp⟩
    · refine ⟨hb1, t, ?_, hne⟩
      show getCell terrain1 c1.1 c1.2 = .ok t
      rw [hsame c1.1 c1.2 hce]
      exact ht

theorem Reachable.invariant {m : GameMap} (h : Reachable m) :
    m.StandardFrame ∧ m.EntranceConnected := by
  induction h with
  | fresh => exact ⟨newGameMap_frame, newGameMap_connected⟩
  | place selectedTower forkTowerCount addr x y _ hp ih =>
    exact GameMap.place_preserves ih.1 ih.2 selectedTower forkTowerCount addr x y hp
  | remove x y _ hr ih => exact GameMap.remove_preserves ih.1 ih.2 x y hr

/-! ## Registry lemmas -/

theorem removeTowerLoop_eq_eraseP (x y : Int) (towers : List (Option Tower))
    (hnil : ∀ t ∈ towers, t ≠ none) :
    removeTowerLoop x y towers = .ok (towers.eraseP fun t =>
      match t with
      | some tower => decide (tower.position.X = x ∧ tower.position.Y = y)
      | none => false) := by
  induction towers with
  | nil => rfl
  | cons t rest ih =>
    cases t with
    | none => exact absurd rfl (hnil none (List.mem_cons_self _ _))
    | some tower =>
      have ih1 := ih (fun t ht => hnil t (List.mem_cons_of_mem _ ht))
      by_cases hp : tower.position.X = x ∧ tower.position.Y = y
      · simp [removeTowerLoop, hp, List.eraseP_cons]
      · simp [removeTowerLoop, hp, List.eraseP_cons, ih1]

theorem getTowerAtLoop_eq_find (x y : Int) (towers : List (Option Tower))
    (hnil : ∀ t ∈ towers, t ≠ none) :
    getTowerAtLoop x y towers = .ok ((towers.find? fun t =>
      match t with
      | some tower => decide (tower.position.X = x ∧ tower.position.Y = y)
      | none => false).bind id) := by
  induction towers with
  | nil => rfl
  | cons t rest ih =>
    cases t with
    | none => exact absurd rfl (hnil none (List.mem_cons_self _ _))
    | some tower =>
      have ih1 := ih (fun t ht => hnil t (List.mem_cons_of_mem _ ht))
      by_cases hp : tower.position.X = x ∧ tower.position.Y = y
      · simp [getTowerAtLoop, hp, List.find?_cons]
      · simp [getTowerAtLoop, hp, List.find?_cons, ih1]

/-- On a registry of actual towers, `RemoveTower` on a cell of the grid empties
the cell, leaves the other cells alone and erases the first tower registered at
the cell, keeping the others in order. -/
theorem GameMap.RemoveTower_spec (m : GameMap) (grid : IsGrid m.terrain m.width m.height)
    (x y : Int) (hb : m.InBounds x y) (hnil : ∀ t ∈ m.towers, t ≠ none) :
    ∃ terrain1, m.RemoveTower x y = .ok
        { m with
          terrain := terrain1
          towers := m.towers.eraseP fun t =>
            match t with
            | some tower => decide (tower.position.X = x ∧ tower.position.Y = y)
            | none => false } ∧
      getCell terrain1 x y = .ok TerrainType.Empty ∧
      ∀ x1 y1, (x1, y1) ≠ (x, y) → getCell terrain1 x1 y1 = getCell m.terrain x1 y1 := by
  obtain ⟨t1, ht1, _, hget, hsame⟩ := setCell_spec TerrainType.Empty grid
    hb.1 hb.2.1 hb.2.2.1 hb.2.2.2
  refine ⟨t1, ?_, hget, hsame⟩
  have hcond : x ≥ 0 ∧ x < m.width ∧ y ≥ 0 ∧ y < m.height := ⟨hb.1, hb.2.1, hb.2.2.1, hb.2.2.2⟩
  simp only [GameMap.RemoveTower, hcond, and_self, if_true, ht1,
    removeTowerLoop_eq_eraseP x y m.towers hnil]

theorem GameMap.RemoveTower_outside (m : GameMap) (x y : Int) (hb : ¬ m.InBounds x y) :
    m.RemoveTower x y = .ok m := by
  have hcond : ¬ (x ≥ 0 ∧ x < m.width ∧ y ≥ 0 ∧ y < m.height) :=
    fun h => hb ⟨h.1, h.2.1, h.2.2.1, h.2.2.2⟩
  simp only [GameMap.RemoveTower, hcond, if_false]

/-! ## Claims on the grid -/

theorem placed_flag_fresh_corner :
    (match NewGameMap.PlaceTower TowerType.DartTower 0 1 0 0 with
      | .ok out => out.placed
      | .error _ => false) = true := by decide

/-- C1. Connectivity invariant: in every map reached from the fresh map of
`NewGameMap` by `PlaceTower` and `RemoveTower` calls with arbitrary integer
coordinates, every entrance-band cell is joined to some exit-band cell by a
4-directional path of cells that lie in the grid and do not hold
`TowerPlacement` terrain. -/
theorem connectivity_invariant (m : GameMap) (h : Reachable m) (a : Cell)
    (ha : m.IsEntrance a) : ∃ e, m.IsExit e ∧ m.Connected a e :=
  (Reachable.invariant h).2 a ha

/-- C1 at the map left by a placement on `(1, 5)` followed by the removal at
`(1, 5)` and a placement outside the grid. -/
theorem connectivity_invariant_witness :
    ∃ out m1 out2, NewGameMap.PlaceTower TowerType.DartTower 0 1 1 5 = .ok out ∧
      out.gameMap.RemoveTower 1 5 = .ok m1 ∧
      m1.PlaceTower TowerType.BulletTower 0 2 (-4) 99 = .ok out2 ∧
      ∃ e, out2.gameMap.IsExit e ∧ out2.gameMap.Connected (0, 6) e := by
  rcases NewGameMap.PlaceTower_spec newGameMap_frame.wellFormed TowerType.DartTower 0 1 1 5 with
    ⟨_, h1⟩ | ⟨_, _, marked, _, _, _, _, h1⟩
  · have r1 : Reachable NewGameMap := Reachable.place _ _ _ _ _ Reachable.fresh h1
    have hrem : NewGameMap.RemoveTower 1 5 = .ok
        { NewGameMap with
          terrain := NewGameMap.terrain
          towers := [] } := by decide
    have r2 := Reachable.remove 1 5 r1 hrem
    rcases GameMap.PlaceTower_spec _ (Reachable.invariant r2).1.wellFormed
      TowerType.BulletTower 0 2 (-4) 99 with ⟨_, h2⟩ | ⟨hp, _⟩
    · have r3 := Reachable.place _ _ _ _ _ r2 h2
      exact ⟨_, _, _, h1, hrem, h2,
        connectivity_invariant _ r3 (0, 6) (((Reachable.invariant r3).1.isEntrance_iff _).2 rfl)⟩
    · exact absurd hp.2.2.1.1 (by decide)
  · have r1 := Reachable.place _ _ _ _ _ Reachable.fresh h1
    have hnil : ∀ t ∈ (NewGameMap.withTower marked TowerType.DartTower 0 1 1 5).towers,
        t ≠ none := by
      intro t ht
      simp only [GameMap.withTower, NewGameMap, NewTower, List.nil_append,
        List.mem_singleton] at ht
      rw [ht]
      simp
    obtain ⟨terrain1, hrem, _, _⟩ := GameMap.RemoveTower_spec _
      (Reachable.invariant r1).1.wellFormed.grid 1 5
      ⟨by decide, by show (1 : Int) < 18; decide, by decide, by show (5 : Int) < 12; decide⟩ hnil
    have r2 := Reachable.remove 1 5 r1 hrem
    rcases GameMap.PlaceTower_spec _ (Reachable.invariant r2).1.wellFormed
      TowerType.BulletTower 0 2 (-4) 99 with ⟨_, h2⟩ | ⟨hp, _⟩
    · have r3 := Reachable.place _ _ _ _ _ r2 h2
      exact ⟨_, _, _, h1, hrem, h2,
        connectivity_invariant _ r3 (0, 6) (((Reachable.invariant r3).1.isEntrance_iff _).2 rfl)⟩
    · exact absurd hp.2.2.1.1 (by decide)

/-- C2. `PlaceTower(x, y)` returns, and it returns true exactly when `(x, y)`
is inside the grid, its terrain is `Empty`, it is neither an entrance-band cell
of column 0 nor an exit-band cell of the last column, and, with `(x, y)` treated
as occupied, some entrance-band cell is joined to some exit-band cell by a
4-directional path of unoccupied cells.  The map is any well-formed one whose
entrance band holds no tower, as in every reachable state. -/
theorem placeTower_true_iff (m : GameMap) (wf : m.WellFormed) (hclear : m.EntranceClear)
    (selectedTower : TowerType) (forkTowerCount : Int) (addr : Nat) (x y : Int) :
    ∃ out, m.PlaceTower selectedTower forkTowerCount addr x y = .ok out ∧
      (out.placed = true ↔
        m.InBounds x y ∧ getCell m.terrain x y = .ok TerrainType.Empty ∧
        ¬ m.IsEntrance (x, y) ∧ ¬ m.IsExit (x, y) ∧ m.PathAvoiding x y) := by
  rcases m.PlaceTower_spec wf selectedTower forkTowerCount addr x y with
    ⟨hnot, h1⟩ | ⟨hplace, ⟨a, ha, e, n, he, hw⟩, marked, _, _, _, _, h1⟩
  · refine ⟨_, h1, ?_⟩
    constructor
    · intro h
      exact absurd h (by simp)
    · rintro ⟨hb, ht, hen, hex, hpath⟩
      exact absurd ⟨⟨hen, hex, hb, ht⟩, m.walk_of_pathAvoiding wf hpath⟩ hnot
  · refine ⟨_, h1, ?_⟩
    constructor
    · intro _
      exact ⟨hplace.2.2.1, hplace.2.2.2, hplace.1, hplace.2.1,
        m.pathAvoiding_of_walk wf hclear hplace.1 ((m.mem_entranceCells a).1 ha)
          ((exitGoal_eq_true_iff _ e).1 he) hw⟩
    · intro _
      rfl

/-- C2 at the fresh map and the cell `(3, 3)`. -/
theorem placeTower_true_iff_witness :
    ∃ out, NewGameMap.PlaceTower TowerType.DartTower 0 1 3 3 = .ok out ∧
      (out.placed = true ↔
        NewGameMap.InBounds 3 3 ∧ getCell NewGameMap.terrain 3 3 = .ok TerrainType.Empty ∧
        ¬ NewGameMap.IsEntrance (3, 3) ∧ ¬ NewGameMap.IsExit (3, 3) ∧
        NewGameMap.PathAvoiding 3 3) :=
  placeTower_true_iff NewGameMap newGameMap_frame.wellFormed newGameMap_entranceClear
    TowerType.DartTower 0 1 3 3

/-- C3. Rejected placement is atomic: on every well-formed map and for every
pair of integers `(x, y)`, `PlaceTower` returns without a fault (no index leaves
its slice), and when it returns false the whole map, terrain matrix and tower
registry included, and the fork-tower counter are what they were before the
call. -/
theorem placeTower_rejected_unchanged (m : GameMap) (wf : m.WellFormed)
    (selectedTower : TowerType) (forkTowerCount : Int) (addr : Nat) (x y : Int) :
    ∃ out, m.PlaceTower selectedTower forkTowerCount addr x y = .ok out ∧
      (out.placed = false → out.gameMap = m ∧ out.forkTowerCount = forkTowerCount) := by
  rcases m.PlaceTower_spec wf selectedTower forkTowerCount addr x y with
    ⟨_, h1⟩ | ⟨_, _, marked, _, _, _, _, h1⟩
  · exact ⟨_, h1, fun _ => ⟨rfl, rfl⟩⟩
  · exact ⟨_, h1, fun h => absurd h (by simp)⟩

/-- C3 at the fresh map and the coordinates `(-3, 40)`. -/
theorem placeTower_rejected_unchanged_witness :
    ∃ out, NewGameMap.PlaceTower TowerType.FlameTower 7 1 (-3) 40 = .ok out ∧
      (out.placed = false → out.gameMap = NewGameMap ∧ out.forkTowerCount = 7) :=
  placeTower_rejected_unchanged NewGameMap newGameMap_frame.wellFormed
    TowerType.FlameTower 7 1 (-3) 40

/-- C4, as stated, fails: on the fresh map `PlaceTower(0, 0)` returns true and
leaves `TowerPlacement` terrain in column 0, in a reachable map. -/
theorem column_zero_counterexample :
    ∃ out, NewGameMap.PlaceTower TowerType.DartTower 0 1 0 0 = .ok out ∧ out.placed = true ∧
      getCell out.gameMap.terrain 0 0 = .ok TerrainType.TowerPlacement ∧
      Reachable out.gameMap := by
  rcases NewGameMap.PlaceTower_spec newGameMap_frame.wellFormed TowerType.DartTower 0 1 0 0 with
    ⟨_, h1⟩ | ⟨_, _, marked, _, _, hm3, _, h1⟩
  · have := placed_flag_fresh_corner
    rw [h1] at this
    exact absurd this (by simp)
  · exact ⟨_, h1, rfl, hm3, Reachable.place _ _ _ _ _ Reachable.fresh h1⟩

/-- C4, amended. In every reachable map, `PlaceTower` on an entrance-band cell
of column 0 or an exit-band cell of the last column returns false and changes
nothing, and no such cell holds `TowerPlacement` terrain. -/
theorem band_never_occupied (m : GameMap) (h : Reachable m) (c : Cell)
    (hc : m.IsEntrance c ∨ m.IsExit c) (selectedTower : TowerType) (forkTowerCount : Int)
    (addr : Nat) :
    m.PlaceTower selectedTower forkTowerCount addr c.1 c.2 = .ok ⟨m, forkTowerCount, false⟩ ∧
      m.Walkable c := by
  obtain ⟨f, hconn⟩ := Reachable.invariant h
  constructor
  · rcases m.PlaceTower_spec f.wellFormed selectedTower forkTowerCount addr c.1 c.2 with
      ⟨_, h1⟩ | ⟨hplace, _⟩
    · exact h1
    · rcases hc with hc | hc
      · exact absurd hc hplace.1
      · exact absurd hc hplace.2.1
  · rcases hc with hc | hc
    · exact hconn.entranceClear c hc
    · exact hconn.exit_walkable f c hc

/-- C4, amended, at the exit cell `(17, 6)` of the fresh map. -/
theorem band_never_occupied_witness :
    NewGameMap.PlaceTower TowerType.DartTower 0 1 17 6 = .ok ⟨NewGameMap, 0, false⟩ ∧
      NewGameMap.Walkable (17, 6) :=
  band_never_occupied NewGameMap Reachable.fresh (17, 6)
    (Or.inr ((newGameMap_frame.isExit_iff _).2 rfl)) TowerType.DartTower 0 1

/-! ## Claims on the registry -/

theorem placeTower_fork_at_limit :
    NewGameMap.PlaceTower TowerType.ForkTower 10 1 5 5 = .ok ⟨mapWithNilTower, 10, true⟩ := by
  decide

theorem mapWithNilTower_reachable : Reachable mapWithNilTower :=
  @Reachable.place NewGameMap ⟨mapWithNilTower, 10, true⟩ TowerType.ForkTower 10 1 5 5
    Reachable.fresh placeTower_fork_at_limit

/-- C5 fails on the code: with `ForkTower` selected and the fork-tower counter
at 10, `PlaceTower(5, 5)` on the fresh map returns true and marks the cell, but
the registry receives `nil` instead of a tower, and `GetTowerAt(5, 5)` then
dereferences `nil`. -/
theorem forkTower_limit_registers_nil :
    ∃ out, NewGameMap.PlaceTower TowerType.ForkTower 10 1 5 5 = .ok out ∧ out.placed = true ∧
      getCell out.gameMap.terrain 5 5 = .ok TerrainType.TowerPlacement ∧
      out.gameMap.towers = [none] ∧
      out.gameMap.GetTowerAt 5 5 = .error Fault.nilDereference :=
  ⟨⟨mapWithNilTower, 10, true⟩, placeTower_fork_at_limit, rfl, by decide, rfl, by decide⟩

/-- C6 fails on the code: in the reachable map whose registry holds the `nil`
left by a fork-tower placement at the limit, followed by a dart tower placed on
`(3, 3)`, `RemoveTower(3, 3)` dereferences `nil` instead of deleting the tower
registered at `(3, 3)`; so does `RemoveTower(5, 5)`. -/
theorem removeTower_faults_on_nil_entry :
    ∃ out, mapWithNilTower.PlaceTower TowerType.DartTower 10 2 3 3 = .ok out ∧
      out.placed = true ∧ Reachable out.gameMap ∧
      (∃ tower, out.gameMap.towers = [none, some tower] ∧ tower.position = ⟨3, 3⟩) ∧
      out.gameMap.RemoveTower 3 3 = .error Fault.nilDereference ∧
      mapWithNilTower.RemoveTower 5 5 = .error Fault.nilDereference := by
  have hflag : (match mapWithNilTower.PlaceTower TowerType.DartTower 10 2 3 3 with
      | .ok out => out.placed
      | .error _ => false) = true := by decide
  have wf := (Reachable.invariant mapWithNilTower_reachable).1.wellFormed
  rcases mapWithNilTower.PlaceTower_spec wf TowerType.DartTower 10 2 3 3 with
    ⟨_, h1⟩ | ⟨_, _, marked, _, hm2, _, _, h1⟩
  · rw [h1] at hflag
    exact absurd hflag (by simp)
  · have hreach := Reachable.place _ _ _ _ _ mapWithNilTower_reachable h1
    refine ⟨_, h1, rfl, hreach, ⟨_, rfl, rfl⟩, ?_, by decide⟩
    obtain ⟨t1, ht1, _⟩ := setCell_spec (x := 3) (y := 3) TerrainType.Empty hm2
      (by decide) (by decide) (by decide) (by decide)
    have hcond : (3 : Int) ≥ 0 ∧ (3 : Int) < mapWithNilTower.width ∧ (3 : Int) ≥ 0 ∧
        (3 : Int) < mapWithNilTower.height := by decide
    simp only [GameMap.RemoveTower, GameMap.withTower, hcond, and_self, if_true, ht1]
    rfl

/-- Eleven fork towers placed in a row from a fresh game (counter 0): the
counter stops at 10 and the eleventh placement marks its cell while the
registry receives `nil`. -/
theorem eleventh_fork_tower_is_nil :
    (match placeAll TowerType.ForkTower
        [(1, 0), (2, 0), (3, 0), (4, 0), (5, 0), (6, 0), (7, 0), (8, 0), (9, 0), (10, 0), (11, 0)]
        NewGameMap 0 with
      | .ok (m, forkTowerCount) =>
        decide (forkTowerCount = 10) && decide (m.towers.length = 11) &&
          (m.towers.getLast?).isSome && ((m.towers.getLast?).bind id).isNone &&
          decide (getCell m.terrain 11 0 = .ok TerrainType.TowerPlacement)
      | .error _ => false) = true := by
  decide!

/-! ## Claims on path invalidation -/

theorem mem_invalidateAll {enemies : List (Option Enemy)} {e : Enemy}
    (h : some e ∈ invalidateAll enemies) : e.pathInvalid = true := by
  unfold invalidateAll at h
  rw [List.mem_map] at h
  obtain ⟨entry, _, he⟩ := h
  cases entry with
  | none => simp at he
  | some enemy =>
    simp only [Option.some.injEq] at he
    rw [← he]
    rfl

/-- The placement half of C7 holds: after a successful `tryPlaceTower` every
enemy of the list has `pathInvalid` set. -/
theorem tryPlaceTower_invalidates (g g1 : Game) (forkTowerCount forkTowerCount1 : Int)
    (addr : Nat) (x y : Int)
    (h : g.tryPlaceTower forkTowerCount addr x y = .ok (g1, forkTowerCount1, true))
    (e : Enemy) (he : some e ∈ g1.enemies) : e.pathInvalid = true := by
  unfold Game.tryPlaceTower at h
  by_cases hm : g.money < towerCost g.selectedTower
  · simp [hm] at h
  · simp only [hm, if_false] at h
    cases hp : g.gameMap.PlaceTower g.selectedTower forkTowerCount addr x y with
    | error err => rw [hp] at h; simp at h
    | ok out =>
      rw [hp] at h
      simp only at h
      by_cases hpl : out.placed = true
      · simp only [hpl, if_true, Except.ok.injEq, Prod.mk.injEq, and_true] at h
        rw [← h.1] at he
        exact mem_invalidateAll he
      · simp [hpl] at h

theorem handleTowerRemoval_enemies (g g1 : Game) (mouseX mouseY : Int)
    (h : g.handleTowerRemoval mouseX mouseY = .ok g1) : g1.enemies = g.enemies := by
  unfold Game.handleTowerRemoval at h
  by_cases hm : mouseY > g.gameMap.uiHeight
  · simp only [hm, if_true] at h
    cases hg : g.gameMap.GetTowerAt (g.gameMap.GetGridPosition mouseX mouseY).1
        (g.gameMap.GetGridPosition mouseX mouseY).2 with
    | error err => rw [hg] at h; simp at h
    | ok found =>
      rw [hg] at h
      cases found with
      | none =>
        simp only [Except.ok.injEq] at h
        rw [← h]
      | some tower =>
        simp only at h
        cases hr : g.gameMap.RemoveTower (g.gameMap.GetGridPosition mouseX mouseY).1
            (g.gameMap.GetGridPosition mouseX mouseY).2 with
        | error err => rw [hr] at h; simp at h
        | ok m1 =>
          rw [hr] at h
          simp only [Except.ok.injEq] at h
          rw [← h]
  · simp only [hm, if_false, Except.ok.injEq] at h
    rw [← h]

theorem spider_path_on_mapWithDart :
    spawnedSpider.findPath mapWithDart = .ok (walkingSpider, true) := by
  decide!

theorem dart_placed_on_fresh_map :
    NewGameMap.PlaceTower TowerType.DartTower 0 1 5 5 = .ok ⟨mapWithDart, 0, true⟩ := by
  decide!

/-- C7 fails on the code: in the game `gameWithDart` (a dart tower on `(5, 5)`,
one spider alive with a valid path), the player's remove action on the tower,
a right click at pixel `(298, 350)`, removes the tower and refunds it, and the
spider still has `pathInvalid = false` afterwards. -/
theorem removal_does_not_invalidate_paths :
    ∃ g1, gameWithDart.handleTowerRemoval 298 350 = .ok g1 ∧
      g1.gameMap.towers = [] ∧ getCell g1.gameMap.terrain 5 5 = .ok TerrainType.Empty ∧
      g1.money = 200 ∧ g1.enemies = [some walkingSpider] ∧ walkingSpider.pathInvalid = false := by
  refine ⟨{ gameWithDart with money := 200, gameMap := NewGameMap }, ?_, rfl, ?_, rfl, rfl, rfl⟩
  · decide!
  · decide!

/-! ## `findPath` against the abstract search -/

theorem GameMap.IsBlocked_ok_of_grid (m : GameMap) (hg : IsGrid m.terrain m.width m.height)
    {x y : Int} (hb : x ≥ 0 ∧ x < m.width ∧ y ≥ 0 ∧ y < m.height) :
    ∃ b, m.IsBlocked x y = .ok b := by
  obtain ⟨t, ht⟩ := getCell_ok_of_grid hg hb.1 hb.2.1 hb.2.2.1 hb.2.2.2
  have hnb : ¬ (x < 0 ∨ x ≥ m.width ∨ y < 0 ∨ y ≥ m.height) := by omega
  by_cases htt : t = TerrainType.TowerPlacement
  · exact ⟨true, by simp [GameMap.IsBlocked, hnb, ht, htt]⟩
  · exact ⟨false, by simp [GameMap.IsBlocked, hnb, ht, htt]⟩

theorem findExpand_sim (m : GameMap) (hg : IsGrid m.terrain m.width m.height) (canFly : Bool)
    (currentX : Int) (cur : Cell) :
    ∀ (ds : List (Int × Int)) (q : List Cell) (v : List (List Bool))
      (p : List (List (Int × Int))),
      IsGrid v m.width m.height → IsGrid p m.width m.height →
      ∃ v1 p1, findExpand m canFly currentX cur ds q v p =
          .ok ((Search.expand (findAdm m canFly currentX) cur ds
            ⟨q, seenOf v, parentOf p⟩).queue, v1, p1) ∧
        IsGrid v1 m.width m.height ∧ IsGrid p1 m.width m.height ∧
        seenOf v1 = (Search.expand (findAdm m canFly currentX) cur ds
          ⟨q, seenOf v, parentOf p⟩).seen ∧
        parentOf p1 = (Search.expand (findAdm m canFly currentX) cur ds
          ⟨q, seenOf v, parentOf p⟩).parent := by
  intro ds
  induction ds with
  | nil =>
    intro q v p hv hp
    exact ⟨v, p, rfl, hv, hp, rfl, rfl⟩
  | cons d ds ih =>
    intro q v p hv hp
    by_cases hb : cur.1 + d.1 ≥ 0 ∧ cur.1 + d.1 < m.width ∧ cur.2 + d.2 ≥ 0 ∧
        cur.2 + d.2 < m.height
    · obtain ⟨seen, hseen⟩ := getCell_ok_of_grid hv hb.1 hb.2.1 hb.2.2.1 hb.2.2.2
      obtain ⟨blocked, hblocked⟩ := m.IsBlocked_ok_of_grid hg hb
      have hs : seenOf v (shift cur d) = seen := seenOf_eq hseen
      cases seen with
      | true =>
        obtain ⟨v1, p1, e1, e2, e3, e4, e5⟩ := ih q v p hv hp
        refine ⟨v1, p1, ?_, e2, e3, ?_, ?_⟩
        · simp only [findExpand, hb, and_self, if_true, hseen, Search.expand, hs,
            Bool.not_true, Bool.and_false, Bool.false_eq_true, if_false]
          exact e1
        · simp only [Search.expand, hs, Bool.not_true, Bool.and_false, Bool.false_eq_true,
            if_false]
          exact e4
        · simp only [Search.expand, hs, Bool.not_true, Bool.and_false, Bool.false_eq_true,
            if_false]
          exact e5
      | false =>
        have hadm : findAdm m canFly currentX (shift cur d) =
            (!blocked || (canFly && decide (cur.1 + d.1 > currentX))) := by
          cases blocked <;> simp [findAdm, shift, hblocked, hb.1, hb.2.1, hb.2.2.1, hb.2.2.2]
        by_cases hcond : (!blocked || (canFly && decide (cur.1 + d.1 > currentX))) = true
        · obtain ⟨v0, s1, s2, s3, s4⟩ := setCell_spec true hv hb.1 hb.2.1 hb.2.2.1 hb.2.2.2
          obtain ⟨p0, t1, t2, t3, t4⟩ := setCell_spec cur hp hb.1 hb.2.1 hb.2.2.1 hb.2.2.2
          obtain ⟨v1, p1, e1, e2, e3, e4, e5⟩ := ih (q ++ [shift cur d]) v0 p0 s2 t2
          have hup : seenOf v0 = Function.update (seenOf v) (shift cur d) true :=
            seenOf_setCell s3 s4
          have hpp : parentOf p0 = Function.update (parentOf p) (shift cur d) cur :=
            parentOf_setCell t3 t4
          rw [hup, hpp] at e1 e4 e5
          rw [hcond] at hadm
          refine ⟨v1, p1, ?_, e2, e3, ?_, ?_⟩
          · simp only [findExpand, hb, and_self, if_true, hseen, Search.expand, hadm, hs,
              Bool.not_false, Bool.and_self, Bool.false_eq_true, if_false, hblocked, hcond,
              s1, t1]
            exact e1
          · simp only [Search.expand, hadm, hs, Bool.not_false, Bool.and_self, if_true]
            exact e4
          · simp only [Search.expand, hadm, hs, Bool.not_false, Bool.and_self, if_true]
            exact e5
        · have hcond1 : (!blocked || (canFly && decide (cur.1 + d.1 > currentX))) = false := by
            simpa using hcond
          rw [hcond1] at hadm
          obtain ⟨v1, p1, e1, e2, e3, e4, e5⟩ := ih q v p hv hp
          refine ⟨v1, p1, ?_, e2, e3, ?_, ?_⟩
          · simp only [findExpand, hb, and_self, if_true, hseen, Search.expand, hadm,
              Bool.false_and, Bool.false_eq_true, if_false, hblocked, hcond1]
            exact e1
          · simp only [Search.expand, hadm, Bool.false_and, Bool.false_eq_true, if_false]
            exact e4
          · simp only [Search.expand, hadm, Bool.false_and, Bool.false_eq_true, if_false]
            exact e5
    · have hadm : findAdm m canFly currentX (shift cur d) = false := by
        simp only [findAdm, shift, Bool.and_eq_false_imp, decide_eq_true_eq]
        intro h
        exact absurd h hb
      obtain ⟨v1, p1, e1, e2, e3, e4, e5⟩ := ih q v p hv hp
      refine ⟨v1, p1, ?_, e2, e3, ?_, ?_⟩
      · simp only [findExpand, hb, if_false, Search.expand, hadm, Bool.false_and,
          Bool.false_eq_true]
        exact e1
      · simp only [Search.expand, hadm, Bool.false_and, Bool.false_eq_true, if_false]
        exact e4
      · simp only [Search.expand, hadm, Bool.false_and, Bool.false_eq_true, if_false]
        exact e5

theorem findLoop_sim (m : GameMap) (hg : IsGrid m.terrain m.width m.height) (canFly : Bool)
    (currentX : Int) :
    ∀ (fuel : Nat) (q : List Cell) (v : List (List Bool)) (p : List (List (Int × Int))),
      IsGrid v m.width m.height → IsGrid p m.width m.height →
      (Search.run (findAdm m canFly currentX) (exitGoal m) findDirections fuel
          ⟨q, seenOf v, parentOf p⟩ = none ∧
        findLoop m canFly currentX fuel q v p = .error Fault.fuelExhausted) ∨
      (∃ r s1 p1, Search.run (findAdm m canFly currentX) (exitGoal m) findDirections fuel
          ⟨q, seenOf v, parentOf p⟩ = some (r, s1) ∧
        findLoop m canFly currentX fuel q v p = .ok (r, p1) ∧
        IsGrid p1 m.width m.height ∧ parentOf p1 = s1.parent) := by
  intro fuel
  induction fuel with
  | zero =>
    intro q v p _ _
    left
    simp [findLoop, Search.run]
  | succ fuel ih =>
    intro q v p hv hp
    cases q with
    | nil =>
      right
      exact ⟨none, ⟨[], seenOf v, parentOf p⟩, p, by simp [Search.run], by simp [findLoop],
        hp, rfl⟩
    | cons cur rest =>
      by_cases hgoal : cur.1 = m.width - 1 ∧ cur.2 ≥ m.exitStart ∧ cur.2 ≤ m.exitEnd
      · have hg1 : exitGoal m cur = true := by simp [exitGoal, hgoal]
        right
        exact ⟨some cur, ⟨cur :: rest, seenOf v, parentOf p⟩, p, by simp [Search.run, hg1],
          by simp [findLoop, GameMap.GetExitArea, hgoal], hp, rfl⟩
      · have hg1 : exitGoal m cur = false := by simp [exitGoal, hgoal]
        obtain ⟨v1, p1, e1, e2, e3, e4, e5⟩ :=
          findExpand_sim m hg canFly currentX cur findDirections rest v p hv hp
        have hrun : Search.run (findAdm m canFly currentX) (exitGoal m) findDirections (fuel + 1)
            ⟨cur :: rest, seenOf v, parentOf p⟩ =
            Search.run (findAdm m canFly currentX) (exitGoal m) findDirections fuel
              ⟨(Search.expand (findAdm m canFly currentX) cur findDirections
                  ⟨rest, seenOf v, parentOf p⟩).queue, seenOf v1, parentOf p1⟩ := by
          simp only [Search.run, hg1, Bool.false_eq_true, if_false]
          rw [e4, e5]
        have hloop : findLoop m canFly currentX (fuel + 1) (cur :: rest) v p =
            findLoop m canFly currentX fuel
              (Search.expand (findAdm m canFly currentX) cur findDirections
                  ⟨rest, seenOf v, parentOf p⟩).queue v1 p1 := by
          simp only [findLoop, GameMap.GetExitArea, hgoal, if_false, e1]
        rw [hrun, hloop]
        exact ih _ v1 p1 e2 e3

theorem parentOf_eq {p : List (List (Int × Int))} {x y : Int} {d : Int × Int}
    (h : getCell p x y = .ok d) : parentOf p (x, y) = d := by
  simp [parentOf, h]

theorem reconstructPath_eq_climb {adm goal : Cell → Bool} {dirs : List (Int × Int)}
    {start : Cell} {s : Search} {lvl : Cell → Nat} {k : Nat} {w h : Int}
    (inv : SearchInv adm goal dirs [start] s lvl k) {p : List (List (Int × Int))}
    (hp : parentOf p = s.parent) (hgrid : IsGrid p w h)
    (hin : ∀ c, s.seen c = true → 0 ≤ c.1 ∧ c.1 < w ∧ 0 ≤ c.2 ∧ c.2 < h) :
    ∀ (n : Nat) (c : Cell) (acc : List Point) (fuel : Nat) (path : List Point),
      s.seen c = true → lvl c = n → n < fuel →
      climb start s.parent fuel c acc = some path →
      reconstructPath start p fuel c acc = .ok path := by
  intro n
  induction n with
  | zero =>
    intro c acc fuel path hc hl hf hclimb
    cases fuel with
    | zero => omega
    | succ fuel =>
      by_cases hs : c = start
      · subst hs
        simp only [climb, ne_eq, not_true_eq_false, or_self, if_false, Option.some.injEq]
          at hclimb
        simp [reconstructPath, hclimb]
      · obtain ⟨_, h2, _⟩ := inv.tree c hc (by simpa using hs)
        omega
  | succ n ih =>
    intro c acc fuel path hc hl hf hclimb
    have hs : c ≠ start := by
      intro h
      have := (inv.src_seen c (by simp [h])).2
      omega
    obtain ⟨h1, h2, _⟩ := inv.tree c hc (by simpa using hs)
    cases fuel with
    | zero => omega
    | succ fuel =>
      have hcond : c.1 ≠ start.1 ∨ c.2 ≠ start.2 := by
        by_contra hcon
        push_neg at hcon
        exact hs (Prod.ext hcon.1 hcon.2)
      obtain ⟨hb1, hb2, hb3, hb4⟩ := hin c hc
      obtain ⟨d, hd⟩ := getCell_ok_of_grid hgrid hb1 hb2 hb3 hb4
      have hd1 : s.parent c = d := by
        rw [← hp]
        exact parentOf_eq hd
      simp only [climb, hcond, if_true] at hclimb
      simp only [reconstructPath, hcond, if_true, hd]
      rw [← hd1]
      exact ih (s.parent c) _ fuel path h1 (by omega) (by omega) hclimb

theorem findAdm_mem_gridCells (m : GameMap) (canFly : Bool) (currentX : Int) (c : Cell)
    (h : findAdm m canFly currentX c = true) : c ∈ gridCells m.width.toNat m.height.toNat := by
  simp only [findAdm, Bool.and_eq_true, decide_eq_true_eq] at h
  rw [mem_gridCells]
  omega

theorem SearchInv.seen_inside {adm goal : Cell → Bool} {dirs : List (Int × Int)}
    {src : List Cell} {s : Search} {lvl : Cell → Nat} {k : Nat}
    (inv : SearchInv adm goal dirs src s lvl k) {P : Cell → Prop}
    (hsrc : ∀ c ∈ src, P c) (hadm : ∀ c, adm c = true → P c) (c : Cell)
    (hc : s.seen c = true) : P c := by
  by_cases hs : c ∈ src
  · exact hsrc c hs
  · exact hadm c (inv.tree c hc hs).2.2.1

theorem Enemy.findPath_spec (e : Enemy) (m : GameMap)
    (hg : IsGrid m.terrain m.width m.height)
    (hcell : m.InBounds (e.cell m).1 (e.cell m).2) :
    (e.findPath m = .ok (e, false) ∧
      ∀ n x, Walk (findAdm m e.canFly (e.cell m).1) findDirections (e.cell m) n x →
        exitGoal m x = false) ∨
    (∃ chain : List Cell,
      e.findPath m =
        .ok ({ e with path := cellPoints chain, pathIndex := 0, pathInvalid := false }, true) ∧
      List.Chain' (StepTo (findAdm m e.canFly (e.cell m).1) findDirections)
        (e.cell m :: chain) ∧
      (∃ t, (e.cell m :: chain).getLast? = some t ∧ exitGoal m t = true) ∧
      ∀ n x, Walk (findAdm m e.canFly (e.cell m).1) findDirections (e.cell m) n x →
        exitGoal m x = true → chain.length ≤ n) := by
  obtain ⟨hx0, hx1, hy0, hy1⟩ := hcell
  obtain ⟨v0, hv1, hv2, hv3⟩ := makeGrid_spec false hg.1 hg.2.1
  obtain ⟨p0, hp1, hp2, _⟩ := makeGrid_spec ((0 : Int), (0 : Int)) hg.1 hg.2.1
  have hv0 : seenOf v0 = fun _ => false := seenOf_makeGrid hv3
  obtain ⟨v, hs1, hs2, hs3, hs4⟩ := setCell_spec true hv2 hx0 hx1 hy0 hy1
  have hup : seenOf v = Function.update (fun _ => false) (e.cell m) true := by
    rw [← hv0]
    exact seenOf_setCell hs3 hs4
  have hseen : ∀ c, seenOf v c = true ↔ c ∈ [e.cell m] := by
    intro c
    rw [hup]
    by_cases hc : c = e.cell m
    · simp [Function.update, hc]
    · simp [Function.update, hc]
  have inv0 := SearchInv.initial (findAdm m e.canFly (e.cell m).1) (exitGoal m) findDirections
    [e.cell m] (seenOf v) (parentOf p0) (List.nodup_singleton _) hseen
  have hmem : e.cell m ∈ gridCells m.width.toNat m.height.toNat := by
    rw [mem_gridCells]
    omega
  have hpot : [e.cell m].length + unseenCount m.width.toNat m.height.toNat (seenOf v) <
      m.searchFuel := by
    have := @unseenCount_update m.width.toNat m.height.toNat (fun _ => false) _ hmem rfl
    rw [unseenCount_none] at this
    rw [hup]
    simp only [List.length_singleton, GameMap.searchFuel]
    rw [Nat.add_comm]
    exact Nat.lt_succ_of_le (le_of_eq this)
  obtain ⟨⟨r, s1⟩, hrun⟩ := Search.run_total (findAdm m e.canFly (e.cell m).1) (exitGoal m)
    findDirections (findAdm_mem_gridCells m e.canFly (e.cell m).1) m.searchFuel
    ⟨[e.cell m], seenOf v, parentOf p0⟩ hpot
  rcases findLoop_sim m hg e.canFly (e.cell m).1 m.searchFuel [e.cell m] v p0 hs2 hp2 with
    ⟨hnone, _⟩ | ⟨r1, s2, p1, hrun1, hloop, hgp1, hpar1⟩
  · rw [hrun] at hnone
    exact absurd hnone (by simp)
  · rw [hrun] at hrun1
    injection hrun1 with hrun1
    injection hrun1 with hr hs
    subst hr hs
    obtain ⟨lvl1, k1, inv1, hk, hres⟩ := Search.run_inv m.searchFuel _ _ 0 r s1 inv0 hrun
    rcases hres with ⟨target, hr, hhd, hgoal⟩ | ⟨hr, hq⟩
    · right
      subst hr
      have hseent : s1.seen target = true := inv1.queue_seen target (List.mem_of_mem_head? hhd)
      have hdepth := inv1.depth target hseent
      obtain ⟨chain, hclimb, hlen, hchain, hlast⟩ :=
        inv1.climb_spec (lvl1 target) target [] m.searchFuel hseent rfl (by omega)
      have hin : ∀ c, s1.seen c = true →
          0 ≤ c.1 ∧ c.1 < m.width ∧ 0 ≤ c.2 ∧ c.2 < m.height := by
        intro c hc
        refine inv1.seen_inside (P := fun c => 0 ≤ c.1 ∧ c.1 < m.width ∧ 0 ≤ c.2 ∧ c.2 < m.height)
          ?_ ?_ c hc
        · intro c1 hc1
          simp only [List.mem_singleton] at hc1
          subst hc1
          exact ⟨hx0, hx1, hy0, hy1⟩
        · intro c1 hc1
          have := (mem_gridCells _ _ c1).1 (findAdm_mem_gridCells m _ _ c1 hc1)
          omega
      have hrec := reconstructPath_eq_climb inv1 hpar1 hgp1 hin (lvl1 target) target []
        m.searchFuel _ hseent rfl (by omega) hclimb
      refine ⟨chain, ?_, hchain, ⟨target, hlast, hgoal⟩, ?_⟩
      · simp only [Enemy.findPath, hv1, hp1, hs1, hloop, hrec, cellPoints, List.append_nil]
      · intro n x hw hx
        have := inv1.found_minimal hhd (List.mem_singleton_self _) hw hx
        omega
    · left
      subst hr
      refine ⟨?_, ?_⟩
      · simp only [Enemy.findPath, hv1, hp1, hs1, hloop]
      · intro n x hw
        exact inv1.none_reachable hq (List.mem_singleton_self _) hw

/-! ## Claims on path finding -/

theorem pathCells_cellPoints (chain : List Cell) : pathCells (cellPoints chain) = chain := by
  simp [pathCells, cellPoints, List.map_map, Function.comp_def]

theorem findAdm_eq_true_iff (e : Enemy) (m : GameMap) (c : Cell) :
    findAdm m e.canFly (e.cell m).1 c = true ↔ e.CanEnter m c := by
  simp only [findAdm, Enemy.CanEnter, GameMap.InBounds, Bool.and_eq_true, Bool.or_eq_true,
    decide_eq_true_eq]

theorem Enemy.canEnter_ground (e : Enemy) (m : GameMap) (hfly : e.canFly = false) (c : Cell) :
    e.CanEnter m c ↔ m.IsBlocked c.1 c.2 = .ok false := by
  unfold Enemy.CanEnter
  constructor
  · rintro ⟨_, h | ⟨h, _⟩⟩
    · exact h
    · rw [hfly] at h
      exact absurd h (by simp)
  · intro h
    exact ⟨((m.walkable_iff c).1 h).1, Or.inl h⟩

theorem chain'_entered {R : Cell → Cell → Prop} :
    ∀ (l : List Cell) (a : Cell), List.Chain' R (a :: l) → ∀ c ∈ l, ∃ b, R b c := by
  intro l
  induction l with
  | nil => intro a _ c hc; simp at hc
  | cons x l ih =>
    intro a h c hc
    rw [List.chain'_cons] at h
    rcases List.mem_cons.1 hc with rfl | hc
    · exact ⟨a, h.1⟩
    · exact ih x h.2 c hc

theorem Enemy.exitReachable_iff_walk (e : Enemy) (m : GameMap) :
    e.ExitReachable m ↔
      ∃ n x, Walk (findAdm m e.canFly (e.cell m).1) findDirections (e.cell m) n x ∧
        exitGoal m x = true := by
  constructor
  · rintro ⟨q, hchain, hq, t, hlast, ht⟩
    refine ⟨q.length, t, ?_, (exitGoal_eq_true_iff m t).2 ht⟩
    exact Walk.of_list (fun a b h => (adjacent_iff_findDirections a b).1 h) q _ t hchain hlast
      (fun c hc => (findAdm_eq_true_iff e m c).2 (hq c hc))
  · rintro ⟨n, x, hw, hx⟩
    obtain ⟨p, _, h2, h3, h4⟩ := Walk.to_list (W := fun c => e.CanEnter m c)
      (fun c hc => (findAdm_eq_true_iff e m c).1 hc)
      (fun a b h => (adjacent_iff_findDirections a b).2 h) hw
    exact ⟨p, h2, h4, x, h3, (exitGoal_eq_true_iff m x).1 hx⟩

/-- C8. Path optimality: on every map whose terrain matrix has the declared
dimensions, for a ground enemy standing in a cell of the grid, whenever `findPath` returns true the stored path leaves out
the start cell, starts at a 4-neighbour of it, moves by one cardinal step
between consecutive cells, holds only cells for which `IsBlocked` is false, leads
to an exit-band cell of the last column (it is empty exactly when the enemy
already stands in one), and has as many cells as the shortest such list of
steps from the start cell to any exit-band cell; `pathIndex` is 0 and
`pathInvalid` is cleared. -/
theorem findPath_shortest (e : Enemy) (m : GameMap)
    (hg : IsGrid m.terrain m.width m.height) (hfly : e.canFly = false) (hcell : m.InBounds (e.cell m).1 (e.cell m).2) (e1 : Enemy)
    (h : e.findPath m = .ok (e1, true)) :
    e.cell m ∉ pathCells e1.path ∧
    (∀ c, (pathCells e1.path).head? = some c → Adjacent (e.cell m) c) ∧
    List.Chain' Adjacent (e.cell m :: pathCells e1.path) ∧
    (∀ c ∈ pathCells e1.path, m.IsBlocked c.1 c.2 = .ok false) ∧
    (∃ t, (e.cell m :: pathCells e1.path).getLast? = some t ∧ m.IsExit t) ∧
    (∀ q : List Cell, List.Chain' Adjacent (e.cell m :: q) →
      (∀ c ∈ q, m.IsBlocked c.1 c.2 = .ok false) →
      (∃ t, (e.cell m :: q).getLast? = some t ∧ m.IsExit t) →
      (pathCells e1.path).length ≤ q.length) ∧
    e1.pathIndex = 0 ∧ e1.pathInvalid = false := by
  rcases e.findPath_spec m hg hcell with ⟨h1, _⟩ | ⟨chain, h1, hchain, ⟨t, hlast, ht⟩, hmin⟩
  · rw [h1] at h
    injection h with h
    injection h with _ h
    exact absurd h (by simp)
  · rw [h1] at h
    injection h with h
    injection h with h _
    subst h
    simp only [pathCells_cellPoints]
    have hadj : List.Chain' Adjacent (e.cell m :: chain) :=
      hchain.imp (fun a b hab => (adjacent_iff_findDirections a b).2 hab.2)
    have hminq : ∀ q : List Cell, List.Chain' Adjacent (e.cell m :: q) →
        (∀ c ∈ q, m.IsBlocked c.1 c.2 = .ok false) →
        (∃ t, (e.cell m :: q).getLast? = some t ∧ m.IsExit t) → chain.length ≤ q.length := by
      intro q hq hopen ⟨t1, hl1, ht1⟩
      refine hmin q.length t1 ?_ ((exitGoal_eq_true_iff m t1).2 ht1)
      exact Walk.of_list (fun a b h => (adjacent_iff_findDirections a b).1 h) q _ t1 hq hl1
        (fun c hc => (findAdm_eq_true_iff e m c).2 ((e.canEnter_ground m hfly c).2 (hopen c hc)))
    have hopen : ∀ c ∈ chain, m.IsBlocked c.1 c.2 = .ok false := by
      intro c hc
      obtain ⟨b, hb⟩ := chain'_entered chain _ hchain c hc
      exact (e.canEnter_ground m hfly c).1 ((findAdm_eq_true_iff e m c).1 hb.1)
    refine ⟨?_, ?_, hadj, hopen, ⟨t, hlast, (exitGoal_eq_true_iff m t).1 ht⟩, hminq, trivial, trivial⟩
    · intro hmem
      obtain ⟨l1, l2, hsplit⟩ := List.append_of_mem hmem
      have hsuffix : List.Chain' Adjacent (e.cell m :: l2) := by
        have := hadj
        rw [hsplit, ← List.cons_append, List.chain'_append] at this
        exact this.2.1
      have hlast2 : (e.cell m :: l2).getLast? = some t := by
        rw [hsplit, ← List.cons_append, List.getLast?_append] at hlast
        simpa using hlast
      have := hminq l2 hsuffix
        (fun c hc => hopen c (by rw [hsplit]; simp [hc]))
        ⟨t, hlast2, (exitGoal_eq_true_iff m t).1 ht⟩
      rw [hsplit] at this
      simp only [List.length_append, List.length_cons] at this
      omega
    · intro c hc
      cases chain with
      | nil => simp at hc
      | cons c1 rest =>
        simp only [List.head?_cons, Option.some.injEq] at hc
        subst hc
        exact (List.chain'_cons.1 hadj).1

theorem mapWithDart_reachable : Reachable mapWithDart :=
  @Reachable.place NewGameMap ⟨mapWithDart, 0, true⟩ TowerType.DartTower 0 1 5 5
    Reachable.fresh dart_placed_on_fresh_map

theorem spawnedSpider_cell_inBounds :
    mapWithDart.InBounds (spawnedSpider.cell mapWithDart).1 (spawnedSpider.cell mapWithDart).2 := by
  unfold GameMap.InBounds
  decide!

/-- C8 at the spider spawned on the map with a dart tower on `(5, 5)`: its path
is the row of 17 cells from `(1, 6)` to `(17, 6)`. -/
theorem findPath_shortest_witness :
    spawnedSpider.findPath mapWithDart = .ok (walkingSpider, true) ∧
    (pathCells walkingSpider.path).length = 17 ∧
    spawnedSpider.cell mapWithDart ∉ pathCells walkingSpider.path ∧
    (∀ c, (pathCells walkingSpider.path).head? = some c →
      Adjacent (spawnedSpider.cell mapWithDart) c) ∧
    List.Chain' Adjacent (spawnedSpider.cell mapWithDart :: pathCells walkingSpider.path) ∧
    (∀ c ∈ pathCells walkingSpider.path, mapWithDart.IsBlocked c.1 c.2 = .ok false) ∧
    (∃ t, (spawnedSpider.cell mapWithDart :: pathCells walkingSpider.path).getLast? = some t ∧
      mapWithDart.IsExit t) ∧
    (∀ q : List Cell, List.Chain' Adjacent (spawnedSpider.cell mapWithDart :: q) →
      (∀ c ∈ q, mapWithDart.IsBlocked c.1 c.2 = .ok false) →
      (∃ t, (spawnedSpider.cell mapWithDart :: q).getLast? = some t ∧ mapWithDart.IsExit t) →
      (pathCells walkingSpider.path).length ≤ q.length) ∧
    walkingSpider.pathIndex = 0 ∧ walkingSpider.pathInvalid = false :=
  ⟨spider_path_on_mapWithDart, rfl,
    findPath_shortest spawnedSpider mapWithDart
      (Reachable.invariant mapWithDart_reachable).1.wellFormed.grid rfl
      spawnedSpider_cell_inBounds walkingSpider spider_path_on_mapWithDart⟩

/-- C9. Pathfinding failure is deferred, not fatal: on every map whose terrain
matrix has the declared dimensions, for an enemy standing in a cell of the grid, `findPath` returns, and it returns false
exactly when no exit-band cell is reachable from the enemy's cell; it then
leaves the enemy as it was (`path`, `pathIndex` and `pathInvalid` included).
An `Update` of a non-frozen enemy that needs a path and whose `findPath` fails
returns false and leaves the enemy (position, health and target included) and
the map unchanged, so that the enemy still needs a path: the next `Update`
consults `findPath` again, on whatever map it is given. -/
theorem findPath_failure_deferred (e : Enemy) (m : GameMap)
    (hg : IsGrid m.terrain m.width m.height) (hcell : m.InBounds (e.cell m).1 (e.cell m).2) :
    ∃ e1 found, e.findPath m = .ok (e1, found) ∧
      (found = false ↔ ¬ e.ExitReachable m) ∧
      (found = false → e1 = e ∧
        ∀ env : Env, ¬ e.frozenTimer > 0 →
          (e.pathInvalid = true ∨ e.path.length = 0 ∨ e.pathIndex ≥ (e.path.length : Int)) →
          e.Update m env = .ok (e, m, false) ∧
          ∀ m2 : GameMap, e.ensurePath m2 = e.findPath m2) := by
  rcases e.findPath_spec m hg hcell with ⟨h1, hnone⟩ | ⟨chain, h1, hchain, ⟨t, hlast, ht⟩, _⟩
  · refine ⟨e, false, h1, ?_, ?_⟩
    · constructor
      · intro _ hreach
        obtain ⟨n, x, hw, hx⟩ := (e.exitReachable_iff_walk m).1 hreach
        have := hnone n x hw
        rw [hx] at this
        exact absurd this (by simp)
      · intro _
        rfl
    · intro _
      refine ⟨rfl, ?_⟩
      intro env hfrozen hneed
      refine ⟨?_, ?_⟩
      · simp only [Enemy.Update, hfrozen, if_false, Enemy.ensurePath, hneed, if_true, h1]
      · intro m2
        simp only [Enemy.ensurePath, hneed, if_true]
  · refine ⟨_, true, h1, ?_, ?_⟩
    · constructor
      · intro h
        exact absurd h (by simp)
      · intro hnot
        exfalso
        apply hnot
        have hadj : List.Chain' Adjacent (e.cell m :: chain) :=
          hchain.imp (fun a b hab => (adjacent_iff_findDirections a b).2 hab.2)
        refine ⟨chain, hadj, ?_, t, hlast, (exitGoal_eq_true_iff m t).1 ht⟩
        intro c hc
        obtain ⟨b, hb⟩ := chain'_entered chain _ hchain c hc
        exact (findAdm_eq_true_iff e m c).1 hb.1
    · intro h
      exact absurd h (by simp)

theorem sealedMap_grid : IsGrid sealedMap.terrain sealedMap.width sealedMap.height :=
  ⟨by decide, by decide, by decide, by decide!⟩

theorem spawnedSpider_cell_inBounds_sealed :
    sealedMap.InBounds (spawnedSpider.cell sealedMap).1 (spawnedSpider.cell sealedMap).2 := by
  unfold GameMap.InBounds
  decide!

theorem spider_path_on_sealedMap : spawnedSpider.findPath sealedMap = .ok (spawnedSpider, false) := by
  decide!

/-- C9 at the spawned spider on a map whose exit cell is walled in. -/
theorem findPath_failure_deferred_witness :
    spawnedSpider.findPath sealedMap = .ok (spawnedSpider, false) ∧
    ∃ e1 found, spawnedSpider.findPath sealedMap = .ok (e1, found) ∧
      (found = false ↔ ¬ spawnedSpider.ExitReachable sealedMap) ∧
      (found = false → e1 = spawnedSpider ∧
        ∀ env : Env, ¬ spawnedSpider.frozenTimer > 0 →
          (spawnedSpider.pathInvalid = true ∨ spawnedSpider.path.length = 0 ∨
            spawnedSpider.pathIndex ≥ (spawnedSpider.path.length : Int)) →
          spawnedSpider.Update sealedMap env = .ok (spawnedSpider, sealedMap, false) ∧
          ∀ m2 : GameMap, spawnedSpider.ensurePath m2 = spawnedSpider.findPath m2) :=
  ⟨spider_path_on_sealedMap,
    findPath_failure_deferred spawnedSpider sealedMap sealedMap_grid
      spawnedSpider_cell_inBounds_sealed⟩

/-! ## Claims on enemy attacks -/

theorem Enemy.findPath_attackFields (e e1 : Enemy) (m : GameMap) (b : Bool)
    (h : e.findPath m = .ok (e1, b)) :
    e1.attackDuration = e.attackDuration ∧ e1.currentAttackTime = e.currentAttackTime := by
  unfold Enemy.findPath at h
  dsimp only at h
  split at h
  · simp at h
  · split at h
    · simp at h
    · split at h
      · simp at h
      · split at h
        · simp at h
        · simp only [Except.ok.injEq, Prod.mk.injEq] at h
          rw [← h.1]
          exact ⟨rfl, rfl⟩
        · split at h
          · simp at h
          · simp only [Except.ok.injEq, Prod.mk.injEq] at h
            rw [← h.1]
            exact ⟨rfl, rfl⟩

theorem Enemy.ensurePath_attackFields (e e1 : Enemy) (m : GameMap) (b : Bool)
    (h : e.ensurePath m = .ok (e1, b)) :
    e1.attackDuration = e.attackDuration ∧ e1.currentAttackTime = e.currentAttackTime := by
  unfold Enemy.ensurePath at h
  split at h
  · exact e.findPath_attackFields e1 m b h
  · simp only [Except.ok.injEq, Prod.mk.injEq] at h
    rw [← h.1]
    exact ⟨rfl, rfl⟩

theorem Enemy.advance_attackFields (e e1 : Enemy) (m : GameMap) (sqrt : ℚ → ℚ)
    (h : e.advance m sqrt = .ok e1) :
    e1.attackDuration = e.attackDuration ∧ e1.currentAttackTime = e.currentAttackTime := by
  unfold Enemy.advance at h
  split at h
  · split at h
    · simp at h
    · dsimp only at h
      split at h
      · simp only [Except.ok.injEq] at h
        rw [← h]
        exact ⟨rfl, rfl⟩
      · simp only [Except.ok.injEq] at h
        rw [← h]
        exact ⟨rfl, rfl⟩
  · simp only [Except.ok.injEq] at h
    rw [← h]
    exact ⟨rfl, rfl⟩

theorem GameMap.syncEnemies_fields (m : GameMap) (cur : Option (List (Option Enemy))) :
    (m.syncEnemies cur).towers = m.towers ∧ (m.syncEnemies cur).terrain = m.terrain := by
  cases cur <;> exact ⟨rfl, rfl⟩

theorem Enemy.acquire_attackFields (e : Enemy) (m : GameMap) (env : Env) :
    (e.acquire m env).1.attackDuration = e.attackDuration ∧
    (e.acquire m env).1.currentAttackTime = e.currentAttackTime ∧
    (e.acquire m env).2.towers = m.towers ∧ (e.acquire m env).2.terrain = m.terrain := by
  have hs := m.syncEnemies_fields env.currentGame
  unfold Enemy.acquire
  split
  · split
    · split
      · split
        · exact ⟨rfl, rfl, hs.1, hs.2⟩
        · exact ⟨rfl, rfl, hs.1, hs.2⟩
      · exact ⟨rfl, rfl, hs.1, hs.2⟩
    · exact ⟨rfl, rfl, hs.1, hs.2⟩
  · exact ⟨rfl, rfl, rfl, rfl⟩

theorem Enemy.attack_without_duration (e e1 : Enemy) (m m1 : GameMap) (sqrt : ℚ → ℚ) (b : Bool)
    (hdur : e.attackDuration ≤ 0) (hcat : 0 ≤ e.currentAttackTime)
    (h : e.attack m sqrt = .ok (e1, m1, b)) :
    m1 = m ∧ e1.attackDuration = e.attackDuration ∧ 0 ≤ e1.currentAttackTime := by
  unfold Enemy.attack at h
  have hnot : ¬ e.currentAttackTime < e.attackDuration := by omega
  split at h
  · simp only [Except.ok.injEq, Prod.mk.injEq] at h
    rw [← h.1, ← h.2.1]
    exact ⟨rfl, rfl, hcat⟩
  · split at h
    · simp only [Except.ok.injEq, Prod.mk.injEq] at h
      rw [← h.1, ← h.2.1]
      exact ⟨rfl, rfl, le_refl 0⟩
    · split at h
      · simp only [Except.ok.injEq, Prod.mk.injEq] at h
        rw [← h.1, ← h.2.1]
        exact ⟨rfl, rfl, le_refl 0⟩
      · dsimp only at h
        simp only [hnot, if_false, ite_self, Except.ok.injEq, Prod.mk.injEq] at h
        rw [← h.1, ← h.2.1]
        exact ⟨rfl, rfl, le_refl 0⟩

theorem Enemy.arrival_fields (e : Enemy) (m : GameMap) (env : Env) (gridX gridY : Int) :
    (e.arrival m env gridX gridY).1.towers = m.towers ∧
    (e.arrival m env gridX gridY).1.terrain = m.terrain := by
  unfold Enemy.arrival
  split
  · exact ⟨rfl, rfl⟩
  · dsimp only
    split <;> exact ⟨rfl, rfl⟩

/-- An enemy whose `attackDuration` is not positive never touches a tower:
`Update` leaves the registry and the terrain as they were, and keeps the enemy
in that condition. -/
theorem Enemy.Update_without_duration (e e1 : Enemy) (m m1 : GameMap) (env : Env) (b : Bool)
    (hdur : e.attackDuration ≤ 0) (hcat : 0 ≤ e.currentAttackTime)
    (h : e.Update m env = .ok (e1, m1, b)) :
    m1.towers = m.towers ∧ m1.terrain = m.terrain ∧
      e1.attackDuration = e.attackDuration ∧ 0 ≤ e1.currentAttackTime := by
  unfold Enemy.Update at h
  split at h
  · simp only [Except.ok.injEq, Prod.mk.injEq] at h
    rw [← h.1, ← h.2.1]
    exact ⟨rfl, rfl, rfl, hcat⟩
  · split at h
    · simp at h
    · rename_i e0 hens
      have h0 := e.ensurePath_attackFields e0 m false hens
      simp only [Except.ok.injEq, Prod.mk.injEq] at h
      rw [← h.1, ← h.2.1]
      exact ⟨rfl, rfl, h0.1, by rw [h0.2]; exact hcat⟩
    · rename_i e0 hens
      have h0 := e.ensurePath_attackFields e0 m true hens
      split at h
      · simp at h
      · rename_i e2 hadv
        have h2 := e0.advance_attackFields e2 m env.sqrt hadv
        dsimp only at h
        split at h
        · simp only [Except.ok.injEq, Prod.mk.injEq] at h
          rw [← h.1, ← h.2.1]
          exact ⟨rfl, rfl, by show e2.attackDuration = _; rw [h2.1, h0.1],
            by show 0 ≤ e2.currentAttackTime; rw [h2.2, h0.2]; exact hcat⟩
        · have h3 := e2.acquire_attackFields m env
          split at h
          · simp at h
          · rename_i e3 m3 hatt
            have h4 := Enemy.attack_without_duration _ e3 _ m3 env.sqrt true
              (by rw [h3.1, h2.1, h0.1]; exact hdur)
              (by rw [h3.2.1, h2.2, h0.2]; exact hcat) hatt
            simp only [Except.ok.injEq, Prod.mk.injEq] at h
            rw [← h.1, ← h.2.1, h4.1]
            exact ⟨h3.2.2.1, h3.2.2.2, by rw [h4.2.1, h3.1, h2.1, h0.1], h4.2.2⟩
          · rename_i e3 m3 hatt
            have h4 := Enemy.attack_without_duration _ e3 _ m3 env.sqrt false
              (by rw [h3.1, h2.1, h0.1]; exact hdur)
              (by rw [h3.2.1, h2.2, h0.2]; exact hcat) hatt
            have h5 := e3.arrival_fields m3 env
              (goInt ((e2.x - ((Int.tdiv m.cellSize 2 : Int) : ℚ)) / (m.cellSize : ℚ)))
              (goInt ((e2.y - (m.uiHeight : ℚ)) / (m.cellSize : ℚ)))
            simp only [Except.ok.injEq, Prod.mk.injEq] at h
            rw [← h.1, ← h.2.1, h5.1, h5.2, h4.1]
            exact ⟨h3.2.2.1, h3.2.2.2, by rw [h4.2.1, h3.1, h2.1, h0.1], h4.2.2⟩

theorem NewEnemyWithColor_attackDuration (addr : Nat) (startY cellSize uiHeight : Int)
    (enemyType : EnemyType) (level : Int) (colorSource : EnemyType) :
    (NewEnemyWithColor.fields addr startY cellSize uiHeight enemyType level colorSource).attackDuration
      = 0 ∧
    (NewEnemyWithColor.fields addr startY cellSize uiHeight enemyType level
      colorSource).currentAttackTime = 0 := by
  cases enemyType <;> exact ⟨rfl, rfl⟩

/-- C10 fails on the code: a snake built by `NewEnemyWithColor`, as `Game.Update`
spawns it, has `attackDuration = 0`.  In the state of the claim (past the first
four columns, locked on the registered dart tower of `(5, 5)`, which it reaches
at distance 56 = `attackRange`, cooldown at zero) `Update` takes the branch
"attack sequence complete": it drops the target and leaves the tower's health
at 100.  The same state of a snake built by `NewEnemy` (`attackDuration = 120`)
calls `TakeDamage` and lowers the health to 99.5. -/
theorem spawned_snake_drops_target :
    lockedSnake.attackDuration = 0 ∧
    lockedSnake.Update mapWithDart (attackEnv [some lockedSnake]) =
      .ok ({ lockedSnake with
              x := 308, y := 424, targetX := 308, targetY := 424, pathIndex := 1,
              targetTower := none, currentAttackTime := 0, lastAttack := 60 },
           { mapWithDart with enemies := [some lockedSnake] }, false) ∧
    lockedSnakeOfNewEnemy.Update mapWithDart (attackEnv [some lockedSnakeOfNewEnemy]) =
      .ok ({ lockedSnakeOfNewEnemy with
              x := 308, y := 424, targetX := 308, targetY := 424, pathIndex := 1,
              currentAttackTime := 1, lastAttack := 60 },
           { mapWithDart with
              towers := [some { dartTowerAt55 with health := 199 / 2, underAttack := 30 }] },
           false) := by
  refine ⟨rfl, ?_, ?_⟩
  · decide!
  · decide!

/-! ## Tower damage and projectile hits -/

/-- C15: for a tower with health in `[0, maxHealth]` and a non-negative amount,
`TakeDamage` sets the health to `max 0 (health - amount)`, which stays in
`[0, maxHealth]` and does not increase; it returns true exactly when the
resulting health is 0; `underAttack` becomes 30 and every other field keeps
its value. -/
theorem takeDamage_contract (t : Tower) (amount : ℚ)
    (hlo : 0 ≤ t.health) (hhi : t.health ≤ t.maxHealth) (hamount : 0 ≤ amount) :
    (t.TakeDamage amount).1.health = max 0 (t.health - amount) ∧
    0 ≤ (t.TakeDamage amount).1.health ∧
    (t.TakeDamage amount).1.health ≤ (t.TakeDamage amount).1.maxHealth ∧
    (t.TakeDamage amount).1.health ≤ t.health ∧
    ((t.TakeDamage amount).2 = true ↔ (t.TakeDamage amount).1.health = 0) ∧
    (t.TakeDamage amount).1.underAttack = 30 ∧
    (t.TakeDamage amount).1.addr = t.addr ∧
    (t.TakeDamage amount).1.position = t.position ∧
    (t.TakeDamage amount).1.towerType = t.towerType ∧
    (t.TakeDamage amount).1.damage = t.damage ∧
    (t.TakeDamage amount).1.attackRange = t.attackRange ∧
    (t.TakeDamage amount).1.fireRate = t.fireRate ∧
    (t.TakeDamage amount).1.cost = t.cost ∧
    (t.TakeDamage amount).1.lastShot = t.lastShot ∧
    (t.TakeDamage amount).1.level = t.level ∧
    (t.TakeDamage amount).1.canFireDiagonal = t.canFireDiagonal ∧
    (t.TakeDamage amount).1.maxHealth = t.maxHealth ∧
    (t.TakeDamage amount).1.damageState = t.damageState := by
  have hh : (t.TakeDamage amount).1.health = max 0 (t.health - amount) := rfl
  have h0 : (0 : ℚ) ≤ max 0 (t.health - amount) := le_max_left _ _
  have hle : max 0 (t.health - amount) ≤ t.health := max_le hlo (by linarith)
  refine ⟨hh, by rw [hh]; exact h0, ?_, by rw [hh]; exact hle, ?_, rfl, rfl, rfl, rfl, rfl, rfl,
    rfl, rfl, rfl, rfl, rfl, rfl, rfl⟩
  · show (t.TakeDamage amount).1.health ≤ t.maxHealth
    rw [hh]
    exact le_trans hle hhi
  · show decide ((t.TakeDamage amount).1.health ≤ 0) = true ↔ _
    rw [decide_eq_true_iff, hh]
    exact ⟨fun h => le_antisymm h h0, fun h => le_of_eq h⟩

/-- C15 at the dart tower of `(5, 5)` and the snake's damage 1/2. -/
theorem takeDamage_contract_witness :
    (dartTowerAt55.TakeDamage (1 / 2)).1.health = max 0 (dartTowerAt55.health - 1 / 2) ∧
    0 ≤ (dartTowerAt55.TakeDamage (1 / 2)).1.health ∧
    (dartTowerAt55.TakeDamage (1 / 2)).1.health ≤ (dartTowerAt55.TakeDamage (1 / 2)).1.maxHealth ∧
    (dartTowerAt55.TakeDamage (1 / 2)).1.health ≤ dartTowerAt55.health ∧
    ((dartTowerAt55.TakeDamage (1 / 2)).2 = true ↔
      (dartTowerAt55.TakeDamage (1 / 2)).1.health = 0) ∧
    (dartTowerAt55.TakeDamage (1 / 2)).1.underAttack = 30 ∧
    (dartTowerAt55.TakeDamage (1 / 2)).1.addr = dartTowerAt55.addr ∧
    (dartTowerAt55.TakeDamage (1 / 2)).1.position = dartTowerAt55.position ∧
    (dartTowerAt55.TakeDamage (1 / 2)).1.towerType = dartTowerAt55.towerType ∧
    (dartTowerAt55.TakeDamage (1 / 2)).1.damage = dartTowerAt55.damage ∧
    (dartTowerAt55.TakeDamage (1 / 2)).1.attackRange = dartTowerAt55.attackRange ∧
    (dartTowerAt55.TakeDamage (1 / 2)).1.fireRate = dartTowerAt55.fireRate ∧
    (dartTowerAt55.TakeDamage (1 / 2)).1.cost = dartTowerAt55.cost ∧
    (dartTowerAt55.TakeDamage (1 / 2)).1.lastShot = dartTowerAt55.lastShot ∧
    (dartTowerAt55.TakeDamage (1 / 2)).1.level = dartTowerAt55.level ∧
    (dartTowerAt55.TakeDamage (1 / 2)).1.canFireDiagonal = dartTowerAt55.canFireDiagonal ∧
    (dartTowerAt55.TakeDamage (1 / 2)).1.maxHealth = dartTowerAt55.maxHealth ∧
    (dartTowerAt55.TakeDamage (1 / 2)).1.damageState = dartTowerAt55.damageState :=
  takeDamage_contract dartTowerAt55 (1 / 2) (by decide!) (by decide!) (by decide!)

theorem Projectile.strike_position (proj : Projectile) (enemy : Enemy) :
    (proj.strike enemy).x = enemy.x ∧ (proj.strike enemy).y = enemy.y ∧
    (proj.strike enemy).size = enemy.size ∧ (proj.strike enemy).addr = enemy.addr ∧
    (proj.strike enemy).targetTower = enemy.targetTower ∧
    (proj.strike enemy).currentAttackTime = enemy.currentAttackTime := by
  unfold Projectile.strike
  split
  · split <;> exact ⟨rfl, rfl, rfl, rfl, rfl, rfl⟩
  · exact ⟨rfl, rfl, rfl, rfl, rfl, rfl⟩

theorem Projectile.touches_strike (proj proj2 : Projectile) (sqrt : ℚ → ℚ) (enemy : Enemy) :
    proj.touches sqrt (proj2.strike enemy) = proj.touches sqrt enemy := by
  have h := proj2.strike_position enemy
  unfold Projectile.touches
  simp only [h.1, h.2.1, h.2.2.1]

theorem Projectile.strike_freeze_idem (proj proj2 : Projectile) (enemy : Enemy)
    (h : proj.GetProjectileType = ProjectileType.FreezeProjectile)
    (h2 : proj2.GetProjectileType = ProjectileType.FreezeProjectile) :
    proj2.strike (proj.strike enemy) = proj.strike enemy := by
  unfold Projectile.strike
  simp only [h, h2, if_true]
  by_cases hf : enemy.frozenTimer ≤ 0
  · simp [hf]
  · simp [hf]

theorem Projectile.collide_freeze_idem (proj proj2 : Projectile) (sqrt : ℚ → ℚ)
    (h : proj.GetProjectileType = ProjectileType.FreezeProjectile)
    (h2 : proj2.GetProjectileType = ProjectileType.FreezeProjectile)
    (hpos : proj2.GetPosition = proj.GetPosition) (enemies : List (Option Enemy)) :
    proj2.collide sqrt (proj.collide sqrt enemies) = proj.collide sqrt enemies := by
  have htouch : ∀ enemy, proj2.touches sqrt enemy = proj.touches sqrt enemy := by
    intro enemy
    unfold Projectile.touches
    rw [hpos]
  induction enemies with
  | nil => rfl
  | cons entry rest ih =>
    cases entry with
    | none => simp only [Projectile.collide, ih]
    | some enemy =>
      by_cases ht : proj.touches sqrt enemy = true
      · simp only [Projectile.collide, ht, if_true, htouch, Projectile.touches_strike,
          Projectile.strike_freeze_idem proj proj2 enemy h h2]
      · simp only [Projectile.collide, ht, if_false, htouch, ih, Bool.false_eq_true]

/-- C17: a freeze projectile that hits an enemy leaves the enemy's health as it
was; a freeze timer above 0 is left exactly as it was (the enemy is unchanged),
a timer at or below 0 becomes 60; a second freeze hit right after the first
changes nothing, for the enemy and for the whole enemy list when the second
projectile resolves at the same position. -/
theorem freeze_hit_non_stacking (proj : Projectile) (enemy : Enemy)
    (h : proj.GetProjectileType = ProjectileType.FreezeProjectile) :
    (proj.strike enemy).health = enemy.health ∧
    (enemy.frozenTimer > 0 → proj.strike enemy = enemy) ∧
    (enemy.frozenTimer ≤ 0 → (proj.strike enemy).frozenTimer = 60) ∧
    (∀ proj2 : Projectile, proj2.GetProjectileType = ProjectileType.FreezeProjectile →
      proj2.strike (proj.strike enemy) = proj.strike enemy) ∧
    (∀ (proj2 : Projectile) (sqrt : ℚ → ℚ) (enemies : List (Option Enemy)),
      proj2.GetProjectileType = ProjectileType.FreezeProjectile →
      proj2.GetPosition = proj.GetPosition →
      proj2.collide sqrt (proj.collide sqrt enemies) = proj.collide sqrt enemies) := by
  refine ⟨?_, ?_, ?_, fun proj2 h2 => Projectile.strike_freeze_idem proj proj2 enemy h h2,
    fun proj2 sqrt enemies h2 hpos => Projectile.collide_freeze_idem proj proj2 sqrt h h2 hpos
      enemies⟩
  · unfold Projectile.strike
    simp only [h, if_true]
    split <;> rfl
  · intro hf
    unfold Projectile.strike
    simp only [h, if_true, not_le.mpr hf, if_false]
  · intro hf
    unfold Projectile.strike
    simp only [h, if_true, hf]

/-- C17 at a freeze projectile and the walking spider. -/
theorem freeze_hit_non_stacking_witness :
    ((NewProjectile 308 368 0 424 ProjectileType.FreezeProjectile 0).strike walkingSpider).health
      = walkingSpider.health ∧
    (walkingSpider.frozenTimer > 0 →
      (NewProjectile 308 368 0 424 ProjectileType.FreezeProjectile 0).strike walkingSpider
        = walkingSpider) ∧
    (walkingSpider.frozenTimer ≤ 0 →
      ((NewProjectile 308 368 0 424 ProjectileType.FreezeProjectile 0).strike
        walkingSpider).frozenTimer = 60) ∧
    (∀ proj2 : Projectile, proj2.GetProjectileType = ProjectileType.FreezeProjectile →
      proj2.strike ((NewProjectile 308 368 0 424 ProjectileType.FreezeProjectile 0).strike
        walkingSpider)
        = (NewProjectile 308 368 0 424 ProjectileType.FreezeProjectile 0).strike walkingSpider) ∧
    (∀ (proj2 : Projectile) (sqrt : ℚ → ℚ) (enemies : List (Option Enemy)),
      proj2.GetProjectileType = ProjectileType.FreezeProjectile →
      proj2.GetPosition
        = (NewProjectile 308 368 0 424 ProjectileType.FreezeProjectile 0).GetPosition →
      proj2.collide sqrt
          ((NewProjectile 308 368 0 424 ProjectileType.FreezeProjectile 0).collide sqrt enemies)
        = (NewProjectile 308 368 0 424 ProjectileType.FreezeProjectile 0).collide sqrt enemies) :=
  freeze_hit_non_stacking (NewProjectile 308 368 0 424 ProjectileType.FreezeProjectile 0)
    walkingSpider rfl

theorem Projectile.Update_arrived (p : Projectile) (sqrt : ℚ → ℚ)
    (h : (p.Update sqrt).2 = true) : (p.Update sqrt).1 = p := by
  unfold Projectile.Update at h ⊢
  dsimp only at h ⊢
  split
  · rfl
  · rename_i hn
    rw [if_neg hn] at h
    exact absurd h (by simp)

theorem projectileLoop_spec (sqrt : ℚ → ℚ) (projectiles : List Projectile) :
    ∀ (enemies : List (Option Enemy)) (remaining : List Projectile),
    projectileLoop sqrt projectiles enemies remaining =
      (remaining ++ (projectiles.filter fun p => !(p.Update sqrt).2).map fun p => (p.Update sqrt).1,
       (projectiles.filter fun p => (p.Update sqrt).2).foldl (fun es p => p.collide sqrt es)
          enemies) := by
  induction projectiles with
  | nil => intro enemies remaining; simp [projectileLoop]
  | cons p rest ih =>
    intro enemies remaining
    by_cases h : (p.Update sqrt).2 = true
    · simp only [projectileLoop, h, if_true, ih, List.filter_cons, Bool.not_true,
        Bool.false_eq_true, if_false, List.foldl_cons, p.Update_arrived sqrt h]
    · simp only [projectileLoop, h, if_false, ih, List.filter_cons, Bool.not_eq_true] at *
      simp [h]

theorem Projectile.collide_spec (p : Projectile) (sqrt : ℚ → ℚ) (enemies : List (Option Enemy)) :
    ((∀ enemy, some enemy ∈ enemies → p.touches sqrt enemy = false) ∧
        p.collide sqrt enemies = enemies) ∨
    ∃ i enemy, enemies.get? i = some (some enemy) ∧ p.touches sqrt enemy = true ∧
      (∀ j other, j < i → enemies.get? j = some (some other) → p.touches sqrt other = false) ∧
      p.collide sqrt enemies = enemies.set i (some (p.strike enemy)) := by
  induction enemies with
  | nil => exact Or.inl ⟨fun _ h => absurd h (List.not_mem_nil _), rfl⟩
  | cons entry rest ih =>
    cases entry with
    | none =>
      rcases ih with ⟨hno, heq⟩ | ⟨i, enemy, hget, ht, hbefore, heq⟩
      · refine Or.inl ⟨fun enemy h => ?_, by simp only [Projectile.collide, heq]⟩
        rcases List.mem_cons.1 h with h1 | h1
        · exact absurd h1 (by simp)
        · exact hno enemy h1
      · refine Or.inr ⟨i + 1, enemy, by simpa using hget, ht, ?_, by
          simp only [Projectile.collide, heq, List.set_cons_succ]⟩
        intro j other hj hgetj
        cases j with
        | zero => simp at hgetj
        | succ j => exact hbefore j other (by omega) (by simpa using hgetj)
    | some first =>
      by_cases hfirst : p.touches sqrt first = true
      · refine Or.inr ⟨0, first, rfl, hfirst, fun j _ hj _ => absurd hj (by omega), by
          simp only [Projectile.collide, hfirst, if_true, List.set_cons_zero]⟩
      · have hf : p.touches sqrt first = false := by simpa using hfirst
        rcases ih with ⟨hno, heq⟩ | ⟨i, enemy, hget, ht, hbefore, heq⟩
        · refine Or.inl ⟨fun enemy h => ?_, by
            simp only [Projectile.collide, hf, Bool.false_eq_true, if_false, heq]⟩
          rcases List.mem_cons.1 h with h1 | h1
          · simp only [Option.some.injEq] at h1
            rw [h1]
            exact hf
          · exact hno enemy h1
        · refine Or.inr ⟨i + 1, enemy, by simpa using hget, ht, ?_, by
            simp only [Projectile.collide, hf, Bool.false_eq_true, if_false, heq,
              List.set_cons_succ]⟩
          intro j other hj hgetj
          cases j with
          | zero =>
            simp only [List.get?_cons_zero, Option.some.injEq] at hgetj
            rw [← hgetj]
            exact hf
          | succ j => exact hbefore j other (by omega) (by simpa using hgetj)

/-- C18: in the projectile pass, the projectile list afterwards consists of the
projectiles whose `Update` did not report arrival, moved, in their original
order (every arrived projectile is gone, hit or not); the enemy list
afterwards is the result of resolving the arrived projectiles one after the
other, the others change no enemy; and resolving one projectile either changes
nothing, when no enemy is within its radius (distance strictly below half the
enemy's size), or changes exactly the first such enemy of the list. -/
theorem projectile_collision_resolution (g : Game) (sqrt : ℚ → ℚ) :
    (g.projectilePass sqrt).projectiles =
      (g.projectiles.filter fun p => !(p.Update sqrt).2).map (fun p => (p.Update sqrt).1) ∧
    (g.projectilePass sqrt).enemies =
      (g.projectiles.filter fun p => (p.Update sqrt).2).foldl (fun es p => p.collide sqrt es)
        g.enemies ∧
    ∀ (p : Projectile) (enemies : List (Option Enemy)),
      ((∀ enemy, some enemy ∈ enemies → p.touches sqrt enemy = false) ∧
          p.collide sqrt enemies = enemies) ∨
      ∃ i enemy, enemies.get? i = some (some enemy) ∧ p.touches sqrt enemy = true ∧
        (∀ j other, j < i → enemies.get? j = some (some other) →
          p.touches sqrt other = false) ∧
        p.collide sqrt enemies = enemies.set i (some (p.strike enemy)) := by
  refine ⟨?_, ?_, fun p enemies => p.collide_spec sqrt enemies⟩
  · show (projectileLoop sqrt g.projectiles g.enemies []).1 = _
    rw [projectileLoop_spec]
    simp
  · show (projectileLoop sqrt g.projectiles g.enemies []).2 = _
    rw [projectileLoop_spec]

/-- C16 fails on the code by design: the hit subtracts the damage without a
floor (the death test of the enemy pass and the health bar both allow for
values below 0).  The wounded spider has health 1/10 of 10; in one tick of
`Game.Update` it advances to `x = 0.9`, the bullet of damage 1.1 arrives within
its radius, and its health afterwards is -1. -/
theorem bullet_hit_negative_health :
    0 ≤ woundedSpider.health ∧ woundedSpider.health ≤ woundedSpider.maxHealth ∧
    arrivingBullet.GetProjectileType ≠ ProjectileType.FreezeProjectile ∧
    gameWithBullet.Update 0 idleTick =
      .ok ({ gameWithBullet with
              enemies := [some { woundedSpider with x := 9 / 10, targetX := 84, health := -1 }],
              projectiles := [], spawnTimer := 1 }, 0) := by
  decide!

/-- C16, amended: a damaging (non-freeze) projectile of damage at least 0 that
hits an enemy with health at most `maxHealth` leaves `health - damage`: the
health stays at most `maxHealth` and does not increase, and it is below 0
exactly when the damage exceeds the health before the hit. -/
theorem damaging_hit_subtracts (proj : Projectile) (enemy : Enemy)
    (hkind : proj.GetProjectileType ≠ ProjectileType.FreezeProjectile)
    (hdamage : 0 ≤ proj.GetDamage) (hhi : enemy.health ≤ enemy.maxHealth) :
    (proj.strike enemy).health = enemy.health - proj.GetDamage ∧
    (proj.strike enemy).health ≤ (proj.strike enemy).maxHealth ∧
    (proj.strike enemy).health ≤ enemy.health ∧
    ((proj.strike enemy).health < 0 ↔ enemy.health < proj.GetDamage) ∧
    (proj.strike enemy).frozenTimer = enemy.frozenTimer := by
  have hs : proj.strike enemy = { enemy with health := enemy.health - proj.GetDamage } := by
    unfold Projectile.strike
    rw [if_neg hkind]
  rw [hs]
  refine ⟨rfl, ?_, ?_, ?_, rfl⟩
  · show enemy.health - proj.GetDamage ≤ enemy.maxHealth
    linarith
  · show enemy.health - proj.GetDamage ≤ enemy.health
    linarith
  · show enemy.health - proj.GetDamage < 0 ↔ _
    constructor <;> intro h <;> linarith

/-- C16, amended, at the bullet and the wounded spider. -/
theorem damaging_hit_subtracts_witness :
    (arrivingBullet.strike woundedSpider).health = woundedSpider.health - arrivingBullet.GetDamage ∧
    (arrivingBullet.strike woundedSpider).health ≤ (arrivingBullet.strike woundedSpider).maxHealth ∧
    (arrivingBullet.strike woundedSpider).health ≤ woundedSpider.health ∧
    ((arrivingBullet.strike woundedSpider).health < 0 ↔
      woundedSpider.health < arrivingBullet.GetDamage) ∧
    (arrivingBullet.strike woundedSpider).frozenTimer = woundedSpider.frozenTimer :=
  damaging_hit_subtracts arrivingBullet woundedSpider (by decide) (by decide!) (by decide!)

/-! ## The phases of `Enemy.Update` -/

theorem Enemy.findPath_cases (e e1 : Enemy) (m : GameMap) (b : Bool)
    (h : e.findPath m = .ok (e1, b)) :
    (b = false ∧ e1 = e) ∨
    (b = true ∧ ∃ path, e1 = { e with path := path, pathIndex := 0, pathInvalid := false }) := by
  unfold Enemy.findPath at h
  dsimp only at h
  split at h
  · simp at h
  · split at h
    · simp at h
    · split at h
      · simp at h
      · split at h
        · simp at h
        · simp only [Except.ok.injEq, Prod.mk.injEq] at h
          exact Or.inl ⟨h.2.symm, h.1.symm⟩
        · split at h
          · simp at h
          · simp only [Except.ok.injEq, Prod.mk.injEq] at h
            exact Or.inr ⟨h.2.symm, _, h.1.symm⟩

theorem Enemy.ensurePath_cases (e e1 : Enemy) (m : GameMap) (b : Bool)
    (h : e.ensurePath m = .ok (e1, b)) :
    (b = false ∧ e1 = e) ∨
    (b = true ∧ e1 = e ∧ e.pathIndex < (e.path.length : Int)) ∨
    (b = true ∧ ∃ path, e1 = { e with path := path, pathIndex := 0, pathInvalid := false }) := by
  unfold Enemy.ensurePath at h
  split at h
  · rcases e.findPath_cases e1 m b h with h1 | h1
    · exact Or.inl h1
    · exact Or.inr (Or.inr h1)
  · rename_i hn
    simp only [Except.ok.injEq, Prod.mk.injEq] at h
    refine Or.inr (Or.inl ⟨h.2.symm, h.1.symm, ?_⟩)
    have := not_or.1 (not_or.1 hn).2
    omega

theorem Enemy.advance_cases (e e1 : Enemy) (m : GameMap) (sqrt : ℚ → ℚ)
    (h : e.advance m sqrt = .ok e1) :
    ∃ tx ty x y pi,
      e1 = { e with targetX := tx, targetY := ty, x := x, y := y, pathIndex := pi } := by
  unfold Enemy.advance at h
  split at h
  · split at h
    · simp at h
    · dsimp only at h
      split at h
      · simp only [Except.ok.injEq] at h
        exact ⟨_, _, _, _, _, h.symm⟩
      · simp only [Except.ok.injEq] at h
        exact ⟨_, _, _, _, e.pathIndex, h.symm⟩
  · simp only [Except.ok.injEq] at h
    exact ⟨e.targetX, e.targetY, e.x, e.y, e.pathIndex, h.symm⟩

theorem Enemy.acquire_cases (e : Enemy) (m : GameMap) (env : Env) :
    ((e.acquire m env).1 = e ∨
      (e.canAttack = true ∧ e.targetTower = none ∧
        ∃ t, t ∈ e.availableTowers (m.syncEnemies env.currentGame) env.sqrt ∧
          (e.acquire m env).1 =
            { e with targetTower := some t.addr, lastAttack := e.attackRate })) ∧
    ((e.acquire m env).2 = m ∨ (e.acquire m env).2 = m.syncEnemies env.currentGame) := by
  unfold Enemy.acquire
  split
  · rename_i hc
    split
    · split
      · split
        · rename_i t ht
          rw [List.get?_eq_getElem?] at ht
          exact ⟨Or.inr ⟨hc.1, hc.2, t, List.getElem?_mem ht, rfl⟩, Or.inr rfl⟩
        · exact ⟨Or.inl rfl, Or.inr rfl⟩
      · exact ⟨Or.inl rfl, Or.inr rfl⟩
    · exact ⟨Or.inl rfl, Or.inr rfl⟩
  · exact ⟨Or.inl rfl, Or.inl rfl⟩

theorem Enemy.attack_cases (e e1 : Enemy) (m m1 : GameMap) (sqrt : ℚ → ℚ) (b : Bool)
    (h : e.attack m sqrt = .ok (e1, m1, b)) :
    (e.targetTower = none ∧ e1 = e ∧ m1 = m ∧ b = false) ∨
    ∃ a, e.targetTower = some a ∧
      ((findTower a m.towers = none ∧ m1 = m ∧ b = true ∧
          e1 = { e with targetTower := none, currentAttackTime := 0, pathInvalid := true }) ∨
       ∃ tower, findTower a m.towers = some tower ∧
        ((tower.position.X < 4 ∧ m1 = m ∧ b = true ∧
            e1 = { e with targetTower := none, currentAttackTime := 0 }) ∨
         (¬ tower.position.X < 4 ∧ e.distanceToTower m sqrt tower ≤ e.attackRange ∧
            e.currentAttackTime < e.attackDuration ∧ b = true ∧
            ((e.lastAttack ≤ 0 ∧ (tower.TakeDamage e.attackDamage).2 = true ∧
                ({ m with towers := storeTower (tower.TakeDamage e.attackDamage).1 m.towers }
                    : GameMap).RemoveTower tower.position.X tower.position.Y = .ok m1 ∧
                e1 = { e with targetTower := none, currentAttackTime := 0,
                              lastAttack := e.attackRate }) ∨
             (e.lastAttack ≤ 0 ∧ (tower.TakeDamage e.attackDamage).2 = false ∧
                m1 = { m with towers := storeTower (tower.TakeDamage e.attackDamage).1 m.towers } ∧
                e1 = { e with currentAttackTime := e.currentAttackTime + 1,
                              lastAttack := e.attackRate }) ∨
             (¬ e.lastAttack ≤ 0 ∧ m1 = m ∧
                e1 = { e with currentAttackTime := e.currentAttackTime + 1,
                              lastAttack := e.lastAttack - 1 }))) ∨
         (¬ tower.position.X < 4 ∧
            ¬ (e.distanceToTower m sqrt tower ≤ e.attackRange ∧
                e.currentAttackTime < e.attackDuration) ∧ m1 = m ∧ b = false ∧
            e1 = { e with targetTower := none, currentAttackTime := 0,
                          lastAttack := e.attackRate }))) := by
  unfold Enemy.attack at h
  split at h
  · rename_i hnone
    simp only [Except.ok.injEq, Prod.mk.injEq] at h
    exact Or.inl ⟨hnone, h.1.symm, h.2.1.symm, h.2.2.symm⟩
  · rename_i a ha
    refine Or.inr ⟨a, ha, ?_⟩
    split at h
    · rename_i hfind
      simp only [Except.ok.injEq, Prod.mk.injEq] at h
      exact Or.inl ⟨hfind, h.2.1.symm, h.2.2.symm, h.1.symm⟩
    · rename_i tower hfind
      refine Or.inr ⟨tower, hfind, ?_⟩
      split at h
      · rename_i hx
        simp only [Except.ok.injEq, Prod.mk.injEq] at h
        exact Or.inl ⟨hx, h.2.1.symm, h.2.2.symm, h.1.symm⟩
      · rename_i hx
        dsimp only at h
        split at h
        · rename_i hrange
          split at h
          · rename_i hcat
            refine Or.inr (Or.inl ⟨hx, hrange, hcat, ?_⟩)
            split at h
            · rename_i hlast
              split at h
              · rename_i hdestroyed
                split at h
                · simp at h
                · rename_i m2 hrem
                  simp only [Except.ok.injEq, Prod.mk.injEq] at h
                  refine ⟨h.2.2.symm, Or.inl ⟨hlast, hdestroyed, ?_, h.1.symm⟩⟩
                  rw [← h.2.1]
                  exact hrem
              · rename_i hdestroyed
                simp only [Except.ok.injEq, Prod.mk.injEq] at h
                exact ⟨h.2.2.symm, Or.inr (Or.inl ⟨hlast, by simpa using hdestroyed,
                  h.2.1.symm, h.1.symm⟩)⟩
            · rename_i hlast
              simp only [Except.ok.injEq, Prod.mk.injEq] at h
              exact ⟨h.2.2.symm, Or.inr (Or.inr ⟨hlast, h.2.1.symm, h.1.symm⟩)⟩
          · rename_i hcat
            simp only [Except.ok.injEq, Prod.mk.injEq] at h
            exact Or.inr (Or.inr ⟨hx, fun hh => hcat hh.2, h.2.1.symm, h.2.2.symm, h.1.symm⟩)
        · rename_i hrange
          simp only [Except.ok.injEq, Prod.mk.injEq] at h
          exact Or.inr (Or.inr ⟨hx, fun hh => hrange hh.1, h.2.1.symm, h.2.2.symm, h.1.symm⟩)

theorem Enemy.Update_cases (e e1 : Enemy) (m m1 : GameMap) (env : Env) (r : Bool)
    (h : e.Update m env = .ok (e1, m1, r)) :
    (e.frozenTimer > 0 ∧ e1 = { e with frozenTimer := e.frozenTimer - 1 } ∧ m1 = m ∧
      r = false) ∨
    (¬ e.frozenTimer > 0 ∧ e.ensurePath m = .ok (e1, false) ∧ m1 = m ∧ r = false) ∨
    (¬ e.frozenTimer > 0 ∧ ∃ e0 e2, e.ensurePath m = .ok (e0, true) ∧
      e0.advance m env.sqrt = .ok e2 ∧
      (((e2.gridCell m).1 < 4 ∧ e1 = { e2 with targetTower := none } ∧ m1 = m ∧ r = false) ∨
       (¬ (e2.gridCell m).1 < 4 ∧ ∃ m3 b,
          (e2.acquire m env).1.attack (e2.acquire m env).2 env.sqrt = .ok (e1, m3, b) ∧
          ((b = true ∧ m1 = m3 ∧ r = false) ∨
           (b = false ∧ m1 = (e1.arrival m3 env (e2.gridCell m).1 (e2.gridCell m).2).1 ∧
              r = (e1.arrival m3 env (e2.gridCell m).1 (e2.gridCell m).2).2))))) := by
  unfold Enemy.Update at h
  split at h
  · rename_i hf
    simp only [Except.ok.injEq, Prod.mk.injEq] at h
    exact Or.inl ⟨hf, h.1.symm, h.2.1.symm, h.2.2.symm⟩
  · rename_i hf
    split at h
    · simp at h
    · rename_i e0 hens
      simp only [Except.ok.injEq, Prod.mk.injEq] at h
      refine Or.inr (Or.inl ⟨hf, ?_, h.2.1.symm, h.2.2.symm⟩)
      rw [← h.1]
      exact hens
    · rename_i e0 hens
      refine Or.inr (Or.inr ⟨hf, e0, ?_⟩)
      split at h
      · simp at h
      · rename_i e2 hadv
        refine ⟨e2, hens, hadv, ?_⟩
        dsimp only at h
        split at h
        · rename_i hgate
          simp only [Except.ok.injEq, Prod.mk.injEq] at h
          exact Or.inl ⟨hgate, h.1.symm, h.2.1.symm, h.2.2.symm⟩
        · rename_i hgate
          refine Or.inr ⟨hgate, ?_⟩
          split at h
          · simp at h
          · rename_i e3 m3 hatt
            simp only [Except.ok.injEq, Prod.mk.injEq] at h
            refine ⟨m3, true, ?_, Or.inl ⟨rfl, h.2.1.symm, h.2.2.symm⟩⟩
            rw [← h.1]
            exact hatt
          · rename_i e3 m3 hatt
            simp only [Except.ok.injEq, Prod.mk.injEq] at h
            refine ⟨m3, false, ?_, Or.inr ⟨rfl, ?_, ?_⟩⟩
            · rw [← h.1]
              exact hatt
            · rw [← h.1, ← h.2.1]
              rfl
            · rw [← h.1, ← h.2.2]
              rfl

theorem goInt_ge_of_pos (q : ℚ) (k : Int) (hk : 0 < k) (h : k ≤ goInt q) : (k : ℚ) ≤ q := by
  unfold goInt at h
  split at h
  · exact Rat.le_floor.1 h
  · rename_i hq
    have h0 : (0 : Int) ≤ Rat.floor (-q) := Rat.le_floor.2 (by push_cast; linarith)
    omega

theorem Enemy.gridCell_column (e : Enemy) (m : GameMap) (hcs : 0 < m.cellSize)
    (h : ¬ (e.gridCell m).1 < 4) : (4 * m.cellSize : Int) ≤ e.x := by
  have h4 : (4 : Int) ≤ (e.gridCell m).1 := by omega
  have hq := goInt_ge_of_pos _ 4 (by decide) h4
  have hc : (0 : ℚ) < (m.cellSize : ℚ) := by exact_mod_cast hcs
  rw [le_div_iff₀ hc] at hq
  have ht : (0 : Int) ≤ Int.tdiv m.cellSize 2 := Int.tdiv_nonneg (le_of_lt hcs) (by decide)
  have ht2 : (0 : ℚ) ≤ ((Int.tdiv m.cellSize 2 : Int) : ℚ) := by exact_mod_cast ht
  push_cast at hq ⊢
  linarith

theorem Enemy.attack_position (e e1 : Enemy) (m m1 : GameMap) (sqrt : ℚ → ℚ) (b : Bool)
    (h : e.attack m sqrt = .ok (e1, m1, b)) :
    e1.x = e.x ∧ e1.y = e.y ∧ e1.pathIndex = e.pathIndex ∧ e1.addr = e.addr ∧
    e1.health = e.health ∧ e1.level = e.level ∧ e1.enemyType = e.enemyType ∧
    e1.size = e.size ∧ e1.attackDuration = e.attackDuration ∧ e1.maxHealth = e.maxHealth := by
  rcases e.attack_cases e1 m m1 sqrt b h with ⟨_, h1, _⟩ | ⟨a, _, h1⟩
  · rw [h1]
    exact ⟨rfl, rfl, rfl, rfl, rfl, rfl, rfl, rfl, rfl, rfl⟩
  · rcases h1 with ⟨_, _, _, h1⟩ | ⟨tower, _, h1⟩
    · rw [h1]
      exact ⟨rfl, rfl, rfl, rfl, rfl, rfl, rfl, rfl, rfl, rfl⟩
    · rcases h1 with ⟨_, _, _, h1⟩ | ⟨_, _, _, _, h1⟩ | ⟨_, _, _, _, h1⟩
      · rw [h1]
        exact ⟨rfl, rfl, rfl, rfl, rfl, rfl, rfl, rfl, rfl, rfl⟩
      · rcases h1 with ⟨_, _, _, h1⟩ | ⟨_, _, _, h1⟩ | ⟨_, _, h1⟩ <;>
        · rw [h1]
          exact ⟨rfl, rfl, rfl, rfl, rfl, rfl, rfl, rfl, rfl, rfl⟩
      · rw [h1]
        exact ⟨rfl, rfl, rfl, rfl, rfl, rfl, rfl, rfl, rfl, rfl⟩

theorem Enemy.acquire_position (e : Enemy) (m : GameMap) (env : Env) :
    (e.acquire m env).1.x = e.x ∧ (e.acquire m env).1.y = e.y ∧
    (e.acquire m env).1.pathIndex = e.pathIndex ∧ (e.acquire m env).1.addr = e.addr ∧
    (e.acquire m env).1.health = e.health ∧ (e.acquire m env).1.level = e.level ∧
    (e.acquire m env).1.enemyType = e.enemyType ∧ (e.acquire m env).1.size = e.size ∧
    (e.acquire m env).1.attackDuration = e.attackDuration ∧
    (e.acquire m env).1.maxHealth = e.maxHealth ∧
    (e.acquire m env).1.currentAttackTime = e.currentAttackTime ∧
    (e.acquire m env).1.attackRange = e.attackRange := by
  rcases (e.acquire_cases m env).1 with h1 | ⟨_, _, t, _, h1⟩
  · rw [h1]
    exact ⟨rfl, rfl, rfl, rfl, rfl, rfl, rfl, rfl, rfl, rfl, rfl, rfl⟩
  · rw [h1]
    exact ⟨rfl, rfl, rfl, rfl, rfl, rfl, rfl, rfl, rfl, rfl, rfl, rfl⟩

theorem Enemy.advance_frame (e e1 : Enemy) (m : GameMap) (sqrt : ℚ → ℚ)
    (h : e.advance m sqrt = .ok e1) :
    e1.addr = e.addr ∧ e1.health = e.health ∧ e1.level = e.level ∧
    e1.enemyType = e.enemyType ∧ e1.size = e.size ∧ e1.maxHealth = e.maxHealth ∧
    e1.targetTower = e.targetTower ∧ e1.currentAttackTime = e.currentAttackTime ∧
    e1.attackDuration = e.attackDuration ∧ e1.attackRange = e.attackRange := by
  obtain ⟨tx, ty, x, y, pi, h1⟩ := e.advance_cases e1 m sqrt h
  rw [h1]
  exact ⟨rfl, rfl, rfl, rfl, rfl, rfl, rfl, rfl, rfl, rfl⟩

theorem Enemy.ensurePath_frame (e e1 : Enemy) (m : GameMap) (b : Bool)
    (h : e.ensurePath m = .ok (e1, b)) :
    e1.addr = e.addr ∧ e1.health = e.health ∧ e1.level = e.level ∧
    e1.enemyType = e.enemyType ∧ e1.size = e.size ∧ e1.maxHealth = e.maxHealth ∧
    e1.targetTower = e.targetTower ∧ e1.currentAttackTime = e.currentAttackTime ∧
    e1.attackDuration = e.attackDuration ∧ e1.attackRange = e.attackRange ∧
    e1.x = e.x ∧ e1.y = e.y := by
  rcases e.ensurePath_cases e1 m b h with ⟨_, h1⟩ | ⟨_, h1, _⟩ | ⟨_, path, h1⟩ <;>
  · rw [h1]
    exact ⟨rfl, rfl, rfl, rfl, rfl, rfl, rfl, rfl, rfl, rfl, rfl, rfl⟩

/-- The fields `Enemy.Update` never writes. -/
theorem Enemy.Update_frame (e e1 : Enemy) (m m1 : GameMap) (env : Env) (r : Bool)
    (h : e.Update m env = .ok (e1, m1, r)) :
    e1.addr = e.addr ∧ e1.health = e.health ∧ e1.level = e.level ∧
    e1.enemyType = e.enemyType ∧ e1.size = e.size ∧ e1.maxHealth = e.maxHealth := by
  rcases e.Update_cases e1 m m1 env r h with ⟨_, h1, _⟩ | ⟨_, h1, _⟩ | ⟨_, e0, e2, h0, h2, h3⟩
  · rw [h1]
    exact ⟨rfl, rfl, rfl, rfl, rfl, rfl⟩
  · have := e.ensurePath_frame e1 m false h1
    exact ⟨this.1, this.2.1, this.2.2.1, this.2.2.2.1, this.2.2.2.2.1, this.2.2.2.2.2.1⟩
  · have f0 := e.ensurePath_frame e0 m true h0
    have f2 := e0.advance_frame e2 m env.sqrt h2
    rcases h3 with ⟨_, h1, _⟩ | ⟨_, m3, b, hatt, _⟩
    · rw [h1]
      exact ⟨f2.1.trans f0.1, f2.2.1.trans f0.2.1, f2.2.2.1.trans f0.2.2.1,
        f2.2.2.2.1.trans f0.2.2.2.1, f2.2.2.2.2.1.trans f0.2.2.2.2.1,
        f2.2.2.2.2.2.1.trans f0.2.2.2.2.2.1⟩
    · have f3 := e2.acquire_position m env
      have f4 := Enemy.attack_position _ e1 _ m3 env.sqrt b hatt
      exact ⟨(f4.2.2.2.1.trans f3.2.2.2.1).trans (f2.1.trans f0.1),
        (f4.2.2.2.2.1.trans f3.2.2.2.2.1).trans (f2.2.1.trans f0.2.1),
        (f4.2.2.2.2.2.1.trans f3.2.2.2.2.2.1).trans (f2.2.2.1.trans f0.2.2.1),
        (f4.2.2.2.2.2.2.1.trans f3.2.2.2.2.2.2.1).trans (f2.2.2.2.1.trans f0.2.2.2.1),
        (f4.2.2.2.2.2.2.2.1.trans f3.2.2.2.2.2.2.2.1).trans (f2.2.2.2.2.1.trans f0.2.2.2.2.1),
        (f4.2.2.2.2.2.2.2.2.2.trans f3.2.2.2.2.2.2.2.2.2.1).trans
          (f2.2.2.2.2.2.1.trans f0.2.2.2.2.2.1)⟩

/-- The entrance gate of `Update`: a call on a map of positive cell size that
ends with the enemy left of column 4 ends with no target, the map as it was,
and the answer false, provided the enemy had no target if it was there before. -/
theorem Enemy.Update_gate (e e1 : Enemy) (m m1 : GameMap) (env : Env) (r : Bool)
    (hcs : 0 < m.cellSize) (hinv : e.x < (4 * m.cellSize : Int) → e.targetTower = none)
    (h : e.Update m env = .ok (e1, m1, r)) (hx : e1.x < (4 * m.cellSize : Int)) :
    e1.targetTower = none ∧ m1 = m ∧ r = false := by
  rcases e.Update_cases e1 m m1 env r h with ⟨_, h1, hm, hr⟩ | ⟨_, h1, hm, hr⟩ |
    ⟨_, e0, e2, h0, h2, h3⟩
  · rw [h1] at hx ⊢
    exact ⟨hinv hx, hm, hr⟩
  · have f := e.ensurePath_frame e1 m false h1
    rw [f.2.2.2.2.2.2.2.2.2.2.1] at hx
    exact ⟨f.2.2.2.2.2.2.1.trans (hinv hx), hm, hr⟩
  · rcases h3 with ⟨_, h1, hm, hr⟩ | ⟨hgate, m3, b, hatt, _⟩
    · rw [h1]
      exact ⟨rfl, hm, hr⟩
    · have f3 := e2.acquire_position m env
      have f4 := Enemy.attack_position _ e1 _ m3 env.sqrt b hatt
      have hcol := e2.gridCell_column m hcs hgate
      rw [f4.1, f3.1] at hx
      exact absurd hx (not_lt.2 hcol)

theorem Enemy.ReachableBy.no_target_at_entrance {cellSize : Int} (hcs : 0 < cellSize)
    {e : Enemy} (hr : Enemy.ReachableBy cellSize e) :
    e.x < (4 * cellSize : Int) → e.targetTower = none := by
  induction hr with
  | spawn addr startY uiHeight enemyType level colorSource =>
    intro _
    cases enemyType <;> rfl
  | construct addr startY uiHeight enemyType level =>
    intro _
    cases enemyType <;> rfl
  | @update e e1 m m1 env reached _ hm hupd ih =>
    intro hx
    subst hm
    exact (Enemy.Update_gate e e1 m m1 env reached hcs ih hupd hx).1
  | @strike e proj _ ih =>
    intro hx
    have f := proj.strike_position e
    rw [f.1] at hx
    rw [f.2.2.2.2.1]
    exact ih hx
  | invalidate _ ih => exact ih

/-- C13: in every state reachable from a freshly built enemy by `Update` calls
on maps of one positive cell size (projectile hits and path invalidations in
between included), an enemy with `x < 4 * cellSize` has no target; and a call
of `Update` on such a state that ends with `x < 4 * cellSize` ends with no
target (none kept, none acquired), leaves the map, hence every tower, as it
was, and returns false. -/
theorem anti_camping (cellSize : Int) (hcs : 0 < cellSize) (e : Enemy)
    (hr : Enemy.ReachableBy cellSize e) :
    (e.x < (4 * cellSize : Int) → e.targetTower = none) ∧
    ∀ (m m1 : GameMap) (env : Env) (e1 : Enemy) (r : Bool), m.cellSize = cellSize →
      e.Update m env = .ok (e1, m1, r) → e1.x < (4 * cellSize : Int) →
      e1.targetTower = none ∧ m1 = m ∧ r = false := by
  refine ⟨hr.no_target_at_entrance hcs, ?_⟩
  intro m m1 env e1 r hm hupd hx
  subst hm
  exact Enemy.Update_gate e e1 m m1 env r hcs (hr.no_target_at_entrance hcs) hupd hx

/-- C12 fails on the code, against its own comment ("Stay in place while
attacking"): the movement block of `Update` runs before the attack block.  The
ghoul is not frozen, has a valid path with the waypoint `(6, 6)` ahead, and is
five frames into an attack (of 180) on the registered dart tower, 56 pixels away,
within its range 84.  `Update` moves it 0.8 pixels toward the waypoint and then
continues the attack from the new position. -/
theorem attacking_ghoul_advances :
    ¬ attackingGhoul.frozenTimer > 0 ∧ attackingGhoul.pathInvalid = false ∧
    attackingGhoul.pathIndex < (attackingGhoul.path.length : Int) ∧
    attackingGhoul.targetTower = some 1 ∧
    findTower 1 mapWithDart.towers = some dartTowerAt55 ∧
    attackingGhoul.distanceToTower mapWithDart sqrtHundredths dartTowerAt55 = 56 ∧
    attackingGhoul.attackRange = 84 ∧
    attackingGhoul.currentAttackTime < attackingGhoul.attackDuration ∧
    attackingGhoul.Update mapWithDart (roundedEnv [some attackingGhoul]) =
      .ok ({ attackingGhoul with
              x := 308 + 8 / 10, targetX := 364, targetY := 424, currentAttackTime := 6,
              lastAttack := 9 }, mapWithDart, false) := by
  decide!

/-- C13 at the spider `Game.Update` spawns in wave 1. -/
theorem anti_camping_witness :
    (spawnedSpider.x < (4 * 56 : Int) → spawnedSpider.targetTower = none) ∧
    ∀ (m m1 : GameMap) (env : Env) (e1 : Enemy) (r : Bool), m.cellSize = 56 →
      spawnedSpider.Update m env = .ok (e1, m1, r) → e1.x < (4 * 56 : Int) →
      e1.targetTower = none ∧ m1 = m ∧ r = false :=
  anti_camping 56 (by decide) spawnedSpider
    (Enemy.ReachableBy.spawn 7 6 60 EnemyType.SpiderEnemy 1 EnemyType.SpiderEnemy)

theorem GameMap.RemoveTower_total (m : GameMap) (hg : IsGrid m.terrain m.width m.height)
    (hnil : ∀ t ∈ m.towers, t ≠ none) (x y : Int) : ∃ m1, m.RemoveTower x y = .ok m1 := by
  by_cases hb : m.InBounds x y
  · obtain ⟨t1, h, _⟩ := m.RemoveTower_spec hg x y hb hnil
    exact ⟨_, h⟩
  · exact ⟨m, m.RemoveTower_outside x y hb⟩

theorem storeTower_nil_free (t1 : Tower) (towers : List (Option Tower))
    (hnil : ∀ t ∈ towers, t ≠ none) : ∀ t ∈ storeTower t1 towers, t ≠ none := by
  intro t ht
  unfold storeTower at ht
  obtain ⟨entry, hentry, heq⟩ := List.mem_map.1 ht
  cases entry with
  | none => exact absurd rfl (hnil none hentry)
  | some t0 =>
    dsimp only at heq
    split at heq <;> (rw [← heq]; simp)

theorem Enemy.attack_total (e : Enemy) (m : GameMap) (sqrt : ℚ → ℚ)
    (hg : IsGrid m.terrain m.width m.height) (hnil : ∀ t ∈ m.towers, t ≠ none) :
    ∃ e1 m1 b, e.attack m sqrt = .ok (e1, m1, b) := by
  unfold Enemy.attack
  split
  · exact ⟨_, _, _, rfl⟩
  · split
    · exact ⟨_, _, _, rfl⟩
    · rename_i tower _
      split
      · exact ⟨_, _, _, rfl⟩
      · dsimp only
        split
        · split
          · split
            · split
              · obtain ⟨m2, h2⟩ := GameMap.RemoveTower_total
                  { m with towers := storeTower (tower.TakeDamage e.attackDamage).1 m.towers }
                  hg (storeTower_nil_free _ _ hnil)
                  (tower.TakeDamage e.attackDamage).1.position.X
                  (tower.TakeDamage e.attackDamage).1.position.Y
                rw [h2]
                exact ⟨_, _, _, rfl⟩
              · exact ⟨_, _, _, rfl⟩
            · exact ⟨_, _, _, rfl⟩
          · exact ⟨_, _, _, rfl⟩
        · exact ⟨_, _, _, rfl⟩

theorem Enemy.ensurePath_total (e : Enemy) (m : GameMap)
    (hg : IsGrid m.terrain m.width m.height)
    (hcell : m.InBounds (e.cell m).1 (e.cell m).2) :
    ∃ e0 b, e.ensurePath m = .ok (e0, b) := by
  unfold Enemy.ensurePath
  split
  · rcases e.findPath_spec m hg hcell with ⟨h, _⟩ | ⟨chain, h, _⟩
    · exact ⟨_, _, h⟩
    · exact ⟨_, _, h⟩
  · exact ⟨_, _, rfl⟩

theorem Enemy.advance_total (e : Enemy) (m : GameMap) (sqrt : ℚ → ℚ) (hidx : 0 ≤ e.pathIndex) :
    ∃ e1, e.advance m sqrt = .ok e1 := by
  unfold Enemy.advance
  split
  · rename_i hlt
    have h1 : e.pathIndex.toNat < e.path.length := by omega
    rw [idx_ok_of_lt e.path e.pathIndex hidx h1]
    dsimp only
    split <;> exact ⟨_, rfl⟩
  · exact ⟨_, rfl⟩

theorem Enemy.acquire_map (e : Enemy) (m : GameMap) (env : Env) :
    ∃ enemies, (e.acquire m env).2 = { m with enemies := enemies } := by
  rcases (e.acquire_cases m env).2 with h | h
  · exact ⟨m.enemies, h⟩
  · rw [h]
    cases env.currentGame with
    | none => exact ⟨m.enemies, rfl⟩
    | some enemies => exact ⟨enemies, rfl⟩

/-- On a map whose terrain matrix has the declared dimensions and whose registry
holds no `nil`, `Update` returns for every enemy that stands in a cell of the
grid and has a non-negative path index. -/
theorem Enemy.Update_total (e : Enemy) (m : GameMap) (env : Env)
    (hg : IsGrid m.terrain m.width m.height)
    (hcell : m.InBounds (e.cell m).1 (e.cell m).2) (hidx : 0 ≤ e.pathIndex)
    (hnil : ∀ t ∈ m.towers, t ≠ none) :
    ∃ e1 m1 r, e.Update m env = .ok (e1, m1, r) := by
  unfold Enemy.Update
  split
  · exact ⟨_, _, _, rfl⟩
  · obtain ⟨e0, b, h0⟩ := e.ensurePath_total m hg hcell
    rw [h0]
    cases b with
    | false => exact ⟨_, _, _, rfl⟩
    | true =>
      dsimp only
      have hidx0 : 0 ≤ e0.pathIndex := by
        rcases e.ensurePath_cases e0 m true h0 with ⟨hb, _⟩ | ⟨_, h1, _⟩ | ⟨_, path, h1⟩
        · exact absurd hb (by simp)
        · rw [h1]
          exact hidx
        · rw [h1]
      obtain ⟨e2, h2⟩ := e0.advance_total m env.sqrt hidx0
      rw [h2]
      dsimp only
      split
      · exact ⟨_, _, _, rfl⟩
      · obtain ⟨enemies, hmap⟩ := e2.acquire_map m env
        obtain ⟨e3, m3, b3, h3⟩ := Enemy.attack_total (e2.acquire m env).1 (e2.acquire m env).2
          env.sqrt (by rw [hmap]; exact hg) (by rw [hmap]; exact hnil)
        rw [h3]
        cases b3 <;> exact ⟨_, _, _, rfl⟩

theorem Enemy.attack_ends (e e1 : Enemy) (m m1 : GameMap) (sqrt : ℚ → ℚ) (b : Bool)
    (h : e.attack m sqrt = .ok (e1, m1, b)) :
    (b = false → e1.targetTower = none ∧ m1 = m) ∧
    ∀ a, e.targetTower = some a →
      (findTower a m.towers = none → b = true) ∧
      ∀ tower, findTower a m.towers = some tower →
        (tower.position.X < 4 → b = true) ∧
        (e.distanceToTower m sqrt tower ≤ e.attackRange →
          e.currentAttackTime < e.attackDuration → b = true) := by
  rcases e.attack_cases e1 m m1 sqrt b h with ⟨hnone, h1, hm, hb⟩ | ⟨a0, ha0, hrest⟩
  · refine ⟨fun _ => ⟨by rw [h1]; exact hnone, hm⟩, fun a ha => ?_⟩
    rw [hnone] at ha
    exact absurd ha (by simp)
  · rcases hrest with ⟨hfind, hm, hb, h1⟩ | ⟨tower0, hfind, hrest⟩
    · refine ⟨fun hf => absurd (hb.symm.trans hf) (by simp), fun a ha => ⟨fun _ => hb, ?_⟩⟩
      intro tower ht
      exact ⟨fun _ => hb, fun _ _ => hb⟩
    · rcases hrest with ⟨hx, hm, hb, h1⟩ | ⟨hx, hrange, hcat, hb, _⟩ | ⟨hx, hnot, hm, hb, h1⟩
      · refine ⟨fun hf => absurd (hb.symm.trans hf) (by simp), fun a ha => ⟨fun _ => hb, ?_⟩⟩
        intro tower ht
        exact ⟨fun _ => hb, fun _ _ => hb⟩
      · refine ⟨fun hf => absurd (hb.symm.trans hf) (by simp), fun a ha => ⟨fun _ => hb, ?_⟩⟩
        intro tower ht
        exact ⟨fun _ => hb, fun _ _ => hb⟩
      · refine ⟨fun _ => ⟨by rw [h1], hm⟩, fun a ha => ?_⟩
        rw [ha0] at ha
        simp only [Option.some.injEq] at ha
        subst ha
        refine ⟨fun hf => ?_, fun tower ht => ?_⟩
        · rw [hfind] at hf
          exact absurd hf (by simp)
        · rw [hfind] at ht
          simp only [Option.some.injEq] at ht
          subst ht
          exact ⟨fun h4 => absurd h4 hx, fun h5 h6 => absurd ⟨h5, h6⟩ hnot⟩

theorem Enemy.distanceToTower_congr (e e1 : Enemy) (m m1 : GameMap) (sqrt : ℚ → ℚ) (tower : Tower)
    (hx : e1.x = e.x) (hy : e1.y = e.y) (hc : m1.cellSize = m.cellSize)
    (hu : m1.uiHeight = m.uiHeight) :
    e1.distanceToTower m1 sqrt tower = e.distanceToTower m sqrt tower := by
  unfold Enemy.distanceToTower GameMap.cellCentre
  rw [hx, hy, hc, hu]

theorem Enemy.arrival_true (e : Enemy) (m : GameMap) (env : Env) (gridX gridY : Int)
    (h : (e.arrival m env gridX gridY).2 = true) :
    gridX = m.GetExitArea.2.2 ∧ m.GetExitArea.1 ≤ gridY ∧ gridY ≤ m.GetExitArea.2.1 ∧
    env.sqrt ((e.x - (m.cellCentre m.GetExitArea.2.2 gridY).1) *
        (e.x - (m.cellCentre m.GetExitArea.2.2 gridY).1) +
      (e.y - (m.cellCentre m.GetExitArea.2.2 gridY).2) *
        (e.y - (m.cellCentre m.GetExitArea.2.2 gridY).2)) < 5 := by
  unfold Enemy.arrival at h
  split at h
  · exact absurd h (by simp)
  · dsimp only at h
    split at h
    · rename_i hc
      exact ⟨hc.1, hc.2.1, hc.2.2, of_decide_eq_true h⟩
    · exact absurd h (by simp)

/-- C14: on a map whose terrain matrix has the declared dimensions and whose
registry holds no `nil`, for an enemy standing in a cell of the grid with a
non-negative path index, `Update` returns.  It returns true only if at the end
of the call the grid cell it computes for the enemy is in the exit column with
its row inside the exit band and the enemy is less than 5 away from that
cell's centre.  It returns false when the enemy was frozen at entry, when
`findPath` was consulted and failed, when the enemy ends in the first four
columns, when it still holds a target at the end (it is inside an attack
sequence), and when the target it holds as the attack block starts has vanished
from the registry, stands in the first four columns, or is in range with the
attack counter below `attackDuration`. -/
theorem update_return_contract (e : Enemy) (m : GameMap) (env : Env)
    (hg : IsGrid m.terrain m.width m.height)
    (hcell : m.InBounds (e.cell m).1 (e.cell m).2) (hidx : 0 ≤ e.pathIndex)
    (hnil : ∀ t ∈ m.towers, t ≠ none) :
    ∃ e1 m1 r, e.Update m env = .ok (e1, m1, r) ∧
      (r = true →
        (e1.gridCell m).1 = m.GetExitArea.2.2 ∧
        m.GetExitArea.1 ≤ (e1.gridCell m).2 ∧ (e1.gridCell m).2 ≤ m.GetExitArea.2.1 ∧
        env.sqrt ((e1.x - (m.cellCentre m.GetExitArea.2.2 (e1.gridCell m).2).1) *
            (e1.x - (m.cellCentre m.GetExitArea.2.2 (e1.gridCell m).2).1) +
          (e1.y - (m.cellCentre m.GetExitArea.2.2 (e1.gridCell m).2).2) *
            (e1.y - (m.cellCentre m.GetExitArea.2.2 (e1.gridCell m).2).2)) < 5) ∧
      (e.frozenTimer > 0 → r = false) ∧
      ((∃ e0, e.ensurePath m = .ok (e0, false)) → r = false) ∧
      ((e1.gridCell m).1 < 4 → r = false) ∧
      (e1.targetTower ≠ none → r = false) ∧
      (∀ e0 e2 a, e.ensurePath m = .ok (e0, true) → e0.advance m env.sqrt = .ok e2 →
        (e2.acquire m env).1.targetTower = some a →
        (findTower a m.towers = none → r = false) ∧
        ∀ tower, findTower a m.towers = some tower →
          (tower.position.X < 4 → r = false) ∧
          (e2.distanceToTower m env.sqrt tower ≤ e2.attackRange →
            e2.currentAttackTime < e2.attackDuration → r = false)) := by
  obtain ⟨e1, m1, r, h⟩ := e.Update_total m env hg hcell hidx hnil
  refine ⟨e1, m1, r, h, ?_⟩
  rcases e.Update_cases e1 m m1 env r h with ⟨hf, _, _, hr⟩ | ⟨hf, _, _, hr⟩ |
    ⟨hf, e0, e2, h0, h2, h3⟩
  · exact ⟨fun h1 => absurd (hr.symm.trans h1) (by simp), fun _ => hr, fun _ => hr,
      fun _ => hr, fun _ => hr, fun _ _ _ _ _ _ => ⟨fun _ => hr, fun _ _ => ⟨fun _ => hr,
        fun _ _ => hr⟩⟩⟩
  · exact ⟨fun h1 => absurd (hr.symm.trans h1) (by simp), fun _ => hr, fun _ => hr,
      fun _ => hr, fun _ => hr, fun _ _ _ _ _ _ => ⟨fun _ => hr, fun _ _ => ⟨fun _ => hr,
        fun _ _ => hr⟩⟩⟩
  · rcases h3 with ⟨_, _, _, hr⟩ | ⟨hgate, m3, b, hatt, hres⟩
    · exact ⟨fun h1 => absurd (hr.symm.trans h1) (by simp), fun _ => hr, fun _ => hr,
        fun _ => hr, fun _ => hr, fun _ _ _ _ _ _ => ⟨fun _ => hr, fun _ _ => ⟨fun _ => hr,
          fun _ _ => hr⟩⟩⟩
    · have f3 := e2.acquire_position m env
      have f4 := Enemy.attack_position _ e1 _ m3 env.sqrt b hatt
      have hends := Enemy.attack_ends _ e1 _ m3 env.sqrt b hatt
      obtain ⟨enemies, hmap⟩ := e2.acquire_map m env
      have hcellEq : e1.gridCell m = e2.gridCell m := by
        unfold Enemy.gridCell
        rw [f4.1, f4.2.1, f3.1, f3.2.1]
      rcases hres with ⟨_, _, hr⟩ | ⟨hb, _, hr⟩
      · exact ⟨fun h1 => absurd (hr.symm.trans h1) (by simp), fun _ => hr, fun _ => hr,
          fun _ => hr, fun _ => hr, fun _ _ _ _ _ _ => ⟨fun _ => hr, fun _ _ => ⟨fun _ => hr,
            fun _ _ => hr⟩⟩⟩
      · have hm3 : m3 = { m with enemies := enemies } := by
          rw [(hends.1 hb).2, hmap]
        refine ⟨fun h1 => ?_, fun h1 => absurd h1 hf, ?_, ?_, ?_, ?_⟩
        · rw [hr] at h1
          have ha := Enemy.arrival_true e1 m3 env _ _ h1
          rw [hcellEq]
          rw [hm3] at ha
          exact ha
        · rintro ⟨e0x, h0x⟩
          rw [h0] at h0x
          simp at h0x
        · intro hlt
          rw [hcellEq] at hlt
          exact absurd hlt hgate
        · intro hne
          exact absurd (hends.1 hb).1 hne
        · intro e0x e2x a h0x h2x ha
          rw [h0] at h0x
          simp only [Except.ok.injEq, Prod.mk.injEq, and_true] at h0x
          subst h0x
          rw [h2] at h2x
          simp only [Except.ok.injEq] at h2x
          subst h2x
          have hx := hends.2 a ha
          have hfalse : ∀ {P : Prop}, (P → b = true) → P → r = false := by
            intro P hp p
            exact absurd ((hp p).symm.trans hb) (by simp)
          rw [hmap] at hx
          refine ⟨hfalse hx.1, fun tower ht => ⟨hfalse (hx.2 tower ht).1, ?_⟩⟩
          intro hrange hcat
          have hd := Enemy.distanceToTower_congr e2 (e2.acquire m env).1 m
            { m with enemies := enemies } env.sqrt tower f3.1 f3.2.1 rfl rfl
          have hb1 := (hx.2 tower ht).2 (by rw [hd, f3.2.2.2.2.2.2.2.2.2.2.2]; exact hrange)
            (by rw [f3.2.2.2.2.2.2.2.2.2.2.1, f3.2.2.2.2.2.2.2.2.1]; exact hcat)
          exact absurd (hb1.symm.trans hb) (by simp)

theorem walkingSpider_cell_inBounds :
    mapWithDart.InBounds (walkingSpider.cell mapWithDart).1 (walkingSpider.cell mapWithDart).2 := by
  unfold GameMap.InBounds
  decide!

/-- C14 at the walking spider on the map with the dart tower. -/
theorem update_return_contract_witness :
    ∃ e1 m1 r, walkingSpider.Update mapWithDart (roundedEnv [some walkingSpider]) =
        .ok (e1, m1, r) ∧
      (r = true →
        (e1.gridCell mapWithDart).1 = mapWithDart.GetExitArea.2.2 ∧
        mapWithDart.GetExitArea.1 ≤ (e1.gridCell mapWithDart).2 ∧
        (e1.gridCell mapWithDart).2 ≤ mapWithDart.GetExitArea.2.1 ∧
        (roundedEnv [some walkingSpider]).sqrt
          ((e1.x - (mapWithDart.cellCentre mapWithDart.GetExitArea.2.2
              (e1.gridCell mapWithDart).2).1) *
            (e1.x - (mapWithDart.cellCentre mapWithDart.GetExitArea.2.2
              (e1.gridCell mapWithDart).2).1) +
          (e1.y - (mapWithDart.cellCentre mapWithDart.GetExitArea.2.2
              (e1.gridCell mapWithDart).2).2) *
            (e1.y - (mapWithDart.cellCentre mapWithDart.GetExitArea.2.2
              (e1.gridCell mapWithDart).2).2)) < 5) ∧
      (walkingSpider.frozenTimer > 0 → r = false) ∧
      ((∃ e0, walkingSpider.ensurePath mapWithDart = .ok (e0, false)) → r = false) ∧
      ((e1.gridCell mapWithDart).1 < 4 → r = false) ∧
      (e1.targetTower ≠ none → r = false) ∧
      (∀ e0 e2 a, walkingSpider.ensurePath mapWithDart = .ok (e0, true) →
        e0.advance mapWithDart (roundedEnv [some walkingSpider]).sqrt = .ok e2 →
        (e2.acquire mapWithDart (roundedEnv [some walkingSpider])).1.targetTower = some a →
        (findTower a mapWithDart.towers = none → r = false) ∧
        ∀ tower, findTower a mapWithDart.towers = some tower →
          (tower.position.X < 4 → r = false) ∧
          (e2.distanceToTower mapWithDart (roundedEnv [some walkingSpider]).sqrt tower
              ≤ e2.attackRange →
            e2.currentAttackTime < e2.attackDuration → r = false)) :=
  update_return_contract walkingSpider mapWithDart (roundedEnv [some walkingSpider])
    (Reachable.invariant mapWithDart_reachable).1.wellFormed.grid
    walkingSpider_cell_inBounds (by decide) (by decide)

/-! ## Attack locks -/

theorem take_set_succ {α : Type} (l : List α) (a : α) :
    ∀ i, i < l.length → (l.set i a).take (i + 1) = l.take i ++ [a] := by
  induction l with
  | nil => intro i h; simp at h
  | cons x rest ih =>
    intro i h
    cases i with
    | zero => simp
    | succ i =>
      simp only [List.set_cons_succ, List.take_succ_cons, List.cons_append, List.cons.injEq,
        true_and]
      exact ih i (by simpa using h)

theorem take_sublist_succ {α : Type} (l : List α) (i : Nat) : (l.take i).Sublist (l.take (i + 1)) := by
  have h : l.take i = (l.take (i + 1)).take i := by
    rw [List.take_take]
    simp
  rw [h]
  exact List.take_sublist _ _

theorem enemyAddrs_keys (enemies : List (Option Enemy)) :
    enemyAddrs enemies = ((enemies.map (Option.map lockKey)).filterMap id).map Prod.fst := by
  induction enemies with
  | nil => rfl
  | cons x rest ih =>
    cases x with
    | none =>
      simp only [enemyAddrs, List.filterMap_cons, id, List.map_cons, Option.map_none'] at ih ⊢
      exact ih
    | some e =>
      simp only [enemyAddrs, List.filterMap_cons, id, List.map_cons, Option.map_some',
        List.cons.injEq] at ih ⊢
      exact ⟨rfl, ih⟩

theorem mem_of_keys_eq {enemies enemies1 : List (Option Enemy)}
    (h : enemies1.map (Option.map lockKey) = enemies.map (Option.map lockKey))
    (y : Enemy) (hy : some y ∈ enemies1) : ∃ x, some x ∈ enemies ∧ lockKey x = lockKey y := by
  have hmem : some (lockKey y) ∈ enemies1.map (Option.map lockKey) :=
    List.mem_map.2 ⟨some y, hy, rfl⟩
  rw [h] at hmem
  obtain ⟨entry, hentry, heq⟩ := List.mem_map.1 hmem
  cases entry with
  | none => simp at heq
  | some x => exact ⟨x, hentry, by simpa using heq⟩

theorem lockKey_eq {x y : Enemy} (h : lockKey x = lockKey y) :
    x.addr = y.addr ∧ x.targetTower = y.targetTower ∧ x.currentAttackTime = y.currentAttackTime := by
  unfold lockKey at h
  simp only [Prod.mk.injEq] at h
  exact h

theorem AttackLocks.nil : AttackLocks [] :=
  ⟨List.nodup_nil, fun _ h => absurd h (List.not_mem_nil _),
    fun _ _ _ h => absurd h (List.not_mem_nil _)⟩

theorem AttackLocks.congr {enemies enemies1 : List (Option Enemy)}
    (h : enemies1.map (Option.map lockKey) = enemies.map (Option.map lockKey))
    (inv : AttackLocks enemies) : AttackLocks enemies1 := by
  refine ⟨?_, ?_, ?_⟩
  · rw [enemyAddrs_keys, h, ← enemyAddrs_keys]
    exact inv.distinct
  · intro y hy
    obtain ⟨x, hx, hk⟩ := mem_of_keys_eq h y hy
    have hk := lockKey_eq hk
    rw [← hk.2.1, ← hk.2.2]
    exact inv.counter x hx
  · intro y1 y2 a hy1 hy2 ht1 ht2
    obtain ⟨x1, hx1, hk1⟩ := mem_of_keys_eq h y1 hy1
    obtain ⟨x2, hx2, hk2⟩ := mem_of_keys_eq h y2 hy2
    have hk1 := lockKey_eq hk1
    have hk2 := lockKey_eq hk2
    rw [← hk1.1, ← hk2.1]
    exact inv.exclusive x1 x2 a hx1 hx2 (hk1.2.1.trans ht1) (hk2.2.1.trans ht2)

theorem enemyAddrs_sublist {enemies enemies1 : List (Option Enemy)}
    (h : enemies1.Sublist enemies) : (enemyAddrs enemies1).Sublist (enemyAddrs enemies) :=
  (h.filterMap id).map Enemy.addr

theorem AttackLocks.sublist {enemies enemies1 : List (Option Enemy)}
    (h : enemies1.Sublist enemies) (inv : AttackLocks enemies) : AttackLocks enemies1 :=
  ⟨inv.distinct.sublist (enemyAddrs_sublist h), fun e he => inv.counter e (h.subset he),
    fun x y a hx hy => inv.exclusive x y a (h.subset hx) (h.subset hy)⟩

theorem mem_enemyAddrs {enemies : List (Option Enemy)} {a : Nat} :
    a ∈ enemyAddrs enemies ↔ ∃ e, some e ∈ enemies ∧ e.addr = a := by
  unfold enemyAddrs
  simp only [List.mem_map, List.mem_filterMap, id]
  constructor
  · rintro ⟨e, ⟨entry, hentry, heq⟩, ha⟩
    rw [heq] at hentry
    exact ⟨e, hentry, ha⟩
  · rintro ⟨e, he, ha⟩
    exact ⟨e, ⟨some e, he, rfl⟩, ha⟩

theorem AttackLocks.append_fresh {enemies : List (Option Enemy)} (inv : AttackLocks enemies)
    (e : Enemy) (htarget : e.targetTower = none) (hcounter : e.currentAttackTime = 0)
    (hfresh : ∀ x, some x ∈ enemies → x.addr ≠ e.addr) : AttackLocks (enemies ++ [some e]) := by
  refine ⟨?_, ?_, ?_⟩
  · have h : enemyAddrs (enemies ++ [some e]) = enemyAddrs enemies ++ [e.addr] := by
      simp [enemyAddrs]
    rw [h]
    refine List.Nodup.append inv.distinct (List.nodup_singleton _) ?_
    intro a ha hb
    rw [List.mem_singleton] at hb
    obtain ⟨x, hx, hxa⟩ := mem_enemyAddrs.1 ha
    exact hfresh x hx (hxa.trans hb)
  · intro y hy
    rcases List.mem_append.1 hy with h | h
    · exact inv.counter y h
    · simp only [List.mem_singleton, Option.some.injEq] at h
      rw [h, hcounter, htarget]
      exact ⟨le_refl 0, fun hne => absurd rfl hne⟩
  · intro x y a hx hy htx hty
    rcases List.mem_append.1 hx with h1 | h1
    · rcases List.mem_append.1 hy with h2 | h2
      · exact inv.exclusive x y a h1 h2 htx hty
      · simp only [List.mem_singleton, Option.some.injEq] at h2
        rw [h2, htarget] at hty
        exact absurd hty (by simp)
    · simp only [List.mem_singleton, Option.some.injEq] at h1
      rw [h1, htarget] at htx
      exact absurd htx (by simp)

theorem isBeingAttacked_of_mem {self a : Nat} {enemies : List (Option Enemy)} {x : Enemy}
    (hx : some x ∈ enemies) (hne : x.addr ≠ self) (ht : x.targetTower = some a)
    (hc : 0 < x.currentAttackTime) : isBeingAttacked self a enemies = true := by
  unfold isBeingAttacked
  rw [List.any_eq_true]
  exact ⟨some x, hx, by simp [hne, ht, hc]⟩

theorem enemyAddrs_set {enemies : List (Option Enemy)} {i : Nat} {e e1 : Enemy}
    (hget : enemies[i]? = some (some e)) (haddr : e1.addr = e.addr) :
    enemyAddrs (enemies.set i (some e1)) = enemyAddrs enemies := by
  have hm : (enemies.set i (some e1)).map (Option.map Enemy.addr)
      = enemies.map (Option.map Enemy.addr) := by
    rw [List.map_set]
    apply set_self_of_getElem?
    rw [List.getElem?_map, hget]
    simp [haddr]
  have hk : ∀ l : List (Option Enemy),
      enemyAddrs l = (l.map (Option.map Enemy.addr)).filterMap id := by
    intro l
    unfold enemyAddrs
    rw [List.filterMap_map, List.map_filterMap]
    congr 1
  rw [hk, hm, ← hk]

theorem AttackLocks.set {enemies : List (Option Enemy)} (inv : AttackLocks enemies)
    {i : Nat} {e e1 : Enemy} (hget : enemies.get? i = some (some e))
    (haddr : e1.addr = e.addr)
    (hcounter : 0 ≤ e1.currentAttackTime ∧ (e1.targetTower ≠ none → 0 < e1.currentAttackTime))
    (htarget : e1.targetTower = none ∨ e1.targetTower = e.targetTower ∨
      ∃ a, e1.targetTower = some a ∧ isBeingAttacked e.addr a enemies = false) :
    AttackLocks (enemies.set i (some e1)) := by
  rw [List.get?_eq_getElem?] at hget
  have he : some e ∈ enemies := List.getElem?_mem hget
  have hkeys : ∀ x, some x ∈ enemies.set i (some e1) → some x ∈ enemies ∨ x = e1 := by
    intro x hx
    rcases List.mem_or_eq_of_mem_set hx with h | h
    · exact Or.inl h
    · exact Or.inr (by simpa using h)
  have hpair : ∀ x a, some x ∈ enemies → x.targetTower = some a → e1.targetTower = some a →
      x.addr = e1.addr := by
    intro x a hx htx ht1
    rcases htarget with h | h | ⟨a1, h, hfree⟩
    · rw [h] at ht1
      exact absurd ht1 (by simp)
    · rw [haddr]
      exact inv.exclusive x e a hx he htx (h.symm.trans ht1)
    · rw [h] at ht1
      simp only [Option.some.injEq] at ht1
      subst ht1
      by_contra hne
      rw [haddr] at hne
      have := isBeingAttacked_of_mem hx hne htx ((inv.counter x hx).2 (by rw [htx]; simp))
      rw [hfree] at this
      exact absurd this (by simp)
  refine ⟨?_, ?_, ?_⟩
  · have h := enemyAddrs_set hget haddr
    rw [h]
    exact inv.distinct
  · intro x hx
    rcases hkeys x hx with h | h
    · exact inv.counter x h
    · rw [h]
      exact hcounter
  · intro x y a hx hy htx hty
    rcases hkeys x hx with h1 | h1
    · rcases hkeys y hy with h2 | h2
      · exact inv.exclusive x y a h1 h2 htx hty
      · rw [h2] at hty ⊢
        exact hpair x a h1 htx hty
    · rcases hkeys y hy with h2 | h2
      · rw [h1] at htx ⊢
        exact (hpair y a h2 hty htx).symm
      · rw [h1, h2]

theorem attackersOf_length_le_one {enemies : List (Option Enemy)} (inv : AttackLocks enemies)
    (a : Nat) : (attackersOf a enemies).length ≤ 1 := by
  have hsub : ((attackersOf a enemies).map Enemy.addr).Sublist (enemyAddrs enemies) :=
    (List.filter_sublist _).map Enemy.addr
  have hnodup := inv.distinct.sublist hsub
  have hmem : ∀ x, x ∈ attackersOf a enemies → some x ∈ enemies ∧ x.targetTower = some a := by
    intro x hx
    unfold attackersOf at hx
    rw [List.mem_filter, List.mem_filterMap] at hx
    obtain ⟨⟨entry, hentry, heq⟩, hp⟩ := hx
    simp only [id] at heq
    rw [heq] at hentry
    exact ⟨hentry, (of_decide_eq_true hp).1⟩
  match hl : attackersOf a enemies with
  | [] => simp
  | [_] => simp
  | x :: y :: rest =>
    rw [hl] at hnodup hmem
    have hx := hmem x (by simp)
    have hy := hmem y (by simp)
    have heq := inv.exclusive x y a hx.1 hy.1 hx.2 hy.2
    simp only [List.map_cons, List.nodup_cons, List.mem_cons, not_or] at hnodup
    exact absurd heq hnodup.1.1

theorem Enemy.attack_locks (e e1 : Enemy) (m m1 : GameMap) (sqrt : ℚ → ℚ) (b : Bool)
    (h : e.attack m sqrt = .ok (e1, m1, b)) (hc : 0 ≤ e.currentAttackTime) :
    (e1.targetTower = none ∧ 0 ≤ e1.currentAttackTime) ∨
    (e1.targetTower = e.targetTower ∧ e1.currentAttackTime = e.currentAttackTime + 1) := by
  rcases e.attack_cases e1 m m1 sqrt b h with ⟨hnone, h1, _⟩ | ⟨a, _, h1⟩
  · rw [h1]
    exact Or.inl ⟨hnone, hc⟩
  · rcases h1 with ⟨_, _, _, h1⟩ | ⟨tower, _, h1⟩
    · rw [h1]
      exact Or.inl ⟨rfl, le_refl 0⟩
    · rcases h1 with ⟨_, _, _, h1⟩ | ⟨_, _, _, _, h1⟩ | ⟨_, _, _, _, h1⟩
      · rw [h1]
        exact Or.inl ⟨rfl, le_refl 0⟩
      · rcases h1 with ⟨_, _, _, h1⟩ | ⟨_, _, _, h1⟩ | ⟨_, _, h1⟩
        · rw [h1]
          exact Or.inl ⟨rfl, le_refl 0⟩
        · rw [h1]
          exact Or.inr ⟨rfl, rfl⟩
        · rw [h1]
          exact Or.inr ⟨rfl, rfl⟩
      · rw [h1]
        exact Or.inl ⟨rfl, le_refl 0⟩

/-- What `Update` does to the attack lock of an enemy whose counter is in
order: the counter stays in order, and the target afterwards is none, the one
held before, or a tower that no other enemy of the coordination list holds
with an attack in progress. -/
theorem Enemy.Update_locks (e e1 : Enemy) (m m1 : GameMap) (env : Env) (r : Bool)
    (h : e.Update m env = .ok (e1, m1, r))
    (hc : 0 ≤ e.currentAttackTime ∧ (e.targetTower ≠ none → 0 < e.currentAttackTime)) :
    (0 ≤ e1.currentAttackTime ∧ (e1.targetTower ≠ none → 0 < e1.currentAttackTime)) ∧
    (e1.targetTower = none ∨ e1.targetTower = e.targetTower ∨
      ∃ a, e1.targetTower = some a ∧
        isBeingAttacked e.addr a (m.syncEnemies env.currentGame).enemies = false) := by
  rcases e.Update_cases e1 m m1 env r h with ⟨_, h1, _⟩ | ⟨_, h1, _⟩ | ⟨_, e0, e2, h0, h2, h3⟩
  · rw [h1]
    exact ⟨hc, Or.inr (Or.inl rfl)⟩
  · have f := e.ensurePath_frame e1 m false h1
    rw [f.2.2.2.2.2.2.1, f.2.2.2.2.2.2.2.1]
    exact ⟨hc, Or.inr (Or.inl rfl)⟩
  · have f0 := e.ensurePath_frame e0 m true h0
    have f2 := e0.advance_frame e2 m env.sqrt h2
    have hcat2 : e2.currentAttackTime = e.currentAttackTime :=
      f2.2.2.2.2.2.2.2.1.trans f0.2.2.2.2.2.2.2.1
    have htar2 : e2.targetTower = e.targetTower := f2.2.2.2.2.2.2.1.trans f0.2.2.2.2.2.2.1
    have haddr2 : e2.addr = e.addr := f2.1.trans f0.1
    rcases h3 with ⟨_, h1, _⟩ | ⟨_, m3, b, hatt, _⟩
    · rw [h1]
      refine ⟨⟨?_, fun hne => absurd rfl hne⟩, Or.inl rfl⟩
      show 0 ≤ e2.currentAttackTime
      rw [hcat2]
      exact hc.1
    · have f3 := e2.acquire_position m env
      have hcat3 : (e2.acquire m env).1.currentAttackTime = e.currentAttackTime :=
        f3.2.2.2.2.2.2.2.2.2.2.1.trans hcat2
      rcases Enemy.attack_locks _ e1 _ m3 env.sqrt b hatt (by rw [hcat3]; exact hc.1) with
        ⟨ht, hcat⟩ | ⟨ht, hcat⟩
      · exact ⟨⟨hcat, fun hne => absurd ht hne⟩, Or.inl ht⟩
      · rw [hcat3] at hcat
        refine ⟨⟨by omega, fun _ => by omega⟩, ?_⟩
        rcases (e2.acquire_cases m env).1 with hsame | ⟨_, _, t, htmem, hacq⟩
        · rw [hsame, htar2] at ht
          exact Or.inr (Or.inl ht)
        · rw [hacq] at ht
          refine Or.inr (Or.inr ⟨t.addr, ht, ?_⟩)
          unfold Enemy.availableTowers at htmem
          rw [List.mem_filter] at htmem
          rw [← haddr2]
          simpa using htmem.2

/-! ## The passes of `Game.Update` -/

theorem Game.enemyStep_cases (g g1 : Game) (tick : Tick) (i : Nat)
    (remaining remaining1 : List (Option Enemy))
    (h : g.enemyStep tick i remaining = .ok (g1, remaining1)) :
    ((g.enemies.get? i = none ∨ g.enemies.get? i = some none) ∧ g1 = g ∧
      remaining1 = remaining) ∨
    ∃ enemy e1 m1 reached, g.enemies.get? i = some (some enemy) ∧
      enemy.Update g.gameMap
        ⟨tick.sqrt, tick.enemyRandFloat i, tick.enemyRandInt i, some g.enemies⟩
        = .ok (e1, m1, reached) ∧
      g1.enemies = g.enemies.set i (some e1) ∧ g1.gameMap = m1 ∧
      g1.projectiles = g.projectiles ∧
      ((reached = true ∧ remaining1 = remaining ∧ g1.lives = g.lives - 1 ∧
          g1.money = g.money ∧ g1.score = g.score ∧ g1.deathAnims = g.deathAnims) ∨
       (reached = false ∧ e1.health ≤ 0 ∧ remaining1 = remaining ∧ g1.lives = g.lives ∧
          g1.gameState = g.gameState ∧ g1.money = g.money + rewardOf e1 ∧
          g1.score = g.score + (if e1.enemyType = EnemyType.BlobEnemy then 1000 else 0) ∧
          g1.deathAnims = g.deathAnims ++ [NewDeathAnimation e1.x e1.y e1.size]) ∨
       (reached = false ∧ ¬ e1.health ≤ 0 ∧ remaining1 = remaining ++ [some e1] ∧
          g1.lives = g.lives ∧ g1.gameState = g.gameState ∧ g1.money = g.money ∧
          g1.score = g.score ∧ g1.deathAnims = g.deathAnims)) := by
  unfold Game.enemyStep at h
  split at h
  · rename_i hget
    simp only [Except.ok.injEq, Prod.mk.injEq] at h
    exact Or.inl ⟨Or.inl hget, h.1.symm, h.2.symm⟩
  · rename_i hget
    simp only [Except.ok.injEq, Prod.mk.injEq] at h
    exact Or.inl ⟨Or.inr hget, h.1.symm, h.2.symm⟩
  · rename_i enemy hget
    split at h
    · simp at h
    · rename_i e1 m1 reached hupd
      refine Or.inr ⟨enemy, e1, m1, reached, hget, hupd, ?_⟩
      dsimp only at h
      split at h
      · rename_i hreached
        split at h
        · simp only [Except.ok.injEq, Prod.mk.injEq] at h
          rw [← h.1, ← h.2]
          exact ⟨rfl, rfl, rfl, Or.inl ⟨hreached, rfl, rfl, rfl, rfl, rfl⟩⟩
        · simp only [Except.ok.injEq, Prod.mk.injEq] at h
          rw [← h.1, ← h.2]
          exact ⟨rfl, rfl, rfl, Or.inl ⟨hreached, rfl, rfl, rfl, rfl, rfl⟩⟩
      · rename_i hreached
        have hr : reached = false := by simpa using hreached
        split at h
        · rename_i hdead
          split at h
          · rename_i hblob
            simp only [Except.ok.injEq, Prod.mk.injEq] at h
            rw [← h.1, ← h.2]
            refine ⟨rfl, rfl, rfl, Or.inr (Or.inl ⟨hr, hdead, rfl, rfl, rfl, ?_, ?_, rfl⟩)⟩
            · show g.money + 2 * e1.level * 5 = g.money + rewardOf e1
              unfold rewardOf
              rw [if_pos hblob]
            · show g.score + 1000 = _
              rw [if_pos hblob]
          · rename_i hblob
            simp only [Except.ok.injEq, Prod.mk.injEq] at h
            rw [← h.1, ← h.2]
            refine ⟨rfl, rfl, rfl, Or.inr (Or.inl ⟨hr, hdead, rfl, rfl, rfl, ?_, ?_, rfl⟩)⟩
            · show g.money + 2 * e1.level = g.money + rewardOf e1
              unfold rewardOf
              rw [if_neg hblob]
            · show g.score = _
              rw [if_neg hblob, add_zero]
        · rename_i hdead
          simp only [Except.ok.injEq, Prod.mk.injEq] at h
          rw [← h.1, ← h.2]
          exact ⟨rfl, rfl, rfl, Or.inr (Or.inr ⟨hr, hdead, rfl, rfl, rfl, rfl, rfl, rfl⟩)⟩

theorem Game.enemyStep_locks (g g1 : Game) (tick : Tick) (i : Nat)
    (remaining remaining1 : List (Option Enemy)) (inv : AttackLocks g.enemies)
    (hsub : remaining.Sublist (g.enemies.take i))
    (h : g.enemyStep tick i remaining = .ok (g1, remaining1)) :
    AttackLocks g1.enemies ∧ remaining1.Sublist (g1.enemies.take (i + 1)) ∧
    enemyAddrs g1.enemies = enemyAddrs g.enemies ∧
    (∀ e, some e ∈ remaining1 → some e ∈ remaining ∨ 0 < e.health) := by
  rcases g.enemyStep_cases g1 tick i remaining remaining1 h with ⟨_, hg, hrem⟩ |
    ⟨enemy, e1, m1, reached, hget, hupd, henemies, _, _, hrest⟩
  · rw [hg, hrem]
    exact ⟨inv, hsub.trans (take_sublist_succ _ _), rfl, fun e he => Or.inl he⟩
  · have hframe := enemy.Update_frame e1 g.gameMap m1 _ reached hupd
    have hget2 : g.enemies[i]? = some (some enemy) := by
      rw [← List.get?_eq_getElem?]
      exact hget
    have hmem : some enemy ∈ g.enemies := List.getElem?_mem hget2
    have hlocks := enemy.Update_locks e1 g.gameMap m1 _ reached hupd (inv.counter enemy hmem)
    have hlt : i < g.enemies.length := (List.getElem?_eq_some_iff.1 hget2).1
    have htake : (g.enemies.set i (some e1)).take (i + 1) = g.enemies.take i ++ [some e1] :=
      take_set_succ g.enemies (some e1) i hlt
    rw [henemies, htake]
    refine ⟨inv.set hget hframe.1 hlocks.1 hlocks.2, ?_, enemyAddrs_set hget2 hframe.1, ?_⟩
    · rcases hrest with ⟨_, hrem, _⟩ | ⟨_, _, hrem, _⟩ | ⟨_, _, hrem, _⟩
      · rw [hrem]
        exact hsub.trans (List.sublist_append_left _ _)
      · rw [hrem]
        exact hsub.trans (List.sublist_append_left _ _)
      · rw [hrem]
        exact hsub.append (List.Sublist.refl _)
    · intro e he
      rcases hrest with ⟨_, hrem, _⟩ | ⟨_, _, hrem, _⟩ | ⟨_, halive, hrem, _⟩
      · rw [hrem] at he
        exact Or.inl he
      · rw [hrem] at he
        exact Or.inl he
      · rw [hrem] at he
        rcases List.mem_append.1 he with h1 | h1
        · exact Or.inl h1
        · simp only [List.mem_singleton, Option.some.injEq] at h1
          rw [h1]
          exact Or.inr (not_le.1 halive)

theorem Game.enemyLoop_locks (tick : Tick) :
    ∀ (k i : Nat) (g g1 : Game) (remaining remaining1 : List (Option Enemy)),
    AttackLocks g.enemies → remaining.Sublist (g.enemies.take i) →
    Game.enemyLoop tick (List.range' i k) g remaining = .ok (g1, remaining1) →
    AttackLocks g1.enemies ∧ remaining1.Sublist g1.enemies ∧
    enemyAddrs g1.enemies = enemyAddrs g.enemies ∧
    (∀ e, some e ∈ remaining1 → some e ∈ remaining ∨ 0 < e.health) := by
  intro k
  induction k with
  | zero =>
    intro i g g1 remaining remaining1 inv hsub h
    simp only [List.range', Game.enemyLoop, Except.ok.injEq, Prod.mk.injEq] at h
    rw [← h.1, ← h.2]
    exact ⟨inv, hsub.trans (List.take_sublist _ _), rfl, fun e he => Or.inl he⟩
  | succ k ih =>
    intro i g g1 remaining remaining1 inv hsub h
    simp only [List.range', Game.enemyLoop] at h
    split at h
    · simp at h
    · rename_i g2 remaining2 hstep
      obtain ⟨inv2, hsub2, haddr2, halive2⟩ :=
        g.enemyStep_locks g2 tick i remaining remaining2 inv hsub hstep
      obtain ⟨inv1, hsub1, haddr1, halive1⟩ := ih (i + 1) g2 g1 remaining2 remaining1 inv2 hsub2 h
      refine ⟨inv1, hsub1, haddr1.trans haddr2, fun e he => ?_⟩
      rcases halive1 e he with h1 | h1
      · exact halive2 e h1
      · exact Or.inr h1

/-- The enemy pass keeps the attack locks consistent, introduces no enemy, and
leaves only enemies with positive health in the list. -/
theorem Game.enemyPass_locks (g g1 : Game) (tick : Tick) (inv : AttackLocks g.enemies)
    (h : g.enemyPass tick = .ok g1) :
    AttackLocks g1.enemies ∧ (enemyAddrs g1.enemies).Sublist (enemyAddrs g.enemies) ∧
    ∀ e, some e ∈ g1.enemies → 0 < e.health := by
  unfold Game.enemyPass at h
  split at h
  · simp at h
  · rename_i g2 remaining hloop
    simp only [Except.ok.injEq] at h
    rw [List.range_eq_range'] at hloop
    obtain ⟨inv2, hsub2, haddr2, halive2⟩ :=
      Game.enemyLoop_locks tick g.enemies.length 0 g g2 [] remaining inv (List.nil_sublist _) hloop
    rw [← h]
    refine ⟨inv2.sublist hsub2, ?_, fun e he => ?_⟩
    · rw [← haddr2]
      exact enemyAddrs_sublist hsub2
    · rcases halive2 e he with h1 | h1
      · exact absurd h1 (List.not_mem_nil _)
      · exact h1

theorem Projectile.collide_keys (p : Projectile) (sqrt : ℚ → ℚ) (enemies : List (Option Enemy)) :
    (p.collide sqrt enemies).map (Option.map lockKey) = enemies.map (Option.map lockKey) := by
  induction enemies with
  | nil => rfl
  | cons entry rest ih =>
    cases entry with
    | none => simp only [Projectile.collide, List.map_cons, ih]
    | some enemy =>
      by_cases ht : p.touches sqrt enemy = true
      · have hs := p.strike_position enemy
        simp only [Projectile.collide, ht, if_true, List.map_cons, Option.map_some', lockKey,
          hs.2.2.2.1, hs.2.2.2.2.1, hs.2.2.2.2.2]
      · simp only [Projectile.collide, ht, if_false, List.map_cons, ih, Bool.false_eq_true]

theorem projectilePass_keys (g : Game) (sqrt : ℚ → ℚ) :
    (g.projectilePass sqrt).enemies.map (Option.map lockKey)
      = g.enemies.map (Option.map lockKey) := by
  show (projectileLoop sqrt g.projectiles g.enemies []).2.map _ = _
  rw [projectileLoop_spec]
  generalize (g.projectiles.filter fun p => (p.Update sqrt).2) = arrived
  generalize g.enemies = enemies
  induction arrived generalizing enemies with
  | nil => rfl
  | cons p rest ih =>
    simp only [List.foldl_cons]
    rw [ih, p.collide_keys]

theorem towerPass_enemies (g g1 : Game) (tick : Tick) (h : g.towerPass tick = .ok g1) :
    g1.enemies = g.enemies := by
  unfold Game.towerPass at h
  split at h
  · simp at h
  · simp only [Except.ok.injEq] at h
    rw [← h]

theorem NewEnemyWithColor_fresh (addr : Nat) (startY cellSize uiHeight : Int)
    (enemyType : EnemyType) (level : Int) (colorSource : EnemyType) :
    (NewEnemyWithColor.fields addr startY cellSize uiHeight enemyType level colorSource).addr
      = addr ∧
    (NewEnemyWithColor.fields addr startY cellSize uiHeight enemyType level
      colorSource).targetTower = none ∧
    (NewEnemyWithColor.fields addr startY cellSize uiHeight enemyType level
      colorSource).currentAttackTime = 0 := by
  cases enemyType <;> exact ⟨rfl, rfl, rfl⟩

theorem createSpriteFromArt_spriteArt (enemyType : EnemyType) :
    createSpriteFromArt (NewEnemyWithColor.spriteArt enemyType) =
      if enemyType = EnemyType.BlobEnemy then .error .invalidArgument else .ok (1, 1) := by
  cases enemyType <;> decide!

theorem NewEnemyWithColor_regular (addr : Nat) (startY cellSize uiHeight : Int)
    (enemyType : EnemyType) (level : Int) (colorSource : EnemyType)
    (h : enemyType ≠ EnemyType.BlobEnemy) :
    NewEnemyWithColor addr startY cellSize uiHeight enemyType level colorSource =
      .ok (NewEnemyWithColor.fields addr startY cellSize uiHeight enemyType level colorSource) := by
  unfold NewEnemyWithColor
  rw [createSpriteFromArt_spriteArt, if_neg h]

theorem NewEnemyWithColor_blob_panics (addr : Nat) (startY cellSize uiHeight level : Int)
    (colorSource : EnemyType) :
    NewEnemyWithColor addr startY cellSize uiHeight EnemyType.BlobEnemy level colorSource =
      .error .invalidArgument := by
  unfold NewEnemyWithColor
  rw [createSpriteFromArt_spriteArt, if_pos rfl]

theorem NewEnemyWithColor_ok {addr : Nat} {startY cellSize uiHeight : Int}
    {enemyType : EnemyType} {level : Int} {colorSource : EnemyType} {e : Enemy}
    (h : NewEnemyWithColor addr startY cellSize uiHeight enemyType level colorSource = .ok e) :
    enemyType ≠ EnemyType.BlobEnemy ∧
    e = NewEnemyWithColor.fields addr startY cellSize uiHeight enemyType level colorSource := by
  by_cases hb : enemyType = EnemyType.BlobEnemy
  · rw [hb, NewEnemyWithColor_blob_panics] at h
    cases h
  · rw [NewEnemyWithColor_regular _ _ _ _ _ _ _ hb] at h
    simp only [Except.ok.injEq] at h
    exact ⟨hb, h.symm⟩

theorem spawnedSpider_constructed :
    NewEnemyWithColor 7 6 56 60 EnemyType.SpiderEnemy 1 EnemyType.SpiderEnemy
      = .ok spawnedSpider :=
  NewEnemyWithColor_regular 7 6 56 60 EnemyType.SpiderEnemy 1 EnemyType.SpiderEnemy
    (by decide)

theorem NewEnemyWithColor_ok_attackDuration {addr : Nat} {startY cellSize uiHeight : Int}
    {enemyType : EnemyType} {level : Int} {colorSource : EnemyType} {e : Enemy}
    (h : NewEnemyWithColor addr startY cellSize uiHeight enemyType level colorSource = .ok e) :
    e.attackDuration = 0 ∧ e.currentAttackTime = 0 := by
  rw [(NewEnemyWithColor_ok h).2]
  exact NewEnemyWithColor_attackDuration addr startY cellSize uiHeight enemyType level
    colorSource

theorem waveStep_enemies (g g1 : Game) (tick : Tick) (h : g.waveStep tick = .ok g1) :
    g1.enemies = g.enemies ∨
    ∃ e : Enemy, e.addr = tick.enemyAddr ∧ e.targetTower = none ∧ e.currentAttackTime = 0 ∧
      g1.enemies = g.enemies ++ [some e] := by
  unfold Game.waveStep at h
  split at h
  · split at h
    · split at h
      · simp at h
      · split at h
        · simp at h
        · rename_i newEnemy hnew
          simp only [Except.ok.injEq] at h
          rw [← h]
          have hf := NewEnemyWithColor_fresh tick.enemyAddr
          rw [(NewEnemyWithColor_ok hnew).2]
          exact Or.inr ⟨_, (hf _ _ _ _ _ _).1, (hf _ _ _ _ _ _).2.1, (hf _ _ _ _ _ _).2.2, rfl⟩
    · simp only [Except.ok.injEq] at h
      rw [← h]
      exact Or.inl rfl
  · split at h
    · split at h <;>
      · simp only [Except.ok.injEq] at h
        rw [← h]
        exact Or.inl rfl
    · simp only [Except.ok.injEq] at h
      rw [← h]
      exact Or.inl rfl

theorem clickTowerButtons_enemies (g g1 : Game) (mouseX mouseY : Int)
    (buttons : List TowerButton) (h : g.clickTowerButtons mouseX mouseY buttons = some g1) :
    g1.enemies = g.enemies := by
  induction buttons with
  | nil => simp [Game.clickTowerButtons] at h
  | cons btn rest ih =>
    unfold Game.clickTowerButtons at h
    split at h
    · simp only [Option.some.injEq] at h
      rw [← h]
    · exact ih h

theorem handleButtons_enemies (g g1 : Game) (mouseX mouseY : Int)
    (h : g.handleButtons mouseX mouseY = some g1) :
    g1.enemies = g.enemies ∨ g1.enemies = [] := by
  unfold Game.handleButtons at h
  split at h
  · rename_i g2 hclick
    simp only [Option.some.injEq] at h
    rw [← h]
    exact Or.inl (clickTowerButtons_enemies g g2 mouseX mouseY _ hclick)
  · split at h
    · simp only [Option.some.injEq] at h
      rw [← h]
      unfold Game.clickStart
      split
      · exact Or.inl rfl
      · split
        · split
          · exact Or.inr rfl
          · exact Or.inl rfl
        · exact Or.inl rfl
    · split at h
      · simp only [Option.some.injEq] at h
        rw [← h]
        unfold Game.clickPause
        split
        · exact Or.inl rfl
        · split <;> exact Or.inl rfl
      · simp at h

theorem invalidateAll_keys (enemies : List (Option Enemy)) :
    (invalidateAll enemies).map (Option.map lockKey) = enemies.map (Option.map lockKey) := by
  unfold invalidateAll
  rw [List.map_map]
  apply List.map_congr_left
  intro entry _
  cases entry <;> rfl

theorem handleTowerPlacement_keys (g g1 : Game) (forkTowerCount forkTowerCount1 : Int)
    (addr : Nat) (mouseX mouseY : Int)
    (h : g.handleTowerPlacement forkTowerCount addr mouseX mouseY = .ok (g1, forkTowerCount1)) :
    g1.enemies.map (Option.map lockKey) = g.enemies.map (Option.map lockKey) := by
  unfold Game.handleTowerPlacement at h
  split at h
  · dsimp only at h
    split at h
    · simp at h
    · rename_i r hplace
      simp only [Except.ok.injEq, Prod.mk.injEq] at h
      rw [← h.1]
      unfold Game.tryPlaceTower at hplace
      split at hplace
      · simp only [Except.ok.injEq] at hplace
        rw [← hplace]
      · split at hplace
        · simp at hplace
        · split at hplace
          · simp only [Except.ok.injEq] at hplace
            rw [← hplace]
            exact invalidateAll_keys g.enemies
          · simp only [Except.ok.injEq] at hplace
            rw [← hplace]
  · simp only [Except.ok.injEq, Prod.mk.injEq] at h
    rw [← h.1]

theorem Game.playStep_locks (g g1 : Game) (tick : Tick) (inv : AttackLocks g.enemies)
    (hfresh : ∀ e, some e ∈ g.enemies → e.addr ≠ tick.enemyAddr)
    (h : g.playStep tick = .ok g1) : AttackLocks g1.enemies := by
  unfold Game.playStep at h
  split at h
  · simp at h
  · rename_i ga hpass
    obtain ⟨inva, hsuba, _⟩ := g.enemyPass_locks ga tick inv hpass
    split at h
    · simp at h
    · rename_i gb htower
      have hb : gb.enemies = ga.enemies := towerPass_enemies ga.deathAnimPass gb tick htower
      have hkeys := projectilePass_keys gb tick.sqrt
      have invc : AttackLocks (gb.projectilePass tick.sqrt).enemies :=
        AttackLocks.congr hkeys (by rw [hb]; exact inva)
      rcases waveStep_enemies _ g1 tick h with h1 | ⟨e, haddr, htarget, hcounter, h1⟩
      · rw [h1]
        exact invc
      · rw [h1]
        refine invc.append_fresh e htarget hcounter ?_
        intro x hx
        have hxa : x.addr ∈ enemyAddrs (gb.projectilePass tick.sqrt).enemies :=
          mem_enemyAddrs.2 ⟨x, hx, rfl⟩
        rw [enemyAddrs_keys, hkeys, ← enemyAddrs_keys, hb] at hxa
        obtain ⟨y, hy, hya⟩ := mem_enemyAddrs.1 (hsuba.subset hxa)
        rw [haddr, ← hya]
        exact hfresh y hy

/-- A call of `Game.Update` keeps the attack locks consistent. -/
theorem Game.Update_keeps_locks (g g1 : Game) (count count1 : Int) (tick : Tick)
    (inv : AttackLocks g.enemies)
    (hfresh : ∀ e, some e ∈ g.enemies → e.addr ≠ tick.enemyAddr)
    (h : g.Update count tick = .ok (g1, count1)) : AttackLocks g1.enemies := by
  unfold Game.Update at h
  split at h
  · rename_i ga hbuttons
    simp only [Except.ok.injEq, Prod.mk.injEq] at h
    rw [← h.1]
    split at hbuttons
    · rcases handleButtons_enemies g ga _ _ hbuttons with h1 | h1
      · rw [h1]
        exact inv
      · rw [h1]
        exact AttackLocks.nil
    · simp at hbuttons
  · split at h
    · simp at h
    · rename_i ga counta hplace
      have hka : ga.enemies.map (Option.map lockKey) = g.enemies.map (Option.map lockKey) := by
        split at hplace
        · exact handleTowerPlacement_keys g ga count counta _ _ _ hplace
        · simp only [Except.ok.injEq, Prod.mk.injEq] at hplace
          rw [← hplace.1]
      split at h
      · simp at h
      · rename_i gb hremove
        have hb : gb.enemies = ga.enemies := by
          split at hremove
          · exact handleTowerRemoval_enemies ga gb _ _ hremove
          · simp only [Except.ok.injEq] at hremove
            rw [← hremove]
        have invb : AttackLocks gb.enemies := by
          rw [hb]
          exact AttackLocks.congr hka inv
        split at h
        · split at h
          · simp at h
          · rename_i gc hplay
            simp only [Except.ok.injEq, Prod.mk.injEq] at h
            rw [← h.1]
            refine gb.playStep_locks gc tick invb ?_ hplay
            intro x hx
            rw [hb] at hx
            obtain ⟨y, hy, hk⟩ := mem_of_keys_eq hka x hx
            rw [← (lockKey_eq hk).1]
            exact hfresh y hy
        · simp only [Except.ok.injEq, Prod.mk.injEq] at h
          rw [← h.1]
          exact invb

theorem Game.NoTargets.locks {g : Game} (h : g.NoTargets) : AttackLocks g.enemies :=
  ⟨h.distinct, fun e he => ⟨h.counter e he, fun hne => absurd (h.noTarget e he) hne⟩,
    fun x _ a hx _ htx _ => by
      rw [h.noTarget x hx] at htx
      exact absurd htx (by simp)⟩

theorem Game.ReachableFrom.attackLocks {g0 g : Game} {count0 count : Int} (h0 : g0.NoTargets)
    (hr : Game.ReachableFrom g0 count0 g count) : AttackLocks g.enemies := by
  induction hr with
  | start => exact h0.locks
  | @tick g g1 count count1 tick _ hfresh hupd ih =>
    exact g.Update_keeps_locks g1 count count1 tick ih hfresh hupd

/-- C11: in every game reachable by calls of `Game.Update` from a game in which
no enemy has a target (the entries of the enemy list being distinct objects
with non-negative attack counters, and each enemy a call allocates being a new
object), every registered tower is held by at most one enemy of the live list
with `currentAttackTime > 0`, and every enemy of the list that holds a target
has `currentAttackTime >= 1`. -/
theorem at_most_one_attacker (g0 : Game) (count0 : Int) (h0 : g0.NoTargets) (g : Game)
    (count : Int) (hr : Game.ReachableFrom g0 count0 g count) :
    (∀ t : Tower, some t ∈ g.gameMap.towers → (attackersOf t.addr g.enemies).length ≤ 1) ∧
    ∀ e : Enemy, some e ∈ g.enemies → e.targetTower ≠ none → 1 ≤ e.currentAttackTime := by
  have inv := hr.attackLocks h0
  refine ⟨fun t _ => attackersOf_length_le_one inv t.addr, fun e he hne => ?_⟩
  have := (inv.counter e he).2 hne
  omega

theorem gameWithDart_noTargets : gameWithDart.NoTargets :=
  ⟨by decide, by simp [gameWithDart, walkingSpider, spawnedSpider, NewEnemyWithColor.fields],
    by simp [gameWithDart, walkingSpider, spawnedSpider, NewEnemyWithColor.fields]⟩

theorem gameWithDart_tick :
    gameWithDart.Update 0 idleTick =
      .ok ({ gameWithDart with
              enemies := [some { walkingSpider with x := 9 / 10, targetX := 84 }],
              spawnTimer := 1 }, 0) := by
  decide!

/-- C11 at the game on `mapWithDart` after one tick without input. -/
theorem at_most_one_attacker_witness :
    (∀ t : Tower,
      some t ∈ ({ gameWithDart with
          enemies := [some { walkingSpider with x := 9 / 10, targetX := 84 }],
          spawnTimer := 1 } : Game).gameMap.towers →
      (attackersOf t.addr ({ gameWithDart with
          enemies := [some { walkingSpider with x := 9 / 10, targetX := 84 }],
          spawnTimer := 1 } : Game).enemies).length ≤ 1) ∧
    ∀ e : Enemy,
      some e ∈ ({ gameWithDart with
          enemies := [some { walkingSpider with x := 9 / 10, targetX := 84 }],
          spawnTimer := 1 } : Game).enemies →
      e.targetTower ≠ none → 1 ≤ e.currentAttackTime :=
  at_most_one_attacker gameWithDart 0 gameWithDart_noTargets _ 0
    (Game.ReachableFrom.tick idleTick Game.ReachableFrom.start
      (by
        intro e he
        simp only [gameWithDart, List.mem_singleton, Option.some.injEq] at he
        rw [he]
        decide)
      gameWithDart_tick)

/-! ## Removal of dead enemies -/

theorem Game.enemyLoop_alive (tick : Tick) (P : Enemy → Prop)
    (hP : ∀ e e1 : Enemy, e1.addr = e.addr → e1.health = e.health → P e → P e1) :
    ∀ (indices : List Nat) (g g1 : Game) (remaining remaining1 : List (Option Enemy)),
    (∀ x, some x ∈ g.enemies → P x) → (∀ x, some x ∈ remaining → 0 < x.health ∧ P x) →
    Game.enemyLoop tick indices g remaining = .ok (g1, remaining1) →
    (∀ x, some x ∈ g1.enemies → P x) ∧ (∀ x, some x ∈ remaining1 → 0 < x.health ∧ P x) := by
  intro indices
  induction indices with
  | nil =>
    intro g g1 remaining remaining1 hall hrem h
    simp only [Game.enemyLoop, Except.ok.injEq, Prod.mk.injEq] at h
    rw [← h.1, ← h.2]
    exact ⟨hall, hrem⟩
  | cons i rest ih =>
    intro g g1 remaining remaining1 hall hrem h
    simp only [Game.enemyLoop] at h
    split at h
    · simp at h
    · rename_i g2 remaining2 hstep
      refine ih g2 g1 remaining2 remaining1 ?_ ?_ h
      · rcases g.enemyStep_cases g2 tick i remaining remaining2 hstep with ⟨_, hg, _⟩ |
          ⟨enemy, e1, m1, reached, hget, hupd, henemies, _⟩
        · rw [hg]
          exact hall
        · intro x hx
          rw [henemies] at hx
          rcases List.mem_or_eq_of_mem_set hx with h1 | h1
          · exact hall x h1
          · simp only [Option.some.injEq] at h1
            rw [List.get?_eq_getElem?] at hget
            have hframe := enemy.Update_frame e1 g.gameMap m1 _ reached hupd
            rw [h1]
            exact hP enemy e1 hframe.1 hframe.2.1 (hall enemy (List.getElem?_mem hget))
      · rcases g.enemyStep_cases g2 tick i remaining remaining2 hstep with ⟨_, _, hr⟩ |
          ⟨enemy, e1, m1, reached, hget, hupd, _, _, _, hrest⟩
        · rw [hr]
          exact hrem
        · rw [List.get?_eq_getElem?] at hget
          have hframe := enemy.Update_frame e1 g.gameMap m1 _ reached hupd
          rcases hrest with ⟨_, hr, _⟩ | ⟨_, _, hr, _⟩ | ⟨_, halive, hr, _⟩
          · rw [hr]
            exact hrem
          · rw [hr]
            exact hrem
          · rw [hr]
            intro x hx
            rcases List.mem_append.1 hx with h1 | h1
            · exact hrem x h1
            · simp only [List.mem_singleton, Option.some.injEq] at h1
              rw [h1]
              exact ⟨not_le.1 halive,
                hP enemy e1 hframe.1 hframe.2.1 (hall enemy (List.getElem?_mem hget))⟩

/-- After the enemy pass every enemy of the list has positive health, and is
an enemy of the list before the pass with the health it had then. -/
theorem Game.enemyPass_alive (g g1 : Game) (tick : Tick) (h : g.enemyPass tick = .ok g1) :
    ∀ e1, some e1 ∈ g1.enemies →
      0 < e1.health ∧ ∃ e, some e ∈ g.enemies ∧ e.addr = e1.addr ∧ e.health = e1.health := by
  unfold Game.enemyPass at h
  split at h
  · simp at h
  · rename_i g2 remaining hloop
    simp only [Except.ok.injEq] at h
    rw [← h]
    exact (Game.enemyLoop_alive tick
      (fun e1 => ∃ e, some e ∈ g.enemies ∧ e.addr = e1.addr ∧ e.health = e1.health)
      (fun e e1 ha hh ⟨e0, he0, ha0, hh0⟩ => ⟨e0, he0, ha0.trans ha.symm, hh0.trans hh.symm⟩)
      _ g g2 [] remaining (fun x hx => ⟨x, hx, rfl, rfl⟩)
      (fun x hx => absurd hx (List.not_mem_nil _)) hloop).2

theorem addrs_of_keys {enemies enemies1 : List (Option Enemy)}
    (h : enemies1.map (Option.map lockKey) = enemies.map (Option.map lockKey)) :
    enemies1.map (Option.map Enemy.addr) = enemies.map (Option.map Enemy.addr) := by
  have h2 := congrArg (List.map (Option.map Prod.fst)) h
  simp only [List.map_map] at h2
  have hf : (Option.map Prod.fst ∘ Option.map lockKey) = Option.map Enemy.addr := by
    funext x
    cases x <;> rfl
  rw [hf] at h2
  exact h2

/-- The enemies in the list when the Play block ends are those the enemy pass
kept, in order, followed by the enemy spawned in the call, if any. -/
theorem Game.playStep_enemies (g g1 : Game) (tick : Tick) (h : g.playStep tick = .ok g1) :
    ∃ ga, g.enemyPass tick = .ok ga ∧
      (g1.enemies.map (Option.map Enemy.addr) = ga.enemies.map (Option.map Enemy.addr) ∨
       g1.enemies.map (Option.map Enemy.addr)
         = ga.enemies.map (Option.map Enemy.addr) ++ [some tick.enemyAddr]) := by
  unfold Game.playStep at h
  split at h
  · simp at h
  · rename_i ga hpass
    refine ⟨ga, hpass, ?_⟩
    split at h
    · simp at h
    · rename_i gb htower
      have hb : gb.enemies = ga.enemies := towerPass_enemies ga.deathAnimPass gb tick htower
      have hkeys := addrs_of_keys (projectilePass_keys gb tick.sqrt)
      rw [hb] at hkeys
      rcases waveStep_enemies _ g1 tick h with h1 | ⟨e, haddr, _, _, h1⟩
      · rw [h1]
        exact Or.inl hkeys
      · rw [h1, List.map_append, hkeys]
        exact Or.inr (by simp [haddr])

/-- C19 fails on the code by design of the tick: the enemy pass runs before the
projectile pass.  The wounded spider (health 1/10) is hit by the bullet in the
projectile pass of the first tick and is still in the live list, with health
-1, when that call of `Game.Update` returns; the enemy pass of the second tick
updates it once more (it advances to `x = 1.8`) and only then removes it,
paying the reward 2. -/
theorem killed_enemy_outlives_tick :
    0 < woundedSpider.health ∧
    gameWithBullet.Update 0 idleTick =
      .ok ({ gameWithBullet with
              enemies := [some { woundedSpider with x := 9 / 10, targetX := 84, health := -1 }],
              projectiles := [], spawnTimer := 1 }, 0) ∧
    ({ gameWithBullet with
        enemies := [some { woundedSpider with x := 9 / 10, targetX := 84, health := -1 }],
        projectiles := [], spawnTimer := 1 } : Game).Update 0 idleTick =
      .ok ({ gameWithBullet with
              enemies := [], projectiles := [], spawnTimer := 2, money := 202,
              deathAnims := [{ x := 18 / 10, y := 424, size := 224 / 5, frameLife := 44 }] },
           0) := by
  decide!

/-- C19, amended: when the Play block of a tick ends, the live list holds
exactly the enemies its enemy pass kept (in order, whatever the projectile hits
of the tick did to their health) and then the enemy spawned in the tick, if
any: an enemy killed by a projectile stays in the list for the rest of the
tick.  Every enemy an enemy pass keeps has health above 0, so the killed enemy
is removed by the enemy pass of the next tick in Play. -/
theorem killed_enemy_removed_by_next_pass (g g1 : Game) (tick : Tick)
    (h : g.playStep tick = .ok g1) :
    ∃ ga, g.enemyPass tick = .ok ga ∧
      (∀ e, some e ∈ ga.enemies → 0 < e.health) ∧
      (g1.enemies.map (Option.map Enemy.addr) = ga.enemies.map (Option.map Enemy.addr) ∨
       g1.enemies.map (Option.map Enemy.addr)
         = ga.enemies.map (Option.map Enemy.addr) ++ [some tick.enemyAddr]) := by
  obtain ⟨ga, hpass, hlist⟩ := g.playStep_enemies g1 tick h
  exact ⟨ga, hpass, fun e he => (g.enemyPass_alive ga tick hpass e he).1, hlist⟩

theorem gameWithBullet_playStep :
    gameWithBullet.playStep idleTick =
      .ok { gameWithBullet with
              enemies := [some { woundedSpider with x := 9 / 10, targetX := 84, health := -1 }],
              projectiles := [], spawnTimer := 1 } := by
  decide!

/-- C19, amended, at the game with the wounded spider and the bullet. -/
theorem killed_enemy_removed_by_next_pass_witness :
    ∃ ga, gameWithBullet.enemyPass idleTick = .ok ga ∧
      (∀ e, some e ∈ ga.enemies → 0 < e.health) ∧
      (({ gameWithBullet with
            enemies := [some { woundedSpider with x := 9 / 10, targetX := 84, health := -1 }],
            projectiles := [], spawnTimer := 1 } : Game).enemies.map (Option.map Enemy.addr)
          = ga.enemies.map (Option.map Enemy.addr) ∨
       ({ gameWithBullet with
            enemies := [some { woundedSpider with x := 9 / 10, targetX := 84, health := -1 }],
            projectiles := [], spawnTimer := 1 } : Game).enemies.map (Option.map Enemy.addr)
          = ga.enemies.map (Option.map Enemy.addr) ++ [some idleTick.enemyAddr]) :=
  killed_enemy_removed_by_next_pass gameWithBullet _ idleTick gameWithBullet_playStep

theorem enemy_eq_of_addr {enemies : List (Option Enemy)} (hn : (enemyAddrs enemies).Nodup)
    {x y : Enemy} (hx : some x ∈ enemies) (hy : some y ∈ enemies) (h : x.addr = y.addr) :
    x = y := by
  have hmem : ∀ z, some z ∈ enemies → z ∈ enemies.filterMap id := by
    intro z hz
    rw [List.mem_filterMap]
    exact ⟨some z, hz, rfl⟩
  exact List.inj_on_of_nodup_map hn (hmem x hx) (hmem y hy) h

/-- C20 fails on the code by design of the enemy pass, which tests the answer
of `Update` before the health: the spider has health -1 and stands half a pixel
short of the centre of the exit cell; its `Update` snaps it onto the centre and
returns true, so the pass takes a life (20 to 19), pays no reward (the money
stays 200) and creates no death effect. -/
theorem dead_enemy_at_exit_costs_life :
    deadSpiderAtExit.health ≤ 0 ∧
    gameWithDeadSpider.Update 0 idleTick =
      .ok ({ gameWithDeadSpider with
              gameMap := { NewGameMap with enemies := [some deadSpiderAtExit] },
              enemies := [], lives := 19, spawnTimer := 1 }, 0) ∧
    gameWithDeadSpider.money = 200 ∧ gameWithDeadSpider.lives = 20 := by
  decide!

/-- C20, amended: when the enemy pass processes an enemy with health at most 0,
it does not keep it; if the enemy's `Update` returned false, the pass adds the
reward (`2 * level`, five times that and 1000 score for a `BlobEnemy`) once and
takes no life; if its `Update` returned true (the enemy arrived), the pass
takes a life and pays nothing.  After an enemy pass over distinct objects no
enemy that had health at most 0 is in the list, and every enemy in the list
was in it before: a removed enemy is not processed by a later pass, so none is
rewarded in more than one tick. -/
theorem dead_enemy_settled_once (g : Game) (tick : Tick) (i : Nat)
    (remaining : List (Option Enemy)) (enemy e1 : Enemy) (m1 : GameMap) (reached : Bool)
    (hget : g.enemies.get? i = some (some enemy))
    (hupd : enemy.Update g.gameMap
      ⟨tick.sqrt, tick.enemyRandFloat i, tick.enemyRandInt i, some g.enemies⟩
        = .ok (e1, m1, reached))
    (hdead : enemy.health ≤ 0) :
    (∃ g1, g.enemyStep tick i remaining = .ok (g1, remaining) ∧
      (reached = false →
        g1.money = g.money + rewardOf enemy ∧
        g1.score = g.score + (if enemy.enemyType = EnemyType.BlobEnemy then 1000 else 0) ∧
        g1.lives = g.lives ∧ g1.gameState = g.gameState) ∧
      (reached = true →
        g1.money = g.money ∧ g1.score = g.score ∧ g1.lives = g.lives - 1 ∧
        g1.deathAnims = g.deathAnims)) ∧
    ∀ (g0 ga : Game) (tick0 : Tick), g0.enemyPass tick0 = .ok ga →
      (∀ x, some x ∈ ga.enemies → ∃ y, some y ∈ g0.enemies ∧ y.addr = x.addr) ∧
      ((enemyAddrs g0.enemies).Nodup → ∀ dead, some dead ∈ g0.enemies → dead.health ≤ 0 →
        dead.addr ∉ enemyAddrs ga.enemies) := by
  have hframe := enemy.Update_frame e1 g.gameMap m1 _ reached hupd
  have hdead1 : e1.health ≤ 0 := by
    rw [hframe.2.1]
    exact hdead
  have hreward : rewardOf e1 = rewardOf enemy := by
    unfold rewardOf
    rw [hframe.2.2.1, hframe.2.2.2.1]
  refine ⟨?_, ?_⟩
  · cases hs : g.enemyStep tick i remaining with
    | error err =>
      unfold Game.enemyStep at hs
      rw [hget] at hs
      dsimp only at hs
      rw [hupd] at hs
      dsimp only at hs
      split at hs
      · split at hs <;> simp at hs
      · split at hs <;> simp at hs
    | ok out =>
      obtain ⟨g1, remaining1⟩ := out
      rcases g.enemyStep_cases g1 tick i remaining remaining1 hs with ⟨hnone, _⟩ |
        ⟨enemy2, e2, m2, reached2, hget2, hupd2, _, _, _, hrest⟩
      · rw [hget] at hnone
        rcases hnone with h | h <;> simp at h
      · rw [hget] at hget2
        simp only [Option.some.injEq] at hget2
        subst hget2
        rw [hupd] at hupd2
        simp only [Except.ok.injEq, Prod.mk.injEq] at hupd2
        obtain ⟨he, _, hr⟩ := hupd2
        subst he
        subst hr
        rcases hrest with ⟨hr, hrem, hl, hm, hsc, hd⟩ | ⟨hr, _, hrem, hl, hgs, hm, hsc, _⟩ |
          ⟨_, halive, _⟩
        · rw [hrem]
          refine ⟨g1, rfl, fun hf => ?_, fun _ => ⟨hm, hsc, hl, hd⟩⟩
          rw [hr] at hf
          exact absurd hf (by simp)
        · rw [hrem]
          refine ⟨g1, rfl, fun _ => ⟨by rw [hm, hreward], ?_, hl, hgs⟩, fun ht => ?_⟩
          · rw [hsc, hframe.2.2.2.1]
          · rw [hr] at ht
            exact absurd ht (by simp)
        · exact absurd hdead1 halive
  · intro g0 ga tick0 hpass
    have halive := g0.enemyPass_alive ga tick0 hpass
    refine ⟨fun x hx => ?_, fun hn dead hd hh hmem => ?_⟩
    · obtain ⟨_, y, hy, ha, _⟩ := halive x hx
      exact ⟨y, hy, ha⟩
    · obtain ⟨x, hx, hxa⟩ := mem_enemyAddrs.1 hmem
      obtain ⟨hpos, y, hy, ha, hhealth⟩ := halive x hx
      have heq := enemy_eq_of_addr hn hy hd (ha.trans hxa)
      rw [heq] at hhealth
      rw [← hhealth] at hpos
      exact absurd hh (not_le.2 hpos)

theorem deadSpider_update :
    deadSpiderAtExit.Update gameWithDeadSpider.gameMap
      ⟨idleTick.sqrt, idleTick.enemyRandFloat 0, idleTick.enemyRandInt 0,
        some gameWithDeadSpider.enemies⟩
      = .ok ({ deadSpiderAtExit with x := 980, targetX := 980, targetY := 424, pathIndex := 17 },
          { NewGameMap with enemies := [some deadSpiderAtExit] }, true) := by
  decide!

/-- C20, amended, at the dead spider before the exit. -/
theorem dead_enemy_settled_once_witness :
    (∃ g1, gameWithDeadSpider.enemyStep idleTick 0 [] = .ok (g1, []) ∧
      (true = false →
        g1.money = gameWithDeadSpider.money + rewardOf deadSpiderAtExit ∧
        g1.score = gameWithDeadSpider.score +
          (if deadSpiderAtExit.enemyType = EnemyType.BlobEnemy then 1000 else 0) ∧
        g1.lives = gameWithDeadSpider.lives ∧ g1.gameState = gameWithDeadSpider.gameState) ∧
      (true = true →
        g1.money = gameWithDeadSpider.money ∧ g1.score = gameWithDeadSpider.score ∧
        g1.lives = gameWithDeadSpider.lives - 1 ∧
        g1.deathAnims = gameWithDeadSpider.deathAnims)) ∧
    ∀ (g0 ga : Game) (tick0 : Tick), g0.enemyPass tick0 = .ok ga →
      (∀ x, some x ∈ ga.enemies → ∃ y, some y ∈ g0.enemies ∧ y.addr = x.addr) ∧
      ((enemyAddrs g0.enemies).Nodup → ∀ dead, some dead ∈ g0.enemies → dead.health ≤ 0 →
        dead.addr ∉ enemyAddrs ga.enemies) :=
  dead_enemy_settled_once gameWithDeadSpider idleTick 0 [] deadSpiderAtExit _ _ true rfl
    deadSpider_update (by decide!)

/-! ## Bosses -/

theorem NewEnemyWithColor_blob (addr : Nat) (startY cellSize uiHeight level : Int)
    (colorSource : EnemyType) :
    (NewEnemyWithColor.fields addr startY cellSize uiHeight EnemyType.BlobEnemy level
      colorSource).health = ((10 * level : Int) : ℚ) ∧
    (NewEnemyWithColor.fields addr startY cellSize uiHeight EnemyType.BlobEnemy level
      colorSource).maxHealth = ((10 * level : Int) : ℚ) ∧
    (NewEnemyWithColor.fields addr startY cellSize uiHeight EnemyType.BlobEnemy level
      colorSource).speed = 0 ∧
    (NewEnemyWithColor.fields addr startY cellSize uiHeight EnemyType.BlobEnemy level
      colorSource).enemyType = EnemyType.BlobEnemy :=
  ⟨rfl, rfl, rfl, rfl⟩

theorem NewEnemy_blob (addr : Nat) (startY cellSize uiHeight level : Int) :
    (NewEnemy addr startY cellSize uiHeight EnemyType.BlobEnemy level).health
      = ((10 * level : Int) : ℚ) * 5 ∧
    (NewEnemy addr startY cellSize uiHeight EnemyType.BlobEnemy level).maxHealth
      = ((10 * level : Int) : ℚ) * 5 ∧
    (NewEnemy addr startY cellSize uiHeight EnemyType.BlobEnemy level).speed = 6 / 10 :=
  ⟨rfl, rfl, rfl⟩

/-- C23 fails on the code: `Game.Update` spawns through `NewEnemyWithColor`,
whose `switch` has no `BlobEnemy` case.  For `BlobEnemy` the constructor
panics, for every level: the art of the sprite is still empty and
`createSpriteFromArt` asks for an image of width 0.  The struct it has built by
then holds the base health `10 * level`, which nothing multiplies by 5 as
`NewEnemy` does.  In the first boss wave (index 10) the wave block panics in
the call in which the spawn is due; the boss of level 11 would have health 110
there, not 550. -/
theorem boss_constructor_panics :
    (∀ (addr : Nat) (startY cellSize uiHeight level : Int) (colorSource : EnemyType),
      NewEnemyWithColor addr startY cellSize uiHeight EnemyType.BlobEnemy level colorSource
        = .error .invalidArgument ∧
      (NewEnemyWithColor.fields addr startY cellSize uiHeight EnemyType.BlobEnemy level
        colorSource).health = ((10 * level : Int) : ℚ) ∧
      (NewEnemyWithColor.fields addr startY cellSize uiHeight EnemyType.BlobEnemy level
        colorSource).maxHealth = ((10 * level : Int) : ℚ) ∧
      (NewEnemy addr startY cellSize uiHeight EnemyType.BlobEnemy level).health
        = 5 * ((10 * level : Int) : ℚ)) ∧
    createSpriteFromArt (NewEnemyWithColor.spriteArt EnemyType.BlobEnemy)
      = .error .invalidArgument ∧
    IsBossWave bossWaveGame.currentWave = true ∧
    bossWaveGame.waveStep idleTick = .error .invalidArgument ∧
    (NewEnemyWithColor.fields 100 6 56 60 EnemyType.BlobEnemy (10 + 1)
      EnemyType.BlobEnemy).health = 110 ∧
    (5 * 10 * (10 + 1) : ℚ) = 550 := by
  refine ⟨fun addr startY cellSize uiHeight level colorSource =>
    ⟨NewEnemyWithColor_blob_panics addr startY cellSize uiHeight level colorSource, rfl, rfl, ?_⟩,
    ?_⟩
  · rw [(NewEnemy_blob addr startY cellSize uiHeight level).1, mul_comm]
  · decide!

/-- C30 fails on the code for the boss: the `switch` of `NewEnemyWithColor` sets
a positive speed for the four regular kinds, which it returns, but has no
`BlobEnemy` case.  For `BlobEnemy` the speed of the struct stays 0 (`NewEnemy`
sets 0.6) and the constructor panics on the empty sprite art before it returns,
so no boss that could move is created. -/
theorem boss_kind_gets_no_speed :
    (∀ (addr : Nat) (startY cellSize uiHeight level : Int) (colorSource enemyType : EnemyType),
      enemyType ≠ EnemyType.BlobEnemy →
      ∃ e, NewEnemyWithColor addr startY cellSize uiHeight enemyType level colorSource = .ok e ∧
        0 < e.speed) ∧
    (∀ (addr : Nat) (startY cellSize uiHeight level : Int) (colorSource : EnemyType),
      NewEnemyWithColor addr startY cellSize uiHeight EnemyType.BlobEnemy level colorSource
        = .error .invalidArgument ∧
      (NewEnemyWithColor.fields addr startY cellSize uiHeight EnemyType.BlobEnemy level
        colorSource).speed = 0 ∧
      (NewEnemy addr startY cellSize uiHeight EnemyType.BlobEnemy level).speed = 6 / 10) := by
  refine ⟨?_, fun addr startY cellSize uiHeight level colorSource =>
    ⟨NewEnemyWithColor_blob_panics addr startY cellSize uiHeight level colorSource, rfl, rfl⟩⟩
  intro addr startY cellSize uiHeight level colorSource enemyType hne
  refine ⟨_, NewEnemyWithColor_regular addr startY cellSize uiHeight enemyType level colorSource
    hne, ?_⟩
  cases enemyType with
  | SpiderEnemy => show (0 : ℚ) < 9 / 10; norm_num
  | SnakeEnemy => show (0 : ℚ) < 11 / 10; norm_num
  | HawkEnemy => show (0 : ℚ) < 14 / 10; norm_num
  | GhoulEnemy => show (0 : ℚ) < 8 / 10; norm_num
  | BlobEnemy => exact absurd rfl hne

/-! ## The movement step -/

/-- C28 fails on the code at distance equal to the speed: the test of the
movement block is `dist < e.speed`.  The spider stands 0.9 from its waypoint
and has speed 0.9; `Update` takes the step branch, which lands it on the
waypoint `(84, 424)` but leaves `pathIndex` at 0. -/
theorem no_snap_at_speed_distance :
    spiderAtSpeedDistance.speed = 9 / 10 ∧
    (roundedEnv [some spiderAtSpeedDistance]).sqrt
      ((84 - spiderAtSpeedDistance.x) * (84 - spiderAtSpeedDistance.x) +
        (424 - spiderAtSpeedDistance.y) * (424 - spiderAtSpeedDistance.y)) = 9 / 10 ∧
    ¬ spiderAtSpeedDistance.frozenTimer > 0 ∧ spiderAtSpeedDistance.pathIndex = 0 ∧
    spiderAtSpeedDistance.path.head? = some ⟨1, 6⟩ ∧ mapWithDart.cellCentre 1 6 = (84, 424) ∧
    spiderAtSpeedDistance.Update mapWithDart (roundedEnv [some spiderAtSpeedDistance]) =
      .ok ({ spiderAtSpeedDistance with x := 84, targetX := 84 }, mapWithDart, false) ∧
    ({ spiderAtSpeedDistance with x := 84, targetX := 84 } : Enemy).pathIndex = 0 := by
  decide!

/-! ## Reset -/

/-- C26 fails on the code for the spawn timer: the reset block of `Game.Update`
assigns every field that `NewGame` initialises except `spawnTimer` (the other
restart path, the button of the game-over screen, replaces the whole game by
`NewGame()`).  The game awaits confirmation with the timer at 37; the second
press of the start button leaves the fresh game with the timer still at 37. -/
theorem reset_keeps_spawn_timer :
    gameAwaitingReset.gameState = GameState.PlayState ∧
    gameAwaitingReset.confirmingReset = true ∧
    gameAwaitingReset.startButton.contains startClick.mouseX startClick.mouseY = true ∧
    gameAwaitingReset.Update 0 startClick = .ok ({ NewGame with spawnTimer := 37 }, 0) ∧
    NewGame.spawnTimer = 0 ∧
    (∀ g : Game, g.confirmingReset = true →
      (g.gameState = GameState.PlayState ∨ g.gameState = GameState.PausedState) →
      g.clickStart =
        { NewGame with
          spawnTimer := g.spawnTimer, towerButtons := g.towerButtons,
          startButton := { g.startButton with text := "Begin!" },
          pauseButton := { g.pauseButton with text := "Pause" } }) := by
  refine ⟨by decide, by decide, by decide, by decide!, by decide, ?_⟩
  intro g hc hs
  unfold Game.clickStart
  have hb : g.gameState ≠ GameState.BuildState := by
    rcases hs with h | h <;> rw [h] <;> decide
  rw [if_neg hb, if_pos hs, if_pos hc]
  rfl

theorem Enemy.advance_at_waypoint (e : Enemy) (m : GameMap) (sqrt : ℚ → ℚ)
    (hidx : 0 ≤ e.pathIndex) (waypoint : Point)
    (hway : e.path.get? e.pathIndex.toNat = some waypoint) :
    e.advance m sqrt = .ok
      (if e.waypointDistance m sqrt waypoint < e.speed then
        { e with targetX := (m.cellCentre waypoint.X waypoint.Y).1,
                 targetY := (m.cellCentre waypoint.X waypoint.Y).2,
                 x := (m.cellCentre waypoint.X waypoint.Y).1,
                 y := (m.cellCentre waypoint.X waypoint.Y).2,
                 pathIndex := e.pathIndex + 1 }
      else
        { e with targetX := (m.cellCentre waypoint.X waypoint.Y).1,
                 targetY := (m.cellCentre waypoint.X waypoint.Y).2,
                 x := e.x + (((m.cellCentre waypoint.X waypoint.Y).1 - e.x) /
                   e.waypointDistance m sqrt waypoint) * e.speed,
                 y := e.y + (((m.cellCentre waypoint.X waypoint.Y).2 - e.y) /
                   e.waypointDistance m sqrt waypoint) * e.speed }) := by
  rw [List.get?_eq_getElem?] at hway
  have hlt : e.pathIndex < (e.path.length : Int) := by
    have := (List.getElem?_eq_some_iff.1 hway).1
    omega
  have hidx2 : idx e.path e.pathIndex = .ok waypoint := (idx_eq_ok_iff _ _ _).2 ⟨hidx, hway⟩
  unfold Enemy.advance Enemy.waypointDistance
  rw [if_pos hlt, hidx2]
  dsimp only
  split <;> rfl

theorem Enemy.Update_position (e e0 e2 e1 : Enemy) (m m1 : GameMap) (env : Env) (r : Bool)
    (hfrozen : ¬ e.frozenTimer > 0) (h0 : e.ensurePath m = .ok (e0, true))
    (h2 : e0.advance m env.sqrt = .ok e2) (h : e.Update m env = .ok (e1, m1, r)) :
    e1.x = e2.x ∧ e1.y = e2.y ∧ e1.pathIndex = e2.pathIndex := by
  rcases e.Update_cases e1 m m1 env r h with ⟨hf, _⟩ | ⟨_, h1, _⟩ | ⟨_, e0x, e2x, h0x, h2x, h3⟩
  · exact absurd hf hfrozen
  · rw [h0] at h1
    simp at h1
  · rw [h0] at h0x
    simp only [Except.ok.injEq, Prod.mk.injEq, and_true] at h0x
    subst h0x
    rw [h2] at h2x
    simp only [Except.ok.injEq] at h2x
    subst h2x
    rcases h3 with ⟨_, h1, _⟩ | ⟨_, m3, b, hatt, _⟩
    · rw [h1]
      exact ⟨rfl, rfl, rfl⟩
    · have f3 := e2.acquire_position m env
      have f4 := Enemy.attack_position _ e1 _ m3 env.sqrt b hatt
      exact ⟨f4.1.trans f3.1, f4.2.1.trans f3.2.1, f4.2.2.1.trans f3.2.2.1⟩

/-- C28, amended: for a non-frozen enemy of positive speed with a valid path
and a current waypoint at distance `d` (on a map on which `Update` returns),
`Update` puts the enemy exactly on the waypoint and advances `pathIndex` by 1
when `d < speed`; otherwise, also when `d = speed`, it adds
`speed * (waypoint - position) / d` to the position and leaves `pathIndex` as
it was, a move of length exactly `speed` when `d` is the exact distance. -/
theorem movement_step (e : Enemy) (m : GameMap) (env : Env)
    (hg : IsGrid m.terrain m.width m.height)
    (hcell : m.InBounds (e.cell m).1 (e.cell m).2) (hnil : ∀ t ∈ m.towers, t ≠ none)
    (hfrozen : ¬ e.frozenTimer > 0) (hvalid : e.pathInvalid = false) (hidx : 0 ≤ e.pathIndex)
    (hspeed : 0 < e.speed) (waypoint : Point)
    (hway : e.path.get? e.pathIndex.toNat = some waypoint) :
    ∃ e1 m1 r, e.Update m env = .ok (e1, m1, r) ∧
      (e.waypointDistance m env.sqrt waypoint < e.speed →
        e1.x = (m.cellCentre waypoint.X waypoint.Y).1 ∧
        e1.y = (m.cellCentre waypoint.X waypoint.Y).2 ∧ e1.pathIndex = e.pathIndex + 1) ∧
      (¬ e.waypointDistance m env.sqrt waypoint < e.speed →
        e1.x = e.x + (((m.cellCentre waypoint.X waypoint.Y).1 - e.x) /
          e.waypointDistance m env.sqrt waypoint) * e.speed ∧
        e1.y = e.y + (((m.cellCentre waypoint.X waypoint.Y).2 - e.y) /
          e.waypointDistance m env.sqrt waypoint) * e.speed ∧
        e1.pathIndex = e.pathIndex ∧
        (e.waypointDistance m env.sqrt waypoint * e.waypointDistance m env.sqrt waypoint =
            ((m.cellCentre waypoint.X waypoint.Y).1 - e.x) *
              ((m.cellCentre waypoint.X waypoint.Y).1 - e.x) +
            ((m.cellCentre waypoint.X waypoint.Y).2 - e.y) *
              ((m.cellCentre waypoint.X waypoint.Y).2 - e.y) →
          (e1.x - e.x) * (e1.x - e.x) + (e1.y - e.y) * (e1.y - e.y) = e.speed * e.speed)) := by
  obtain ⟨e1, m1, r, h⟩ := e.Update_total m env hg hcell hidx hnil
  refine ⟨e1, m1, r, h, ?_⟩
  have hway2 := hway
  rw [List.get?_eq_getElem?] at hway2
  have hlt : e.pathIndex.toNat < e.path.length := (List.getElem?_eq_some_iff.1 hway2).1
  have h0 : e.ensurePath m = .ok (e, true) := by
    unfold Enemy.ensurePath
    rw [if_neg]
    rw [hvalid]
    simp only [Bool.false_eq_true, false_or, not_or]
    constructor <;> omega
  have h2 := e.advance_at_waypoint m env.sqrt hidx waypoint hway
  have hpos := e.Update_position e _ e1 m m1 env r hfrozen h0 h2 h
  constructor
  · intro hd
    rw [if_pos hd] at hpos
    exact hpos
  · intro hd
    rw [if_neg hd] at hpos
    refine ⟨hpos.1, hpos.2.1, hpos.2.2, ?_⟩
    intro hexact
    have hdpos : 0 < e.waypointDistance m env.sqrt waypoint :=
      lt_of_lt_of_le hspeed (not_lt.1 hd)
    have hne : e.waypointDistance m env.sqrt waypoint ≠ 0 := ne_of_gt hdpos
    rw [hpos.1, hpos.2.1]
    generalize e.waypointDistance m env.sqrt waypoint = d at hexact hne
    generalize (m.cellCentre waypoint.X waypoint.Y).1 - e.x = dx at hexact
    generalize (m.cellCentre waypoint.X waypoint.Y).2 - e.y = dy at hexact
    have key : (dx / d * e.speed) * (dx / d * e.speed) + (dy / d * e.speed) * (dy / d * e.speed)
        = (dx * dx + dy * dy) / (d * d) * (e.speed * e.speed) := by
      field_simp
      ring
    have hcancel : (dx * dx + dy * dy) / (d * d) = 1 := by
      rw [← hexact]
      exact div_self (mul_ne_zero hne hne)
    calc (e.x + dx / d * e.speed - e.x) * (e.x + dx / d * e.speed - e.x) +
          (e.y + dy / d * e.speed - e.y) * (e.y + dy / d * e.speed - e.y)
        = (dx / d * e.speed) * (dx / d * e.speed) + (dy / d * e.speed) * (dy / d * e.speed) := by
          ring
      _ = e.speed * e.speed := by rw [key, hcancel, one_mul]

/-- C28, amended, at the walking spider on the map with the dart tower, 84
pixels from its first waypoint. -/
theorem movement_step_witness :
    ∃ e1 m1 r, walkingSpider.Update mapWithDart (roundedEnv [some walkingSpider])
        = .ok (e1, m1, r) ∧
      (walkingSpider.waypointDistance mapWithDart (roundedEnv [some walkingSpider]).sqrt ⟨1, 6⟩
          < walkingSpider.speed →
        e1.x = (mapWithDart.cellCentre 1 6).1 ∧ e1.y = (mapWithDart.cellCentre 1 6).2 ∧
        e1.pathIndex = walkingSpider.pathIndex + 1) ∧
      (¬ walkingSpider.waypointDistance mapWithDart (roundedEnv [some walkingSpider]).sqrt ⟨1, 6⟩
          < walkingSpider.speed →
        e1.x = walkingSpider.x + (((mapWithDart.cellCentre 1 6).1 - walkingSpider.x) /
          walkingSpider.waypointDistance mapWithDart (roundedEnv [some walkingSpider]).sqrt
            ⟨1, 6⟩) * walkingSpider.speed ∧
        e1.y = walkingSpider.y + (((mapWithDart.cellCentre 1 6).2 - walkingSpider.y) /
          walkingSpider.waypointDistance mapWithDart (roundedEnv [some walkingSpider]).sqrt
            ⟨1, 6⟩) * walkingSpider.speed ∧
        e1.pathIndex = walkingSpider.pathIndex ∧
        (walkingSpider.waypointDistance mapWithDart (roundedEnv [some walkingSpider]).sqrt ⟨1, 6⟩ *
            walkingSpider.waypointDistance mapWithDart (roundedEnv [some walkingSpider]).sqrt
              ⟨1, 6⟩ =
            ((mapWithDart.cellCentre 1 6).1 - walkingSpider.x) *
              ((mapWithDart.cellCentre 1 6).1 - walkingSpider.x) +
            ((mapWithDart.cellCentre 1 6).2 - walkingSpider.y) *
              ((mapWithDart.cellCentre 1 6).2 - walkingSpider.y) →
          (e1.x - walkingSpider.x) * (e1.x - walkingSpider.x) +
            (e1.y - walkingSpider.y) * (e1.y - walkingSpider.y)
            = walkingSpider.speed * walkingSpider.speed)) :=
  movement_step walkingSpider mapWithDart (roundedEnv [some walkingSpider])
    (Reachable.invariant mapWithDart_reachable).1.wellFormed.grid
    walkingSpider_cell_inBounds (by decide) (by decide!) (by decide) (by decide) (by decide!)
    ⟨1, 6⟩ (by decide)

/-! ## Tower targeting -/

theorem Game.enemyLoop_append (tick : Tick) (l1 l2 : List Nat) :
    ∀ (g : Game) (remaining : List (Option Enemy)),
    Game.enemyLoop tick (l1 ++ l2) g remaining =
      match Game.enemyLoop tick l1 g remaining with
      | .error err => .error err
      | .ok (g1, remaining1) => Game.enemyLoop tick l2 g1 remaining1 := by
  induction l1 with
  | nil => intro g remaining; rfl
  | cons i rest ih =>
    intro g remaining
    simp only [List.cons_append, Game.enemyLoop]
    cases g.enemyStep tick i remaining with
    | error err => rfl
    | ok out => exact ih out.1 out.2

theorem enemyAddrs_map (enemies : List (Option Enemy)) :
    enemyAddrs enemies = (enemies.map (Option.map Enemy.addr)).filterMap id := by
  unfold enemyAddrs
  rw [List.filterMap_map, List.map_filterMap]
  congr 1

theorem enemyAddrs_append (l1 l2 : List (Option Enemy)) :
    enemyAddrs (l1 ++ l2) = enemyAddrs l1 ++ enemyAddrs l2 := by
  simp [enemyAddrs]

theorem addrs_set {enemies : List (Option Enemy)} {i : Nat} {e e1 : Enemy}
    (hget : enemies[i]? = some (some e)) (haddr : e1.addr = e.addr) :
    (enemies.set i (some e1)).map (Option.map Enemy.addr)
      = enemies.map (Option.map Enemy.addr) := by
  rw [List.map_set]
  apply set_self_of_getElem?
  rw [List.getElem?_map, hget]
  simp [haddr]

theorem enemyAddrs_window {l1 l2 : List (Option Enemy)}
    (h : l1.map (Option.map Enemy.addr) = l2.map (Option.map Enemy.addr)) (i k : Nat) :
    enemyAddrs ((l1.drop i).take k) = enemyAddrs ((l2.drop i).take k) := by
  rw [enemyAddrs_map, enemyAddrs_map, List.map_take, List.map_take, List.map_drop, List.map_drop, h]

theorem window_sublist_succ {α : Type} (l : List α) (i k : Nat) :
    ((l.drop (i + 1)).take k).Sublist ((l.drop i).take (k + 1)) := by
  by_cases h : i < l.length
  · rw [List.drop_eq_getElem_cons h, List.take_succ_cons]
    exact List.Sublist.cons _ (List.Sublist.refl _)
  · rw [List.drop_eq_nil_of_le (by omega), List.drop_eq_nil_of_le (by omega)]
    simp

/-- The enemies the loop keeps while it runs over the indices `i, ..., i + k - 1`
are appended to `remaining`, in order, and are among the entries at these
indices; the loop changes no address in the list. -/
theorem Game.enemyLoop_window (tick : Tick) :
    ∀ (k i : Nat) (g g1 : Game) (remaining remaining1 : List (Option Enemy)),
    Game.enemyLoop tick (List.range' i k) g remaining = .ok (g1, remaining1) →
    g1.enemies.map (Option.map Enemy.addr) = g.enemies.map (Option.map Enemy.addr) ∧
    ∃ extra, remaining1 = remaining ++ extra ∧
      (enemyAddrs extra).Sublist (enemyAddrs ((g.enemies.drop i).take k)) := by
  intro k
  induction k with
  | zero =>
    intro i g g1 remaining remaining1 h
    simp only [List.range', Game.enemyLoop, Except.ok.injEq, Prod.mk.injEq] at h
    rw [← h.1, ← h.2]
    exact ⟨rfl, [], by simp, by simp [enemyAddrs]⟩
  | succ k ih =>
    intro i g g1 remaining remaining1 h
    simp only [List.range', Game.enemyLoop] at h
    split at h
    · simp at h
    · rename_i g2 remaining2 hstep
      obtain ⟨haddr, extra, hrem, hsub⟩ := ih (i + 1) g2 g1 remaining2 remaining1 h
      rcases g.enemyStep_cases g2 tick i remaining remaining2 hstep with ⟨_, hg, hr⟩ |
        ⟨enemy, e1, m1, reached, hget, hupd, henemies, _, _, hrest⟩
      · rw [hg] at haddr hsub
        rw [hr] at hrem
        exact ⟨haddr, extra, hrem,
          hsub.trans (enemyAddrs_sublist (window_sublist_succ g.enemies i k))⟩
      · rw [List.get?_eq_getElem?] at hget
        have hframe := enemy.Update_frame e1 g.gameMap m1 _ reached hupd
        have hset := addrs_set hget hframe.1
        have hlt : i < g.enemies.length := (List.getElem?_eq_some_iff.1 hget).1
        have hentry : g.enemies[i] = some enemy := (List.getElem?_eq_some_iff.1 hget).2
        rw [henemies] at haddr hsub
        rw [enemyAddrs_window hset (i + 1) k] at hsub
        have hwin : enemyAddrs ((g.enemies.drop i).take (k + 1))
            = enemy.addr :: enemyAddrs ((g.enemies.drop (i + 1)).take k) := by
          rw [List.drop_eq_getElem_cons hlt, List.take_succ_cons, hentry]
          rfl
        refine ⟨haddr.trans hset, ?_⟩
        rcases hrest with ⟨_, hr, _⟩ | ⟨_, _, hr, _⟩ | ⟨_, _, hr, _⟩
        · rw [hr] at hrem
          exact ⟨extra, hrem, by rw [hwin]; exact List.Sublist.cons _ hsub⟩
        · rw [hr] at hrem
          exact ⟨extra, hrem, by rw [hwin]; exact List.Sublist.cons _ hsub⟩
        · rw [hr, List.append_assoc] at hrem
          refine ⟨[some e1] ++ extra, hrem, ?_⟩
          rw [hwin, enemyAddrs_append]
          show (e1.addr :: enemyAddrs extra).Sublist _
          rw [hframe.1]
          exact List.Sublist.cons₂ _ hsub

theorem Game.enemyPass_order (g g1 : Game) (tick : Tick) (h : g.enemyPass tick = .ok g1) :
    (enemyAddrs g1.enemies).Sublist (enemyAddrs g.enemies) := by
  unfold Game.enemyPass at h
  split at h
  · simp at h
  · rename_i g2 remaining hloop
    simp only [Except.ok.injEq] at h
    rw [List.range_eq_range'] at hloop
    obtain ⟨_, extra, hrem, hsub⟩ :=
      Game.enemyLoop_window tick g.enemies.length 0 g g2 [] remaining hloop
    rw [← h]
    show (enemyAddrs remaining).Sublist _
    rw [hrem, List.nil_append]
    refine hsub.trans (enemyAddrs_sublist ?_)
    rw [List.drop_zero]
    exact List.take_sublist _ _

theorem range'_split (i n : Nat) (h : i < n) :
    List.range' 0 n = List.range' 0 i ++ (i :: List.range' (i + 1) (n - i - 1)) := by
  have h1 : n = (n - i - 1 + 1) + i := by omega
  have h2 := List.range'_append_1 0 i (n - i - 1 + 1)
  rw [← h1, Nat.zero_add] at h2
  rw [← h2]
  rfl

theorem enemyAddrs_split {enemies : List (Option Enemy)} {i : Nat} {e : Enemy}
    (hget : enemies[i]? = some (some e)) :
    enemyAddrs enemies
      = enemyAddrs (enemies.take i) ++ e.addr :: enemyAddrs (enemies.drop (i + 1)) := by
  have hlt : i < enemies.length := (List.getElem?_eq_some_iff.1 hget).1
  have hentry : enemies[i] = some e := (List.getElem?_eq_some_iff.1 hget).2
  conv_lhs => rw [← List.take_append_drop i enemies]
  rw [enemyAddrs_append, List.drop_eq_getElem_cons hlt, hentry]
  rfl

theorem enemyAddrs_congr {l1 l2 : List (Option Enemy)}
    (h : l1.map (Option.map Enemy.addr) = l2.map (Option.map Enemy.addr)) :
    enemyAddrs l1 = enemyAddrs l2 := by
  rw [enemyAddrs_map, enemyAddrs_map, h]

/-- C21: in the enemy pass of `Game.Update`, let the loop have reached index
`i` in state `ga` with the kept enemies `ra`, and let the `Update` of the enemy
there return `reached`.  If `reached` is true the iteration takes exactly one
life, leaves money, score and the kept list as they are, sets the phase to
`GameOverState` exactly when the lives are then `≤ 0`, and the enemy is not in
the list the pass leaves.  If it is false and the health is positive the
iteration changes neither lives nor phase nor money nor score, and the enemy is
in the list the pass leaves.  The enemies the pass keeps are in their original
order. -/
theorem arrival_costs_one_life (g0 ga gz : Game) (tick : Tick) (i : Nat)
    (ra : List (Option Enemy)) (enemy e1 : Enemy) (m1 : GameMap) (reached : Bool)
    (hdistinct : (enemyAddrs g0.enemies).Nodup)
    (hloop : Game.enemyLoop tick (List.range' 0 i) g0 [] = .ok (ga, ra))
    (hget : ga.enemies.get? i = some (some enemy))
    (hupd : enemy.Update ga.gameMap
      ⟨tick.sqrt, tick.enemyRandFloat i, tick.enemyRandInt i, some ga.enemies⟩
      = .ok (e1, m1, reached))
    (hpass : g0.enemyPass tick = .ok gz) :
    (reached = true →
      ga.enemyStep tick i ra = .ok
        ({ ga with
           gameMap := m1
           enemies := ga.enemies.set i (some e1)
           lives := ga.lives - 1
           gameState := if ga.lives - 1 ≤ 0 then GameState.GameOverState else ga.gameState },
         ra) ∧
      enemy.addr ∉ enemyAddrs gz.enemies) ∧
    (reached = false → 0 < e1.health →
      ga.enemyStep tick i ra = .ok
        ({ ga with
           gameMap := m1
           enemies := ga.enemies.set i (some e1) },
         ra ++ [some e1]) ∧
      some e1 ∈ gz.enemies) ∧
    (enemyAddrs gz.enemies).Sublist (enemyAddrs g0.enemies) := by
  -- the iteration itself
  have hstepT : reached = true → ga.enemyStep tick i ra = .ok
      ({ ga with
         gameMap := m1
         enemies := ga.enemies.set i (some e1)
         lives := ga.lives - 1
         gameState := if ga.lives - 1 ≤ 0 then GameState.GameOverState else ga.gameState },
       ra) := by
    intro hr
    unfold Game.enemyStep
    rw [hget]
    dsimp only
    rw [hupd]
    dsimp only
    rw [if_pos hr]
    by_cases hl : ga.lives - 1 ≤ 0
    · rw [if_pos hl, if_pos hl]
    · rw [if_neg hl, if_neg hl]
  have hstepF : reached = false → 0 < e1.health → ga.enemyStep tick i ra = .ok
      ({ ga with
         gameMap := m1
         enemies := ga.enemies.set i (some e1) },
       ra ++ [some e1]) := by
    intro hr hh
    unfold Game.enemyStep
    rw [hget]
    dsimp only
    rw [hupd]
    dsimp only
    rw [if_neg (by simp [hr]), if_neg (not_le.2 hh)]
  -- the pass around it
  obtain ⟨haddrA, extraA, hra, hsubA⟩ := Game.enemyLoop_window tick i 0 g0 ga [] ra hloop
  rw [List.nil_append] at hra
  rw [List.drop_zero] at hsubA
  rw [List.get?_eq_getElem?] at hget
  have hlen : ga.enemies.length = g0.enemies.length := by
    have := congrArg List.length haddrA
    simpa using this
  have hlt : i < g0.enemies.length := hlen ▸ (List.getElem?_eq_some_iff.1 hget).1
  have hsplit : enemyAddrs g0.enemies
      = enemyAddrs (g0.enemies.take i) ++ enemy.addr :: enemyAddrs (g0.enemies.drop (i + 1)) := by
    rw [← enemyAddrs_congr haddrA, enemyAddrs_split hget]
    have htake : enemyAddrs (ga.enemies.take i) = enemyAddrs (g0.enemies.take i) :=
      enemyAddrs_congr (by rw [List.map_take, List.map_take, haddrA])
    have hdrop : enemyAddrs (ga.enemies.drop (i + 1)) = enemyAddrs (g0.enemies.drop (i + 1)) :=
      enemyAddrs_congr (by rw [List.map_drop, List.map_drop, haddrA])
    rw [htake, hdrop]
  have hframe := enemy.Update_frame e1 ga.gameMap m1 _ reached hupd
  have hset := addrs_set hget hframe.1
  rw [hsplit] at hdistinct
  have hnotA : enemy.addr ∉ enemyAddrs (g0.enemies.take i) := by
    intro hmem
    exact (List.nodup_append.1 hdistinct).2.2 hmem (List.mem_cons_self _ _)
  have hnotB : enemy.addr ∉ enemyAddrs (g0.enemies.drop (i + 1)) :=
    (List.nodup_cons.1 (List.nodup_append.1 hdistinct).2.1).1
  have hpass1 := hpass
  unfold Game.enemyPass at hpass1
  rw [List.range_eq_range', range'_split i g0.enemies.length hlt, Game.enemyLoop_append,
    hloop] at hpass1
  dsimp only at hpass1
  simp only [Game.enemyLoop] at hpass1
  refine ⟨fun hr => ⟨hstepT hr, ?_⟩, fun hr hh => ⟨hstepF hr hh, ?_⟩,
    Game.enemyPass_order g0 gz tick hpass⟩
  · rw [hstepT hr] at hpass1
    dsimp only at hpass1
    split at hpass1
    · simp at hpass1
    · rename_i gc rc hrest
      simp only [Except.ok.injEq] at hpass1
      obtain ⟨_, extraC, hrc, hsubC⟩ := Game.enemyLoop_window tick _ _ _ gc _ rc hrest
      rw [← hpass1]
      show enemy.addr ∉ enemyAddrs rc
      rw [hrc, hra, enemyAddrs_append, List.mem_append]
      dsimp only at hsubC
      rw [enemyAddrs_window (hset.trans haddrA) (i + 1)] at hsubC
      rintro (hmem | hmem)
      · exact hnotA (hsubA.subset hmem)
      · exact hnotB ((hsubC.trans (enemyAddrs_sublist (List.take_sublist _ _))).subset hmem)
  · rw [hstepF hr hh] at hpass1
    dsimp only at hpass1
    split at hpass1
    · simp at hpass1
    · rename_i gc rc hrest
      simp only [Except.ok.injEq] at hpass1
      obtain ⟨_, extraC, hrc, _⟩ := Game.enemyLoop_window tick _ _ _ gc _ rc hrest
      rw [← hpass1]
      show some e1 ∈ rc
      rw [hrc]
      simp

/-- C21 at the spider before the exit of a game with one life left: it arrives,
the life is taken, the phase becomes `GameOverState` and no enemy is left. -/
theorem arrival_costs_one_life_witness :
    (true = true →
      gameAtLastLife.enemyStep idleTick 0 [] = .ok
        ({ gameAtLastLife with
           gameMap := { NewGameMap with enemies := [some spiderAtExit] }
           enemies := gameAtLastLife.enemies.set 0
             (some { spiderAtExit with x := 980, targetX := 980, targetY := 424, pathIndex := 17 })
           lives := gameAtLastLife.lives - 1
           gameState := if gameAtLastLife.lives - 1 ≤ 0 then GameState.GameOverState
             else gameAtLastLife.gameState },
         []) ∧
      spiderAtExit.addr ∉ enemyAddrs
        ({ gameAtLastLife with
           gameMap := { NewGameMap with enemies := [some spiderAtExit] }
           enemies := []
           lives := 0
           gameState := GameState.GameOverState } : Game).enemies) ∧
    (true = false →
      0 < ({ spiderAtExit with
             x := 980, targetX := 980, targetY := 424, pathIndex := 17 } : Enemy).health →
      gameAtLastLife.enemyStep idleTick 0 [] = .ok
        ({ gameAtLastLife with
           gameMap := { NewGameMap with enemies := [some spiderAtExit] }
           enemies := gameAtLastLife.enemies.set 0
             (some { spiderAtExit with
                     x := 980, targetX := 980, targetY := 424, pathIndex := 17 }) },
         [] ++ [some { spiderAtExit with
                       x := 980, targetX := 980, targetY := 424, pathIndex := 17 }]) ∧
      some ({ spiderAtExit with
              x := 980, targetX := 980, targetY := 424, pathIndex := 17 } : Enemy) ∈
        ({ gameAtLastLife with
           gameMap := { NewGameMap with enemies := [some spiderAtExit] }
           enemies := []
           lives := 0
           gameState := GameState.GameOverState } : Game).enemies) ∧
    (enemyAddrs ({ gameAtLastLife with
           gameMap := { NewGameMap with enemies := [some spiderAtExit] }
           enemies := []
           lives := 0
           gameState := GameState.GameOverState } : Game).enemies).Sublist
      (enemyAddrs gameAtLastLife.enemies) :=
  arrival_costs_one_life gameAtLastLife gameAtLastLife _ idleTick 0 [] spiderAtExit _ _ true
    (by decide!) rfl rfl (by decide!) (by decide!)

/-! ## Frames of the blocks of `Game.Update` -/

theorem Game.enemyStep_control (g g1 : Game) (tick : Tick) (i : Nat)
    (remaining remaining1 : List (Option Enemy))
    (h : g.enemyStep tick i remaining = .ok (g1, remaining1)) :
    g1.waveCounters = g.waveCounters ∧ g1.confirmingReset = g.confirmingReset ∧
    g1.lives ≤ g.lives ∧
    (g1.gameState = g.gameState ∨ (g1.gameState = GameState.GameOverState ∧ g1.lives ≤ 0)) := by
  unfold Game.enemyStep at h
  split at h
  · simp only [Except.ok.injEq, Prod.mk.injEq] at h
    rw [← h.1]
    exact ⟨rfl, rfl, le_refl _, Or.inl rfl⟩
  · simp only [Except.ok.injEq, Prod.mk.injEq] at h
    rw [← h.1]
    exact ⟨rfl, rfl, le_refl _, Or.inl rfl⟩
  · split at h
    · simp at h
    · dsimp only at h
      split at h
      · split at h
        · rename_i hl
          simp only [Except.ok.injEq, Prod.mk.injEq] at h
          rw [← h.1]
          exact ⟨rfl, rfl, by show g.lives - 1 ≤ g.lives; omega, Or.inr ⟨rfl, hl⟩⟩
        · simp only [Except.ok.injEq, Prod.mk.injEq] at h
          rw [← h.1]
          exact ⟨rfl, rfl, by show g.lives - 1 ≤ g.lives; omega, Or.inl rfl⟩
      · split at h
        · split at h
          · simp only [Except.ok.injEq, Prod.mk.injEq] at h
            rw [← h.1]
            exact ⟨rfl, rfl, le_refl _, Or.inl rfl⟩
          · simp only [Except.ok.injEq, Prod.mk.injEq] at h
            rw [← h.1]
            exact ⟨rfl, rfl, le_refl _, Or.inl rfl⟩
        · simp only [Except.ok.injEq, Prod.mk.injEq] at h
          rw [← h.1]
          exact ⟨rfl, rfl, le_refl _, Or.inl rfl⟩

theorem Game.enemyLoop_control (tick : Tick) (indices : List Nat) :
    ∀ (g g1 : Game) (remaining remaining1 : List (Option Enemy)),
    Game.enemyLoop tick indices g remaining = .ok (g1, remaining1) →
    g1.waveCounters = g.waveCounters ∧ g1.confirmingReset = g.confirmingReset ∧
    g1.lives ≤ g.lives ∧
    (g1.gameState = g.gameState ∨ (g1.gameState = GameState.GameOverState ∧ g1.lives ≤ 0)) := by
  induction indices with
  | nil =>
    intro g g1 remaining remaining1 h
    simp only [Game.enemyLoop, Except.ok.injEq, Prod.mk.injEq] at h
    rw [← h.1]
    exact ⟨rfl, rfl, le_refl _, Or.inl rfl⟩
  | cons i rest ih =>
    intro g g1 remaining remaining1 h
    simp only [Game.enemyLoop] at h
    split at h
    · simp at h
    · rename_i g2 remaining2 hstep
      obtain ⟨hc, hr, hl, hs⟩ := g.enemyStep_control g2 tick i remaining remaining2 hstep
      obtain ⟨hc1, hr1, hl1, hs1⟩ := ih g2 g1 remaining2 remaining1 h
      refine ⟨hc1.trans hc, hr1.trans hr, le_trans hl1 hl, ?_⟩
      rcases hs1 with hs1 | hs1
      · rcases hs with hs | hs
        · exact Or.inl (hs1.trans hs)
        · exact Or.inr ⟨hs1.trans hs.1, le_trans hl1 hs.2⟩
      · exact Or.inr hs1

theorem Game.enemyPass_control (g g1 : Game) (tick : Tick) (h : g.enemyPass tick = .ok g1) :
    g1.waveCounters = g.waveCounters ∧ g1.confirmingReset = g.confirmingReset ∧
    g1.lives ≤ g.lives ∧
    (g1.gameState = g.gameState ∨ (g1.gameState = GameState.GameOverState ∧ g1.lives ≤ 0)) := by
  unfold Game.enemyPass at h
  split at h
  · simp at h
  · rename_i g2 remaining hloop
    simp only [Except.ok.injEq] at h
    rw [← h]
    exact Game.enemyLoop_control tick _ g g2 [] remaining hloop

theorem Game.enemyPass_empty (g g1 : Game) (tick : Tick) (hempty : g.enemies = [])
    (h : g.enemyPass tick = .ok g1) : g1.enemies = [] := by
  unfold Game.enemyPass at h
  rw [hempty] at h
  simp only [List.length_nil, List.range_zero, Game.enemyLoop, Except.ok.injEq] at h
  rw [← h]

theorem Game.towerPass_frame (g g1 : Game) (tick : Tick) (h : g.towerPass tick = .ok g1) :
    g1 = { g with gameMap := g1.gameMap, projectiles := g1.projectiles } := by
  unfold Game.towerPass at h
  split at h
  · simp at h
  · simp only [Except.ok.injEq] at h
    rw [← h]

theorem projectilePass_empty (g : Game) (sqrt : ℚ → ℚ) (hempty : g.enemies = []) :
    (g.projectilePass sqrt).enemies = [] := by
  have h := congrArg List.length (projectilePass_keys g sqrt)
  rw [hempty] at h
  simpa using h

theorem Game.waveStep_cases (g g1 : Game) (tick : Tick) (h : g.waveStep tick = .ok g1) :
    (g.enemiesSpawned < g.enemiesInWave ∧ g.spawnInterval ≤ g.spawnTimer + 1 ∧
      ∃ offset newEnemy,
        Intn (g.gameMap.GetEntranceArea.2.1 - g.gameMap.GetEntranceArea.1 + 1)
          tick.rowDraw = .ok offset ∧
        NewEnemyWithColor tick.enemyAddr (g.gameMap.GetEntranceArea.1 + offset)
          g.gameMap.cellSize g.gameMap.uiHeight (g.spawnType tick) (g.currentWave + 1)
          g.waveType = .ok newEnemy ∧
        g1 = { g with
               spawnTimer := 0
               spawnInterval := 90 + ((tick.intervalDraw % 90 : Nat) : Int)
               enemies := g.enemies ++ [some newEnemy]
               enemiesSpawned := g.enemiesSpawned + 1 }) ∨
    (g.enemiesSpawned < g.enemiesInWave ∧ g.spawnTimer + 1 < g.spawnInterval ∧
      g1 = { g with spawnTimer := g.spawnTimer + 1 }) ∨
    (g.enemiesInWave ≤ g.enemiesSpawned ∧ g.enemies = [] ∧
      g1 = { g with
             currentWave := g.currentWave + 1
             enemiesSpawned := 0
             waveType := if IsBossWave (g.currentWave + 1) = true then EnemyType.BlobEnemy
               else nextWaveType g.waveType
             enemiesInWave := if IsBossWave (g.currentWave + 1) = true then 1
               else 10 + (g.currentWave + 1) * 2
             spawnInterval := max 60 (120 - (g.currentWave + 1) * 10) }) ∨
    (g.enemiesInWave ≤ g.enemiesSpawned ∧ g.enemies ≠ [] ∧ g1 = g) := by
  unfold Game.waveStep at h
  split at h
  · rename_i hlt
    split at h
    · rename_i hdue
      split at h
      · simp at h
      · rename_i offset hoff
        split at h
        · simp at h
        · rename_i newEnemy hnew
          simp only [Except.ok.injEq] at h
          exact Or.inl ⟨hlt, hdue, offset, newEnemy, hoff, hnew, h.symm⟩
    · rename_i hdue
      simp only [Except.ok.injEq] at h
      exact Or.inr (Or.inl ⟨hlt, not_le.1 hdue, h.symm⟩)
  · rename_i hlt
    split at h
    · rename_i hlen
      have hnil : g.enemies = [] := List.length_eq_zero.1 hlen
      refine Or.inr (Or.inr (Or.inl ⟨not_lt.1 hlt, hnil, ?_⟩))
      split at h
      · rename_i hboss
        simp only [Except.ok.injEq] at h
        rw [← h, if_pos hboss, if_pos hboss]
      · rename_i hboss
        simp only [Except.ok.injEq] at h
        rw [← h, if_neg hboss, if_neg hboss]
    · rename_i hlen
      simp only [Except.ok.injEq] at h
      exact Or.inr (Or.inr (Or.inr ⟨not_lt.1 hlt, fun hnil => hlen (by rw [hnil]; rfl), h.symm⟩))

theorem Game.handleTowerPlacement_frame (g g1 : Game) (forkTowerCount forkTowerCount1 : Int)
    (addr : Nat) (mouseX mouseY : Int)
    (h : g.handleTowerPlacement forkTowerCount addr mouseX mouseY = .ok (g1, forkTowerCount1)) :
    g1 = { g with gameMap := g1.gameMap, money := g1.money, enemies := g1.enemies } ∧
    (g1.enemies = g.enemies ∨ g1.enemies = invalidateAll g.enemies) := by
  unfold Game.handleTowerPlacement at h
  split at h
  · dsimp only at h
    split at h
    · simp at h
    · rename_i r hplace
      simp only [Except.ok.injEq, Prod.mk.injEq] at h
      rw [← h.1]
      unfold Game.tryPlaceTower at hplace
      split at hplace
      · simp only [Except.ok.injEq] at hplace
        rw [← hplace]
        exact ⟨rfl, Or.inl rfl⟩
      · split at hplace
        · simp at hplace
        · split at hplace
          · simp only [Except.ok.injEq] at hplace
            rw [← hplace]
            exact ⟨rfl, Or.inr rfl⟩
          · simp only [Except.ok.injEq] at hplace
            rw [← hplace]
            exact ⟨rfl, Or.inl rfl⟩
  · simp only [Except.ok.injEq, Prod.mk.injEq] at h
    rw [← h.1]
    exact ⟨rfl, Or.inl rfl⟩

theorem Game.handleTowerRemoval_frame (g g1 : Game) (mouseX mouseY : Int)
    (h : g.handleTowerRemoval mouseX mouseY = .ok g1) :
    g1 = { g with gameMap := g1.gameMap, money := g1.money } := by
  unfold Game.handleTowerRemoval at h
  split at h
  · dsimp only at h
    split at h
    · simp at h
    · simp only [Except.ok.injEq] at h
      rw [← h]
    · split at h
      · simp at h
      · simp only [Except.ok.injEq] at h
        rw [← h]
  · simp only [Except.ok.injEq] at h
    rw [← h]

theorem Game.clickTowerButtons_frame (g g1 : Game) (mouseX mouseY : Int)
    (buttons : List TowerButton) (h : g.clickTowerButtons mouseX mouseY buttons = some g1) :
    g1 = { g with selectedTower := g1.selectedTower } := by
  induction buttons with
  | nil => simp [Game.clickTowerButtons] at h
  | cons btn rest ih =>
    unfold Game.clickTowerButtons at h
    split at h
    · simp only [Option.some.injEq] at h
      rw [← h]
    · exact ih h

theorem Game.handleButtons_cases (g g1 : Game) (mouseX mouseY : Int)
    (h : g.handleButtons mouseX mouseY = some g1) :
    g1 = { g with selectedTower := g1.selectedTower } ∨
    (g.startButton.contains mouseX mouseY = true ∧ g1 = g.clickStart) ∨
    (g.pauseButton.contains mouseX mouseY = true ∧ g1 = g.clickPause) := by
  unfold Game.handleButtons at h
  split at h
  · rename_i g2 hclick
    simp only [Option.some.injEq] at h
    rw [← h]
    exact Or.inl (g.clickTowerButtons_frame g2 mouseX mouseY _ hclick)
  · split at h
    · rename_i hstart
      simp only [Option.some.injEq] at h
      exact Or.inr (Or.inl ⟨hstart, h.symm⟩)
    · split at h
      · rename_i hpause
        simp only [Option.some.injEq] at h
        exact Or.inr (Or.inr ⟨hpause, h.symm⟩)
      · simp at h

/-- What `Game.playStep` does before the wave block: the game `gb` the wave
block finds has the wave counters and the reset flag of the start, no more
lives, the phase of the start unless the lives ran out, and enemies of the
start in their order. -/
theorem Game.playStep_control (g g1 : Game) (tick : Tick) (h : g.playStep tick = .ok g1) :
    ∃ gb : Game, gb.waveStep tick = .ok g1 ∧ gb.waveCounters = g.waveCounters ∧
      gb.confirmingReset = g.confirmingReset ∧ gb.lives ≤ g.lives ∧
      (gb.gameState = g.gameState ∨ (gb.gameState = GameState.GameOverState ∧ gb.lives ≤ 0)) ∧
      (enemyAddrs gb.enemies).Sublist (enemyAddrs g.enemies) ∧
      (g.enemies = [] → gb.enemies = []) := by
  unfold Game.playStep at h
  split at h
  · simp at h
  · rename_i ga hpass
    split at h
    · simp at h
    · rename_i gt htower
      obtain ⟨hc, hr, hl, hs⟩ := g.enemyPass_control ga tick hpass
      have hframe := Game.towerPass_frame ga.deathAnimPass gt tick htower
      have hen : gt.enemies = ga.enemies := towerPass_enemies ga.deathAnimPass gt tick htower
      have hfields : gt.waveCounters = ga.waveCounters ∧ gt.confirmingReset = ga.confirmingReset ∧
          gt.lives = ga.lives ∧ gt.gameState = ga.gameState := by
        rw [hframe]
        exact ⟨rfl, rfl, rfl, rfl⟩
      refine ⟨gt.projectilePass tick.sqrt, h, ?_, ?_, ?_, ?_, ?_, ?_⟩
      · exact hfields.1.trans hc
      · exact hfields.2.1.trans hr
      · show gt.lives ≤ g.lives
        rw [hfields.2.2.1]
        exact hl
      · show gt.gameState = g.gameState ∨ (gt.gameState = GameState.GameOverState ∧ gt.lives ≤ 0)
        rw [hfields.2.2.1, hfields.2.2.2]
        exact hs
      · rw [enemyAddrs_congr (addrs_of_keys (projectilePass_keys gt tick.sqrt)), hen]
        exact Game.enemyPass_order g ga tick hpass
      · intro hempty
        exact projectilePass_empty gt tick.sqrt (hen.trans (g.enemyPass_empty ga tick hempty hpass))

/-- The two ways of a call of `Game.Update`: a button takes the left click and
the call ends, or the click (if any) goes to the map, which changes only map,
money and the path marks of the enemies, and then the play block runs if the
phase is `PlayState`. -/
theorem Game.Update_branches (g g1 : Game) (count count1 : Int) (tick : Tick)
    (h : g.Update count tick = .ok (g1, count1)) :
    (tick.leftPressed = true ∧ g.handleButtons tick.mouseX tick.mouseY = some g1 ∧
      count1 = count) ∨
    ((if tick.leftPressed = true then g.handleButtons tick.mouseX tick.mouseY else none) = none ∧
      ∃ ga : Game, ga = { g with gameMap := ga.gameMap, money := ga.money, enemies := ga.enemies } ∧
        (ga.enemies = g.enemies ∨ ga.enemies = invalidateAll g.enemies) ∧
        ((g.gameState ≠ GameState.PlayState ∧ g1 = ga) ∨
         (g.gameState = GameState.PlayState ∧ ga.playStep tick = .ok g1))) := by
  unfold Game.Update at h
  split at h
  · rename_i gb hbuttons
    simp only [Except.ok.injEq, Prod.mk.injEq] at h
    split at hbuttons
    · rename_i hleft
      exact Or.inl ⟨hleft, by rw [hbuttons, h.1], h.2.symm⟩
    · simp at hbuttons
  · rename_i hbuttons
    refine Or.inr ⟨hbuttons, ?_⟩
    split at h
    · simp at h
    · rename_i gp countp hplace
      have hp : gp = { g with gameMap := gp.gameMap, money := gp.money, enemies := gp.enemies } ∧
          (gp.enemies = g.enemies ∨ gp.enemies = invalidateAll g.enemies) := by
        split at hplace
        · exact g.handleTowerPlacement_frame gp count countp _ _ _ hplace
        · simp only [Except.ok.injEq, Prod.mk.injEq] at hplace
          rw [← hplace.1]
          exact ⟨rfl, Or.inl rfl⟩
      split at h
      · simp at h
      · rename_i gr hremove
        have hr : gr = { gp with gameMap := gr.gameMap, money := gr.money } := by
          split at hremove
          · exact gp.handleTowerRemoval_frame gr _ _ hremove
          · simp only [Except.ok.injEq] at hremove
            rw [← hremove]
        have hgr : gr = { g with gameMap := gr.gameMap, money := gr.money, enemies := gr.enemies } ∧
            gr.enemies = gp.enemies ∧ gr.gameState = g.gameState := by
          rw [hr, hp.1]
          exact ⟨rfl, rfl, rfl⟩
        refine ⟨gr, hgr.1, by rw [hgr.2.1]; exact hp.2, ?_⟩
        split at h
        · rename_i hplay
          split at h
          · simp at h
          · rename_i g3 hstep
            simp only [Except.ok.injEq, Prod.mk.injEq] at h
            rw [← h.1]
            exact Or.inr ⟨hgr.2.2 ▸ hplay, hstep⟩
        · rename_i hplay
          simp only [Except.ok.injEq, Prod.mk.injEq] at h
          rw [← h.1]
          exact Or.inl ⟨hgr.2.2 ▸ hplay, rfl⟩

/-! ## Waves and phases -/

theorem Game.WaveInv.of_counters {g g1 : Game} (h : g1.waveCounters = g.waveCounters)
    (inv : g.WaveInv) : g1.WaveInv := by
  unfold Game.waveCounters at h
  simp only [Prod.mk.injEq] at h
  unfold Game.WaveInv
  rw [h.1, h.2.1, h.2.2.1, h.2.2.2.1]
  exact inv

theorem Game.waveStep_inv (g g1 : Game) (tick : Tick) (inv : g.WaveInv)
    (h : g.waveStep tick = .ok g1) : g1.WaveInv := by
  obtain ⟨hw, hs, hle, hboss⟩ := inv
  rcases g.waveStep_cases g1 tick h with ⟨hlt, _, offset, newEnemy, _, _, hg⟩ | ⟨_, _, hg⟩ |
    ⟨_, _, hg⟩ |
    ⟨_, _, hg⟩
  · rw [hg]
    exact ⟨hw, by show 0 ≤ g.enemiesSpawned + 1; omega,
      by show g.enemiesSpawned + 1 ≤ g.enemiesInWave; omega, hboss⟩
  · rw [hg]
    exact ⟨hw, hs, hle, hboss⟩
  · rw [hg]
    refine ⟨by show 0 ≤ g.currentWave + 1; omega, le_refl _, ?_, ?_⟩
    · show (0 : Int) ≤ if IsBossWave (g.currentWave + 1) = true then 1
        else 10 + (g.currentWave + 1) * 2
      split
      · decide
      · omega
    · show (if IsBossWave (g.currentWave + 1) = true then EnemyType.BlobEnemy
          else nextWaveType g.waveType) = EnemyType.BlobEnemy →
        (if IsBossWave (g.currentWave + 1) = true then 1 else 10 + (g.currentWave + 1) * 2) = 1
      split
      · intro _
        rfl
      · intro hb
        cases hwt : g.waveType <;> rw [hwt] at hb <;> simp [nextWaveType] at hb
  · rw [hg]
    exact ⟨hw, hs, hle, hboss⟩

theorem Game.clickStart_inv (g : Game) (inv : g.WaveInv) : g.clickStart.WaveInv := by
  unfold Game.clickStart
  split
  · exact inv
  · split
    · split
      · exact ⟨le_refl _, le_refl _, by show (0 : Int) ≤ 10; omega, fun hb => by cases hb⟩
      · exact inv
    · exact inv

theorem Game.clickPause_inv (g : Game) (inv : g.WaveInv) : g.clickPause.WaveInv := by
  unfold Game.clickPause
  split
  · exact inv
  · split
    · exact inv
    · exact inv

theorem Game.Update_inv (g g1 : Game) (count count1 : Int) (tick : Tick) (inv : g.WaveInv)
    (h : g.Update count tick = .ok (g1, count1)) : g1.WaveInv := by
  rcases g.Update_branches g1 count count1 tick h with ⟨_, hb, _⟩ | ⟨_, ga, hga, _, hrest⟩
  · rcases g.handleButtons_cases g1 _ _ hb with hg | ⟨_, hg⟩ | ⟨_, hg⟩
    · rw [hg]
      exact inv
    · rw [hg]
      exact g.clickStart_inv inv
    · rw [hg]
      exact g.clickPause_inv inv
  · have inva : ga.WaveInv := by
      rw [hga]
      exact inv
    rcases hrest with ⟨_, hg⟩ | ⟨_, hstep⟩
    · rw [hg]
      exact inva
    · obtain ⟨gb, hwave, hc, _⟩ := ga.playStep_control g1 tick hstep
      exact gb.waveStep_inv g1 tick (Game.WaveInv.of_counters hc inva) hwave

theorem Game.ReachableFrom.waveInv {g0 g : Game} {count0 count : Int}
    (hr : Game.ReachableFrom g0 count0 g count) (inv : g0.WaveInv) : g.WaveInv := by
  induction hr with
  | start => exact inv
  | @tick ga gb ca cb t _ _ hupd ih => exact ga.Update_inv gb ca cb t ih hupd

theorem NewGame_waveInv : NewGame.WaveInv :=
  ⟨le_refl _, le_refl _, by show (0 : Int) ≤ 10; omega, fun hb => by cases hb⟩

/-- The wave block at the end of a wave: the state it leaves. -/
theorem Game.waveStep_completion (g : Game) (tick : Tick)
    (hdone : g.enemiesInWave ≤ g.enemiesSpawned) (hempty : g.enemies = []) :
    g.waveStep tick = .ok
      { g with
        currentWave := g.currentWave + 1
        enemiesSpawned := 0
        waveType := if IsBossWave (g.currentWave + 1) = true then EnemyType.BlobEnemy
          else nextWaveType g.waveType
        enemiesInWave := if IsBossWave (g.currentWave + 1) = true then 1
          else 10 + (g.currentWave + 1) * 2
        spawnInterval := max 60 (120 - (g.currentWave + 1) * 10) } := by
  unfold Game.waveStep
  rw [if_neg (not_lt.2 hdone), if_pos (by rw [hempty]; rfl)]
  split <;> rfl

/-- A call of `Game.Update` in `PlayState` that no button ends, at the end of a
wave: the game `gb` the wave block finds and completes. -/
theorem Game.Update_completion (g g1 : Game) (count count1 : Int) (tick : Tick)
    (hplay : g.gameState = GameState.PlayState)
    (hbuttons : (if tick.leftPressed = true then g.handleButtons tick.mouseX tick.mouseY
      else none) = none)
    (hdone : g.enemiesInWave ≤ g.enemiesSpawned)
    (hempty : g.enemies = [] ∨ g1.enemies = [])
    (h : g.Update count tick = .ok (g1, count1)) :
    ∃ gb : Game, gb.waveCounters = g.waveCounters ∧ gb.enemies = [] ∧
      g1 = { gb with
             currentWave := gb.currentWave + 1
             enemiesSpawned := 0
             waveType := if IsBossWave (gb.currentWave + 1) = true then EnemyType.BlobEnemy
               else nextWaveType gb.waveType
             enemiesInWave := if IsBossWave (gb.currentWave + 1) = true then 1
               else 10 + (gb.currentWave + 1) * 2
             spawnInterval := max 60 (120 - (gb.currentWave + 1) * 10) } := by
  rcases g.Update_branches g1 count count1 tick h with ⟨hleft, hb, _⟩ | ⟨_, ga, hga, hen, hrest⟩
  · rw [if_pos hleft, hb] at hbuttons
    cases hbuttons
  · rcases hrest with ⟨hnot, _⟩ | ⟨_, hstep⟩
    · exact absurd hplay hnot
    · obtain ⟨gb, hwave, hc, _, _, _, _, hkeep⟩ := ga.playStep_control g1 tick hstep
      have hca : ga.waveCounters = g.waveCounters := by
        rw [hga]
        rfl
      have hcb := hc.trans hca
      have hfields := hcb
      unfold Game.waveCounters at hfields
      simp only [Prod.mk.injEq] at hfields
      have hdoneb : gb.enemiesInWave ≤ gb.enemiesSpawned := by
        rw [hfields.2.1, hfields.2.2.1]
        exact hdone
      rcases gb.waveStep_cases g1 tick hwave with ⟨hlt, _⟩ | ⟨hlt, _⟩ | ⟨_, hnil, hg⟩ |
        ⟨_, hne, hg⟩
      · omega
      · omega
      · exact ⟨gb, hcb, hnil, hg⟩
      · exfalso
        rcases hempty with he | he
        · apply hne
          apply hkeep
          rcases hen with hen | hen
          · rw [hen, he]
          · rw [hen, he]
            rfl
        · rw [hg] at he
          exact hne he

theorem IsBossWave_iff (w : Int) : IsBossWave w = true ↔ (w > 5 ∧ w % 5 = 0) := by
  unfold IsBossWave
  rw [decide_eq_true_iff]
  constructor
  · rintro ⟨h1, h2⟩
    rw [Int.tmod_eq_emod (by omega) (by decide)] at h2
    exact ⟨h1, h2⟩
  · rintro ⟨h1, h2⟩
    rw [Int.tmod_eq_emod (by omega) (by decide)]
    exact ⟨h1, h2⟩

/-- C24: a call of `Game.Update` in `PlayState` that no button ends, with all
planned enemies spawned and the enemy list empty (when the call starts or when
it ends), increments `currentWave` by 1 and resets `enemiesSpawned` to 0; for a
non-boss index it rotates the wave type (Spider, Snake, Hawk, Ghoul, Spider;
Blob to Spider) and plans `10 + 2 * currentWave` enemies; it sets
`spawnInterval` to `max 60 (120 - 10 * currentWave)`, which is at least 60 and,
of two completions, not larger at the later wave; and in every state reachable
from `NewGame` no more enemies are spawned than planned. -/
theorem wave_completion :
    (∀ (g g1 : Game) (count count1 : Int) (tick : Tick),
      g.gameState = GameState.PlayState →
      (if tick.leftPressed = true then g.handleButtons tick.mouseX tick.mouseY else none)
        = none →
      g.enemiesInWave ≤ g.enemiesSpawned →
      (g.enemies = [] ∨ g1.enemies = []) →
      g.Update count tick = .ok (g1, count1) →
      g1.currentWave = g.currentWave + 1 ∧ g1.enemiesSpawned = 0 ∧
      (IsBossWave g1.currentWave = false →
        g1.waveType = nextWaveType g.waveType ∧ g1.enemiesInWave = 10 + 2 * g1.currentWave) ∧
      g1.spawnInterval = max 60 (120 - 10 * g1.currentWave) ∧ 60 ≤ g1.spawnInterval) ∧
    (nextWaveType EnemyType.SpiderEnemy = EnemyType.SnakeEnemy ∧
      nextWaveType EnemyType.SnakeEnemy = EnemyType.HawkEnemy ∧
      nextWaveType EnemyType.HawkEnemy = EnemyType.GhoulEnemy ∧
      nextWaveType EnemyType.GhoulEnemy = EnemyType.SpiderEnemy ∧
      nextWaveType EnemyType.BlobEnemy = EnemyType.SpiderEnemy) ∧
    (∀ (g h : Game) (tick tick1 : Tick),
      g.enemiesInWave ≤ g.enemiesSpawned → g.enemies = [] →
      h.enemiesInWave ≤ h.enemiesSpawned → h.enemies = [] →
      g.currentWave ≤ h.currentWave →
      ∃ g1 h1 : Game, g.waveStep tick = .ok g1 ∧ h.waveStep tick1 = .ok h1 ∧
        h1.spawnInterval ≤ g1.spawnInterval) ∧
    (∀ (g : Game) (count : Int), Game.ReachableFrom NewGame 0 g count →
      g.enemiesSpawned ≤ g.enemiesInWave) := by
  refine ⟨?_, ⟨rfl, rfl, rfl, rfl, rfl⟩, ?_, ?_⟩
  · intro g g1 count count1 tick hplay hbuttons hdone hempty h
    obtain ⟨gb, hc, _, hg⟩ :=
      g.Update_completion g1 count count1 tick hplay hbuttons hdone hempty h
    unfold Game.waveCounters at hc
    simp only [Prod.mk.injEq] at hc
    have hw : g1.currentWave = g.currentWave + 1 := by
      rw [hg, ← hc.1]
    have hi : g1.spawnInterval = max 60 (120 - 10 * g1.currentWave) := by
      rw [hw, hg, ← hc.1]
      show max 60 (120 - (gb.currentWave + 1) * 10) = max 60 (120 - 10 * (gb.currentWave + 1))
      rw [mul_comm]
    refine ⟨hw, by rw [hg], ?_, hi, ?_⟩
    · intro hboss
      rw [hw, ← hc.1] at hboss
      rw [hw, hg, ← hc.1, ← hc.2.2.2.1]
      have hb : ¬ IsBossWave (gb.currentWave + 1) = true := by
        rw [hboss]
        decide
      constructor
      · show (if IsBossWave (gb.currentWave + 1) = true then EnemyType.BlobEnemy
          else nextWaveType gb.waveType) = _
        rw [if_neg hb]
      · show (if IsBossWave (gb.currentWave + 1) = true then 1
          else 10 + (gb.currentWave + 1) * 2) = _
        rw [if_neg hb, mul_comm]
    · rw [hi]
      exact le_max_left _ _
  · intro g h tick tick1 hgd hge hhd hhe hle
    refine ⟨_, _, g.waveStep_completion tick hgd hge, h.waveStep_completion tick1 hhd hhe, ?_⟩
    show max 60 (120 - (h.currentWave + 1) * 10) ≤ max 60 (120 - (g.currentWave + 1) * 10)
    apply max_le_max (le_refl _)
    omega
  · intro g count hr
    exact (hr.waveInv NewGame_waveInv).2.2.1

/-- C24 at the end of wave 0 on the fresh map: the tick leaves wave 1, a snake
wave of 12 enemies with spawn interval 110. -/
theorem wave_completion_witness :
    gameAtWaveEnd.Update 0 idleTick
      = .ok ({ gameAtWaveEnd with
               currentWave := 1, enemiesSpawned := 0, waveType := EnemyType.SnakeEnemy,
               enemiesInWave := 12, spawnInterval := 110 }, 0) ∧
    (1 : Int) = gameAtWaveEnd.currentWave + 1 ∧ (0 : Int) = 0 ∧
    (IsBossWave 1 = false →
      EnemyType.SnakeEnemy = nextWaveType gameAtWaveEnd.waveType ∧ (12 : Int) = 10 + 2 * 1) ∧
    (110 : Int) = max 60 (120 - 10 * 1) ∧ (60 : Int) ≤ 110 :=
  ⟨by decide!,
    wave_completion.1 gameAtWaveEnd
      { gameAtWaveEnd with
        currentWave := 1, enemiesSpawned := 0, waveType := EnemyType.SnakeEnemy,
        enemiesInWave := 12, spawnInterval := 110 } 0 0 idleTick rfl rfl (by decide)
      (Or.inl rfl) (by decide!)⟩

/-- C22 fails on the code in its second half.  `IsBossWave w` holds exactly when
`w > 5` and 5 divides `w` (so not for 5), and a wave completion whose
incremented index is a boss index sets the wave type to `BlobEnemy` and plans
one enemy.  But no boss is spawned: with the wave type `BlobEnemy` and nothing
spawned yet, the wave block panics in the call in which the spawn is due (the
kind is the wave type, since the substitution requires `enemiesSpawned > 0`,
and `NewEnemyWithColor` panics for `BlobEnemy`); a call of `Game.Update` in
`PlayState` that returns in such a wave adds no enemy and leaves
`enemiesSpawned` at 0.  At the end of wave 9 the tick sets up wave 10 as
a boss wave; in that wave the tick in which the spawn is due panics. -/
theorem boss_wave_spawn_panics :
    (∀ w : Int, IsBossWave w = true ↔ (w > 5 ∧ w % 5 = 0)) ∧ IsBossWave 5 = false ∧
    (∀ (g g1 : Game) (count count1 : Int) (tick : Tick),
      g.gameState = GameState.PlayState →
      (if tick.leftPressed = true then g.handleButtons tick.mouseX tick.mouseY else none)
        = none →
      g.enemiesInWave ≤ g.enemiesSpawned →
      (g.enemies = [] ∨ g1.enemies = []) →
      g.Update count tick = .ok (g1, count1) →
      IsBossWave (g.currentWave + 1) = true →
      g1.currentWave = g.currentWave + 1 ∧ g1.waveType = EnemyType.BlobEnemy ∧
      g1.enemiesInWave = 1 ∧ g1.enemiesSpawned = 0 ∧ g1.enemies = []) ∧
    (∀ (g : Game) (tick : Tick), g.enemiesSpawned = 0 → g.spawnType tick = g.waveType) ∧
    (∀ (g : Game) (tick : Tick),
      g.waveType = EnemyType.BlobEnemy → g.enemiesSpawned = 0 → 0 < g.enemiesInWave →
      g.spawnInterval ≤ g.spawnTimer + 1 →
      g.waveStep tick = .error .invalidArgument) ∧
    (∀ (g g1 : Game) (count count1 : Int) (tick : Tick),
      g.waveType = EnemyType.BlobEnemy → g.enemiesSpawned = 0 → 0 < g.enemiesInWave →
      g.gameState = GameState.PlayState →
      (if tick.leftPressed = true then g.handleButtons tick.mouseX tick.mouseY else none)
        = none →
      g.Update count tick = .ok (g1, count1) →
      (enemyAddrs g1.enemies).Sublist (enemyAddrs g.enemies) ∧ g1.enemiesSpawned = 0 ∧
      g1.currentWave = g.currentWave ∧ g1.waveType = EnemyType.BlobEnemy) ∧
    gameBeforeBossWave.Update 0 idleTick
      = .ok ({ gameBeforeBossWave with
               currentWave := 10, enemiesSpawned := 0, waveType := EnemyType.BlobEnemy,
               enemiesInWave := 1, spawnInterval := 60 }, 0) ∧
    IsBossWave bossWaveGame.currentWave = true ∧
    bossWaveGame.Update 0 idleTick = .error .invalidArgument := by
  have hkind : ∀ (g : Game) (tick : Tick), g.enemiesSpawned = 0 →
      g.spawnType tick = g.waveType := by
    intro g tick h0
    unfold Game.spawnType
    rw [if_neg]
    rw [h0]
    rintro ⟨_, h⟩
    exact absurd h (by decide)
  have hpanic : ∀ (g : Game) (tick : Tick),
      g.waveType = EnemyType.BlobEnemy → g.enemiesSpawned = 0 → 0 < g.enemiesInWave →
      g.spawnInterval ≤ g.spawnTimer + 1 →
      g.waveStep tick = .error .invalidArgument := by
    intro g tick hblob h0 hplan hdue
    unfold Game.waveStep
    rw [if_pos (by rw [h0]; exact hplan), if_pos hdue]
    cases hrow : Intn (g.gameMap.GetEntranceArea.2.1 - g.gameMap.GetEntranceArea.1 + 1)
        tick.rowDraw with
    | error err =>
      unfold Intn at hrow
      split at hrow
      · simp only [Except.error.injEq] at hrow
        rw [← hrow]
      · simp at hrow
    | ok offset =>
      dsimp only
      rw [hkind g tick h0, hblob, NewEnemyWithColor_blob_panics]
  refine ⟨IsBossWave_iff, by decide, ?_, hkind, hpanic, ?_, by decide!, by decide, by decide!⟩
  · intro g g1 count count1 tick hplay hbuttons hdone hempty h hboss
    obtain ⟨gb, hc, hnil, hg⟩ :=
      g.Update_completion g1 count count1 tick hplay hbuttons hdone hempty h
    unfold Game.waveCounters at hc
    simp only [Prod.mk.injEq] at hc
    rw [← hc.1] at hboss
    rw [hg, ← hc.1]
    refine ⟨rfl, ?_, ?_, rfl, hnil⟩
    · show (if IsBossWave (gb.currentWave + 1) = true then EnemyType.BlobEnemy
        else nextWaveType gb.waveType) = _
      rw [if_pos hboss]
    · show (if IsBossWave (gb.currentWave + 1) = true then 1
        else 10 + (gb.currentWave + 1) * 2) = _
      rw [if_pos hboss]
  · intro g g1 count count1 tick hblob h0 hplan hplay hbuttons h
    rcases g.Update_branches g1 count count1 tick h with ⟨hleft, hb, _⟩ |
      ⟨_, ga, hga, hen, hrest⟩
    · rw [if_pos hleft, hb] at hbuttons
      cases hbuttons
    · rcases hrest with ⟨hnot, _⟩ | ⟨_, hstep⟩
      · exact absurd hplay hnot
      · obtain ⟨gb, hwave, hc, _, _, _, hsub, _⟩ := ga.playStep_control g1 tick hstep
        have hca : ga.waveCounters = g.waveCounters := by
          rw [hga]
          rfl
        have haddr : enemyAddrs ga.enemies = enemyAddrs g.enemies := by
          rcases hen with hen | hen
          · rw [hen]
          · rw [hen]
            exact enemyAddrs_congr (addrs_of_keys (invalidateAll_keys _))
        rw [haddr] at hsub
        have hf := hc.trans hca
        unfold Game.waveCounters at hf
        simp only [Prod.mk.injEq] at hf
        obtain ⟨hfw, hfn, hfs, hft, -, -⟩ := hf
        have hblobb : gb.waveType = EnemyType.BlobEnemy := hft.trans hblob
        have h0b : gb.enemiesSpawned = 0 := hfs.trans h0
        have hplanb : 0 < gb.enemiesInWave := by
          rw [hfn]
          exact hplan
        rcases gb.waveStep_cases g1 tick hwave with ⟨_, hdue, _⟩ | ⟨_, _, hg⟩ | ⟨hle, _⟩ |
          ⟨hle, _⟩
        · rw [hpanic gb tick hblobb h0b hplanb hdue] at hwave
          cases hwave
        · rw [hg]
          exact ⟨hsub, h0b, hfw, hblobb⟩
        · omega
        · omega

theorem Game.waveStep_frame (g g1 : Game) (tick : Tick) (h : g.waveStep tick = .ok g1) :
    g1.gameState = g.gameState ∧ g1.lives = g.lives ∧
    g1.confirmingReset = g.confirmingReset := by
  rcases g.waveStep_cases g1 tick h with ⟨_, _, offset, newEnemy, _, _, hg⟩ | ⟨_, _, hg⟩ |
    ⟨_, _, hg⟩ |
    ⟨_, _, hg⟩ <;> rw [hg] <;> exact ⟨rfl, rfl, rfl⟩

theorem Game.clickStart_phase (g : Game) :
    (g.gameState = GameState.BuildState ∧ g.clickStart.gameState = GameState.PlayState ∧
      g.clickStart.confirmingReset = false) ∨
    ((g.gameState = GameState.PlayState ∨ g.gameState = GameState.PausedState) ∧
      g.confirmingReset = true ∧ g.clickStart.gameState = GameState.BuildState ∧
      g.clickStart.confirmingReset = false) ∨
    ((g.gameState = GameState.PlayState ∨ g.gameState = GameState.PausedState) ∧
      g.confirmingReset = false ∧ g.clickStart.gameState = g.gameState ∧
      g.clickStart.confirmingReset = true) ∨
    (g.gameState = GameState.GameOverState ∧ g.clickStart = g) := by
  unfold Game.clickStart
  split
  · rename_i hb
    exact Or.inl ⟨hb, rfl, rfl⟩
  · rename_i hb
    split
    · rename_i hp
      split
      · rename_i hc
        exact Or.inr (Or.inl ⟨hp, hc, rfl, rfl⟩)
      · rename_i hc
        exact Or.inr (Or.inr (Or.inl ⟨hp, by simpa using hc, rfl, rfl⟩))
    · rename_i hp
      refine Or.inr (Or.inr (Or.inr ⟨?_, rfl⟩))
      cases hs : g.gameState
      · exact absurd hs hb
      · exact absurd (Or.inl hs) hp
      · exact absurd (Or.inr hs) hp
      · rfl

theorem Game.clickPause_phase (g : Game) :
    (g.gameState = GameState.PlayState ∧ g.clickPause.gameState = GameState.PausedState ∧
      g.clickPause.confirmingReset = false) ∨
    (g.gameState = GameState.PausedState ∧ g.clickPause.gameState = GameState.PlayState ∧
      g.clickPause.confirmingReset = false) ∨
    (g.gameState ≠ GameState.PlayState ∧ g.gameState ≠ GameState.PausedState ∧
      g.clickPause = g) := by
  unfold Game.clickPause
  split
  · rename_i hp
    exact Or.inl ⟨hp, rfl, rfl⟩
  · rename_i hp
    split
    · rename_i hq
      exact Or.inr (Or.inl ⟨hq, rfl, rfl⟩)
    · rename_i hq
      exact Or.inr (Or.inr ⟨hp, hq, rfl⟩)

/-- C25: a call of `Game.Update` leaves the phase as it is or makes one of
these changes: Build to Play by a left click on the start button; Play to
Paused and Paused to Play by a left click on the pause button; Play to GameOver
in the play block, with `lives ≤ 0` afterwards; Play or Paused to Build by a
left click on the start button while `confirmingReset` is set.  The flag
`confirmingReset` is set only by a left click on the start button in Play or
Paused.  In `GameOverState` a call changes at most the map, the money, the
selected tower and the path marks of the enemies (a click on the map may still
place or remove a tower); phase, lives, score, projectiles, death effects and
wave counters stay, and no enemy moves. -/
theorem phase_machine (g g1 : Game) (count count1 : Int) (tick : Tick)
    (h : g.Update count tick = .ok (g1, count1)) :
    (g1.gameState = g.gameState ∨
     (g.gameState = GameState.BuildState ∧ g1.gameState = GameState.PlayState ∧
       tick.leftPressed = true ∧ g.startButton.contains tick.mouseX tick.mouseY = true) ∨
     (g.gameState = GameState.PlayState ∧ g1.gameState = GameState.PausedState ∧
       tick.leftPressed = true ∧ g.pauseButton.contains tick.mouseX tick.mouseY = true) ∨
     (g.gameState = GameState.PausedState ∧ g1.gameState = GameState.PlayState ∧
       tick.leftPressed = true ∧ g.pauseButton.contains tick.mouseX tick.mouseY = true) ∨
     (g.gameState = GameState.PlayState ∧ g1.gameState = GameState.GameOverState ∧
       g1.lives ≤ 0) ∨
     ((g.gameState = GameState.PlayState ∨ g.gameState = GameState.PausedState) ∧
       g1.gameState = GameState.BuildState ∧ g.confirmingReset = true ∧
       tick.leftPressed = true ∧ g.startButton.contains tick.mouseX tick.mouseY = true)) ∧
    (g.confirmingReset = false → g1.confirmingReset = true →
      (g.gameState = GameState.PlayState ∨ g.gameState = GameState.PausedState) ∧
      tick.leftPressed = true ∧ g.startButton.contains tick.mouseX tick.mouseY = true) ∧
    (g.gameState = GameState.GameOverState →
      g1 = { g with
             gameMap := g1.gameMap
             money := g1.money
             selectedTower := g1.selectedTower
             enemies := g1.enemies } ∧
      (g1.enemies = g.enemies ∨ g1.enemies = invalidateAll g.enemies)) := by
  rcases g.Update_branches g1 count count1 tick h with ⟨hleft, hb, _⟩ | ⟨_, ga, hga, hen, hrest⟩
  · rcases g.handleButtons_cases g1 _ _ hb with hg | ⟨hstart, hg⟩ | ⟨hpause, hg⟩
    · refine ⟨Or.inl (by rw [hg]), ?_, fun _ => ⟨?_, Or.inl (by rw [hg])⟩⟩
      · intro h0 h1
        rw [hg] at h1
        rw [h0] at h1
        cases h1
      · rw [hg]
    · rw [hg]
      rcases g.clickStart_phase with ⟨hs, hs1, hc1⟩ | ⟨hs, hc, hs1, hc1⟩ | ⟨hs, hc, hs1, hc1⟩ |
        ⟨hs, heq⟩
      · refine ⟨Or.inr (Or.inl ⟨hs, hs1, hleft, hstart⟩), ?_, ?_⟩
        · intro _ h1
          rw [hc1] at h1
          cases h1
        · intro hover
          rw [hs] at hover
          cases hover
      · refine ⟨Or.inr (Or.inr (Or.inr (Or.inr (Or.inr ⟨hs, hs1, hc, hleft, hstart⟩)))), ?_, ?_⟩
        · intro _ h1
          rw [hc1] at h1
          cases h1
        · intro hover
          rcases hs with hs | hs <;> rw [hs] at hover <;> cases hover
      · refine ⟨Or.inl hs1, fun _ _ => ⟨hs, hleft, hstart⟩, ?_⟩
        intro hover
        rcases hs with hs | hs <;> rw [hs] at hover <;> cases hover
      · rw [heq]
        refine ⟨Or.inl rfl, ?_, fun _ => ⟨rfl, Or.inl rfl⟩⟩
        intro h0 h1
        rw [h0] at h1
        cases h1
    · rw [hg]
      rcases g.clickPause_phase with ⟨hs, hs1, hc1⟩ | ⟨hs, hs1, hc1⟩ | ⟨_, _, heq⟩
      · refine ⟨Or.inr (Or.inr (Or.inl ⟨hs, hs1, hleft, hpause⟩)), ?_, ?_⟩
        · intro _ h1
          rw [hc1] at h1
          cases h1
        · intro hover
          rw [hs] at hover
          cases hover
      · refine ⟨Or.inr (Or.inr (Or.inr (Or.inl ⟨hs, hs1, hleft, hpause⟩))), ?_, ?_⟩
        · intro _ h1
          rw [hc1] at h1
          cases h1
        · intro hover
          rw [hs] at hover
          cases hover
      · rw [heq]
        refine ⟨Or.inl rfl, ?_, fun _ => ⟨rfl, Or.inl rfl⟩⟩
        intro h0 h1
        rw [h0] at h1
        cases h1
  · have hsa : ga.gameState = g.gameState ∧ ga.confirmingReset = g.confirmingReset := by
      rw [hga]
      exact ⟨rfl, rfl⟩
    rcases hrest with ⟨hnot, hg⟩ | ⟨hplay, hstep⟩
    · rw [hg]
      refine ⟨Or.inl hsa.1, ?_, fun _ => ⟨?_, hen⟩⟩
      · intro h0 h1
        rw [hsa.2, h0] at h1
        cases h1
      · rw [hga]
    · obtain ⟨gb, hwave, _, hcb, _, hsb, _, _⟩ := ga.playStep_control g1 tick hstep
      obtain ⟨hs1, hl1, hc1⟩ := gb.waveStep_frame g1 tick hwave
      refine ⟨?_, ?_, ?_⟩
      · rcases hsb with hsb | ⟨hsb, hlb⟩
        · exact Or.inl (hs1.trans (hsb.trans hsa.1))
        · exact Or.inr (Or.inr (Or.inr (Or.inr (Or.inl
            ⟨hplay, hs1.trans hsb, by rw [hl1]; exact hlb⟩))))
      · intro h0 h1
        rw [hc1, hcb, hsa.2, h0] at h1
        cases h1
      · intro hover
        rw [hplay] at hover
        cases hover

/-- C25 at the last life: the tick in which the spider arrives takes the game
from Play to GameOver with no life left, and a left click on the start button
afterwards changes nothing. -/
theorem phase_machine_witness :
    (gameAtLastLife.Update 0 idleTick = .ok (gameOverAfterArrival, 0)) ∧
    ((gameOverAfterArrival.gameState = gameAtLastLife.gameState ∨
     (gameAtLastLife.gameState = GameState.BuildState ∧
       gameOverAfterArrival.gameState = GameState.PlayState ∧
       idleTick.leftPressed = true ∧
       gameAtLastLife.startButton.contains idleTick.mouseX idleTick.mouseY = true) ∨
     (gameAtLastLife.gameState = GameState.PlayState ∧
       gameOverAfterArrival.gameState = GameState.PausedState ∧
       idleTick.leftPressed = true ∧
       gameAtLastLife.pauseButton.contains idleTick.mouseX idleTick.mouseY = true) ∨
     (gameAtLastLife.gameState = GameState.PausedState ∧
       gameOverAfterArrival.gameState = GameState.PlayState ∧
       idleTick.leftPressed = true ∧
       gameAtLastLife.pauseButton.contains idleTick.mouseX idleTick.mouseY = true) ∨
     (gameAtLastLife.gameState = GameState.PlayState ∧
       gameOverAfterArrival.gameState = GameState.GameOverState ∧
       gameOverAfterArrival.lives ≤ 0) ∨
     ((gameAtLastLife.gameState = GameState.PlayState ∨
        gameAtLastLife.gameState = GameState.PausedState) ∧
       gameOverAfterArrival.gameState = GameState.BuildState ∧
       gameAtLastLife.confirmingReset = true ∧
       idleTick.leftPressed = true ∧
       gameAtLastLife.startButton.contains idleTick.mouseX idleTick.mouseY = true))) ∧
    (gameOverAfterArrival.Update 0 startClick = .ok (gameOverAfterArrival, 0)) ∧
    (gameOverAfterArrival.gameState = GameState.GameOverState →
      gameOverAfterArrival = { gameOverAfterArrival with
             gameMap := gameOverAfterArrival.gameMap
             money := gameOverAfterArrival.money
             selectedTower := gameOverAfterArrival.selectedTower
             enemies := gameOverAfterArrival.enemies } ∧
      (gameOverAfterArrival.enemies = gameOverAfterArrival.enemies ∨
        gameOverAfterArrival.enemies = invalidateAll gameOverAfterArrival.enemies)) :=
  ⟨by decide!,
    (phase_machine gameAtLastLife gameOverAfterArrival 0 0 idleTick (by decide!)).1,
    by decide!,
    (phase_machine gameOverAfterArrival gameOverAfterArrival 0 0 startClick (by decide!)).2.2⟩

/-! ## Placements and enemies off the entrance side -/

theorem placeAll_reachable (selectedTower : TowerType) (cells : List (Int × Int)) :
    ∀ (m m1 : GameMap) (count count1 : Int), Reachable m →
      placeAll selectedTower cells m count = .ok (m1, count1) → Reachable m1 := by
  induction cells with
  | nil =>
    intro m m1 count count1 hm h
    simp only [placeAll, Except.ok.injEq, Prod.mk.injEq] at h
    rw [← h.1]
    exact hm
  | cons cell rest ih =>
    intro m m1 count count1 hm h
    simp only [placeAll] at h
    split at h
    · simp at h
    · rename_i out hplace
      exact ih out.gameMap m1 out.forkTowerCount count1
        (Reachable.place _ _ _ _ _ hm hplace) h

theorem mapWithNiche_reachable : Reachable mapWithNiche :=
  placeAll_reachable TowerType.DartTower [(3, 5), (3, 7), (4, 6)] NewGameMap mapWithNiche 0 0
    Reachable.fresh (by decide!)

/-- A ground enemy whose cell is joined to a cell that is joined to an exit cell
can reach the exit. -/
theorem Enemy.exitReachable_of_connected (e : Enemy) (m : GameMap) (hfly : e.canFly = false)
    (a t : Cell) (h1 : m.Connected (e.cell m) a) (h2 : m.Connected a t) (ht : m.IsExit t) :
    e.ExitReachable m := by
  obtain ⟨p, hp1, hp2, hp3, hp4⟩ := h1
  obtain ⟨q, hq1, hq2, hq3, hq4⟩ := h2
  cases p with
  | nil => simp at hp1
  | cons c p1 =>
    cases q with
    | nil => simp at hq1
    | cons b q1 =>
      simp only [List.head?_cons, Option.some.injEq] at hp1 hq1
      subst hp1
      subst hq1
      refine ⟨p1 ++ q1, ?_, ?_, t, ?_, ht⟩
      · rw [← List.cons_append]
        refine List.Chain'.append hp3 hq3.tail ?_
        intro x hx y hy
        rw [hp2] at hx
        simp only [Option.mem_def, Option.some.injEq] at hx
        subst hx
        cases q1 with
        | nil => simp at hy
        | cons y1 q2 =>
          simp only [List.head?_cons, Option.mem_def, Option.some.injEq] at hy
          subst hy
          exact (List.chain'_cons.1 hq3).1
      · intro x hx
        rw [e.canEnter_ground m hfly]
        rcases List.mem_append.1 hx with hx | hx
        · exact hp4 x (List.mem_cons_of_mem _ hx)
        · exact hq4 x (List.mem_cons_of_mem _ hx)
      · rw [← List.cons_append, List.getLast?_append, hp2]
        have hq : (b :: q1).getLast? = q1.getLast?.or (some b) := by
          rw [← List.singleton_append, List.getLast?_append]
          rfl
        rw [← hq, hq2]

/-- C29 fails on the code by design: `PlaceTower` checks only that some
entrance cell stays joined to some exit cell.  On the map reached by dart
towers on `(3, 5)`, `(3, 7)` and `(4, 6)`, a live ground spider stands in the
free cell `(3, 6)` and its `findPath` succeeds; `PlaceTower(2, 6)` succeeds,
and afterwards its `findPath` fails: the cell is walled in. -/
theorem placement_traps_enemy :
    Reachable mapWithNiche ∧
    spiderInPocket.canFly = false ∧ 0 < spiderInPocket.health ∧
    spiderInPocket.cell mapWithNiche = (3, 6) ∧ mapWithNiche.InBounds 3 6 ∧
    mapWithNiche.IsBlocked 3 6 = .ok false ∧
    (∃ e1, spiderInPocket.findPath mapWithNiche = .ok (e1, true)) ∧
    mapWithNiche.PlaceTower TowerType.DartTower 0 3 2 6 = .ok ⟨mapWithPocket, 0, true⟩ ∧
    spiderInPocket.cell mapWithPocket = (3, 6) ∧
    mapWithPocket.IsBlocked 3 6 = .ok false ∧
    spiderInPocket.findPath mapWithPocket = .ok (spiderInPocket, false) := by
  refine ⟨mapWithNiche_reachable, rfl, by decide!, by decide!, by unfold GameMap.InBounds; decide!,
    by decide!, ?_, by decide!, by decide!, by decide!, by decide!⟩
  have h : (match spiderInPocket.findPath mapWithNiche with
      | .ok (_, found) => found
      | .error _ => false) = true := by decide!
  cases hf : spiderInPocket.findPath mapWithNiche with
  | error err =>
    rw [hf] at h
    cases h
  | ok r =>
    obtain ⟨e1, found⟩ := r
    rw [hf] at h
    simp only at h
    exact ⟨e1, by rw [h]⟩

/-- C29, amended: on every map reached from the fresh map, after every
`PlaceTower` that returns, `findPath` succeeds for every ground enemy whose
cell is joined to an entrance cell by a 4-directional path of cells that lie in
the grid and hold no tower (the enemy's own cell included). -/
theorem placement_keeps_entrance_side (m : GameMap) (hm : Reachable m)
    (selectedTower : TowerType) (forkTowerCount : Int) (addr : Nat) (x y : Int)
    (out : PlaceOutcome)
    (hplace : m.PlaceTower selectedTower forkTowerCount addr x y = .ok out)
    (e : Enemy) (hfly : e.canFly = false) (a : Cell) (ha : out.gameMap.IsEntrance a)
    (hconn : out.gameMap.Connected (e.cell out.gameMap) a) :
    ∃ e1, e.findPath out.gameMap = .ok (e1, true) := by
  have hr : Reachable out.gameMap := Reachable.place _ _ _ _ _ hm hplace
  obtain ⟨frame, hec⟩ := Reachable.invariant hr
  obtain ⟨t, ht, hat⟩ := hec a ha
  have hreach := e.exitReachable_of_connected out.gameMap hfly a t hconn hat ht
  have hcell : out.gameMap.InBounds (e.cell out.gameMap).1 (e.cell out.gameMap).2 := by
    obtain ⟨p, hp1, _, _, hp4⟩ := hconn
    have hmem : e.cell out.gameMap ∈ p := by
      cases p with
      | nil => simp at hp1
      | cons c p1 =>
        simp only [List.head?_cons, Option.some.injEq] at hp1
        rw [hp1]
        exact List.mem_cons_self _ _
    exact ((out.gameMap.walkable_iff _).1 (hp4 _ hmem)).1
  obtain ⟨e1, found, hfind, hiff, _⟩ :=
    findPath_failure_deferred e out.gameMap frame.wellFormed.grid hcell
  cases found with
  | true => exact ⟨e1, hfind⟩
  | false => exact absurd hreach (hiff.1 rfl)

/-- C29, amended, at the placement on `(2, 6)` that walls in `(3, 6)`: the
spider at the entrance cell `(0, 6)` still finds a path. -/
theorem placement_keeps_entrance_side_witness :
    mapWithNiche.PlaceTower TowerType.DartTower 0 3 2 6 = .ok ⟨mapWithPocket, 0, true⟩ ∧
    spawnedSpider.canFly = false ∧ mapWithPocket.IsEntrance (0, 6) ∧
    spawnedSpider.cell mapWithPocket = (0, 6) ∧
    ∃ e1, spawnedSpider.findPath mapWithPocket = .ok (e1, true) :=
  ⟨by decide!, rfl, ⟨rfl, by decide, by decide⟩, by decide!,
    placement_keeps_entrance_side mapWithNiche mapWithNiche_reachable TowerType.DartTower 0 3 2 6
      ⟨mapWithPocket, 0, true⟩ (by decide!) spawnedSpider rfl (0, 6) ⟨rfl, by decide, by decide⟩
      ⟨[(0, 6)], by
        show some ((0 : Int), (6 : Int)) = some (spawnedSpider.cell mapWithPocket)
        rw [show spawnedSpider.cell mapWithPocket = (0, 6) from by decide!], rfl,
        List.chain'_singleton _, by
        intro c hc
        rw [List.mem_singleton] at hc
        rw [hc]
        show mapWithPocket.IsBlocked 0 6 = .ok false
        decide!⟩⟩

end ArgentTower
